import Mathlib

/-! # Multi-object tracker core (robot_vision): track manager, association, facade,
classification algebra

A shallow embedding of the `rv::tracking` sources.

Conventions of the embedding

* `double` values are exact rationals (`ℚ`); rounding, infinities and NaN are not modelled.
* `uint32_t` counters are naturals below `2^32`; every `++` and `-` on them is written with an
  explicit `% 2^32`.
* `Id` is `int32_t`; it is embedded as `Int`.  The only arithmetic on it is `mCurrentId++`, whose
  overflow is undefined behaviour in C++ and lies outside the embedding.
* `std::unordered_map<Id, V>` is an association list `UMap V`; the order of the list stands for
  the (unspecified) iteration order of the container.  The operations never create a duplicate
  key from a duplicate-free list.
* A C++ exception is the result `none`.
* The numerical kernel of the estimator (the unscented Kalman filters behind `predict` and
  `correct`) is a parameter `EstimatorOps`; every theorem on the track manager holds for all
  behaviours of that kernel.
-/

namespace rv

/-! ## Association lists standing for `std::unordered_map<Id, V>` -/

/-- The type `Id` of `TrackedObject.hpp` (`using Id = int32_t`). -/
abbrev Id := Int

/-- The constant `InvalidObjectId` of `TrackedObject.hpp`. -/
def InvalidObjectId : Id := -1

/-- Number of values of a `uint32_t`. -/
def UINT32_MOD : Nat := 4294967296

/-- An `std::unordered_map<Id, V>`. -/
abbrev UMap (V : Type) := List (Id × V)

namespace UMap

variable {V : Type}

/-- The keys, in iteration order. -/
def keys (m : UMap V) : List Id := m.map Prod.fst

/-- The member `find`: the value stored under `k`, if any. -/
def find? : UMap V → Id → Option V
  | [], _ => none
  | (k', v) :: m, k => if k' = k then some v else find? m k

/-- The member `count(k) > 0`. -/
def contains (m : UMap V) (k : Id) : Bool := (m.find? k).isSome

/-- The member `count`. -/
def count (m : UMap V) (k : Id) : Nat := if m.contains k then 1 else 0

/-- The member `erase(k)`. -/
def erase (m : UMap V) (k : Id) : UMap V := m.filter (fun p => decide (p.1 ≠ k))

/-- The assignment `m[k] = v`: overwrite the entry of `k`, or add one. -/
def assign : UMap V → Id → V → UMap V
  | [], k, v => [(k, v)]
  | (k', v') :: m, k, v => if k' = k then (k, v) :: m else (k', v') :: assign m k v

/-- The value read by `m[k]`: the stored value, or the value-initialised default `d`. -/
def getD (m : UMap V) (k : Id) (d : V) : V := (m.find? k).getD d

/-- The side effect of reading `m[k]`: an absent key is inserted with the default `d`. -/
def touch (m : UMap V) (k : Id) (d : V) : UMap V := if m.contains k then m else m ++ [(k, d)]

/-- The member `clear`. -/
def clear (_m : UMap V) : UMap V := []

end UMap

/-! ## `TrackedObject` -/

/-- A column vector `cv::Mat`. -/
abbrev Vec := List ℚ

/-- A dense matrix `cv::Mat`, as its list of rows. -/
abbrev Mat := List (List ℚ)

/-- The matrix `c * cv::Mat::eye(n, n)`. -/
def scaledEye (n : Nat) (c : ℚ) : Mat :=
  (List.range n).map (fun i => (List.range n).map (fun j => if i = j then c else 0))

/-- The vector `cv::Mat::zeros(n, 1)`. -/
def zeros (n : Nat) : Vec := List.replicate n 0

/-- The type `Classification` (`Eigen::VectorXd`). -/
abbrev Classification := List ℚ

/-- The constant `TrackedObject::StateSize`. -/
def StateSize : Nat := 12

/-- The constant `TrackedObject::MeasurementSize`. -/
def MeasurementSize : Nat := 7

/-- The class `TrackedObject`; the defaults are the member initialisers and the constructor. -/
structure TrackedObject where
  id : Id := InvalidObjectId
  x : ℚ := 0
  y : ℚ := 0
  z : ℚ := 0
  vx : ℚ := 0
  vy : ℚ := 0
  ax : ℚ := 0
  ay : ℚ := 0
  yaw : ℚ := 0
  previousYaw : ℚ := 0
  w : ℚ := 0
  length : ℚ := 0
  width : ℚ := 0
  height : ℚ := 0
  corrected : Bool := false
  predictedMeasurementMean : Vec := zeros MeasurementSize
  predictedMeasurementCov : Mat := scaledEye MeasurementSize (1 / 10000)
  predictedMeasurementCovInv : Mat := scaledEye MeasurementSize 10000
  errorCovariance : Mat := scaledEye StateSize (1 / 10000)
  classification : Classification := [1]
  attributes : List (String × String) := []
  deriving DecidableEq

namespace TrackedObject

/-- The method `TrackedObject::isDynamic`. -/
def isDynamic (o : TrackedObject) : Bool := decide (o.vx * o.vx + o.vy * o.vy > 1)

/-- The method `TrackedObject::stateVector`. -/
def stateVector (o : TrackedObject) : Vec :=
  [o.x, o.y, o.vx, o.vy, o.ax, o.ay, o.z, o.length, o.width, o.height, o.yaw, o.w]

/-- The method `TrackedObject::measurementVector`. -/
def measurementVector (o : TrackedObject) : Vec :=
  [o.x, o.y, o.z, o.length, o.width, o.height, o.yaw]

end TrackedObject

/-! ## `MultiModelKalmanEstimator` -/

/-- The enumeration `MotionModel`. -/
inductive MotionModel where
  | CV
  | CA
  | CP
  | CTRV
  deriving DecidableEq

/-- The fields of `cv::detail::tracking::UnscentedKalmanFilterParams` set by the estimator. -/
structure UnscentedKalmanFilterParams where
  DP : Nat
  MP : Nat
  CP : Nat
  model : MotionModel
  stateInit : Vec
  errorCovInit : Mat
  measurementNoiseCov : Mat
  processNoiseCov : Mat
  alpha : ℚ
  beta : ℚ
  k : ℚ

/-- The class `MultiModelKalmanEstimator`; `K` is the type of one unscented Kalman filter.
The defaults are the member initialisers of the header.

The last two fields are no members of the class.  A `cv::Mat` is a handle to a buffer, a copy
of a `TrackedObject` copies the handles of its matrices, and a write into a matrix is seen
through every handle of its buffer.  `mMeasurementMeanBuffers` numbers the buffer behind
`predictedMeasurementMean` of each element of `mSystemModelStates`, and
`mCurrentMeasurementMeanBuffer` the one behind `mCurrentState.predictedMeasurementMean`: two
states with one number read one matrix. -/
structure MultiModelKalmanEstimator (K : Type) where
  mCurrentState : TrackedObject := {}
  mLastTimestamp : ℚ := 0
  mSystemModelStates : List TrackedObject := []
  mDP : Nat := 0
  mMP : Nat := 0
  mCP : Nat := 0
  mAlpha : ℚ := 0
  mBeta : ℚ := 0
  mKappa : ℚ := 0
  mKalmanFilters : List K := []
  mSystemModels : List MotionModel := []
  mMaxProbability : ℚ := 1
  mMinProbability : ℚ := 95 / 100
  mTransitionProbability : Mat := []
  mModelProbability : Vec := []
  mNumberOfModels : Nat := 0
  mMeasurementMeanBuffers : List Nat := []
  mCurrentMeasurementMeanBuffer : Nat := 0
  deriving DecidableEq

/-- The numerical kernel of the estimator, which the embedding leaves open: the construction of
one unscented Kalman filter, the two `predict` overloads, and `correct`, which throws when
`classification::combine` meets vectors of different sizes. -/
structure EstimatorOps (K : Type) where
  createUnscentedKalmanFilterMod : UnscentedKalmanFilterParams → K
  predictAt : MultiModelKalmanEstimator K → ℚ → MultiModelKalmanEstimator K
  predict : MultiModelKalmanEstimator K → ℚ → MultiModelKalmanEstimator K
  correct : MultiModelKalmanEstimator K → TrackedObject → Option (MultiModelKalmanEstimator K)

namespace MultiModelKalmanEstimator

variable {K : Type}

/-- The constructor `MultiModelKalmanEstimator(alpha, beta)`. -/
def mk0 (alpha beta : ℚ) : MultiModelKalmanEstimator K :=
  { mAlpha := alpha, mBeta := beta, mDP := StateSize, mMP := MeasurementSize, mCP := 1,
    mKappa := 3 - (StateSize : ℚ) }

/-- The default-constructed estimator (`alpha = 1.0`, `beta = 2.0`), which `operator[]` of the
estimator maps inserts for an absent key. -/
def default : MultiModelKalmanEstimator K := mk0 1 2

/-- The method `currentState`. -/
def currentState (e : MultiModelKalmanEstimator K) : TrackedObject := e.mCurrentState

/-- The model list built at the start of `MultiModelKalmanEstimator::initialize`. -/
def systemModelsOf (motionModels : List MotionModel) : List MotionModel :=
  if motionModels.isEmpty then [MotionModel.CTRV, MotionModel.CV, MotionModel.CA] else motionModels

/-- The number of a buffer that is behind no `predictedMeasurementMean` of the estimator. -/
def freshMeasurementMeanBuffer (e : MultiModelKalmanEstimator K) : Nat :=
  e.mMeasurementMeanBuffers.foldl max e.mCurrentMeasurementMeanBuffer + 1

/-- The method `MultiModelKalmanEstimator::initialize`.  Every `push_back(track)` copies the
handle of `track.predictedMeasurementMean` and the final move takes it over, so the new
elements of `mSystemModelStates` and `mCurrentState` share the buffer of the detection; it is
taken to be a buffer that no state of the estimator had before. -/
def initializeEstimator (ops : EstimatorOps K) (e : MultiModelKalmanEstimator K)
    (track : TrackedObject) (timestamp : ℚ) (processNoise measurementNoise initStateCovariance : ℚ)
    (motionModels : List MotionModel) : MultiModelKalmanEstimator K :=
  let models := systemModelsOf motionModels
  let n := models.length
  let maxProbability : ℚ := 95 / 100
  let minProbability : ℚ := (1 - maxProbability) / max (((n - 1 : Nat) : ℚ)) 1
  let pxModel : ℚ := 1 / (n : ℚ)
  let pxOtherModels : ℚ := 5 / 100
  let pxSameModel : ℚ := 1 - (n : ℚ) * pxOtherModels
  let filters := models.map (fun model => ops.createUnscentedKalmanFilterMod
    { DP := e.mDP, MP := e.mMP, CP := e.mCP, model := model,
      stateInit := track.stateVector,
      errorCovInit := scaledEye e.mDP initStateCovariance,
      measurementNoiseCov := scaledEye e.mMP measurementNoise,
      processNoiseCov := scaledEye e.mDP processNoise,
      alpha := e.mAlpha, beta := e.mBeta, k := e.mKappa })
  { e with
    mLastTimestamp := timestamp
    mSystemModels := models
    mNumberOfModels := n
    mMaxProbability := maxProbability
    mMinProbability := minProbability
    mModelProbability := List.replicate n pxModel
    mTransitionProbability :=
      (List.range n).map (fun i => (List.range n).map (fun j =>
        if i = j then pxOtherModels + pxSameModel else pxOtherModels))
    mKalmanFilters := e.mKalmanFilters ++ filters
    mSystemModelStates := e.mSystemModelStates ++ models.map (fun _ => track)
    mCurrentState := track
    mMeasurementMeanBuffers :=
      e.mMeasurementMeanBuffers ++ models.map (fun _ => e.freshMeasurementMeanBuffer)
    mCurrentMeasurementMeanBuffer := e.freshMeasurementMeanBuffer }

end MultiModelKalmanEstimator

/-! ## `TrackManager` -/

/-- The structure `TrackManagerConfig`; the defaults are the member initialisers. -/
structure TrackManagerConfig where
  mNonMeasurementFramesDynamic : Nat := 15
  mNonMeasurementFramesStatic : Nat := 30
  mMaxNumberOfUnreliableFrames : Nat := 2
  mReactivationFrames : Nat := 1
  mNonMeasurementTimeDynamic : ℚ := 2666 / 10000
  mNonMeasurementTimeStatic : ℚ := 5333 / 10000
  mMaxUnreliableTime : ℚ := 3333 / 10000
  mDefaultProcessNoise : ℚ := 1 / 1000
  mDefaultMeasurementNoise : ℚ := 1 / 100
  mInitStateCovariance : ℚ := 1
  mMotionModels : List MotionModel := [MotionModel.CV, MotionModel.CA, MotionModel.CTRV]
  deriving DecidableEq

/-- The private state of the class `TrackManager`. -/
structure TrackManager (K : Type) where
  mKalmanEstimators : UMap (MultiModelKalmanEstimator K) := []
  mSuspendedKalmanEstimators : UMap (MultiModelKalmanEstimator K) := []
  mMeasurementMap : UMap TrackedObject := []
  mNonMeasurementFrames : UMap Nat := []
  mNumberOfTrackedFrames : UMap Nat := []
  mCurrentId : Id := 0
  mAutoIdGeneration : Bool := true
  mConfig : TrackManagerConfig := {}
  deriving DecidableEq

namespace TrackManager

variable {K : Type}

/-- The method `TrackManager::createTrack`: the returned id and the new state. -/
def createTrack (ops : EstimatorOps K) (s : TrackManager K) (object : TrackedObject)
    (timestamp : ℚ) : Id × TrackManager K :=
  let cur : Id := if s.mAutoIdGeneration then s.mCurrentId + 1 else s.mCurrentId
  let object : TrackedObject := if s.mAutoIdGeneration then { object with id := cur } else object
  let e := (s.mKalmanEstimators.getD object.id MultiModelKalmanEstimator.default)
  let e := e.initializeEstimator ops object timestamp s.mConfig.mDefaultProcessNoise
    s.mConfig.mDefaultMeasurementNoise s.mConfig.mInitStateCovariance s.mConfig.mMotionModels
  (object.id,
    { s with
      mCurrentId := cur
      mKalmanEstimators := s.mKalmanEstimators.assign object.id e
      mNonMeasurementFrames := s.mNonMeasurementFrames.assign object.id 0
      mNumberOfTrackedFrames := s.mNumberOfTrackedFrames.assign object.id 0 })

/-- The method `TrackManager::isSuspended`. -/
def isSuspended (s : TrackManager K) (id : Id) : Bool :=
  decide (s.mSuspendedKalmanEstimators.count id > 0)

/-- The method `TrackManager::hasId`. -/
def hasId (s : TrackManager K) (id : Id) : Bool :=
  decide (s.mKalmanEstimators.count id > 0) || decide (s.mSuspendedKalmanEstimators.count id > 0)

/-- The method `TrackManager::reactivateTrack`; `at` throws for an id that is not suspended. -/
def reactivateTrack (s : TrackManager K) (id : Id) : Option (TrackManager K) :=
  match s.mSuspendedKalmanEstimators.find? id with
  | none => none
  | some e =>
    some { s with
      mKalmanEstimators := s.mKalmanEstimators.assign id e
      mNonMeasurementFrames := s.mNonMeasurementFrames.assign id 0
      mNumberOfTrackedFrames := s.mNumberOfTrackedFrames.assign id
        ((s.mConfig.mMaxNumberOfUnreliableFrames + UINT32_MOD
          - s.mConfig.mReactivationFrames % UINT32_MOD) % UINT32_MOD)
      mSuspendedKalmanEstimators := s.mSuspendedKalmanEstimators.erase id }

/-- The method `TrackManager::deleteTrack`. -/
def deleteTrack (s : TrackManager K) (id : Id) : Option (TrackManager K) := do
  let s ← if s.isSuspended id then s.reactivateTrack id else some s
  some { s with
    mKalmanEstimators := s.mKalmanEstimators.erase id
    mNonMeasurementFrames := s.mNonMeasurementFrames.erase id
    mNumberOfTrackedFrames := s.mNumberOfTrackedFrames.erase id }

/-- The method `TrackManager::suspendTrack`; `at` throws for an id that is not active. -/
def suspendTrack (s : TrackManager K) (id : Id) : Option (TrackManager K) :=
  match s.mKalmanEstimators.find? id with
  | none => none
  | some e =>
    some { s with
      mSuspendedKalmanEstimators := s.mSuspendedKalmanEstimators.assign id e
      mKalmanEstimators := s.mKalmanEstimators.erase id
      mNonMeasurementFrames := s.mNonMeasurementFrames.erase id }

/-- The method `TrackManager::predict(timestamp)`. -/
def predictAt (ops : EstimatorOps K) (s : TrackManager K) (timestamp : ℚ) : TrackManager K :=
  { s with
    mKalmanEstimators := s.mKalmanEstimators.map (fun p => (p.1, ops.predictAt p.2 timestamp))
    mMeasurementMap := s.mMeasurementMap.clear }

/-- The method `TrackManager::predict(deltaT)`. -/
def predict (ops : EstimatorOps K) (s : TrackManager K) (deltaT : ℚ) : TrackManager K :=
  { s with
    mKalmanEstimators := s.mKalmanEstimators.map (fun p => (p.1, ops.predict p.2 deltaT))
    mMeasurementMap := s.mMeasurementMap.clear }

/-- The method `TrackManager::setMeasurement`. -/
def setMeasurement (s : TrackManager K) (id : Id) (measurement : TrackedObject) :
    TrackManager K :=
  { s with mMeasurementMap := s.mMeasurementMap.assign id measurement }

/-- The method `TrackManager::isReliable`: the answer, and the state after the read
`mNumberOfTrackedFrames[id]`. -/
def isReliable (s : TrackManager K) (id : Id) : Bool × TrackManager K :=
  (decide (s.mNumberOfTrackedFrames.getD id 0 ≥ s.mConfig.mMaxNumberOfUnreliableFrames),
    { s with mNumberOfTrackedFrames := s.mNumberOfTrackedFrames.touch id 0 })

/-- The first loop of `TrackManager::correct`, over the entries `todo` of `mKalmanEstimators`
that are still to visit; `done` are the entries already visited. -/
def correctLoop1 (ops : EstimatorOps K) (meas : UMap TrackedObject) :
    List (Id × MultiModelKalmanEstimator K) → List (Id × MultiModelKalmanEstimator K) →
    UMap Nat → UMap Nat →
    Option (List (Id × MultiModelKalmanEstimator K) × UMap Nat × UMap Nat)
  | [], done, nmf, tf => some (done.reverse, nmf, tf)
  | (id, estimator) :: todo, done, nmf, tf =>
    match meas.find? id with
    | some measurement =>
      match ops.correct estimator measurement with
      | none => none
      | some estimator =>
        correctLoop1 ops meas todo ((id, estimator) :: done) (nmf.assign id 0)
          (tf.assign id ((tf.getD id 0 + 1) % UINT32_MOD))
    | none =>
      correctLoop1 ops meas todo ((id, estimator) :: done)
        (nmf.assign id ((nmf.getD id 0 + 1) % UINT32_MOD)) tf

/-- The first phase of `TrackManager::correct` (the loop over `mKalmanEstimators`). -/
def correctPhase1 (ops : EstimatorOps K) (s : TrackManager K) : Option (TrackManager K) :=
  match correctLoop1 ops s.mMeasurementMap s.mKalmanEstimators [] s.mNonMeasurementFrames
      s.mNumberOfTrackedFrames with
  | none => none
  | some (est, nmf, tf) =>
    some { s with mKalmanEstimators := est, mNonMeasurementFrames := nmf,
                  mNumberOfTrackedFrames := tf }

/-- The list `reactivationList` of `TrackManager::correct`. -/
def reactivationList (s : TrackManager K) : List Id :=
  (s.mSuspendedKalmanEstimators.filter (fun p => decide (s.mMeasurementMap.count p.1 > 0))).map
    Prod.fst

/-- One round of the reactivation loop of `TrackManager::correct`:
`reactivateTrack(id); mKalmanEstimators[id].correct(mMeasurementMap[id]);`. -/
def reactivateAndCorrect (ops : EstimatorOps K) (s : TrackManager K) (id : Id) :
    Option (TrackManager K) := do
  let s ← s.reactivateTrack id
  let e := s.mKalmanEstimators.getD id MultiModelKalmanEstimator.default
  let m := s.mMeasurementMap.getD id {}
  let e ← ops.correct e m
  some { s with
    mKalmanEstimators := s.mKalmanEstimators.assign id e
    mMeasurementMap := s.mMeasurementMap.touch id {} }

/-- The second phase of `TrackManager::correct`: the reactivations. -/
def correctPhase2 (ops : EstimatorOps K) (s : TrackManager K) : Option (TrackManager K) :=
  (reactivationList s).foldlM (reactivateAndCorrect ops) s

/-- One round of the loop of `TrackManager::correct` over `mNonMeasurementFrames`: the state
after the reads `mNumberOfTrackedFrames[id]` and `mKalmanEstimators[id]`, and the two lists. -/
def classifyStep (acc : TrackManager K × List Id × List Id) (element : Id × Nat) :
    TrackManager K × List Id × List Id :=
  let s := acc.1
  let deletionList := acc.2.1
  let suspendList := acc.2.2
  let id := element.1
  let nonmeasurementFrames := element.2
  let r := s.isReliable id
  let s := r.2
  if r.1 then
    let dyn := (s.mKalmanEstimators.getD id MultiModelKalmanEstimator.default).currentState.isDynamic
    let s := { s with
      mKalmanEstimators := s.mKalmanEstimators.touch id MultiModelKalmanEstimator.default }
    if dyn then
      if nonmeasurementFrames > s.mConfig.mNonMeasurementFramesDynamic then
        (s, deletionList ++ [id], suspendList)
      else (s, deletionList, suspendList)
    else
      if nonmeasurementFrames > s.mConfig.mNonMeasurementFramesStatic then
        (s, deletionList, suspendList ++ [id])
      else (s, deletionList, suspendList)
  else
    if nonmeasurementFrames > s.mConfig.mNonMeasurementFramesDynamic then
      (s, deletionList ++ [id], suspendList)
    else (s, deletionList, suspendList)

/-- The third phase of `TrackManager::correct`: the deletion and suspension lists are derived
in one pass over `mNonMeasurementFrames` and then applied. -/
def correctPhase3 (s : TrackManager K) : Option (TrackManager K) := do
  let r := s.mNonMeasurementFrames.foldl classifyStep (s, [], [])
  let s ← r.2.1.foldlM deleteTrack r.1
  r.2.2.foldlM suspendTrack s

/-- The method `TrackManager::correct`. -/
def correct (ops : EstimatorOps K) (s : TrackManager K) : Option (TrackManager K) := do
  let s ← correctPhase1 ops s
  let s ← correctPhase2 ops s
  correctPhase3 s

/-- One round of the loop of `getReliableTracks` (`reliable = true`) or `getUnreliableTracks`
(`reliable = false`): the entries whose state is pushed so far, and the state after the read. -/
def reliabilityStep (reliable : Bool)
    (acc : List (Id × MultiModelKalmanEstimator K) × TrackManager K)
    (element : Id × MultiModelKalmanEstimator K) :
    List (Id × MultiModelKalmanEstimator K) × TrackManager K :=
  let r := acc.2.isReliable element.1
  if r.1 = reliable then (acc.1 ++ [element], r.2) else (acc.1, r.2)

/-- The loop of `getReliableTracks`: the entries of `mKalmanEstimators` whose state is pushed,
and the state after the reads. -/
def reliableEntries (s : TrackManager K) :
    List (Id × MultiModelKalmanEstimator K) × TrackManager K :=
  s.mKalmanEstimators.foldl (reliabilityStep true) ([], s)

/-- The loop of `getUnreliableTracks`, likewise. -/
def unreliableEntries (s : TrackManager K) :
    List (Id × MultiModelKalmanEstimator K) × TrackManager K :=
  s.mKalmanEstimators.foldl (reliabilityStep false) ([], s)

/-- The method `TrackManager::getTracks`. -/
def getTracks (s : TrackManager K) : List TrackedObject :=
  s.mKalmanEstimators.map (fun p => p.2.currentState)
    ++ s.mSuspendedKalmanEstimators.map (fun p => p.2.currentState)

/-- The method `TrackManager::getReliableTracks`: the tracks, and the state after the reads. -/
def getReliableTracks (s : TrackManager K) : List TrackedObject × TrackManager K :=
  (s.reliableEntries.1.map (fun p => p.2.currentState), s.reliableEntries.2)

/-- The method `TrackManager::getUnreliableTracks`: the tracks, and the state after the
reads. -/
def getUnreliableTracks (s : TrackManager K) : List TrackedObject × TrackManager K :=
  (s.unreliableEntries.1.map (fun p => p.2.currentState), s.unreliableEntries.2)

/-- The method `TrackManager::getSuspendedTracks`. -/
def getSuspendedTracks (s : TrackManager K) : List TrackedObject :=
  s.mSuspendedKalmanEstimators.map (fun p => p.2.currentState)

/-- The method `TrackManager::getKalmanEstimator`; it throws for an unknown id. -/
def getKalmanEstimator (s : TrackManager K) (id : Id) : Option (MultiModelKalmanEstimator K) :=
  if s.mKalmanEstimators.count id > 0 then
    some (s.mKalmanEstimators.getD id MultiModelKalmanEstimator.default)
  else if s.mSuspendedKalmanEstimators.count id > 0 then
    some (s.mSuspendedKalmanEstimators.getD id MultiModelKalmanEstimator.default)
  else none

/-- The method `TrackManager::getTrack`. -/
def getTrack (s : TrackManager K) (id : Id) : Option TrackedObject :=
  (s.getKalmanEstimator id).map (fun e => e.currentState)

end TrackManager


/-! ## Statements about the track manager -/

/-- What one active entry `p` becomes in the first loop of `TrackManager::correct`. -/
def CorrectedEntry {K : Type} (ops : EstimatorOps K) (meas : UMap TrackedObject)
    (p q : Id × MultiModelKalmanEstimator K) : Prop :=
  q.1 = p.1 ∧
    match meas.find? p.1 with
    | some m => ops.correct p.2 m = some q.2
    | none => q.2 = p.2

/-- The value `mMaxNumberOfUnreliableFrames - mReactivationFrames` of `reactivateTrack`, in
`uint32_t` arithmetic. -/
def reactivationCount (c : TrackManagerConfig) : Nat :=
  (c.mMaxNumberOfUnreliableFrames + UINT32_MOD - c.mReactivationFrames % UINT32_MOD) % UINT32_MOD

namespace TrackManager

variable {K : Type}

/-- The answer of `isReliable(id)`. -/
def reliableNow (s : TrackManager K) (id : Id) : Bool := (s.isReliable id).1

/-- The value of `mKalmanEstimators[id].currentState().isDynamic()`. -/
def dynamicNow (s : TrackManager K) (id : Id) : Bool :=
  (s.mKalmanEstimators.getD id MultiModelKalmanEstimator.default).currentState.isDynamic

/-- The entry `p` of `mNonMeasurementFrames` is put on `deletionList`. -/
def toDelete (s : TrackManager K) (p : Id × Nat) : Bool :=
  if s.reliableNow p.1 then
    s.dynamicNow p.1 && decide (p.2 > s.mConfig.mNonMeasurementFramesDynamic)
  else decide (p.2 > s.mConfig.mNonMeasurementFramesDynamic)

/-- The entry `p` of `mNonMeasurementFrames` is put on `suspendList`. -/
def toSuspend (s : TrackManager K) (p : Id × Nat) : Bool :=
  s.reliableNow p.1 && !s.dynamicNow p.1 &&
    decide (p.2 > s.mConfig.mNonMeasurementFramesStatic)

/-- The invariant of the maps of a `TrackManager`: no key occurs twice in a map, the ids with a
non-measurement counter are the active ids, every active id has a tracked-frames counter, and
no id is active and suspended at once. -/
structure WF (s : TrackManager K) : Prop where
  activeNodup : s.mKalmanEstimators.keys.Nodup
  suspendedNodup : s.mSuspendedKalmanEstimators.keys.Nodup
  nmfNodup : s.mNonMeasurementFrames.keys.Nodup
  nmfKeys : ∀ id, id ∈ s.mNonMeasurementFrames.keys ↔ id ∈ s.mKalmanEstimators.keys
  tfKeys : ∀ id, id ∈ s.mKalmanEstimators.keys → id ∈ s.mNumberOfTrackedFrames.keys
  disjoint : ∀ id, id ∈ s.mKalmanEstimators.keys → id ∉ s.mSuspendedKalmanEstimators.keys

end TrackManager

namespace TrackManager

variable {K : Type}

/-- A measurement is pending for `id` (`mMeasurementMap.count(id) > 0`). -/
def pendingNow (s : TrackManager K) (id : Id) : Bool := (s.mMeasurementMap.find? id).isSome

/-- The non-measurement counter of an active `id` after the counter update of `correct`. -/
def nmfUpdated (s : TrackManager K) (id : Id) : Nat :=
  if s.pendingNow id then 0 else (s.mNonMeasurementFrames.getD id 0 + 1) % UINT32_MOD

/-- The tracked-frames counter of an active `id` after the counter update of `correct`. -/
def tfUpdated (s : TrackManager K) (id : Id) : Nat :=
  if s.pendingNow id then (s.mNumberOfTrackedFrames.getD id 0 + 1) % UINT32_MOD
  else s.mNumberOfTrackedFrames.getD id 0

/-- The track is reliable after the counter update of `correct`. -/
def reliableUpdated (s : TrackManager K) (id : Id) : Bool :=
  decide (s.tfUpdated id ≥ s.mConfig.mMaxNumberOfUnreliableFrames)

/-- After the counter update the non-measurement counter of `id` exceeds
`mNonMeasurementFramesDynamic` and the track, whose estimator is now `e1`, is unreliable, or
reliable and dynamic. -/
def deletes (s : TrackManager K) (id : Id) (e1 : MultiModelKalmanEstimator K) : Bool :=
  decide (s.nmfUpdated id > s.mConfig.mNonMeasurementFramesDynamic) &&
    (!s.reliableUpdated id || e1.currentState.isDynamic)

/-- After the counter update the track of `id`, whose estimator is now `e1`, is reliable and
not dynamic and its non-measurement counter exceeds `mNonMeasurementFramesStatic`. -/
def suspends (s : TrackManager K) (id : Id) (e1 : MultiModelKalmanEstimator K) : Bool :=
  s.reliableUpdated id && !e1.currentState.isDynamic &&
    decide (s.nmfUpdated id > s.mConfig.mNonMeasurementFramesStatic)

/-- The effect of a call `correct()` that returns, from a state `s` that satisfies the
invariant to the state `t`, on every id. -/
structure CorrectPost (ops : EstimatorOps K) (s t : TrackManager K) : Prop where
  wf : t.WF
  config : t.mConfig = s.mConfig
  meas : t.mMeasurementMap = s.mMeasurementMap
  currentId : t.mCurrentId = s.mCurrentId
  autoId : t.mAutoIdGeneration = s.mAutoIdGeneration
  active : ∀ id e, s.mKalmanEstimators.find? id = some e →
    ∃ e1, CorrectedEntry ops s.mMeasurementMap (id, e) (id, e1) ∧
      t.mKalmanEstimators.find? id = (if s.deletes id e1 || s.suspends id e1 then none else some e1) ∧
      t.mNonMeasurementFrames.find? id =
        (if s.deletes id e1 || s.suspends id e1 then none else some (s.nmfUpdated id)) ∧
      t.mNumberOfTrackedFrames.find? id =
        (if s.deletes id e1 then none else some (s.tfUpdated id)) ∧
      t.mSuspendedKalmanEstimators.find? id = (if s.suspends id e1 then some e1 else none)
  suspendedPending : ∀ id e m, s.mSuspendedKalmanEstimators.find? id = some e →
    s.mMeasurementMap.find? id = some m →
    ∃ e1, ops.correct e m = some e1 ∧
      t.mKalmanEstimators.find? id = some e1 ∧
      t.mNonMeasurementFrames.find? id = some 0 ∧
      t.mNumberOfTrackedFrames.find? id = some (reactivationCount s.mConfig) ∧
      t.mSuspendedKalmanEstimators.find? id = none
  suspendedIdle : ∀ id e, s.mSuspendedKalmanEstimators.find? id = some e →
    s.mMeasurementMap.find? id = none →
    t.mKalmanEstimators.find? id = none ∧
      t.mNonMeasurementFrames.find? id = none ∧
      t.mNumberOfTrackedFrames.find? id = s.mNumberOfTrackedFrames.find? id ∧
      t.mSuspendedKalmanEstimators.find? id = some e
  absent : ∀ id, s.mKalmanEstimators.find? id = none →
    s.mSuspendedKalmanEstimators.find? id = none →
    t.mKalmanEstimators.find? id = none ∧
      t.mNonMeasurementFrames.find? id = none ∧
      t.mNumberOfTrackedFrames.find? id = s.mNumberOfTrackedFrames.find? id ∧
      t.mSuspendedKalmanEstimators.find? id = none

end TrackManager

/-! ## Sequences of calls -/

/-- One cycle of calls on the manager, in the order in which `MultipleObjectTracker::track`
issues them: `predict(deltaT)`, one `setMeasurement(id, m)` for every entry of `measurements`,
then `correct()`. -/
structure Frame where
  deltaT : ℚ
  measurements : List (Id × TrackedObject)

namespace TrackManager

variable {K : Type}

/-- The state after `predict(deltaT)` and the `setMeasurement` calls of a cycle. -/
def prepare (ops : EstimatorOps K) (s : TrackManager K) (f : Frame) : TrackManager K :=
  f.measurements.foldl (fun s p => s.setMeasurement p.1 p.2) (s.predict ops f.deltaT)

/-- One cycle: `predict`, the `setMeasurement` calls, `correct`. -/
def applyFrame (ops : EstimatorOps K) (s : TrackManager K) (f : Frame) :
    Option (TrackManager K) :=
  (s.prepare ops f).correct ops

/-- Consecutive cycles. -/
def run (ops : EstimatorOps K) (fs : List Frame) (s : TrackManager K) :
    Option (TrackManager K) :=
  fs.foldlM (applyFrame ops) s

/-- The estimator `e` after the `predict` calls of the cycles `fs`, when no correction
intervenes. -/
def predictThrough (ops : EstimatorOps K) (fs : List Frame) (e : MultiModelKalmanEstimator K) :
    MultiModelKalmanEstimator K :=
  fs.foldl (fun e f => ops.predict e f.deltaT) e

/-- The track `id` contributes an element to the result of `getReliableTracks`. -/
def inReliableTracks (s : TrackManager K) (id : Id) : Prop :=
  id ∈ UMap.keys s.reliableEntries.1

/-- The track `id` contributes an element to the result of `getUnreliableTracks`. -/
def inUnreliableTracks (s : TrackManager K) (id : Id) : Prop :=
  id ∈ UMap.keys s.unreliableEntries.1

end TrackManager

/-! ## Concrete data for the examples -/

/-- A kernel for the examples: a filter carries no data, `predict` leaves the estimator as it
is, and `correct` throws on classification vectors of different sizes and otherwise takes over
the position and the attributes of the measurement. -/
def exampleOps : EstimatorOps Unit where
  createUnscentedKalmanFilterMod := fun _ => ()
  predictAt := fun e timestamp => { e with mLastTimestamp := timestamp }
  predict := fun e _ => e
  correct := fun e m =>
    if e.mCurrentState.classification.length = m.classification.length then
      some { e with mCurrentState :=
        { e.mCurrentState with x := m.x, y := m.y, attributes := m.attributes, corrected := true } }
    else none

/-- A detection at the origin with the default fields. -/
def exampleObject : TrackedObject := {}

/-- A moving detection (`vx = 2`). -/
def exampleMovingObject : TrackedObject := { vx := 2 }

/-- The configuration of the test `SingleDetectionTracking`. -/
def testConfig : TrackManagerConfig :=
  { mMaxNumberOfUnreliableFrames := 5, mNonMeasurementFramesDynamic := 7,
    mNonMeasurementFramesStatic := 20 }

/-- A cycle with a measurement for track 1. -/
def measuredFrame : Frame := { deltaT := 1 / 100, measurements := [(1, exampleObject)] }

/-- A cycle without measurements. -/
def missedFrame : Frame := { deltaT := 1 / 100, measurements := [] }

/-- An empty manager with two frames to reliability. -/
def emptyManager : TrackManager Unit := {}

/-- The state in which track 1 has just been created from `exampleObject`. -/
def createdState : TrackManager Unit :=
  (TrackManager.createTrack exampleOps emptyManager exampleObject 0).2

/-- The state `createdState` after two cycles with a measurement for track 1. -/
def twiceCorrectedState : TrackManager Unit :=
  (TrackManager.run exampleOps [measuredFrame, measuredFrame] createdState).getD createdState

/-- A manager with the configuration of the test `SingleDetectionTracking`. -/
def testManager : TrackManager Unit := { mConfig := testConfig }

/-- The state in which track 1 has been created from a moving detection and corrected five
times, so that it is reliable and its non-measurement counter is zero. -/
def reliableMovingState : TrackManager Unit :=
  (TrackManager.run exampleOps (List.replicate 5 measuredFrame)
    (TrackManager.createTrack exampleOps testManager exampleMovingObject 0).2).getD testManager

/-- The state `reliableMovingState` after eight cycles without a measurement. -/
def afterEightMisses : TrackManager Unit :=
  (TrackManager.run exampleOps (List.replicate 8 missedFrame) reliableMovingState).getD testManager

/-- The state `reliableMovingState` after one cycle without a measurement. -/
def afterOneMiss : TrackManager Unit :=
  ((TrackManager.prepare exampleOps reliableMovingState missedFrame).correct exampleOps).getD
    testManager

/-- The estimator of track 1 in `reliableMovingState`. -/
def movingEstimator : MultiModelKalmanEstimator Unit :=
  reliableMovingState.mKalmanEstimators.getD 1 MultiModelKalmanEstimator.default

/-- A decision procedure for the invariant `TrackManager.WF`. -/
def TrackManager.checkWF {K : Type} (s : TrackManager K) : Bool :=
  decide (UMap.keys s.mKalmanEstimators).Nodup &&
  decide (UMap.keys s.mSuspendedKalmanEstimators).Nodup &&
  decide (UMap.keys s.mNonMeasurementFrames).Nodup &&
  (UMap.keys s.mNonMeasurementFrames).all (fun id => decide (id ∈ UMap.keys s.mKalmanEstimators)) &&
  (UMap.keys s.mKalmanEstimators).all (fun id =>
    decide (id ∈ UMap.keys s.mNonMeasurementFrames) &&
    decide (id ∈ UMap.keys s.mNumberOfTrackedFrames) &&
    decide (id ∉ UMap.keys s.mSuspendedKalmanEstimators))

/-- A configuration with short thresholds: two frames to reliability, three tolerated misses
of a dynamic track, one tolerated miss of a static track, one reactivation frame. -/
def quickConfig : TrackManagerConfig :=
  { mMaxNumberOfUnreliableFrames := 2, mNonMeasurementFramesDynamic := 3,
    mNonMeasurementFramesStatic := 1, mReactivationFrames := 1 }

/-- An empty manager with the configuration `quickConfig`. -/
def quickManager : TrackManager Unit := { mConfig := quickConfig }

/-- Track 1, static, after two corrections and one miss, prepared for a cycle without
measurement. -/
def aboutToSuspend : TrackManager Unit :=
  TrackManager.prepare exampleOps
    ((TrackManager.run exampleOps [measuredFrame, measuredFrame, missedFrame]
      (TrackManager.createTrack exampleOps quickManager exampleObject 0).2).getD quickManager)
    missedFrame

/-- The estimator of track 1 in `aboutToSuspend`. -/
def staticEstimator : MultiModelKalmanEstimator Unit :=
  aboutToSuspend.mKalmanEstimators.getD 1 MultiModelKalmanEstimator.default

/-- The state after `correct()` in `aboutToSuspend`: track 1 is suspended. -/
def suspendedState : TrackManager Unit :=
  (TrackManager.correct exampleOps aboutToSuspend).getD quickManager

/-- The state `suspendedState` prepared for a cycle with a measurement for track 1. -/
def aboutToReactivate : TrackManager Unit :=
  TrackManager.prepare exampleOps suspendedState measuredFrame

/-- The state after `correct()` in `aboutToReactivate`: track 1 is active again. -/
def reactivatedState : TrackManager Unit :=
  (TrackManager.correct exampleOps aboutToReactivate).getD quickManager

/-- The state `reactivatedState` after one more cycle with a measurement for track 1. -/
def reconfirmedState : TrackManager Unit :=
  (TrackManager.run exampleOps [measuredFrame] reactivatedState).getD quickManager

/-- The state `createdState` prepared for a cycle with a measurement for track 1. -/
def aboutToCorrect : TrackManager Unit :=
  TrackManager.prepare exampleOps createdState measuredFrame

/-- The state after the first loop of `correct()` in `aboutToCorrect`. -/
def afterFirstLoop : TrackManager Unit :=
  (TrackManager.correctPhase1 exampleOps aboutToCorrect).getD emptyManager

/-- The cycle `f` carries a measurement for `id`. -/
def Frame.measures (id : Id) (f : Frame) : Bool := decide (id ∈ UMap.keys f.measurements)

/-- The longest run of consecutive cycles of `fs` with a measurement for `id`; `cur` is the
length of the run that ends where `fs` starts and `best` the longest run seen before. -/
def longestMeasuredRun (id : Id) : List Frame → Nat → Nat → Nat
  | [], _, best => best
  | f :: fs, cur, best =>
    if f.measures id then longestMeasuredRun id fs (cur + 1) (max best (cur + 1))
    else longestMeasuredRun id fs 0 best

/-- No run of consecutive cycles of `fs` without a measurement for `id` makes the
non-measurement counter, which starts at `n`, exceed `limit`. -/
def gapsWithin (limit : Nat) (id : Id) : Nat → List Frame → Bool
  | _, [] => true
  | n, f :: fs =>
    if f.measures id then gapsWithin limit id 0 fs
    else decide (n + 1 ≤ limit) && gapsWithin limit id (n + 1) fs

/-- The state `createdState` after a cycle with a measurement for track 1, a cycle without
one, and another cycle with one. -/
def measuredMissedMeasured : TrackManager Unit :=
  (TrackManager.run exampleOps [measuredFrame, missedFrame, measuredFrame] createdState).getD
    emptyManager

/-! ## `ObjectMatching` -/

/-- The floating-point functions that the embedding leaves open. -/
structure RealOps where
  sqrt : ℚ → ℚ

/-- The function `classification::distance`; it throws on vectors of different sizes. -/
def classification.distance (R : RealOps) (classificationA classificationB : Classification) :
    Option ℚ :=
  if classificationA.length ≠ classificationB.length then none
  else
    let residual := List.zipWith (fun a b => a - b) classificationA classificationB
    some (R.sqrt (1 / 2 * (residual.map (fun r => r * r)).sum))

/-- The enumeration `DistanceType`. -/
inductive DistanceType where
  | MultiClassEuclidean
  | Euclidean
  | Mahalanobis
  | MCEMahalanobis
  deriving DecidableEq

/-- The constant `kDefaultClassBoundValue`. -/
def kDefaultClassBoundValue : ℚ := 1000

/-- The function `calculateMulticlassScaledDistance`. -/
def calculateMulticlassScaledDistance (R : RealOps) (measurement track : TrackedObject) :
    Option ℚ :=
  match classification.distance R measurement.classification track.classification with
  | none => none
  | some conflict =>
    let distance := R.sqrt ((measurement.x - track.x) ^ 2 + (measurement.y - track.y) ^ 2)
    some (distance * (1 + conflict))

/-- The function `calculateEuclideanDistance`. -/
def calculateEuclideanDistance (R : RealOps) (measurement track : TrackedObject) : Option ℚ :=
  some (R.sqrt ((measurement.x - track.x) ^ 2 + (measurement.y - track.y) ^ 2))

/-- The scalar product of two vectors. -/
def dot (a b : Vec) : ℚ := (List.zipWith (fun x y => x * y) a b).sum

/-- The function `calculateMahalanobisDistance`; the matrix operations throw on operands whose
sizes do not fit. -/
def calculateMahalanobisDistance (R : RealOps) (measurement track : TrackedObject) : Option ℚ :=
  let z := measurement.measurementVector
  if track.predictedMeasurementMean.length ≠ z.length then none
  else
    let innovation := (List.zipWith (fun a b => a - b) z track.predictedMeasurementMean).set 6 0
    let covInv := track.predictedMeasurementCovInv
    if covInv.length ≠ innovation.length ∨ ∃ row ∈ covInv, row.length ≠ innovation.length then none
    else
      let mahalanobisDistance := dot innovation (covInv.map (fun row => dot row innovation))
      some (1 / 2 * R.sqrt mahalanobisDistance)

/-- The function `calculateCompundDistance`. -/
def calculateCompundDistance (R : RealOps) (measurement track : TrackedObject) : Option ℚ :=
  match calculateMulticlassScaledDistance R measurement track with
  | none => none
  | some euclideanDist =>
    match calculateMahalanobisDistance R measurement track with
    | none => none
    | some mahalanobisDist => some (1 / 2 * euclideanDist + 1 / 2 * mahalanobisDist)

/-- The `distanceFunction` that the `switch` of `match` selects. -/
def distanceFunction (R : RealOps) : DistanceType → TrackedObject → TrackedObject → Option ℚ
  | DistanceType.MCEMahalanobis => calculateCompundDistance R
  | DistanceType.Mahalanobis => calculateMahalanobisDistance R
  | DistanceType.MultiClassEuclidean => calculateMulticlassScaledDistance R
  | DistanceType.Euclidean => calculateEuclideanDistance R

/-- The structure `BipartiteGraphMatcherOptions`. -/
structure BipartiteGraphMatcherOptions where
  cost_thresh : ℚ := 4
  bound_value : ℚ := 100

/-- The three output vectors of `match`. -/
structure MatchResult where
  assignments : List (Nat × Nat) := []
  unassignedTracks : List Nat := []
  unassignedMeasurements : List Nat := []
  deriving DecidableEq

/-- The entry `(i, j)` of a cost matrix. -/
def costAt (costs : Mat) (i j : Nat) : ℚ := (costs.getD i []).getD j 0

/-- Modelled from the spec: the cost that the Hungarian step of the gated matcher
(`rv/apollo/gated_hungarian_bigraph_matcher.hpp`, not among the sources) sees for the pair
`(i, j)`: the cost itself under the gate `C <= costThresh`, the cap `boundValue` above it. -/
def cappedCost (costs : Mat) (costThresh boundValue : ℚ) (i j : Nat) : ℚ :=
  if costAt costs i j ≤ costThresh then costAt costs i j else boundValue

/-- Modelled from the spec: all assignments of every element of the first list to a different
element of the second, the candidates among which the Hungarian step of the gated matcher
(not among the sources) chooses. -/
def injections : List Nat → List Nat → List (List (Nat × Nat))
  | [], _ => [[]]
  | r :: rs, cols => cols.flatMap (fun c => (injections rs (cols.erase c)).map (fun m => (r, c) :: m))

/-- Modelled from the spec: the total cost of an assignment, which the Hungarian step of the
gated matcher (not among the sources) minimises. -/
def totalCost (cost : Nat → Nat → ℚ) (m : List (Nat × Nat)) : ℚ :=
  (m.map (fun p => cost p.1 p.2)).sum

/-- Modelled from the spec: the first assignment of least total cost among the candidates, the
choice of the Hungarian step of the gated matcher (not among the sources). -/
def cheapest (cost : Nat → Nat → ℚ) : List (List (Nat × Nat)) → List (Nat × Nat)
  | [] => []
  | m :: ms => ms.foldl (fun best c => if totalCost cost c < totalCost cost best then c else best) m

/-- Modelled from the spec: the Hungarian step of the gated matcher (not among the sources) on a
matrix of `rows` rows and `cols` columns: an assignment of minimal total cost that matches
every index of the smaller dimension. -/
def hungarian (cost : Nat → Nat → ℚ) (rows cols : Nat) : List (Nat × Nat) :=
  if rows ≤ cols then cheapest cost (injections (List.range rows) (List.range cols))
  else (cheapest (fun c r => cost r c) (injections (List.range cols) (List.range rows))).map
    Prod.swap

/-- Modelled from the spec: the method `GatedHungarianMatcher::Match` of
`rv/apollo/gated_hungarian_bigraph_matcher.hpp`, which is not among the sources, for the flag
`OPTMIN`.  Spec: a gated Hungarian matcher on a dense cost matrix; every assignment satisfies
`C[row, col] <= costThresh`; pairs above the threshold are rejected and their endpoints appear
in the unassigned lists; when `C` is empty in either dimension all rows and all columns are
unassigned.  The decomposition into connected components, which the spec describes as an
internal device, is not modelled: the Hungarian step runs on the whole matrix. -/
def gatedHungarianMatch (costs : Mat) (rows cols : Nat) (costThresh boundValue : ℚ) :
    MatchResult :=
  let solved := hungarian (cappedCost costs costThresh boundValue) rows cols
  let assignments := solved.filter (fun p => decide (costAt costs p.1 p.2 ≤ costThresh))
  { assignments := assignments
    unassignedTracks :=
      (List.range rows).filter (fun r => decide (r ∉ assignments.map Prod.fst))
    unassignedMeasurements :=
      (List.range cols).filter (fun c => decide (c ∉ assignments.map Prod.snd)) }

/-- The method `MultiHmBipartiteGraphMatcher::Match`: it forwards to the gated Hungarian matcher
with the flag `OPTMIN`. -/
def MultiHmBipartiteGraphMatcher.Match (options : BipartiteGraphMatcherOptions) (costs : Mat)
    (rows cols : Nat) : MatchResult :=
  gatedHungarianMatch costs rows cols options.cost_thresh options.bound_value

/-- All elements of a list of results, unless one of them is an exception. -/
def collect {α : Type} : List (Option α) → Option (List α)
  | [] => some []
  | none :: _ => none
  | some a :: l =>
    match collect l with
    | none => none
    | some r => some (a :: r)

/-- The function `match` of `ObjectMatching.cpp`; `prev` holds the contents of the three
output vectors before the call. -/
def matchObjects (R : RealOps) (tracks measurements : List TrackedObject) (_prev : MatchResult)
    (distanceType : DistanceType) (threshold : ℚ) : Option MatchResult :=
  let cleared : MatchResult := { assignments := [], unassignedTracks := [], unassignedMeasurements := [] }
  if measurements.isEmpty || tracks.isEmpty then
    some { cleared with
      unassignedMeasurements := List.range measurements.length
      unassignedTracks := List.range tracks.length }
  else
    let matcherOptions : BipartiteGraphMatcherOptions :=
      { cost_thresh := threshold, bound_value := kDefaultClassBoundValue }
    match collect (tracks.map (fun track =>
        collect (measurements.map (fun measurement =>
          distanceFunction R distanceType measurement track)))) with
    | none => none
    | some costMatrix =>
      some (MultiHmBipartiteGraphMatcher.Match matcherOptions costMatrix tracks.length
        measurements.length)

/-- Floating-point functions for the examples: a square root that is exact on the squares of
the naturals below 50 (and returns its argument elsewhere). -/
def exampleReal : RealOps where
  sqrt := fun q =>
    match (List.range 50).find? (fun k => decide ((k : ℚ) * (k : ℚ) = q)) with
    | some k => (k : ℚ)
    | none => q

/-- A detection three metres east of the origin. -/
def exampleObjectEast : TrackedObject := { x := 3 }

/-- A detection forty metres north of the origin. -/
def exampleObjectFar : TrackedObject := { y := 40 }

/-! ## `MultipleObjectTracker` -/

/-- The member `maxCoeff` of a classification vector. -/
def maxCoeff (c : Classification) : ℚ := c.foldl max (c.headD 0)

/-- The function template `filterByIndex`, for lists of tracked objects. -/
def filterByIndex (elements : List TrackedObject) (indexToKeep : List Nat) : List TrackedObject :=
  indexToKeep.map (fun index => elements.getD index {})

/-- The lambda `divider` of `splitByThreshold`. -/
def divider (scoreThreshold : ℚ) (object : TrackedObject) : Bool :=
  decide (maxCoeff object.classification ≥ scoreThreshold)

/-- The function `splitByThreshold`: the new contents of `objects` and of `lowScoreObjects`.
`std::partition` leaves the order inside the two groups open; the embedding keeps the order of
the input. -/
def splitByThreshold (objects _lowScoreObjects : List TrackedObject) (scoreThreshold : ℚ) :
    List TrackedObject × List TrackedObject :=
  (objects.filter (divider scoreThreshold), objects.filter (fun o => !divider scoreThreshold o))

/-- The private state of the class `MultipleObjectTracker`. -/
structure MultipleObjectTracker (K : Type) where
  mTrackManager : TrackManager K := {}
  mDistanceType : DistanceType := DistanceType.MultiClassEuclidean
  mDistanceThreshold : ℚ := 5
  mLastTimestamp : ℚ := 0
  deriving DecidableEq

namespace MultipleObjectTracker

variable {K : Type}

/-- The loop `for (assignment : assignments) setMeasurement(tracks[first].id, objects[second])`
of `MultipleObjectTracker::track`. -/
def setMeasurements (m : TrackManager K) (tracks objects : List TrackedObject)
    (assignments : List (Nat × Nat)) : TrackManager K :=
  assignments.foldl (fun m a => m.setMeasurement (tracks.getD a.1 {}).id (objects.getD a.2 {})) m

/-- The local variables of `MultipleObjectTracker::track` at the call of `correct()`. -/
structure Passes (K : Type) where
  highScore : List TrackedObject
  lowScore : List TrackedObject
  reliablePass : MatchResult
  lowScorePass : MatchResult
  afterReliable : List TrackedObject
  unreliablePass : MatchResult
  afterUnreliable : List TrackedObject
  suspendedPass : MatchResult
  manager : TrackManager K

/-- The body of `MultipleObjectTracker::track` for a non-empty detection list, from
`splitByThreshold` to the last `setMeasurement`. -/
def associate (ops : EstimatorOps K) (R : RealOps) (t : MultipleObjectTracker K)
    (objects : List TrackedObject) (timestamp : ℚ) (distanceType : DistanceType)
    (distanceThreshold scoreThreshold : ℚ) : Option (Passes K) :=
  let split := splitByThreshold objects [] scoreThreshold
  let objects := split.1
  let lowScoreObjects := split.2
  let m := t.mTrackManager.predict ops (timestamp - t.mLastTimestamp)
  let reliable := m.getReliableTracks
  let tracks := reliable.1
  let m := reliable.2
  match matchObjects R tracks objects {} distanceType distanceThreshold with
  | none => none
  | some r1 =>
    let m := setMeasurements m tracks objects r1.assignments
    let tracks := filterByIndex tracks r1.unassignedTracks
    match matchObjects R tracks lowScoreObjects
        { assignments := r1.assignments, unassignedTracks := r1.unassignedTracks }
        distanceType distanceThreshold with
    | none => none
    | some r2 =>
      let m := setMeasurements m tracks lowScoreObjects r2.assignments
      let objects2 := filterByIndex objects r1.unassignedMeasurements
      let unreliable := m.getUnreliableTracks
      let unreliableTracks := unreliable.1
      let m := unreliable.2
      match matchObjects R unreliableTracks objects2
          { assignments := r2.assignments, unassignedTracks := r2.unassignedTracks,
            unassignedMeasurements := r1.unassignedMeasurements }
          distanceType distanceThreshold with
      | none => none
      | some r3 =>
        let m := setMeasurements m unreliableTracks objects2 r3.assignments
        let objects3 := filterByIndex objects2 r3.unassignedMeasurements
        let suspendedTracks := m.getSuspendedTracks
        match matchObjects R suspendedTracks objects3 r3 distanceType distanceThreshold with
        | none => none
        | some r4 =>
          let m := setMeasurements m suspendedTracks objects3 r4.assignments
          some { highScore := objects, lowScore := lowScoreObjects, reliablePass := r1,
                 lowScorePass := r2, afterReliable := objects2, unreliablePass := r3,
                 afterUnreliable := objects3, suspendedPass := r4, manager := m }

/-- The detections for which the last loop of `track` calls `createTrack`. -/
def births (p : Passes K) : List TrackedObject :=
  filterByIndex p.afterUnreliable p.suspendedPass.unassignedMeasurements

/-- The detections that the reliable, the unreliable and the suspended pass handed to
`setMeasurement`. -/
def assignedHighScore (p : Passes K) : List TrackedObject :=
  p.reliablePass.assignments.map (fun a => p.highScore.getD a.2 {}) ++
  p.unreliablePass.assignments.map (fun a => p.afterReliable.getD a.2 {}) ++
  p.suspendedPass.assignments.map (fun a => p.afterUnreliable.getD a.2 {})

/-- The method `MultipleObjectTracker::track` with five parameters. -/
def track (ops : EstimatorOps K) (R : RealOps) (t : MultipleObjectTracker K)
    (objects : List TrackedObject) (timestamp : ℚ) (distanceType : DistanceType)
    (distanceThreshold scoreThreshold : ℚ) : Option (MultipleObjectTracker K) :=
  if objects.isEmpty then
    match (t.mTrackManager.predictAt ops timestamp).correct ops with
    | none => none
    | some m => some { t with mTrackManager := m, mLastTimestamp := timestamp }
  else
    match associate ops R t objects timestamp distanceType distanceThreshold scoreThreshold with
    | none => none
    | some p =>
      match p.manager.correct ops with
      | none => none
      | some m =>
        let m := p.suspendedPass.unassignedMeasurements.foldl
          (fun m id => (m.createTrack ops (p.afterUnreliable.getD id {}) timestamp).2) m
        some { t with mTrackManager := m, mLastTimestamp := timestamp }

/-- The method `MultipleObjectTracker::getTracks`. -/
def getTracks (t : MultipleObjectTracker K) : List TrackedObject := t.mTrackManager.getTracks

end MultipleObjectTracker

/-! ## Example calls of `track` -/

/-- A detection whose best class probability is one quarter. -/
def exampleLowScoreObject : TrackedObject := { y := 40, classification := [1 / 4] }

/-- A detection at `(30, 40)`, far from the other example detections. -/
def exampleObjectNew : TrackedObject := { x := 30, y := 40 }

/-- A fresh tracker. -/
def freshTracker : MultipleObjectTracker Unit := {}

/-- The first example frame: two detections with score one and one with score one quarter. -/
def firstDetections : List TrackedObject :=
  [exampleObject, exampleLowScoreObject, exampleObjectFar]

/-- The tracker after `track(firstDetections, 1, Euclidean, 5, 0.5)` on a fresh tracker. -/
def trackerAfterFirstCall : MultipleObjectTracker Unit :=
  (MultipleObjectTracker.track exampleOps exampleReal freshTracker firstDetections 1
    DistanceType.Euclidean 5 (1 / 2)).getD {}

/-- The second example frame: a detection three metres from track 1, a low-score detection and
a detection far from both tracks. -/
def secondDetections : List TrackedObject :=
  [exampleObjectEast, exampleLowScoreObject, exampleObjectNew]

/-- The tracker after a second call, `track(secondDetections, 2, Euclidean, 5, 0.5)`. -/
def trackerAfterSecondCall : MultipleObjectTracker Unit :=
  (MultipleObjectTracker.track exampleOps exampleReal trackerAfterFirstCall secondDetections 2
    DistanceType.Euclidean 5 (1 / 2)).getD {}

/-! ## Sequences of `createTrack` calls -/

namespace TrackManager

variable {K : Type}

/-- Successive calls `createTrack(o, timestamp)`, one for each object of `os`: the returned
ids in the order of the calls, and the state after the last call. -/
def createTracks (ops : EstimatorOps K) (s : TrackManager K) (os : List TrackedObject)
    (timestamp : ℚ) : List Id × TrackManager K :=
  os.foldl
    (fun acc o =>
      (acc.1 ++ [(acc.2.createTrack ops o timestamp).1], (acc.2.createTrack ops o timestamp).2))
    ([], s)

end TrackManager

/-- A detection that carries the id 7. -/
def exampleObjectWithId : TrackedObject := { id := 7, x := 1 }

/-- A manager without automatic id generation. -/
def manualIdManager : TrackManager Unit := { mAutoIdGeneration := false }

/-! ## A call of `correct()` that applies no measurement -/

namespace TrackManager

variable {K : Type}

end TrackManager

namespace TrackManager

variable {K : Type}

/-- One round of the loop of `getDriftingTracks`: the entries whose state is pushed so far,
and the state after the reads `mNumberOfTrackedFrames[id]` and, for a reliable id,
`mNonMeasurementFrames[id]`. -/
def driftingStep (acc : List (Id × MultiModelKalmanEstimator K) × TrackManager K)
    (element : Id × MultiModelKalmanEstimator K) :
    List (Id × MultiModelKalmanEstimator K) × TrackManager K :=
  let r := acc.2.isReliable element.1
  if r.1 then
    let s := r.2
    let nonMeasurementFrames := s.mNonMeasurementFrames.getD element.1 0
    let s := { s with mNonMeasurementFrames := s.mNonMeasurementFrames.touch element.1 0 }
    if nonMeasurementFrames > s.mConfig.mNonMeasurementFramesDynamic / 2 then
      (acc.1 ++ [element], s)
    else (acc.1, s)
  else (acc.1, r.2)

/-- The loop of `getDriftingTracks`: the entries of `mKalmanEstimators` whose state is pushed,
and the state after the reads. -/
def driftingEntries (s : TrackManager K) :
    List (Id × MultiModelKalmanEstimator K) × TrackManager K :=
  s.mKalmanEstimators.foldl driftingStep ([], s)

/-- The method `TrackManager::getDriftingTracks`: the tracks, and the state after the
reads. -/
def getDriftingTracks (s : TrackManager K) : List TrackedObject × TrackManager K :=
  (s.driftingEntries.1.map (fun p => p.2.currentState), s.driftingEntries.2)

end TrackManager

/-! ## `Classification` -/

/-- The function template `rv::clamp` of `Utils.hpp`, for `double`. -/
def clamp (value lower upper : ℚ) : ℚ := max lower (min value upper)

/-- The function `classification::combine`; it throws on vectors of different sizes. -/
def classification.combine (classificationA classificationB : Classification) :
    Option Classification :=
  if classificationA.length ≠ classificationB.length then none
  else
    let unknownA := clamp (1 - classificationA.sum) 0 1
    let unknownB := clamp (1 - classificationB.sum) 0 1
    let elementCombination := List.zipWith (fun a b => a * b) classificationA classificationB
    some (elementCombination.map
      (fun p => p / (elementCombination.sum + unknownA * unknownB + 1 / 1000000)))

/-- The function `classification::similarity`; the exception of `distance` passes through. -/
def classification.similarity (R : RealOps) (classificationA classificationB : Classification) :
    Option ℚ :=
  match classification.distance R classificationA classificationB with
  | none => none
  | some d => some (1 - d)

/-- The private state of the class `ClassificationData`; the default is the value set by the
default constructor. -/
structure ClassificationData where
  classes : List String := ["unknown"]
  deriving DecidableEq

namespace ClassificationData

/-- The constructor `ClassificationData(classes_)`; it throws on an empty vector. -/
def ofClasses (classes_ : List String) : Option ClassificationData :=
  if classes_.isEmpty then none else some { classes := classes_ }

/-- The call `std::find(classes.cbegin(), classes.cend(), class_)`, as the distance of the
returned iterator from `cbegin()`: the position of the first element equal to `class_`, and
`classes.size()` for the end iterator. -/
def findPosition : List String → String → Nat
  | [], _ => 0
  | c :: cs, class_ => if c = class_ then 0 else findPosition cs class_ + 1

/-- The method `ClassificationData::classIndex`; it throws when `std::find` returns the end
iterator. -/
def classIndex (d : ClassificationData) (class_ : String) : Option Nat :=
  let it := findPosition d.classes class_
  if it = d.classes.length then none else some it

/-- The method `ClassificationData::classification`.  The unsigned difference
`classes.size() - 1` is evaluated after `classIndex` has returned, when the table is not
empty, so it does not wrap. -/
def classification (d : ClassificationData) (className : String) (probability : ℚ) :
    Option Classification :=
  match d.classIndex className with
  | none => none
  | some j =>
    let unknown := clamp (1 - probability) 0 1
    let probabilities : Classification :=
      List.replicate d.classes.length (unknown / max (((d.classes.length - 1 : Nat) : ℚ)) 1)
    some (probabilities.set j probability)

/-- The method `ClassificationData::setClasses`. -/
def setClasses (d : ClassificationData) (classes_ : List String) : ClassificationData :=
  { d with classes := classes_ }

/-- The method `ClassificationData::uniformPrior`. -/
def uniformPrior (d : ClassificationData) (basePrior : ℚ) : Classification :=
  List.replicate d.classes.length basePrior

/-- The method `ClassificationData::prior`. -/
def prior (d : ClassificationData) : Classification :=
  let basePrior : ℚ := (d.classes.length : ℚ)
  d.uniformPrior (1 / basePrior)

end ClassificationData

/-! ## Statements about classification vectors -/

/-- A proper distribution: no entry is negative and the entries sum to one. -/
def IsDistribution (a : Classification) : Prop := (∀ x ∈ a, 0 ≤ x) ∧ a.sum = 1

/-- The non-zero supports of `a` and `b` are disjoint: at no position both entries are
non-zero. -/
def DisjointSupport (a b : Classification) : Prop := ∀ p ∈ List.zip a b, p.1 = 0 ∨ p.2 = 0

/-- The clamp of the specification of `combine`, by cases. -/
def specClamp (value lower upper : ℚ) : ℚ :=
  if value < lower then lower else if upper < value then upper else value

/-- The sum of the entries of the element-wise product `p = a ⊙ b`. -/
def productSum (a b : Classification) : ℚ :=
  ((List.range a.length).map (fun i => a.getD i 0 * b.getD i 0)).sum

/-- The result of `combine` as the specification describes it: the component `i` is
`p_i / (sum(p) + uA * uB + 1e-6)` with `p_i = a_i * b_i`, `uA = clamp(1 - sum(a), 0, 1)` and
`uB = clamp(1 - sum(b), 0, 1)`. -/
def specCombine (a b : Classification) : Classification :=
  let uA := specClamp (1 - a.sum) 0 1
  let uB := specClamp (1 - b.sum) 0 1
  (List.range a.length).map
    (fun i => a.getD i 0 * b.getD i 0 / (productSum a b + uA * uB + 1 / 1000000))

/-- The square root maps the unit interval into itself, as `std::sqrt` does. -/
def RealOps.SqrtUnit (R : RealOps) : Prop :=
  ∀ x : ℚ, 0 ≤ x → x ≤ 1 → 0 ≤ R.sqrt x ∧ R.sqrt x ≤ 1

/-- The class table of the tracking tests. -/
def testClasses : ClassificationData := { classes := ["Car", "Bike", "Pedestrian"] }

/-! ## Angles (`Utils.hpp`) -/

/-- The functions `std::cos`, `std::sin` and `std::atan2` (arguments `y`, `x`) and the constant
`M_PI`, over an ordered field `F` of numbers.  The claims on angles are about exact real
trigonometry, so the field is left open here; `F = ℝ` with the real functions is the intended
instance. -/
structure AngleOps (F : Type) where
  cos : F → F
  sin : F → F
  atan2 : F → F → F
  pi : F

/-- The function `rv::angleDifference`. -/
def angleDifference {F : Type} [LinearOrderedField F] (T : AngleOps F) (theta1 theta2 : F) : F :=
  let ax := T.cos theta1
  let ay := T.sin theta1
  let bx := T.cos theta2
  let bY := T.sin theta2
  let cx := ax * bx + ay * bY
  let cy := ax * bY - ay * bx
  T.atan2 cy cx

/-- The function `rv::deltaTheta`. -/
def deltaTheta {F : Type} [LinearOrderedField F] (T : AngleOps F) (theta1 theta2 : F) : F :=
  let angleA := angleDifference T theta1 theta2
  let angleB := angleDifference T (theta1 + T.pi) theta2
  if |angleA| < |angleB| then angleA else angleB

/-- The facts of exact trigonometry behind the periodicity of `deltaTheta`: the period `2π`,
the half-turn identities, the Pythagorean identity, and `atan2(0, 1) = 0`. -/
structure AngleOps.Exact {F : Type} [LinearOrderedField F] (T : AngleOps F) : Prop where
  cos_add_two_pi : ∀ x, T.cos (x + 2 * T.pi) = T.cos x
  sin_add_two_pi : ∀ x, T.sin (x + 2 * T.pi) = T.sin x
  cos_add_pi : ∀ x, T.cos (x + T.pi) = -T.cos x
  sin_add_pi : ∀ x, T.sin (x + T.pi) = -T.sin x
  cos_sq_add_sin_sq : ∀ x, T.cos x * T.cos x + T.sin x * T.sin x = 1
  atan2_zero_one : T.atan2 0 1 = 0

/-! ## Motion models -/

/-- The interface `cv::detail::tracking::UkfSystemModel`.  The output matrix of the two
functions is passed in and returned: `stateConversionFunction x_k u_k v_k x_kplus1` and
`measurementFunction x_k n_k z_k` give the contents of `x_kplus1` and `z_k` after the call.
Elements outside a matrix are not read or written by the callers of this development; the
embedding reads 0 and writes nothing there. -/
structure UkfSystemModel where
  stateConversionFunction : Vec → Vec → Vec → Vec → Option Vec
  measurementFunction : Vec → Vec → Vec → Option Vec

/-- The in-place sum `a += b` of two column vectors; OpenCV throws when the sizes differ. -/
def vecAddAssign (a b : Vec) : Option Vec :=
  if a.length = b.length then some (List.zipWith (fun x y => x + y) a b) else none

/-- The method `CAModel::stateConversionFunction`. -/
def CAModel.stateConversionFunction (x_k u_k v_k x_kplus1 : Vec) : Option Vec :=
  let vk := v_k
  let deltaT := u_k.getD 0 0
  let x := x_k.getD 0 0
  let y := x_k.getD 1 0
  let vx := x_k.getD 2 0
  let vy := x_k.getD 3 0
  let ax := x_k.getD 4 0
  let ay := x_k.getD 5 0
  let x_kplus1 := x_kplus1.set 0 (x + vx * deltaT + 1 / 2 * ax * deltaT * deltaT)
  let x_kplus1 := x_kplus1.set 1 (y + vy * deltaT + 1 / 2 * ay * deltaT * deltaT)
  let x_kplus1 := x_kplus1.set 2 (vx + ax * deltaT)
  let x_kplus1 := x_kplus1.set 3 (vy + ay * deltaT)
  let x_kplus1 := x_kplus1.set 4 ax
  let x_kplus1 := x_kplus1.set 5 ay
  let x_kplus1 := x_kplus1.set 6 (x_k.getD 6 0)
  let x_kplus1 := x_kplus1.set 7 (x_k.getD 7 0)
  let x_kplus1 := x_kplus1.set 8 (x_k.getD 8 0)
  let x_kplus1 := x_kplus1.set 9 (x_k.getD 9 0)
  let x_kplus1 := x_kplus1.set 10 (x_k.getD 10 0)
  let x_kplus1 := x_kplus1.set 11 0
  vecAddAssign x_kplus1 vk

/-- The method `CAModel::measurementFunction`. -/
def CAModel.measurementFunction (x_k n_k z_k : Vec) : Option Vec :=
  let z_k := z_k.set 0 (x_k.getD 0 0)
  let z_k := z_k.set 1 (x_k.getD 1 0)
  let z_k := z_k.set 2 (x_k.getD 6 0)
  let z_k := z_k.set 3 (x_k.getD 7 0)
  let z_k := z_k.set 4 (x_k.getD 8 0)
  let z_k := z_k.set 5 (x_k.getD 9 0)
  let z_k := z_k.set 6 (x_k.getD 10 0)
  vecAddAssign z_k n_k

/-- The class `CAModel`. -/
def CAModel : UkfSystemModel :=
  { stateConversionFunction := CAModel.stateConversionFunction
    measurementFunction := CAModel.measurementFunction }

/-- The method `CPModel::stateConversionFunction`; the time step `deltaT` is read and not
used. -/
def CPModel.stateConversionFunction (x_k u_k v_k x_kplus1 : Vec) : Option Vec :=
  let vk := v_k
  let _deltaT := u_k.getD 0 0
  let x_kplus1 := x_kplus1.set 0 (x_k.getD 0 0)
  let x_kplus1 := x_kplus1.set 1 (x_k.getD 1 0)
  let x_kplus1 := x_kplus1.set 2 0
  let x_kplus1 := x_kplus1.set 3 0
  let x_kplus1 := x_kplus1.set 4 0
  let x_kplus1 := x_kplus1.set 5 0
  let x_kplus1 := x_kplus1.set 6 (x_k.getD 6 0)
  let x_kplus1 := x_kplus1.set 7 (x_k.getD 7 0)
  let x_kplus1 := x_kplus1.set 8 (x_k.getD 8 0)
  let x_kplus1 := x_kplus1.set 9 (x_k.getD 9 0)
  let x_kplus1 := x_kplus1.set 10 (x_k.getD 10 0)
  let x_kplus1 := x_kplus1.set 11 0
  vecAddAssign x_kplus1 vk

/-- The method `CPModel::measurementFunction`. -/
def CPModel.measurementFunction (x_k n_k z_k : Vec) : Option Vec :=
  let z_k := z_k.set 0 (x_k.getD 0 0)
  let z_k := z_k.set 1 (x_k.getD 1 0)
  let z_k := z_k.set 2 (x_k.getD 6 0)
  let z_k := z_k.set 3 (x_k.getD 7 0)
  let z_k := z_k.set 4 (x_k.getD 8 0)
  let z_k := z_k.set 5 (x_k.getD 9 0)
  let z_k := z_k.set 6 (x_k.getD 10 0)
  vecAddAssign z_k n_k

/-- The class `CPModel`. -/
def CPModel : UkfSystemModel :=
  { stateConversionFunction := CPModel.stateConversionFunction
    measurementFunction := CPModel.measurementFunction }

/-! ## Matrices (`cv::Mat` of type `CV_64F`) -/

/-- The functions of OpenCV and of `<cmath>` that the filters call and whose code is not part
of the sources; the embedding leaves them open.  `inv` is `Mat::inv(cv::DECOMP_SVD)`,
`determinant` is `cv::determinant`, and `cholesky` is `hal::Cholesky64f` on the matrix `L` in
place: the success flag and the contents of `L` after the call. -/
structure NumericOps where
  sqrt : ℚ → ℚ
  exp : ℚ → ℚ
  log : ℚ → ℚ
  pi : ℚ
  inv : Mat → Mat
  determinant : Mat → ℚ
  cholesky : Mat → Bool × Mat

/-- The member `cols` of a matrix with at least one row. -/
def matCols (m : Mat) : Nat := (m.headD []).length

/-- The matrix has `rows` rows of `cols` entries. -/
def hasShape (m : Mat) (rows cols : Nat) : Bool :=
  decide (m.length = rows) && m.all (fun row => decide (row.length = cols))

/-- The element `at<double>(i, j)`. -/
def entry (m : Mat) (i j : Nat) : ℚ := (m.getD i []).getD j 0

/-- The column `j` of a matrix. -/
def column (m : Mat) (j : Nat) : Vec := m.map (fun row => row.getD j 0)

/-- The member `t()`. -/
def matTranspose (m : Mat) : Mat := (List.range (matCols m)).map (column m)

/-- The sum of two column vectors of one size. -/
def vecAdd (a b : Vec) : Vec := List.zipWith (fun x y => x + y) a b

/-- The difference of two column vectors of one size. -/
def vecSub (a b : Vec) : Vec := List.zipWith (fun x y => x - y) a b

/-- The product of a number and a column vector. -/
def vecScale (c : ℚ) (a : Vec) : Vec := a.map (fun x => c * x)

/-- The sum of two matrices of one shape. -/
def matAdd (a b : Mat) : Mat := List.zipWith vecAdd a b

/-- The difference of two matrices of one shape. -/
def matSub (a b : Mat) : Mat := List.zipWith vecSub a b

/-- The product of a number and a matrix. -/
def matScale (c : ℚ) (a : Mat) : Mat := a.map (vecScale c)

/-- The product of a matrix and a column vector that fit. -/
def matVec (a : Mat) (v : Vec) : Vec := a.map (fun row => dot row v)

/-- The product of two matrices that fit. -/
def matMul (a b : Mat) : Mat :=
  a.map (fun row => (List.range (matCols b)).map (fun j => dot row (column b j)))

/-- The expression `a + b` on column vectors; OpenCV throws when the sizes differ. -/
def vecAdd? (a b : Vec) : Option Vec := if a.length = b.length then some (vecAdd a b) else none

/-- The expression `a - b` on column vectors; OpenCV throws when the sizes differ. -/
def vecSub? (a b : Vec) : Option Vec := if a.length = b.length then some (vecSub a b) else none

/-- The expression `a + b` on matrices; OpenCV throws when the shapes differ. -/
def matAdd? (a b : Mat) : Option Mat :=
  if hasShape a a.length (matCols a) && hasShape b a.length (matCols a) then some (matAdd a b)
  else none

/-- The expression `a - b` on matrices; OpenCV throws when the shapes differ. -/
def matSub? (a b : Mat) : Option Mat :=
  if hasShape a a.length (matCols a) && hasShape b a.length (matCols a) then some (matSub a b)
  else none

/-- The expression `a * v` for a matrix and a column vector; OpenCV throws unless `a` has as
many columns as `v` has rows. -/
def matVec? (a : Mat) (v : Vec) : Option Vec :=
  if hasShape a a.length v.length then some (matVec a v) else none

/-- The expression `a * b` on matrices; OpenCV throws unless `a` has as many columns as `b`
has rows. -/
def matMul? (a b : Mat) : Option Mat :=
  if hasShape a a.length b.length && hasShape b b.length (matCols b) then some (matMul a b)
  else none

/-- The call `repeat(v, 1, n)`: the matrix with `n` columns equal to `v`. -/
def repeatColumn (v : Vec) (n : Nat) : Mat := v.map (fun x => List.replicate n x)

/-- The region `m(Rect(i, 0, 1, rows))`: the first `rows` entries of column `i`; OpenCV throws
when the region is not inside the matrix. -/
def roiColumn (m : Mat) (i rows : Nat) : Option Vec :=
  if rows ≤ m.length ∧ i < matCols m then some ((column m i).take rows) else none

/-- The matrix `m` after `col` was written through the view `m(Rect(i, 0, 1, rows))`. -/
def setColumn (m : Mat) (i : Nat) (col : Vec) : Mat :=
  (List.range m.length).map (fun r => (m.getD r []).set i (col.getD r (entry m r i)))

/-- The matrix `Mat::zeros(rows, cols)`. -/
def zerosMat (rows cols : Nat) : Mat := List.replicate rows (List.replicate cols 0)

/-! ## `UnscentedKalmanFilterMod` -/

/-- The members of the class `UnscentedKalmanFilterMod`.  The element type is `CV_64F`, which
is what the estimator leaves in the parameters; `model` names the system model, whose
functions the methods receive as the parameter `Sys`. -/
structure UnscentedKalmanFilterMod where
  DP : Nat
  MP : Nat
  CP : Nat
  state : Vec
  errorCov : Mat
  processNoiseCov : Mat
  measurementNoiseCov : Mat
  model : MotionModel
  alpha : ℚ
  k : ℚ
  beta : ℚ
  lambda : ℚ
  tmpLambda : ℚ
  measurementEstimate : Vec
  sigmaPoints : Mat
  transitionSPFuncVals : Mat
  measurementSPFuncVals : Mat
  transitionSPFuncValsCenter : Mat
  measurementSPFuncValsCenter : Mat
  Wm : Vec
  Wc : Mat
  gain : Mat
  xyCov : Mat
  yyCov : Mat
  r : Vec
  q : Vec
  deriving DecidableEq

/-- The matrix `m` after the assignment `m.at<double>(i, j) = v`. -/
def setEntry (m : Mat) (i j : Nat) (v : ℚ) : Mat := m.set i ((m.getD i []).set j v)

/-- The function template `choleskyDecomposition`: the flag `success` and the contents of `L`
after the call. -/
def choleskyDecomposition (O : NumericOps) (A : Mat) (asize : Nat) (L : Mat) : Bool × Mat :=
  let L : Mat := (List.range L.length).map (fun i =>
    (List.range (L.getD i []).length).map (fun j =>
      if i < asize ∧ j ≤ i then entry A i j else entry L i j))
  let r := O.cholesky L
  let success := r.1
  let L := r.2
  if success then
    (success, (List.range L.length).map (fun i =>
      (List.range (L.getD i []).length).map (fun j =>
        if i < asize ∧ i < j ∧ j < asize then 0 else entry L i j)))
  else (success, L)

namespace UnscentedKalmanFilterMod

/-- The constructor `UnscentedKalmanFilterMod(params)`; a failed `CV_Assert` throws. -/
def create (params : UnscentedKalmanFilterParams) : Option UnscentedKalmanFilterMod :=
  if ¬ (params.DP > 0 ∧ params.MP > 0) then none
  else if ¬ (params.stateInit.length = params.DP) then none
  else if ¬ (hasShape params.errorCovInit params.DP params.DP = true) then none
  else if ¬ (hasShape params.processNoiseCov params.DP params.DP = true) then none
  else if ¬ (hasShape params.measurementNoiseCov params.MP params.MP = true) then none
  else
    let alpha := params.alpha
    let beta := params.beta
    let k := params.k
    let DP := params.DP
    let MP := params.MP
    let lambda := alpha * alpha * ((DP : ℚ) + k) - (DP : ℚ)
    let tmpLambda := lambda + (DP : ℚ)
    let tmp2Lambda := 1 / 2 / tmpLambda
    let Wm := vecScale tmp2Lambda (List.replicate (2 * DP + 1) 1)
    let Wc := matScale tmp2Lambda (scaledEye (2 * DP + 1) 1)
    let Wm := Wm.set 0 (lambda / tmpLambda)
    let Wc := setEntry Wc 0 0 (lambda / tmpLambda + 1 - alpha * alpha + beta)
    some
      { DP := DP, MP := MP, CP := max params.CP 0
        state := params.stateInit, errorCov := params.errorCovInit
        processNoiseCov := params.processNoiseCov
        measurementNoiseCov := params.measurementNoiseCov
        model := params.model
        alpha := alpha, k := k, beta := beta, lambda := lambda, tmpLambda := tmpLambda
        measurementEstimate := zeros MP
        sigmaPoints := []
        transitionSPFuncVals := zerosMat DP (2 * DP + 1)
        measurementSPFuncVals := zerosMat MP (2 * DP + 1)
        transitionSPFuncValsCenter := zerosMat DP (2 * DP + 1)
        measurementSPFuncValsCenter := zerosMat MP (2 * DP + 1)
        Wm := Wm, Wc := Wc
        gain := zerosMat DP DP
        xyCov := [], yyCov := []
        r := zeros MP, q := zeros DP }

/-- The method `getState`. -/
def getState (f : UnscentedKalmanFilterMod) : Vec := f.state

/-- The method `getErrorCov`. -/
def getErrorCov (f : UnscentedKalmanFilterMod) : Mat := f.errorCov

/-- The method `getMeasurementCov`. -/
def getMeasurementCov (f : UnscentedKalmanFilterMod) : Mat := f.yyCov

/-- The method `getProcessNoiseCov`. -/
def getProcessNoiseCov (f : UnscentedKalmanFilterMod) : Mat := f.processNoiseCov

/-- The method `getMeasurementNoiseCov`. -/
def getMeasurementNoiseCov (f : UnscentedKalmanFilterMod) : Mat := f.measurementNoiseCov

/-- The method `setStateAndCovariance(cv::Mat state, cv::Mat errorCov)`.  The parameters carry
the names of the members `state` and `errorCov` and hide them in the body, so the two
assignments `state = state.clone()` and `errorCov = errorCov.clone()` replace the parameters;
no member is written. -/
def setStateAndCovariance (f : UnscentedKalmanFilterMod) (state : Vec) (errorCov : Mat) :
    UnscentedKalmanFilterMod :=
  let state := state
  let errorCov := errorCov
  (fun (_ : Vec) (_ : Mat) => f) state errorCov

/-- The method `getSigmaPoints`.  The flag returned by `choleskyDecomposition` is not read. -/
def getSigmaPoints (O : NumericOps) (mean : Vec) (covMatrix : Mat) (coef : ℚ) : Option Mat :=
  let n := mean.length
  let covMatrixL := covMatrix
  let covMatrixL := (choleskyDecomposition O covMatrix covMatrix.length covMatrixL).2
  let covMatrixL := matScale coef covMatrixL
  if hasShape covMatrixL n n then
    some ((List.range n).map (fun i =>
      mean.getD i 0 ::
        ((List.range n).map (fun j => mean.getD i 0 + entry covMatrixL i j) ++
          (List.range n).map (fun j => mean.getD i 0 - entry covMatrixL i j))))
  else none

/-- The loops of `predict` over the sigma points: column `i` of `vals` is replaced by the value
of `fn` at column `i` of `sigmaPoints`. -/
def evalAtSigmaPoints (fn : Vec → Vec → Option Vec) (sigmaPoints : Mat) (DP rows : Nat)
    (vals : Mat) : Option Mat :=
  (List.range (2 * DP + 1)).foldlM
    (fun vals i =>
      match roiColumn sigmaPoints i DP with
      | none => none
      | some x =>
        match roiColumn vals i rows with
        | none => none
        | some fx =>
          match fn x fx with
          | none => none
          | some fx => some (setColumn vals i fx))
    vals

/-- The method `predict(control)`: the filter after the call; the returned matrix is its
`state`. -/
def predict (O : NumericOps) (Sys : MotionModel → UkfSystemModel) (f : UnscentedKalmanFilterMod)
    (control : Vec) : Option UnscentedKalmanFilterMod :=
  match getSigmaPoints O f.state f.errorCov (O.sqrt f.tmpLambda) with
  | none => none
  | some sigmaPoints =>
  match evalAtSigmaPoints (fun x fx => (Sys f.model).stateConversionFunction x control f.q fx)
    sigmaPoints f.DP f.DP f.transitionSPFuncVals with
  | none => none
  | some transitionSPFuncVals =>
  match matVec? transitionSPFuncVals f.Wm with
  | none => none
  | some state =>
  match matSub? transitionSPFuncVals (repeatColumn state (2 * f.DP + 1)) with
  | none => none
  | some transitionSPFuncValsCenter =>
  match matMul? transitionSPFuncValsCenter f.Wc with
  | none => none
  | some t =>
  match matMul? t (matTranspose transitionSPFuncValsCenter) with
  | none => none
  | some t =>
  match matAdd? t f.processNoiseCov with
  | none => none
  | some errorCov =>
  match getSigmaPoints O state errorCov (O.sqrt f.tmpLambda) with
  | none => none
  | some sigmaPoints =>
  match evalAtSigmaPoints (fun x hx => (Sys f.model).measurementFunction x f.r hx)
    sigmaPoints f.DP f.MP f.measurementSPFuncVals with
  | none => none
  | some measurementSPFuncVals =>
  match matVec? measurementSPFuncVals f.Wm with
  | none => none
  | some measurementEstimate =>
  match matSub? measurementSPFuncVals (repeatColumn measurementEstimate (2 * f.DP + 1)) with
  | none => none
  | some measurementSPFuncValsCenter =>
  match matMul? measurementSPFuncValsCenter f.Wc with
  | none => none
  | some t =>
  match matMul? t (matTranspose measurementSPFuncValsCenter) with
  | none => none
  | some t =>
  match matAdd? t f.measurementNoiseCov with
  | none => none
  | some yyCov =>
  some { f with
    sigmaPoints := sigmaPoints
    transitionSPFuncVals := transitionSPFuncVals
    state := state
    transitionSPFuncValsCenter := transitionSPFuncValsCenter
    errorCov := errorCov
    measurementSPFuncVals := measurementSPFuncVals
    measurementEstimate := measurementEstimate
    measurementSPFuncValsCenter := measurementSPFuncValsCenter
    yyCov := yyCov }

/-- The method `correct(measurement)`: the filter after the call; the returned matrix is its
`state`. -/
def correct (O : NumericOps) (f : UnscentedKalmanFilterMod) (measurement : Vec) :
    Option UnscentedKalmanFilterMod :=
  match matMul? f.transitionSPFuncValsCenter f.Wc with
  | none => none
  | some t =>
    match matMul? t (matTranspose f.measurementSPFuncValsCenter) with
    | none => none
    | some xyCov =>
      match matMul? xyCov (O.inv f.yyCov) with
      | none => none
      | some gain =>
        match vecSub? measurement f.measurementEstimate with
        | none => none
        | some innovation =>
          match matVec? gain innovation with
          | none => none
          | some step =>
            match vecAdd? f.state step with
            | none => none
            | some state =>
              match matMul? gain (matTranspose xyCov) with
              | none => none
              | some t =>
                match matSub? f.errorCov t with
                | none => none
                | some errorCov =>
                  some { f with xyCov := xyCov, gain := gain, state := state,
                                errorCov := errorCov }

end UnscentedKalmanFilterMod

/-- The parameters with which `initialize` constructs the filter of the CA model in a
default-constructed estimator, for the detection `exampleObject` and the default noise values
of `TrackManagerConfig`. -/
def trackerParams : UnscentedKalmanFilterParams :=
  { DP := (MultiModelKalmanEstimator.default : MultiModelKalmanEstimator Unit).mDP
    MP := (MultiModelKalmanEstimator.default : MultiModelKalmanEstimator Unit).mMP
    CP := (MultiModelKalmanEstimator.default : MultiModelKalmanEstimator Unit).mCP
    model := MotionModel.CA
    stateInit := exampleObject.stateVector
    errorCovInit := scaledEye 12 1
    measurementNoiseCov := scaledEye 7 (1 / 100)
    processNoiseCov := scaledEye 12 (1 / 1000)
    alpha := (MultiModelKalmanEstimator.default : MultiModelKalmanEstimator Unit).mAlpha
    beta := (MultiModelKalmanEstimator.default : MultiModelKalmanEstimator Unit).mBeta
    k := (MultiModelKalmanEstimator.default : MultiModelKalmanEstimator Unit).mKappa }

/-- The shapes that the constructor gives to the members that `predict` reads. -/
structure UnscentedKalmanFilterMod.Shaped (f : UnscentedKalmanFilterMod) : Prop where
  posDP : 0 < f.DP
  posMP : 0 < f.MP
  shapeF : hasShape f.transitionSPFuncVals f.DP (2 * f.DP + 1) = true
  shapeH : hasShape f.measurementSPFuncVals f.MP (2 * f.DP + 1) = true
  lengthWm : f.Wm.length = 2 * f.DP + 1
  shapeWc : hasShape f.Wc (2 * f.DP + 1) (2 * f.DP + 1) = true
  shapeQ : hasShape f.processNoiseCov f.DP f.DP = true
  shapeR : hasShape f.measurementNoiseCov f.MP f.MP = true

/-- The shapes of the members of a filter after `predict`. -/
structure UnscentedKalmanFilterMod.Predicted (f : UnscentedKalmanFilterMod) : Prop where
  shaped : f.Shaped
  lengthState : f.state.length = f.DP
  shapeP : hasShape f.errorCov f.DP f.DP = true
  shapeFc : hasShape f.transitionSPFuncValsCenter f.DP (2 * f.DP + 1) = true
  shapeHc : hasShape f.measurementSPFuncValsCenter f.MP (2 * f.DP + 1) = true
  lengthEstimate : f.measurementEstimate.length = f.MP
  shapeYy : hasShape f.yyCov f.MP f.MP = true

/-! ## An instance of the numeric functions

The examples below evaluate the filters with this instance: square roots to three decimals,
rational stand-ins for `exp` and `log`, Gauss-Jordan elimination for the inverse and the
determinant, and the factorisation loop of OpenCV's generic Cholesky routine.  No theorem with
a parameter `O` depends on it. -/

/-- Newton's iteration for the integer square root of `n`, from the estimate `x`. -/
def isqrtIter (n : Nat) : Nat → Nat → Nat
  | 0, x => x
  | fuel + 1, x =>
    let y := (x + n / x) / 2
    if y < x then isqrtIter n fuel y else x

/-- The square root of the example instance: exact to three decimals, zero below zero. -/
def exampleSqrt (x : ℚ) : ℚ :=
  if x ≤ 0 then 0
  else
    let n := (x.num.toNat * 1000000) / x.den
    ((isqrtIter n 64 (n + 1) : Nat) : ℚ) / 1000

/-- The exponential of the example instance: the second-order series and its reciprocal. -/
def exampleExp (x : ℚ) : ℚ :=
  if 0 ≤ x then 1 + x + x * x / 2 else 1 / (1 - x + x * x / 2)

/-- The logarithm of the example instance: the first Padé approximant at one. -/
def exampleLog (x : ℚ) : ℚ := 2 * (x - 1) / (x + 1)

/-- One column of Gauss-Jordan elimination on a matrix of `n` rows, with the product of the
pivots so far. -/
def eliminateColumn (n : Nat) (st : ℚ × Mat) (c : Nat) : ℚ × Mat :=
  match (List.range n).find? (fun r => decide (c ≤ r) && decide (entry st.2 r c ≠ 0)) with
  | none => (0, st.2)
  | some r =>
    let rowC := st.2.getD c []
    let rowR := st.2.getD r []
    let m := (st.2.set r rowC).set c rowR
    let p := entry m c c
    let pivotRow := vecScale (1 / p) rowR
    ((if r = c then st.1 * p else -(st.1 * p)),
      (List.range n).map (fun i =>
        if i = c then pivotRow else vecSub (m.getD i []) (vecScale (entry m i c) pivotRow)))

/-- Gauss-Jordan elimination of `A` next to the unit matrix: the determinant and the reduced
matrix. -/
def eliminate (A : Mat) : ℚ × Mat :=
  let n := A.length
  let aug := (List.range n).map (fun i =>
    A.getD i [] ++ (List.range n).map (fun j => if i = j then (1 : ℚ) else 0))
  (List.range n).foldl (eliminateColumn n) (1, aug)

/-- The inverse of the example instance. -/
def exampleInv (A : Mat) : Mat := (eliminate A).2.map (fun row => row.drop A.length)

/-- The determinant of the example instance. -/
def exampleDeterminant (A : Mat) : ℚ := (eliminate A).1

/-- The Cholesky factorisation of the example instance, in place as OpenCV's generic routine
does it: row by row, the reciprocal of the pivot root on the diagonal until the end, and the
return of `false` at the first pivot below the machine epsilon, which leaves the rows from
there on as they were. -/
def exampleCholesky (A : Mat) : Bool × Mat :=
  let m := A.length
  let r := (List.range m).foldl
    (fun (st : Bool × Mat) i =>
      if st.1 = false then st
      else
        let L := (List.range i).foldl
          (fun L j =>
            let s := entry L i j - ((List.range j).map (fun k => entry L i k * entry L j k)).sum
            setEntry L i j (s * entry L j j))
          st.2
        let s := entry L i i - ((List.range i).map (fun k => entry L i k * entry L i k)).sum
        if s < 1 / 2 ^ 52 then (false, L) else (true, setEntry L i i (1 / exampleSqrt s)))
    (true, A)
  if r.1 then (true, (List.range m).foldl (fun L i => setEntry L i i (1 / entry L i i)) r.2)
  else r

/-- The example instance of the numeric functions. -/
def exampleNumeric : NumericOps :=
  { sqrt := exampleSqrt
    exp := exampleExp
    log := exampleLog
    pi := 355 / 113
    inv := exampleInv
    determinant := exampleDeterminant
    cholesky := exampleCholesky }

/-- The parameters of `trackerParams` when the configuration value `mInitStateCovariance` is
`-1`: the initial error covariance is `-I`, which is not positive definite. -/
def indefiniteParams : UnscentedKalmanFilterParams :=
  { trackerParams with errorCovInit := scaledEye 12 (-1) }

/-! ## Model probabilities -/

/-- The function `expNormalize`: the contents of `normalizedValues` after the call; an empty
`values` has no largest element to read. -/
def expNormalize (O : NumericOps) (values : List ℚ) : Option (List ℚ) :=
  match values with
  | [] => none
  | first :: rest =>
    let maxValue := rest.foldl max first
    let normalizedValues := values.map (fun value => O.exp (value - maxValue))
    let sum := normalizedValues.foldl (fun sum normalizedValue => sum + normalizedValue) 0
    some (normalizedValues.map (fun value => value / sum))

/-- The function `reescale`. -/
def reescale (value maxValue minValue : ℚ) : ℚ := value * (maxValue - minValue) + minValue

namespace MultiModelKalmanEstimator

/-- The log likelihood that `updateModelProbability` computes for one model: the measurement
difference, the product `dᵀ S⁻¹ d` and `-0.5 log det(2 π S) - 0.5 (dᵀ S⁻¹ d)(0, 0)`; the
subtraction, the two products and `determinant` throw on shapes that do not fit. -/
def logLikelihood (O : NumericOps) (measurement predictedMeasurement : Vec)
    (measurementNoiseCovariance : Mat) : Option ℚ :=
  match vecSub? measurement predictedMeasurement with
  | none => none
  | some measurementDifference =>
    match matMul? [measurementDifference] (O.inv measurementNoiseCovariance) with
    | none => none
    | some t =>
      match matVec? t measurementDifference with
      | none => none
      | some intermediateCalculation =>
        if hasShape measurementNoiseCovariance measurementNoiseCovariance.length
            measurementNoiseCovariance.length then
          let det := O.determinant (matScale (2 * O.pi) measurementNoiseCovariance)
          some (-(1 / 2) * O.log det - 1 / 2 * intermediateCalculation.getD 0 0)
        else none

/-- The vector `likelihood` of `updateModelProbability`; the loops over the models are taken
together, and an index outside one of the two vectors counts as a throw. -/
def logLikelihoods (O : NumericOps) (measurement : Vec) (predictedMeasurements : List Vec)
    (measurementNoiseCovariance : List Mat) (nModels : Nat) : Option (List ℚ) :=
  collect ((List.range nModels).map (fun j =>
    match predictedMeasurements[j]?, measurementNoiseCovariance[j]? with
    | some p, some S => logLikelihood O measurement p S
    | _, _ => none))

/-- The normalising value `lambdaSum` of `updateModelProbability`. -/
def lambdaSum (lambda previousModelProbability : List ℚ) (nModels : Nat) : ℚ :=
  (List.range nModels).foldl
    (fun lambdaSum j => lambdaSum + lambda.getD j 0 * previousModelProbability.getD j 0) 0

/-- The method `updateModelProbability`: the contents of `modelProbability` after the call. -/
def updateModelProbability (O : NumericOps) (measurement : Vec)
    (predictedMeasurements : List Vec) (measurementNoiseCovariance : List Mat)
    (modelProbability : Vec) (maxProbability minProbability : ℚ) : Option Vec :=
  let nModels := modelProbability.length
  let previousModelProbability := modelProbability
  match logLikelihoods O measurement predictedMeasurements measurementNoiseCovariance nModels with
  | none => none
  | some likelihood =>
    match expNormalize O likelihood with
    | none => none
    | some lambda =>
      some ((List.range nModels).map (fun j =>
        let probability := previousModelProbability.getD j 0 * lambda.getD j 0 /
          lambdaSum lambda previousModelProbability nModels
        reescale probability maxProbability minProbability))

end MultiModelKalmanEstimator

/-! ## Reachable states of the track manager -/

namespace TrackManager

variable {K : Type}

/-- The states that the calls of the public interface reach from a new manager with automatic
id generation: `createTrack`, the two `predict` overloads, `setMeasurement`, `correct`,
`deleteTrack`, `suspendTrack`, `reactivateTrack`, and the state that the reads of
`getReliableTracks`, `getUnreliableTracks`, `getDriftingTracks` and `isReliable` leave.  A call
that throws reaches no state; the accessors `getTracks`, `getSuspendedTracks`, `getTrack`,
`getKalmanEstimator`, `hasId` and `isSuspended` leave the state as it is. -/
inductive Reachable (ops : EstimatorOps K) : TrackManager K → Prop
  | new (config : TrackManagerConfig) : Reachable ops { mConfig := config }
  | createTrack (s : TrackManager K) (object : TrackedObject) (timestamp : ℚ) :
      Reachable ops s → Reachable ops (s.createTrack ops object timestamp).2
  | predict (s : TrackManager K) (deltaT : ℚ) : Reachable ops s → Reachable ops (s.predict ops deltaT)
  | predictAt (s : TrackManager K) (timestamp : ℚ) :
      Reachable ops s → Reachable ops (s.predictAt ops timestamp)
  | setMeasurement (s : TrackManager K) (id : Id) (measurement : TrackedObject) :
      Reachable ops s → Reachable ops (s.setMeasurement id measurement)
  | correct (s t : TrackManager K) : Reachable ops s → s.correct ops = some t → Reachable ops t
  | deleteTrack (s t : TrackManager K) (id : Id) :
      Reachable ops s → s.deleteTrack id = some t → Reachable ops t
  | suspendTrack (s t : TrackManager K) (id : Id) :
      Reachable ops s → s.suspendTrack id = some t → Reachable ops t
  | reactivateTrack (s t : TrackManager K) (id : Id) :
      Reachable ops s → s.reactivateTrack id = some t → Reachable ops t
  | getReliableTracks (s : TrackManager K) : Reachable ops s → Reachable ops s.getReliableTracks.2
  | getUnreliableTracks (s : TrackManager K) :
      Reachable ops s → Reachable ops s.getUnreliableTracks.2
  | getDriftingTracks (s : TrackManager K) : Reachable ops s → Reachable ops s.getDriftingTracks.2
  | isReliable (s : TrackManager K) (id : Id) : Reachable ops s → Reachable ops (s.isReliable id).2

/-- The invariant of the reachable states: the invariant `WF` of the maps, a tracked-frames
counter for every suspended id, automatic id generation, and no id above `mCurrentId`. -/
structure Consistent (s : TrackManager K) : Prop where
  wf : s.WF
  suspendedTf : ∀ id, id ∈ s.mSuspendedKalmanEstimators.keys → id ∈ s.mNumberOfTrackedFrames.keys
  autoId : s.mAutoIdGeneration = true
  idBound : ∀ id, s.hasId id = true → id ≤ s.mCurrentId

/-- A call of `predict(deltaT)`, `predict(timestamp)`, `setMeasurement(id, measurement)` or
`correct()`. -/
inductive Call where
  | predict (deltaT : ℚ)
  | predictAt (timestamp : ℚ)
  | setMeasurement (id : Id) (measurement : TrackedObject)
  | correct

/-- The measurement that the call sets is for `id`. -/
def Call.measures : Call → Id → Bool
  | Call.setMeasurement k _, id => decide (k = id)
  | _, _ => false

end TrackManager

/-! ## The estimator over its unscented Kalman filters -/

/-- The method `TrackedObject::setStateVector`; an element outside the vector reads 0. -/
def TrackedObject.setStateVector (o : TrackedObject) (vector : Vec) : TrackedObject :=
  { o with
    x := vector.getD 0 0
    y := vector.getD 1 0
    vx := vector.getD 2 0
    vy := vector.getD 3 0
    ax := vector.getD 4 0
    ay := vector.getD 5 0
    z := vector.getD 6 0
    length := vector.getD 7 0
    width := vector.getD 8 0
    height := vector.getD 9 0
    yaw := vector.getD 10 0
    w := vector.getD 11 0 }

/-- The product `a * b.t()` of two column vectors. -/
def outer (a b : Vec) : Mat := a.map (fun x => b.map (fun y => x * y))

/-- The member `empty()` of a matrix: no element. -/
def isEmptyMat (m : Mat) : Bool := decide (m.length * matCols m = 0)

namespace MultiModelKalmanEstimator

/-- The method `combiningProbability`: the contents of `conditionalProbablity` after the
call. -/
def combiningProbability (transitionProbability : Mat) (modelProbability : Vec)
    (conditionalProbablity : Mat) : Mat :=
  let nModels := modelProbability.length
  (List.range conditionalProbablity.length).map (fun i =>
    (List.range (conditionalProbablity.getD i []).length).map (fun j =>
      if i < nModels ∧ j < nModels then
        let sumProbability := (List.range nModels).foldl
          (fun sumProbability i =>
            sumProbability + entry transitionProbability i j * modelProbability.getD i 0) 0
        let pij := entry transitionProbability i j
        pij * modelProbability.getD i 0 / sumProbability
      else entry conditionalProbablity i j))

/-- The method `interaction`: the contents of `covarianceEstimate` and of `stateEstimates`
after the call.  An index outside a vector counts as a throw, like the sum of two matrices of
different shapes. -/
def interaction (states : List Vec) (processNoiseCovariance : List Mat)
    (conditionalProbablity : Mat) : Option (List Mat × List Vec) :=
  let nModels := conditionalProbablity.length
  match states with
  | [] => none
  | first :: _ =>
    let stateSize := first.length
    match collect ((List.range nModels).map (fun j =>
      (List.range nModels).foldlM
        (fun stateEstimate i =>
          match states[i]? with
          | none => none
          | some state => vecAdd? stateEstimate (vecScale (entry conditionalProbablity i j) state))
        (zeros stateSize))) with
    | none => none
    | some stateEstimates =>
      match collect ((List.range nModels).map (fun j =>
        (List.range nModels).foldlM
          (fun covarianceEstimate i =>
            match states[i]?, processNoiseCovariance[i]? with
            | some state, some cov =>
              match vecSub? state (stateEstimates.getD j []) with
              | none => none
              | some difference =>
                match matAdd? cov (outer difference difference) with
                | none => none
                | some t =>
                  matAdd? covarianceEstimate (matScale (entry conditionalProbablity i j) t)
            | _, _ => none)
          (zerosMat stateSize stateSize))) with
      | none => none
      | some covarianceEstimate => some (covarianceEstimate, stateEstimates)

/-- The first loop of `combineStatesAndCovariances`: the combined state. -/
def combinedStateOf (states : List Vec) (modelProbability : Vec) (stateSize : Nat) :
    Option Vec :=
  (List.range modelProbability.length).foldlM
    (fun combinedState i =>
      match states[i]? with
      | none => none
      | some state => vecAdd? combinedState (vecScale (modelProbability.getD i 0) state))
    (zeros stateSize)

/-- The second loop of `combineStatesAndCovariances`: the combined covariance. -/
def combinedCovarianceOf (states : List Vec) (covariances : List Mat) (modelProbability : Vec)
    (combinedState : Vec) (stateSize : Nat) : Option Mat :=
  (List.range modelProbability.length).foldlM
    (fun combinedCovariance i =>
      match states[i]?, covariances[i]? with
      | some state, some cov =>
        match vecSub? state combinedState with
        | none => none
        | some difference =>
          match matAdd? cov (outer difference difference) with
          | none => none
          | some t => matAdd? combinedCovariance (matScale (modelProbability.getD i 0) t)
      | _, _ => none)
    (zerosMat stateSize stateSize)

/-- The method `combineStatesAndCovariances`: `combinedState` and `combinedCovariance` after
the call.  An index outside a vector counts as a throw, like the sum of two matrices of
different shapes. -/
def combineStatesAndCovariances (states : List Vec) (covariances : List Mat)
    (modelProbability : Vec) : Option (Vec × Mat) :=
  match states with
  | [] => none
  | first :: _ =>
    let stateSize := first.length
    match combinedStateOf states modelProbability stateSize with
    | none => none
    | some combinedState =>
      match combinedCovarianceOf states covariances modelProbability combinedState stateSize with
      | none => none
      | some combinedCovariance => some (combinedState, combinedCovariance)

/-- The measurement covariance that `predictState` takes from a filter: `getMeasurementCov()`,
or `getMeasurementNoiseCov()` while that is empty. -/
def measurementCovarianceOf (filter : UnscentedKalmanFilterMod) : Mat :=
  if isEmptyMat filter.getMeasurementCov then filter.getMeasurementNoiseCov
  else filter.getMeasurementCov

/-- The model states after a write of `mean` into the buffer `buffer` of a
`predictedMeasurementMean`: every state whose matrix has this buffer reads the new contents.
`buffers` are the buffers of the states, in their order. -/
def writeMeasurementMean (buffer : Nat) (mean : Vec) :
    List TrackedObject → List Nat → List TrackedObject
  | [], _ => []
  | state :: states, [] => state :: states
  | state :: states, b :: buffers =>
    (if b = buffer then { state with predictedMeasurementMean := mean } else state) ::
      writeMeasurementMean buffer mean states buffers

/-- The method `singleModelPredict`.  The assignment of `cv::Mat::zeros(mMP, 1, CV_64F)` to
`mCurrentState.predictedMeasurementMean` fills the buffer of that matrix when it has `mMP`
rows already, and allocates a buffer otherwise; `measurementFunction` writes into the buffer.
The model states that share the buffer (as the copies that `initialize` made do) read the new
measurement too. -/
def singleModelPredict (O : NumericOps) (Sys : MotionModel → UkfSystemModel)
    (e : MultiModelKalmanEstimator UnscentedKalmanFilterMod) (deltaT : ℚ) :
    Option (MultiModelKalmanEstimator UnscentedKalmanFilterMod) :=
  let deltaTVector := List.replicate e.mCP deltaT
  let noiseVector := zeros e.mMP
  match e.mKalmanFilters[0]?, e.mSystemModels[0]? with
  | some filter, some model =>
    match UnscentedKalmanFilterMod.predict O Sys filter deltaTVector with
    | none => none
    | some filter =>
      let predictedState := filter.getState
      let current := e.mCurrentState
      let current := { current with previousYaw := current.yaw }
      let current := current.setStateVector predictedState
      let current := { current with errorCovariance := filter.getErrorCov }
      let buffer :=
        if current.predictedMeasurementMean.length = e.mMP then e.mCurrentMeasurementMeanBuffer
        else e.freshMeasurementMeanBuffer
      let current := { current with predictedMeasurementMean := zeros e.mMP }
      match (Sys model).measurementFunction predictedState noiseVector
          current.predictedMeasurementMean with
      | none => none
      | some mean =>
        let current := { current with predictedMeasurementMean := mean }
        let current :=
          { current with predictedMeasurementCov := measurementCovarianceOf filter }
        let current :=
          { current with
            predictedMeasurementCovInv := O.inv current.predictedMeasurementCov }
        let current := if deltaT ≥ 1 / 1000 then { current with corrected := false } else current
        some { e with
          mKalmanFilters := e.mKalmanFilters.set 0 filter
          mSystemModelStates :=
            writeMeasurementMean buffer mean e.mSystemModelStates e.mMeasurementMeanBuffers
          mCurrentState := current
          mCurrentMeasurementMeanBuffer := buffer }
  | _, _ => none

/-- One round of the loop of `predictState` over the models: the filters, the per-model states
and the buffers of their `predictedMeasurementMean` after the round, and the predicted states
and covariances pushed so far.  The assignment of `cv::Mat::zeros(mMP, 1, CV_64F)` to
`mSystemModelStates[i].predictedMeasurementMean` fills the buffer of that matrix when it has
`MP` rows already, and allocates the buffer `freshBuffer + i` otherwise;
`measurementFunction` writes into the buffer, so every model state that shares it (as the
copies that `initialize` made do) reads the measurement of model `i` afterwards. -/
def predictModel (O : NumericOps) (Sys : MotionModel → UkfSystemModel)
    (systemModels : List MotionModel) (stateEstimate : List Vec) (covarianceEstimate : List Mat)
    (deltaTVector noiseVector : Vec) (MP : Nat) (freshBuffer : Nat)
    (acc : List UnscentedKalmanFilterMod × List TrackedObject × List Nat × List Vec × List Mat)
    (i : Nat) :
    Option (List UnscentedKalmanFilterMod × List TrackedObject × List Nat × List Vec ×
      List Mat) :=
  match acc.1[i]?, acc.2.1[i]?, systemModels[i]?, stateEstimate[i]?, covarianceEstimate[i]? with
  | some filter, some modelState, some model, some state, some cov =>
    let filter := filter.setStateAndCovariance state cov
    let buffers :=
      if modelState.predictedMeasurementMean.length = MP then acc.2.2.1
      else acc.2.2.1.set i (freshBuffer + i)
    let modelState := { modelState with predictedMeasurementMean := zeros MP }
    match UnscentedKalmanFilterMod.predict O Sys filter deltaTVector with
    | none => none
    | some filter =>
      let predictedState := filter.getState
      let modelState := modelState.setStateVector predictedState
      match (Sys model).measurementFunction predictedState noiseVector
          modelState.predictedMeasurementMean with
      | none => none
      | some mean =>
        let modelState := { modelState with predictedMeasurementMean := mean }
        let modelStates := acc.2.1.set i modelState
        let modelStates :=
          match buffers[i]? with
          | some buffer => writeMeasurementMean buffer mean modelStates buffers
          | none => modelStates
        some (acc.1.set i filter, modelStates, buffers, acc.2.2.2.1 ++ [predictedState],
          acc.2.2.2.2 ++ [filter.getErrorCov])
  | _, _, _, _, _ => none

/-- The method `predictState`.  The matrix `combinedMeasurement` that `mCurrentState` takes over
has a buffer of its own. -/
def predictState (O : NumericOps) (Sys : MotionModel → UkfSystemModel)
    (e : MultiModelKalmanEstimator UnscentedKalmanFilterMod) (deltaT : ℚ) :
    Option (MultiModelKalmanEstimator UnscentedKalmanFilterMod) :=
  if e.mNumberOfModels = 1 then singleModelPredict O Sys e deltaT
  else
    let deltaTVector := List.replicate e.mCP deltaT
    let noiseVector := zeros e.mMP
    let conditionalProbability := zerosMat e.mNumberOfModels e.mNumberOfModels
    let conditionalProbability :=
      combiningProbability e.mTransitionProbability e.mModelProbability conditionalProbability
    let states := e.mSystemModelStates.map (fun state => state.stateVector)
    let covariances := e.mKalmanFilters.map (fun kalmanFilter => kalmanFilter.getErrorCov)
    match interaction states covariances conditionalProbability with
    | none => none
    | some (covarianceEstimate, stateEstimate) =>
      match (List.range e.mNumberOfModels).foldlM
        (predictModel O Sys e.mSystemModels stateEstimate covarianceEstimate deltaTVector
          noiseVector e.mMP e.freshMeasurementMeanBuffer)
        (e.mKalmanFilters, e.mSystemModelStates, e.mMeasurementMeanBuffers, [], []) with
      | none => none
      | some (filters, modelStates, buffers, predictedStates, predictedStateCovariances) =>
        match combineStatesAndCovariances predictedStates predictedStateCovariances
            e.mModelProbability with
        | none => none
        | some (combinedState, combinedCovariance) =>
          let current := e.mCurrentState
          let current := { current with previousYaw := current.yaw }
          let current := current.setStateVector combinedState
          let current := { current with errorCovariance := combinedCovariance }
          let measurements := modelStates.map (fun state => state.predictedMeasurementMean)
          let measurementCovariances := filters.map measurementCovarianceOf
          match combineStatesAndCovariances measurements measurementCovariances
              e.mModelProbability with
          | none => none
          | some (combinedMeasurement, combinedMeasurementCovariance) =>
            let current :=
              { current with
                predictedMeasurementMean := combinedMeasurement
                predictedMeasurementCov := combinedMeasurementCovariance
                predictedMeasurementCovInv := O.inv combinedMeasurementCovariance }
            let current :=
              if deltaT ≥ 1 / 1000 then { current with corrected := false } else current
            some { e with
              mKalmanFilters := filters
              mSystemModelStates := modelStates
              mCurrentState := current
              mMeasurementMeanBuffers := buffers
              mCurrentMeasurementMeanBuffer :=
                e.freshMeasurementMeanBuffer + e.mNumberOfModels }

/-- The method `predict(deltaT)` of the estimator. -/
def predict (O : NumericOps) (Sys : MotionModel → UkfSystemModel)
    (e : MultiModelKalmanEstimator UnscentedKalmanFilterMod) (deltaT : ℚ) :
    Option (MultiModelKalmanEstimator UnscentedKalmanFilterMod) :=
  match predictState O Sys e deltaT with
  | none => none
  | some e1 => some { e1 with mLastTimestamp := e1.mLastTimestamp + deltaT }

/-- The method `predict(timestamp)` of the estimator. -/
def predictAt (O : NumericOps) (Sys : MotionModel → UkfSystemModel)
    (e : MultiModelKalmanEstimator UnscentedKalmanFilterMod) (timestamp : ℚ) :
    Option (MultiModelKalmanEstimator UnscentedKalmanFilterMod) :=
  match predictState O Sys e (timestamp - e.mLastTimestamp) with
  | none => none
  | some e1 => some { e1 with mLastTimestamp := timestamp }

/-- The measurement that `correct` passes to the filters: the yaw is replaced by
`previousYaw - deltaTheta(yaw, previousYaw)`. -/
def substituteYaw (T : AngleOps ℚ) (current measurement : TrackedObject) : TrackedObject :=
  { measurement with
    yaw := current.previousYaw - deltaTheta T measurement.yaw current.previousYaw }

/-- The method `singleModelCorrect`. -/
def singleModelCorrect (O : NumericOps) (T : AngleOps ℚ)
    (e : MultiModelKalmanEstimator UnscentedKalmanFilterMod) (measurement : TrackedObject) :
    Option (MultiModelKalmanEstimator UnscentedKalmanFilterMod) :=
  let newMeasurement := substituteYaw T e.mCurrentState measurement
  match e.mKalmanFilters[0]? with
  | none => none
  | some filter =>
    match UnscentedKalmanFilterMod.correct O filter newMeasurement.measurementVector with
    | none => none
    | some filter =>
      let correctedState := filter.getState
      let current := e.mCurrentState
      let current := { current with errorCovariance := filter.getErrorCov }
      let current := current.setStateVector correctedState
      match classification.combine current.classification measurement.classification with
      | none => none
      | some combined =>
        let current := { current with classification := combined }
        let current := { current with attributes := measurement.attributes }
        let current := { current with corrected := true }
        some { e with
          mKalmanFilters := e.mKalmanFilters.set 0 filter
          mCurrentState := current }

/-- One round of the loop of `correct` over the models. -/
def correctModel (O : NumericOps) (z : Vec)
    (acc : List UnscentedKalmanFilterMod × List TrackedObject × List Vec × List Mat × List Vec ×
      List Mat) (i : Nat) :
    Option (List UnscentedKalmanFilterMod × List TrackedObject × List Vec × List Mat ×
      List Vec × List Mat) :=
  match acc.1[i]?, acc.2.1[i]? with
  | some filter, some modelState =>
    match UnscentedKalmanFilterMod.correct O filter z with
    | none => none
    | some filter =>
      let correctedState := filter.getState
      let modelState := modelState.setStateVector correctedState
      some (acc.1.set i filter, acc.2.1.set i modelState, acc.2.2.1 ++ [correctedState],
        acc.2.2.2.1 ++ [filter.getErrorCov],
        acc.2.2.2.2.1 ++ [modelState.predictedMeasurementMean],
        acc.2.2.2.2.2 ++ [filter.getMeasurementCov])
  | _, _ => none

/-- The method `correct` of the estimator. -/
def correct (O : NumericOps) (T : AngleOps ℚ)
    (e : MultiModelKalmanEstimator UnscentedKalmanFilterMod) (measurement : TrackedObject) :
    Option (MultiModelKalmanEstimator UnscentedKalmanFilterMod) :=
  if e.mNumberOfModels = 1 then singleModelCorrect O T e measurement
  else
    let newMeasurement := substituteYaw T e.mCurrentState measurement
    match (List.range e.mNumberOfModels).foldlM
      (correctModel O newMeasurement.measurementVector)
      (e.mKalmanFilters, e.mSystemModelStates, [], [], [], []) with
    | none => none
    | some (filters, modelStates, states, covariances, predictedMeasurements,
        measurementCovariances) =>
      match updateModelProbability O newMeasurement.measurementVector predictedMeasurements
          measurementCovariances e.mModelProbability e.mMaxProbability e.mMinProbability with
      | none => none
      | some modelProbability =>
        match combineStatesAndCovariances states covariances modelProbability with
        | none => none
        | some (combinedState, combinedCovariance) =>
          let current := e.mCurrentState
          let current := { current with errorCovariance := combinedCovariance }
          let current := current.setStateVector combinedState
          match classification.combine current.classification measurement.classification with
          | none => none
          | some combined =>
            let current := { current with classification := combined }
            let current := { current with attributes := measurement.attributes }
            let current := { current with corrected := true }
            some { e with
              mKalmanFilters := filters
              mSystemModelStates := modelStates
              mModelProbability := modelProbability
              mCurrentState := current }

/-- The method `getKalmanFilterMeasurementCovariance`; its body calls `getErrorCov()`.  An
index outside `mKalmanFilters` has no defined result. -/
def getKalmanFilterMeasurementCovariance
    (e : MultiModelKalmanEstimator UnscentedKalmanFilterMod) (j : Nat) : Option Mat :=
  match e.mKalmanFilters[j]? with
  | none => none
  | some filter => some filter.getErrorCov

/-- The method `getKalmanFilterErrorCovariance`; its body calls `getMeasurementCov()`.  An
index outside `mKalmanFilters` has no defined result. -/
def getKalmanFilterErrorCovariance
    (e : MultiModelKalmanEstimator UnscentedKalmanFilterMod) (j : Nat) : Option Mat :=
  match e.mKalmanFilters[j]? with
  | none => none
  | some filter => some filter.getMeasurementCov

end MultiModelKalmanEstimator

/-- The filter that the constructor returns for `trackerParams`. -/
def exampleFilter : UnscentedKalmanFilterMod :=
  { DP := 12, MP := 7, CP := 1
    state := zeros 12
    errorCov := scaledEye 12 1
    processNoiseCov := scaledEye 12 (1 / 1000)
    measurementNoiseCov := scaledEye 7 (1 / 100)
    model := MotionModel.CA
    alpha := 1, k := -9, beta := 2, lambda := -9, tmpLambda := 3
    measurementEstimate := zeros 7
    sigmaPoints := []
    transitionSPFuncVals := zerosMat 12 25
    measurementSPFuncVals := zerosMat 7 25
    transitionSPFuncValsCenter := zerosMat 12 25
    measurementSPFuncValsCenter := zerosMat 7 25
    Wm := -3 :: List.replicate 24 (1 / 6)
    Wc := setEntry (scaledEye 25 (1 / 6)) 0 0 (-1)
    gain := zerosMat 12 12
    xyCov := []
    yyCov := []
    r := zeros 7
    q := zeros 12 }

/-- The construction of a filter as `initialize` calls it, for the examples: the filter that
the constructor returns; `initialize` passes parameters that pass the assertions of the
constructor.  The other fields are not used by `initialize`. -/
def filterConstructor : EstimatorOps UnscentedKalmanFilterMod where
  createUnscentedKalmanFilterMod := fun params =>
    (UnscentedKalmanFilterMod.create params).getD exampleFilter
  predictAt := fun e _ => e
  predict := fun e _ => e
  correct := fun e _ => some e

/-- The estimator that `initialize` leaves in a default-constructed estimator for the detection
`exampleObject`, the default noise values of `TrackManagerConfig` and the model list `[CA]`. -/
def exampleEstimator : MultiModelKalmanEstimator UnscentedKalmanFilterMod :=
  MultiModelKalmanEstimator.initializeEstimator filterConstructor
    MultiModelKalmanEstimator.default exampleObject 0 (1 / 1000) (1 / 100) 1 [MotionModel.CA]

/-- Angle functions for the examples: rational stand-ins near zero. -/
def exampleAngles : AngleOps ℚ where
  cos := fun x => 1 - x * x / 2
  sin := fun x => x
  atan2 := fun y x => if x = 0 then 0 else y / x
  pi := 355 / 113

/-! ## Matrices of the mathematical library

The lists of rows are read as matrices and vectors over `ℚ`; an entry outside the lists
reads 0. -/

/-- The `rows x cols` matrix of a list of rows. -/
def toM (rows cols : Nat) (m : Mat) : Matrix (Fin rows) (Fin cols) ℚ :=
  fun i j => entry m i j

/-- The vector with `n` entries of a list. -/
def toV (n : Nat) (v : Vec) : Fin n → ℚ := fun i => v.getD i 0

/-! ## The filter on a linear system -/

/-- The matrix `points` that `getSigmaPoints` builds from the mean and the scaled factor
`covMatrixL`: the columns `mean`, `mean + covMatrixL` and `mean - covMatrixL`. -/
def sigmaPointsOf (mean : Vec) (covMatrixL : Mat) : Mat :=
  (List.range mean.length).map (fun i =>
    mean.getD i 0 ::
      ((List.range mean.length).map (fun j => mean.getD i 0 + entry covMatrixL i j) ++
        (List.range mean.length).map (fun j => mean.getD i 0 - entry covMatrixL i j)))

/-- The call of `hal::Cholesky64f` works in place: it leaves the shape of the matrix as it
is. -/
def NumericOps.KeepsShape (O : NumericOps) : Prop :=
  ∀ (A : Mat) (r c : Nat), hasShape A r c = true → hasShape (O.cholesky A).2 r c = true

/-- The members that the constructor sets and no method changes afterwards: the shapes, the
weights `Wm` and `Wc` for `lambda + DP ≠ 0`, and the zero noise vectors `q` and `r`. -/
structure UnscentedKalmanFilterMod.Constructed (f : UnscentedKalmanFilterMod) : Prop where
  shaped : f.Shaped
  tmpLambda_ne : f.tmpLambda ≠ 0
  lambda_eq : f.tmpLambda = f.lambda + (f.DP : ℚ)
  wm : f.Wm = (vecScale (1 / 2 / f.tmpLambda) (List.replicate (2 * f.DP + 1) 1)).set 0
    (f.lambda / f.tmpLambda)
  wc : ∃ w0, f.Wc = setEntry (matScale (1 / 2 / f.tmpLambda) (scaledEye (2 * f.DP + 1) 1)) 0 0 w0
  q_eq : f.q = zeros f.DP
  r_eq : f.r = zeros f.MP

/-- The system model is linear for the control vector `u`: without noise, the state transition
of a state `x` is `F x` and its measurement is `H x`. -/
structure UkfSystemModel.Linear (S : UkfSystemModel) (u : Vec) (F H : Mat) (DP MP : Nat) :
    Prop where
  shapeF : hasShape F DP DP = true
  shapeH : hasShape H MP DP = true
  transition : ∀ x out : Vec, x.length = DP → out.length = DP →
    S.stateConversionFunction x u (zeros DP) out = some (matVec F x)
  measurement : ∀ x out : Vec, x.length = DP → out.length = MP →
    S.measurementFunction x (zeros MP) out = some (matVec H x)

/-- The transition matrix `F` of the linear Kalman prediction for the CA model and the time
step `dt`, in the order `x, y, vx, vy, ax, ay, z, length, width, height, yaw, w` of the state
vector.  The source has no such matrix; `CAModel_linear` shows that the method
`CAModel::stateConversionFunction` multiplies the state by it. -/
def CAModel.transitionMatrix (dt : ℚ) : Mat :=
  [[1, 0, dt, 0, 1 / 2 * dt * dt, 0, 0, 0, 0, 0, 0, 0],
   [0, 1, 0, dt, 0, 1 / 2 * dt * dt, 0, 0, 0, 0, 0, 0],
   [0, 0, 1, 0, dt, 0, 0, 0, 0, 0, 0, 0],
   [0, 0, 0, 1, 0, dt, 0, 0, 0, 0, 0, 0],
   [0, 0, 0, 0, 1, 0, 0, 0, 0, 0, 0, 0],
   [0, 0, 0, 0, 0, 1, 0, 0, 0, 0, 0, 0],
   [0, 0, 0, 0, 0, 0, 1, 0, 0, 0, 0, 0],
   [0, 0, 0, 0, 0, 0, 0, 1, 0, 0, 0, 0],
   [0, 0, 0, 0, 0, 0, 0, 0, 1, 0, 0, 0],
   [0, 0, 0, 0, 0, 0, 0, 0, 0, 1, 0, 0],
   [0, 0, 0, 0, 0, 0, 0, 0, 0, 0, 1, 0],
   [0, 0, 0, 0, 0, 0, 0, 0, 0, 0, 0, 0]]

/-- The transition matrix `F` of the linear Kalman prediction for the CP model.  The source has
no such matrix; `CPModel_linear` shows that the method `CPModel::stateConversionFunction`
multiplies the state by it. -/
def CPModel.transitionMatrix : Mat :=
  [[1, 0, 0, 0, 0, 0, 0, 0, 0, 0, 0, 0],
   [0, 1, 0, 0, 0, 0, 0, 0, 0, 0, 0, 0],
   [0, 0, 0, 0, 0, 0, 0, 0, 0, 0, 0, 0],
   [0, 0, 0, 0, 0, 0, 0, 0, 0, 0, 0, 0],
   [0, 0, 0, 0, 0, 0, 0, 0, 0, 0, 0, 0],
   [0, 0, 0, 0, 0, 0, 0, 0, 0, 0, 0, 0],
   [0, 0, 0, 0, 0, 0, 1, 0, 0, 0, 0, 0],
   [0, 0, 0, 0, 0, 0, 0, 1, 0, 0, 0, 0],
   [0, 0, 0, 0, 0, 0, 0, 0, 1, 0, 0, 0],
   [0, 0, 0, 0, 0, 0, 0, 0, 0, 1, 0, 0],
   [0, 0, 0, 0, 0, 0, 0, 0, 0, 0, 1, 0],
   [0, 0, 0, 0, 0, 0, 0, 0, 0, 0, 0, 0]]

/-- The measurement projection `H` of the linear Kalman prediction for the CA and the CP model:
the entries `x, y, z, length, width, height, yaw` of the state vector.  The source has no such
matrix; `CAModel_linear` and `CPModel_linear` show that the methods `measurementFunction`
multiply the state by it. -/
def measurementMatrix : Mat :=
  [[1, 0, 0, 0, 0, 0, 0, 0, 0, 0, 0, 0],
   [0, 1, 0, 0, 0, 0, 0, 0, 0, 0, 0, 0],
   [0, 0, 0, 0, 0, 0, 1, 0, 0, 0, 0, 0],
   [0, 0, 0, 0, 0, 0, 0, 1, 0, 0, 0, 0],
   [0, 0, 0, 0, 0, 0, 0, 0, 1, 0, 0, 0],
   [0, 0, 0, 0, 0, 0, 0, 0, 0, 1, 0, 0],
   [0, 0, 0, 0, 0, 0, 0, 0, 0, 0, 1, 0]]

/-- What `predict` leaves in a filter `g` that it was called on as `f`, for a system with the
transition matrix `F` and the measurement matrix `H`: with `c` the computed root of
`lambda + DP`, `L` the factor that `choleskyDecomposition` leaves for the error covariance of
`f` and `L1` the one for the error covariance of `g`. -/
structure UnscentedKalmanFilterMod.PredictedFrom (O : NumericOps)
    (f g : UnscentedKalmanFilterMod) (F H : Mat) : Prop where
  predicted : g.Predicted
  constructed : g.Constructed
  sameDP : g.DP = f.DP
  sameMP : g.MP = f.MP
  sameModel : g.model = f.model
  sameLambda : g.tmpLambda = f.tmpLambda
  sameQ : g.processNoiseCov = f.processNoiseCov
  sameR : g.measurementNoiseCov = f.measurementNoiseCov
  state : toV f.DP g.state = Matrix.mulVec (toM f.DP f.DP F) (toV f.DP f.state)
  errorCov : toM f.DP f.DP g.errorCov =
    (O.sqrt f.tmpLambda * O.sqrt f.tmpLambda / f.tmpLambda) •
      (toM f.DP f.DP F *
        (toM f.DP f.DP (choleskyDecomposition O f.errorCov f.errorCov.length f.errorCov).2 *
          (toM f.DP f.DP
            (choleskyDecomposition O f.errorCov f.errorCov.length f.errorCov).2).transpose) *
        (toM f.DP f.DP F).transpose) + toM f.DP f.DP f.processNoiseCov
  measurementEstimate : toV f.MP g.measurementEstimate =
    Matrix.mulVec (toM f.MP f.DP H) (toV f.DP g.state)
  yyCov : toM f.MP f.MP g.yyCov =
    (O.sqrt f.tmpLambda * O.sqrt f.tmpLambda / f.tmpLambda) •
      (toM f.MP f.DP H *
        (toM f.DP f.DP (choleskyDecomposition O g.errorCov g.errorCov.length g.errorCov).2 *
          (toM f.DP f.DP
            (choleskyDecomposition O g.errorCov g.errorCov.length g.errorCov).2).transpose) *
        (toM f.MP f.DP H).transpose) + toM f.MP f.MP f.measurementNoiseCov
  cross : toM f.DP (2 * f.DP + 1) g.transitionSPFuncValsCenter *
      toM (2 * f.DP + 1) (2 * f.DP + 1) g.Wc *
      (toM f.MP (2 * f.DP + 1) g.measurementSPFuncValsCenter).transpose =
    (O.sqrt f.tmpLambda * O.sqrt f.tmpLambda / f.tmpLambda) •
      (toM f.DP f.DP F *
        (toM f.DP f.DP (choleskyDecomposition O f.errorCov f.errorCov.length f.errorCov).2 *
          (toM f.DP f.DP
            (choleskyDecomposition O g.errorCov g.errorCov.length g.errorCov).2).transpose) *
        (toM f.MP f.DP H).transpose)

/-- The call of `cv::invert` on a square matrix leaves a matrix of the same shape. -/
def NumericOps.InvKeepsShape (O : NumericOps) : Prop :=
  ∀ (A : Mat) (n : Nat), hasShape A n n = true → hasShape (O.inv A) n n = true

/-- An estimator with the single filter `filter`, as `initialize` leaves it for one motion
model and as `predict` and `correct` keep it: the filter has the members of its constructor, a
state of `DP` entries and an error covariance of `DP × DP` entries. -/
structure MultiModelKalmanEstimator.Single
    (e : MultiModelKalmanEstimator UnscentedKalmanFilterMod) (filter : UnscentedKalmanFilterMod) :
    Prop where
  one : e.mNumberOfModels = 1
  filters : e.mKalmanFilters = [filter]
  models : e.mSystemModels = [filter.model]
  constructed : filter.Constructed
  lengthState : filter.state.length = filter.DP
  shapeP : hasShape filter.errorCov filter.DP filter.DP = true
  sameMP : e.mMP = filter.MP

/-- The facts of exact trigonometry behind the remainder that `angleDifference` computes: `π`
is positive, the angle-difference formulas of cosine and sine, and `atan2(sin t, cos t)` is the
angle in `(-π, π]` that differs from `t` by a whole number of turns. -/
structure AngleOps.Wraps {F : Type} [LinearOrderedField F] (T : AngleOps F) : Prop where
  pi_pos : 0 < T.pi
  cos_sub : ∀ a b, T.cos a * T.cos b + T.sin a * T.sin b = T.cos (b - a)
  sin_sub : ∀ a b, T.cos a * T.sin b - T.sin a * T.cos b = T.sin (b - a)
  atan2_range : ∀ t, -T.pi < T.atan2 (T.sin t) (T.cos t) ∧ T.atan2 (T.sin t) (T.cos t) ≤ T.pi
  atan2_turns : ∀ t, ∃ k : ℤ, T.atan2 (T.sin t) (T.cos t) = t - 2 * T.pi * (k : F)

/-- The local `covMatrixL` of `getSigmaPoints` after the scaling: the factor that
`choleskyDecomposition` leaves for `covMatrix`, times `coef`.  Its columns are what the sigma
points add to and subtract from the mean. -/
def UnscentedKalmanFilterMod.sigmaFactor (O : NumericOps) (covMatrix : Mat) (coef : ℚ) : Mat :=
  matScale coef (choleskyDecomposition O covMatrix covMatrix.length covMatrix).2

namespace UMap

variable {V : Type}

theorem keys_cons (k : Id) (v : V) (m : UMap V) : UMap.keys ((k, v) :: m) = k :: UMap.keys m :=
  rfl

theorem keys_nil : UMap.keys ([] : UMap V) = [] := rfl

theorem find?_eq_none_iff (m : UMap V) (k : Id) : m.find? k = none ↔ k ∉ m.keys := by
  induction m with
  | nil => simp [find?, keys]
  | cons p m ih =>
    obtain ⟨k', v⟩ := p
    by_cases h : k' = k
    · simp [find?, keys, h]
    · have h' : ¬ k = k' := fun e => h e.symm
      simpa [find?, keys, h, h'] using ih

theorem contains_iff (m : UMap V) (k : Id) : m.contains k = true ↔ k ∈ m.keys := by
  have h := find?_eq_none_iff m k
  unfold contains
  cases hf : m.find? k with
  | none => simpa [hf] using h
  | some v =>
    rw [hf] at h
    simp only [Option.isSome_some, true_iff]
    by_contra hk
    exact absurd (h.mpr hk) (by simp)

theorem find?_assign (m : UMap V) (k k' : Id) (v : V) :
    (m.assign k v).find? k' = if k' = k then some v else m.find? k' := by
  induction m with
  | nil =>
    by_cases h : k' = k
    · simp [assign, find?, h]
    · have h' : ¬ k = k' := fun e => h e.symm
      simp [assign, find?, h, h']
  | cons p m ih =>
    obtain ⟨k0, v0⟩ := p
    by_cases h0 : k0 = k
    · subst h0
      by_cases h : k' = k0
      · simp [assign, find?, h]
      · have h' : ¬ k0 = k' := fun e => h e.symm
        simp [assign, find?, h, h']
    · by_cases h : k' = k
      · subst h
        simp [assign, find?, h0, ih]
      · by_cases h1 : k0 = k'
        · simp [assign, find?, h0, h, h1]
        · simp [assign, find?, h0, h, h1, ih]

theorem find?_erase (m : UMap V) (k k' : Id) :
    (m.erase k).find? k' = if k' = k then none else m.find? k' := by
  induction m with
  | nil => simp [erase, find?]
  | cons p m ih =>
    obtain ⟨k0, v0⟩ := p
    unfold erase at ih ⊢
    by_cases h0 : k0 = k
    · subst h0
      by_cases h : k' = k0
      · simpa [List.filter, find?, h] using ih
      · have h' : ¬ k0 = k' := fun e => h e.symm
        simpa [List.filter, find?, h, h'] using ih
    · by_cases h : k' = k
      · subst h
        simpa [List.filter, find?, h0] using ih
      · by_cases h1 : k0 = k'
        · simp [List.filter, find?, h0, h, h1]
        · simpa [List.filter, find?, h0, h, h1] using ih

theorem keys_assign (m : UMap V) (k : Id) (v : V) :
    (m.assign k v).keys = if k ∈ m.keys then m.keys else m.keys ++ [k] := by
  induction m with
  | nil => simp [assign, keys]
  | cons p m ih =>
    obtain ⟨k0, v0⟩ := p
    by_cases h0 : k0 = k
    · subst h0
      simp [assign, keys]
    · have h' : ¬ k = k0 := fun e => h0 e.symm
      unfold keys at ih
      by_cases hk : k ∈ List.map Prod.fst m
      · simp [assign, keys, h0, h', hk, ih]
      · simp [assign, keys, h0, h', hk, ih]

theorem keys_erase (m : UMap V) (k : Id) :
    (m.erase k).keys = m.keys.filter (fun x => decide (x ≠ k)) := by
  unfold erase keys
  rw [List.filter_map]
  rfl

theorem nodup_assign (m : UMap V) (k : Id) (v : V) (h : m.keys.Nodup) :
    (m.assign k v).keys.Nodup := by
  rw [keys_assign]
  by_cases hk : k ∈ m.keys
  · simpa [hk] using h
  · simp only [hk, if_false]
    exact List.Nodup.append h (List.nodup_singleton k) (by simpa using hk)

theorem nodup_erase (m : UMap V) (k : Id) (h : m.keys.Nodup) : (m.erase k).keys.Nodup := by
  rw [keys_erase]
  exact h.filter _

theorem mem_keys_assign (m : UMap V) (k k' : Id) (v : V) :
    k' ∈ (m.assign k v).keys ↔ k' = k ∨ k' ∈ m.keys := by
  rw [keys_assign]
  by_cases hk : k ∈ m.keys
  · simp only [hk, if_true]
    constructor
    · exact Or.inr
    · rintro (rfl | h)
      · exact hk
      · exact h
  · simp only [hk, if_false, List.mem_append, List.mem_singleton]
    tauto

theorem mem_keys_erase (m : UMap V) (k k' : Id) :
    k' ∈ (m.erase k).keys ↔ k' ≠ k ∧ k' ∈ m.keys := by
  rw [keys_erase]
  simp [List.mem_filter, and_comm]

theorem touch_of_mem (m : UMap V) (k : Id) (d : V) (h : k ∈ m.keys) : m.touch k d = m := by
  unfold touch
  rw [(contains_iff m k).mpr h]
  simp

theorem find?_append_of_not_mem (m : UMap V) (k k' : Id) (d : V) (h : k ∉ m.keys) :
    UMap.find? (m ++ [(k, d)]) k' = if k' = k then some d else m.find? k' := by
  induction m with
  | nil =>
    by_cases e : k' = k
    · simp [find?, e]
    · have e' : ¬ k = k' := fun x => e x.symm
      simp [find?, e, e']
  | cons p m ih =>
    obtain ⟨k0, v0⟩ := p
    have hk0 : k0 ≠ k := by
      intro e
      apply h
      simp [keys, e]
    have hk' : k ∉ UMap.keys m := by
      intro hm
      apply h
      simp only [keys, List.map_cons, List.mem_cons]
      exact Or.inr hm
    by_cases h0 : k0 = k'
    · have : ¬ k' = k := fun e => hk0 (h0.trans e)
      simp [find?, h0, this]
    · simpa [find?, h0] using ih hk'

theorem find?_touch (m : UMap V) (k k' : Id) (d : V) :
    (m.touch k d).find? k' = if k' = k then some (m.getD k d) else m.find? k' := by
  unfold touch
  by_cases h : m.contains k = true
  · simp only [h, if_true]
    by_cases e : k' = k
    · subst e
      unfold contains at h
      unfold getD
      cases hf : m.find? k' with
      | none => simp [hf] at h
      | some v => simp
    · simp [e]
  · simp only [h]
    have hk : k ∉ m.keys := fun hm => h ((contains_iff m k).mpr hm)
    have hnone := (find?_eq_none_iff m k).mpr hk
    simp only [Bool.false_eq_true, if_false]
    rw [find?_append_of_not_mem m k k' d hk]
    simp [getD, hnone]

theorem getD_touch (m : UMap V) (k k' : Id) (d : V) : (m.touch k d).getD k' d = m.getD k' d := by
  unfold getD
  rw [find?_touch]
  by_cases e : k' = k
  · subst e
    simp only [if_true, Option.getD_some]
    rfl
  · simp [e]

theorem find?_mapValues (m : UMap V) (f : V → V) (k : Id) :
    UMap.find? (List.map (fun p : Id × V => (p.1, f p.2)) m) k = (UMap.find? m k).map f := by
  induction m with
  | nil => simp [find?]
  | cons p m ih =>
    obtain ⟨k0, v0⟩ := p
    by_cases h0 : k0 = k
    · simp [find?, h0]
    · simpa [find?, h0] using ih

end UMap

/-! ## The first loop of `TrackManager::correct` -/

namespace TrackManager

variable {K : Type}

theorem keys_of_correctedEntries (ops : EstimatorOps K) (meas : UMap TrackedObject)
    (l l' : List (Id × MultiModelKalmanEstimator K))
    (h : List.Forall₂ (CorrectedEntry ops meas) l l') : UMap.keys l' = UMap.keys l := by
  induction h with
  | nil => rfl
  | cons hpq _ ih =>
    simp only [UMap.keys, List.map_cons] at ih ⊢
    rw [ih, hpq.1]

theorem find?_of_correctedEntries (ops : EstimatorOps K) (meas : UMap TrackedObject)
    (l l' : List (Id × MultiModelKalmanEstimator K))
    (h : List.Forall₂ (CorrectedEntry ops meas) l l') (id : Id) :
    UMap.find? l' id =
      match UMap.find? l id with
      | none => none
      | some e =>
        match meas.find? id with
        | some m => ops.correct e m
        | none => some e := by
  induction h with
  | nil => rfl
  | @cons p q l l' hpq _ ih =>
    obtain ⟨k, e⟩ := p
    obtain ⟨k', e'⟩ := q
    obtain ⟨hk, hv⟩ := hpq
    simp only at hk hv
    subst hk
    by_cases hid : k' = id
    · subst hid
      simp only [UMap.find?, if_true]
      cases hm : UMap.find? meas k' with
      | none =>
        rw [hm] at hv
        simp [hv]
      | some m =>
        rw [hm] at hv
        simp [hv]
    · simp only [UMap.find?, hid, if_false]
      exact ih

theorem correctLoop1_spec (ops : EstimatorOps K) (meas : UMap TrackedObject) :
    ∀ (todo done : List (Id × MultiModelKalmanEstimator K)) (nmf tf : UMap Nat)
      (est' : List (Id × MultiModelKalmanEstimator K)) (nmf' tf' : UMap Nat),
      (UMap.keys todo).Nodup →
      correctLoop1 ops meas todo done nmf tf = some (est', nmf', tf') →
      (∃ todo', est' = done.reverse ++ todo' ∧ List.Forall₂ (CorrectedEntry ops meas) todo todo') ∧
      (∀ id, nmf'.find? id =
        if id ∈ UMap.keys todo then
          (if (meas.find? id).isSome then some 0 else some ((nmf.getD id 0 + 1) % UINT32_MOD))
        else nmf.find? id) ∧
      (∀ id, tf'.find? id =
        if id ∈ UMap.keys todo then
          (if (meas.find? id).isSome then some ((tf.getD id 0 + 1) % UINT32_MOD) else tf.find? id)
        else tf.find? id) ∧
      (nmf.keys.Nodup → nmf'.keys.Nodup) := by
  intro todo
  induction todo with
  | nil =>
    intro done nmf tf est' nmf' tf' _ h
    simp only [correctLoop1, Option.some.injEq, Prod.mk.injEq] at h
    obtain ⟨h1, h2, h3⟩ := h
    subst h1 h2 h3
    refine ⟨⟨[], by simp, List.Forall₂.nil⟩, ?_, ?_, id⟩
    · intro id
      simp [UMap.keys]
    · intro id
      simp [UMap.keys]
  | cons p rest ih =>
    intro done nmf tf est' nmf' tf' hnd h
    obtain ⟨i, e⟩ := p
    have hnd' : i ∉ UMap.keys rest ∧ (UMap.keys rest).Nodup := by
      simpa [UMap.keys_cons] using hnd
    obtain ⟨hi, hrest⟩ := hnd'
    unfold correctLoop1 at h
    cases hm : UMap.find? meas i with
    | none =>
      simp only [hm] at h
      obtain ⟨⟨todo', he, hf⟩, hn, ht, hk⟩ := ih _ _ _ _ _ _ hrest h
      refine ⟨⟨(i, e) :: todo', ?_, ?_⟩, ?_, ?_, ?_⟩
      · simp [he]
      · refine List.Forall₂.cons ⟨rfl, ?_⟩ hf
        simp [hm]
      · intro id
        rw [hn id]
        by_cases hid : id = i
        · subst hid
          simp [hi, UMap.keys_cons, UMap.find?_assign, hm]
        · have : UMap.getD (UMap.assign nmf i ((UMap.getD nmf i 0 + 1) % UINT32_MOD)) id 0
              = UMap.getD nmf id 0 := by
            simp [UMap.getD, UMap.find?_assign, hid]
          simp [UMap.keys_cons, hid, UMap.find?_assign, this]
      · intro id
        rw [ht id]
        by_cases hid : id = i
        · subst hid
          simp [hi, UMap.keys_cons, hm]
        · simp [UMap.keys_cons, hid]
      · intro hnmf
        exact hk (UMap.nodup_assign _ _ _ hnmf)
    | some m =>
      simp only [hm] at h
      cases hc : ops.correct e m with
      | none => simp [hc] at h
      | some e1 =>
        simp only [hc] at h
        obtain ⟨⟨todo', he, hf⟩, hn, ht, hk⟩ := ih _ _ _ _ _ _ hrest h
        refine ⟨⟨(i, e1) :: todo', ?_, ?_⟩, ?_, ?_, ?_⟩
        · simp [he]
        · refine List.Forall₂.cons ⟨rfl, ?_⟩ hf
          simp [hm, hc]
        · intro id
          rw [hn id]
          by_cases hid : id = i
          · subst hid
            simp [hi, UMap.keys_cons, UMap.find?_assign, hm]
          · have : UMap.getD (UMap.assign nmf i 0) id 0 = UMap.getD nmf id 0 := by
              simp [UMap.getD, UMap.find?_assign, hid]
            simp [UMap.keys_cons, hid, UMap.find?_assign, this]
        · intro id
          rw [ht id]
          by_cases hid : id = i
          · subst hid
            simp [hi, UMap.keys_cons, UMap.find?_assign, hm]
          · have : UMap.getD (UMap.assign tf i ((UMap.getD tf i 0 + 1) % UINT32_MOD)) id 0
                = UMap.getD tf id 0 := by
              simp [UMap.getD, UMap.find?_assign, hid]
            simp [UMap.keys_cons, hid, UMap.find?_assign, this]
        · intro hnmf
          exact hk (UMap.nodup_assign _ _ _ hnmf)

/-! ## The reactivation loop of `TrackManager::correct` -/

theorem reactivateAndCorrect_spec (ops : EstimatorOps K) (s s2 : TrackManager K) (i : Id)
    (hm : (s.mMeasurementMap.find? i).isSome)
    (h : reactivateAndCorrect ops s i = some s2) :
    s2.mConfig = s.mConfig ∧ s2.mMeasurementMap = s.mMeasurementMap ∧
    s2.mCurrentId = s.mCurrentId ∧ s2.mAutoIdGeneration = s.mAutoIdGeneration ∧
    (∀ id, s2.mKalmanEstimators.find? id =
      if id = i then (s.mSuspendedKalmanEstimators.find? id).bind
          (fun e => (s.mMeasurementMap.find? id).bind (ops.correct e))
      else s.mKalmanEstimators.find? id) ∧
    (s2.mKalmanEstimators.find? i).isSome ∧
    (∀ id, s2.mSuspendedKalmanEstimators.find? id =
      if id = i then none else s.mSuspendedKalmanEstimators.find? id) ∧
    (∀ id, s2.mNonMeasurementFrames.find? id =
      if id = i then some 0 else s.mNonMeasurementFrames.find? id) ∧
    (∀ id, s2.mNumberOfTrackedFrames.find? id =
      if id = i then some (reactivationCount s.mConfig) else s.mNumberOfTrackedFrames.find? id) ∧
    (s.mKalmanEstimators.keys.Nodup → s2.mKalmanEstimators.keys.Nodup) ∧
    (s.mSuspendedKalmanEstimators.keys.Nodup → s2.mSuspendedKalmanEstimators.keys.Nodup) ∧
    (s.mNonMeasurementFrames.keys.Nodup → s2.mNonMeasurementFrames.keys.Nodup) := by
  unfold reactivateAndCorrect reactivateTrack at h
  cases hs : s.mSuspendedKalmanEstimators.find? i with
  | none => simp [hs] at h
  | some e =>
    cases hmm : s.mMeasurementMap.find? i with
    | none => simp [hmm] at hm
    | some m =>
      simp only [hs, Option.bind_eq_bind, Option.some_bind, UMap.getD, UMap.find?_assign,
        if_true, Option.getD_some, hmm] at h
      cases hc : ops.correct e m with
      | none => simp [hc] at h
      | some e' =>
        simp only [hc, Option.some_bind, Option.some.injEq] at h
        subst h
        have htouch : s.mMeasurementMap.touch i {} = s.mMeasurementMap := by
          apply UMap.touch_of_mem
          rw [← UMap.contains_iff]
          simp [UMap.contains, hmm]
        refine ⟨rfl, htouch, rfl, rfl, ?_, ?_, ?_, ?_, ?_, ?_, ?_, ?_⟩
        · intro id
          by_cases hid : id = i
          · subst hid
            simp [UMap.find?_assign, hs, hmm, hc]
          · simp [UMap.find?_assign, hid]
        · simp [UMap.find?_assign]
        · intro id
          simp [UMap.find?_erase]
        · intro id
          simp [UMap.find?_assign]
        · intro id
          simp [UMap.find?_assign, reactivationCount]
        · intro hn
          exact UMap.nodup_assign _ _ _ (UMap.nodup_assign _ _ _ hn)
        · intro hn
          exact UMap.nodup_erase _ _ hn
        · intro hn
          exact UMap.nodup_assign _ _ _ hn

theorem reactivate_fold_spec (ops : EstimatorOps K) :
    ∀ (ids : List Id) (s s2 : TrackManager K), ids.Nodup →
      (∀ id ∈ ids, (s.mMeasurementMap.find? id).isSome) →
      ids.foldlM (reactivateAndCorrect ops) s = some s2 →
      s2.mConfig = s.mConfig ∧ s2.mMeasurementMap = s.mMeasurementMap ∧
      s2.mCurrentId = s.mCurrentId ∧ s2.mAutoIdGeneration = s.mAutoIdGeneration ∧
      (∀ id, s2.mKalmanEstimators.find? id =
        if id ∈ ids then (s.mSuspendedKalmanEstimators.find? id).bind
            (fun e => (s.mMeasurementMap.find? id).bind (ops.correct e))
        else s.mKalmanEstimators.find? id) ∧
      (∀ id ∈ ids, (s2.mKalmanEstimators.find? id).isSome) ∧
      (∀ id, s2.mSuspendedKalmanEstimators.find? id =
        if id ∈ ids then none else s.mSuspendedKalmanEstimators.find? id) ∧
      (∀ id, s2.mNonMeasurementFrames.find? id =
        if id ∈ ids then some 0 else s.mNonMeasurementFrames.find? id) ∧
      (∀ id, s2.mNumberOfTrackedFrames.find? id =
        if id ∈ ids then some (reactivationCount s.mConfig)
        else s.mNumberOfTrackedFrames.find? id) ∧
      (s.mKalmanEstimators.keys.Nodup → s2.mKalmanEstimators.keys.Nodup) ∧
      (s.mSuspendedKalmanEstimators.keys.Nodup → s2.mSuspendedKalmanEstimators.keys.Nodup) ∧
      (s.mNonMeasurementFrames.keys.Nodup → s2.mNonMeasurementFrames.keys.Nodup) := by
  intro ids
  induction ids with
  | nil =>
    intro s s2 _ _ h
    simp only [List.foldlM_nil, pure, Option.some.injEq] at h
    subst h
    simp
  | cons i rest ih =>
    intro s s2 hnd hm h
    have hnd' : i ∉ rest ∧ rest.Nodup := by simpa using hnd
    obtain ⟨hi, hrest⟩ := hnd'
    simp only [List.foldlM_cons, Option.bind_eq_bind] at h
    cases h1 : reactivateAndCorrect ops s i with
    | none => simp [h1] at h
    | some s1 =>
      simp only [h1, Option.some_bind] at h
      obtain ⟨c1, m1, i1, a1, e1, e1', su1, n1, t1, k1, k2, k3⟩ :=
        reactivateAndCorrect_spec ops s s1 i (hm i (List.mem_cons_self _ _)) h1
      have hm' : ∀ id ∈ rest, (s1.mMeasurementMap.find? id).isSome := by
        intro id hid
        rw [m1]
        exact hm id (List.mem_cons_of_mem _ hid)
      obtain ⟨c2, m2, i2, a2, e2, e2', su2, n2, t2, k1', k2', k3'⟩ := ih s1 s2 hrest hm' h
      refine ⟨c2.trans c1, m2.trans m1, i2.trans i1, a2.trans a1, ?_, ?_, ?_, ?_, ?_,
        fun hh => k1' (k1 hh), fun hh => k2' (k2 hh), fun hh => k3' (k3 hh)⟩
      · intro id
        rw [e2 id]
        by_cases hr : id ∈ rest
        · have hne : id ≠ i := fun e => hi (e ▸ hr)
          simp [hr, su1 id, hne, m1]
        · by_cases hid : id = i
          · subst hid
            simp [hi, e1 id]
          · simp [hr, hid, e1 id]
      · intro id hid
        rcases List.mem_cons.mp hid with rfl | hr
        · rw [e2 id]
          simp only [hi, if_false]
          exact e1'
        · exact e2' id hr
      · intro id
        rw [su2 id]
        by_cases hr : id ∈ rest
        · simp [hr]
        · by_cases hid : id = i
          · subst hid
            simp [hi, su1 id]
          · simp [hr, hid, su1 id]
      · intro id
        rw [n2 id]
        by_cases hr : id ∈ rest
        · simp [hr]
        · by_cases hid : id = i
          · subst hid
            simp [hi, n1 id]
          · simp [hr, hid, n1 id]
      · intro id
        rw [t2 id, c1]
        by_cases hr : id ∈ rest
        · simp [hr]
        · by_cases hid : id = i
          · subst hid
            simp [hi, t1 id]
          · simp [hr, hid, t1 id]

/-! ## The lifecycle loop of `TrackManager::correct` -/

theorem find?_foldl_erase {V : Type} (ids : List Id) :
    ∀ (m : UMap V) (k : Id),
      UMap.find? (ids.foldl UMap.erase m) k = if k ∈ ids then none else UMap.find? m k := by
  induction ids with
  | nil => intro m k; simp
  | cons i rest ih =>
    intro m k
    simp only [List.foldl_cons, ih, UMap.find?_erase, List.mem_cons]
    by_cases h1 : k ∈ rest
    · simp [h1]
    · by_cases h2 : k = i
      · simp [h1, h2]
      · simp [h1, h2]

theorem nodup_foldl_erase {V : Type} (ids : List Id) :
    ∀ (m : UMap V), (UMap.keys m).Nodup → (UMap.keys (ids.foldl UMap.erase m)).Nodup := by
  induction ids with
  | nil => intro m h; simpa using h
  | cons i rest ih =>
    intro m h
    simp only [List.foldl_cons]
    exact ih _ (UMap.nodup_erase _ _ h)

theorem classifyStep_eq (s : TrackManager K) (dl sl : List Id) (p : Id × Nat)
    (h1 : p.1 ∈ s.mNumberOfTrackedFrames.keys) (h2 : p.1 ∈ s.mKalmanEstimators.keys) :
    classifyStep (s, dl, sl) p =
      (s, dl ++ (if s.toDelete p then [p.1] else []),
        sl ++ (if s.toSuspend p then [p.1] else [])) := by
  have e1 : s.mNumberOfTrackedFrames.touch p.1 0 = s.mNumberOfTrackedFrames :=
    UMap.touch_of_mem _ _ _ h1
  have e2 : s.mKalmanEstimators.touch p.1 MultiModelKalmanEstimator.default
      = s.mKalmanEstimators := UMap.touch_of_mem _ _ _ h2
  unfold classifyStep toDelete toSuspend reliableNow dynamicNow
  simp only [isReliable, e1, e2]
  by_cases hr : s.mNumberOfTrackedFrames.getD p.1 0 ≥ s.mConfig.mMaxNumberOfUnreliableFrames
  · by_cases hd : (s.mKalmanEstimators.getD p.1
        MultiModelKalmanEstimator.default).currentState.isDynamic = true
    · by_cases hn : p.2 > s.mConfig.mNonMeasurementFramesDynamic
      · simp [hr, hd, hn]
      · simp [hr, hd, hn]
    · by_cases hn : p.2 > s.mConfig.mNonMeasurementFramesStatic
      · simp [hr, hd, hn]
      · simp [hr, hd, hn]
  · by_cases hn : p.2 > s.mConfig.mNonMeasurementFramesDynamic
    · simp [hr, hn]
    · simp [hr, hn]

theorem classify_fold (s : TrackManager K) :
    ∀ (l : List (Id × Nat)) (dl sl : List Id),
      (∀ p ∈ l, p.1 ∈ s.mNumberOfTrackedFrames.keys ∧ p.1 ∈ s.mKalmanEstimators.keys) →
      l.foldl classifyStep (s, dl, sl) =
        (s, dl ++ (l.filter s.toDelete).map Prod.fst, sl ++ (l.filter s.toSuspend).map Prod.fst) := by
  intro l
  induction l with
  | nil => intro dl sl _; simp
  | cons p rest ih =>
    intro dl sl h
    have hp := h p (List.mem_cons_self _ _)
    simp only [List.foldl_cons]
    rw [classifyStep_eq s dl sl p hp.1 hp.2, ih _ _ (fun q hq => h q (List.mem_cons_of_mem _ hq))]
    by_cases hd : s.toDelete p = true
    · by_cases hs : s.toSuspend p = true
      · simp [List.filter, hd, hs]
      · simp [List.filter, hd, hs]
    · by_cases hs : s.toSuspend p = true
      · simp [List.filter, hd, hs]
      · simp [List.filter, hd, hs]

theorem delete_fold :
    ∀ (ids : List Id) (s : TrackManager K),
      (∀ id ∈ ids, id ∉ s.mSuspendedKalmanEstimators.keys) →
      ids.foldlM deleteTrack s = some
        { s with
          mKalmanEstimators := ids.foldl UMap.erase s.mKalmanEstimators
          mNonMeasurementFrames := ids.foldl UMap.erase s.mNonMeasurementFrames
          mNumberOfTrackedFrames := ids.foldl UMap.erase s.mNumberOfTrackedFrames } := by
  intro ids
  induction ids with
  | nil => intro s _; rfl
  | cons i rest ih =>
    intro s h
    have hi : ¬ s.mSuspendedKalmanEstimators.contains i = true := by
      intro hc
      exact h i (List.mem_cons_self _ _) ((UMap.contains_iff _ _).mp hc)
    have hstep : deleteTrack s i = some
        { s with
          mKalmanEstimators := s.mKalmanEstimators.erase i
          mNonMeasurementFrames := s.mNonMeasurementFrames.erase i
          mNumberOfTrackedFrames := s.mNumberOfTrackedFrames.erase i } := by
      simp [deleteTrack, isSuspended, UMap.count, hi]
    simp only [List.foldlM_cons, hstep, Option.bind_eq_bind, Option.some_bind]
    exact (ih { s with
          mKalmanEstimators := s.mKalmanEstimators.erase i
          mNonMeasurementFrames := s.mNonMeasurementFrames.erase i
          mNumberOfTrackedFrames := s.mNumberOfTrackedFrames.erase i }
      (fun id hid => h id (List.mem_cons_of_mem _ hid))).trans rfl

theorem suspend_fold :
    ∀ (ids : List Id) (s s' : TrackManager K), ids.Nodup →
      ids.foldlM suspendTrack s = some s' →
      s'.mConfig = s.mConfig ∧ s'.mMeasurementMap = s.mMeasurementMap ∧
      s'.mCurrentId = s.mCurrentId ∧ s'.mAutoIdGeneration = s.mAutoIdGeneration ∧
      s'.mKalmanEstimators = ids.foldl UMap.erase s.mKalmanEstimators ∧
      s'.mNonMeasurementFrames = ids.foldl UMap.erase s.mNonMeasurementFrames ∧
      s'.mNumberOfTrackedFrames = s.mNumberOfTrackedFrames ∧
      (∀ id, s'.mSuspendedKalmanEstimators.find? id =
        if id ∈ ids then s.mKalmanEstimators.find? id
        else s.mSuspendedKalmanEstimators.find? id) ∧
      (s.mSuspendedKalmanEstimators.keys.Nodup → s'.mSuspendedKalmanEstimators.keys.Nodup) := by
  intro ids
  induction ids with
  | nil =>
    intro s s' _ h
    simp only [List.foldlM_nil, pure, Option.some.injEq] at h
    subst h
    simp
  | cons i rest ih =>
    intro s s' hnd h
    have hnd' : i ∉ rest ∧ rest.Nodup := by simpa using hnd
    obtain ⟨hi, hrest⟩ := hnd'
    simp only [List.foldlM_cons, Option.bind_eq_bind] at h
    cases he : s.mKalmanEstimators.find? i with
    | none => simp [suspendTrack, he] at h
    | some e =>
      simp only [suspendTrack, he, Option.some_bind] at h
      obtain ⟨c, m, ci, a, ke, nm, tf, su, nd⟩ := ih _ s' hrest h
      refine ⟨c, m, ci, a, ?_, ?_, tf, ?_, ?_⟩
      · simpa using ke
      · simpa using nm
      · intro id
        rw [su id]
        by_cases hr : id ∈ rest
        · have hne : id ≠ i := fun e => hi (e ▸ hr)
          simp [hr, UMap.find?_erase, hne]
        · by_cases hid : id = i
          · subst hid
            simp [hr, UMap.find?_assign, he]
          · simp [hr, hid, UMap.find?_assign]
      · intro hn
        exact nd (UMap.nodup_assign _ _ _ hn)

theorem mem_iff_find?_of_nodup {V : Type} (m : UMap V) (h : (UMap.keys m).Nodup) (k : Id) (v : V) :
    (k, v) ∈ m ↔ UMap.find? m k = some v := by
  induction m with
  | nil => simp [UMap.find?]
  | cons p m ih =>
    obtain ⟨k0, v0⟩ := p
    have hnd : k0 ∉ UMap.keys m ∧ (UMap.keys m).Nodup := by simpa [UMap.keys_cons] using h
    by_cases h0 : k0 = k
    · subst h0
      have hnot : ∀ v, (k0, v) ∉ m := by
        intro v hv
        apply hnd.1
        exact List.mem_map.mpr ⟨(k0, v), hv, rfl⟩
      simp only [List.mem_cons, Prod.mk.injEq, true_and, UMap.find?, if_true, Option.some.injEq]
      constructor
      · rintro (h1 | h1)
        · exact h1.symm
        · exact absurd h1 (hnot v)
      · intro h1
        exact Or.inl h1.symm
    · have h0' : ¬ k = k0 := fun e => h0 e.symm
      simp only [List.mem_cons, Prod.mk.injEq, h0', false_and, false_or, UMap.find?, h0, if_false]
      exact ih hnd.2

theorem mem_keys_iff_isSome {V : Type} (m : UMap V) (k : Id) :
    k ∈ UMap.keys m ↔ (UMap.find? m k).isSome = true := by
  rw [← UMap.contains_iff]
  rfl

theorem toSuspend_of_toDelete (s : TrackManager K) (p : Id × Nat) (h : s.toDelete p = true) :
    s.toSuspend p = false := by
  unfold toDelete at h
  unfold toSuspend
  by_cases hr : s.reliableNow p.1 = true
  · simp only [hr, if_true, Bool.and_eq_true] at h
    simp [h.1]
  · simp [hr]

theorem mem_filter_keys {V : Type} (m : UMap V) (h : (UMap.keys m).Nodup) (f : Id × V → Bool)
    (id : Id) :
    id ∈ (m.filter f).map Prod.fst ↔ ∃ n, UMap.find? m id = some n ∧ f (id, n) = true := by
  simp only [List.mem_map, List.mem_filter]
  constructor
  · rintro ⟨⟨k, n⟩, ⟨hm, hf⟩, rfl⟩
    exact ⟨n, (mem_iff_find?_of_nodup m h k n).mp hm, hf⟩
  · rintro ⟨n, hfind, hf⟩
    exact ⟨(id, n), ⟨(mem_iff_find?_of_nodup m h id n).mpr hfind, hf⟩, rfl⟩

theorem correctPhase3_spec (s s' : TrackManager K)
    (hnd : s.mNonMeasurementFrames.keys.Nodup)
    (hk : ∀ id ∈ s.mNonMeasurementFrames.keys, id ∈ s.mNumberOfTrackedFrames.keys ∧
      id ∈ s.mKalmanEstimators.keys ∧ id ∉ s.mSuspendedKalmanEstimators.keys)
    (h : correctPhase3 s = some s') :
    ∃ dl sl : List Id,
      (∀ id, id ∈ dl ↔ ∃ n, s.mNonMeasurementFrames.find? id = some n ∧ s.toDelete (id, n) = true) ∧
      (∀ id, id ∈ sl ↔
        ∃ n, s.mNonMeasurementFrames.find? id = some n ∧ s.toSuspend (id, n) = true) ∧
      s'.mConfig = s.mConfig ∧ s'.mMeasurementMap = s.mMeasurementMap ∧
      s'.mCurrentId = s.mCurrentId ∧ s'.mAutoIdGeneration = s.mAutoIdGeneration ∧
      (∀ id, s'.mKalmanEstimators.find? id =
        if id ∈ dl ∨ id ∈ sl then none else s.mKalmanEstimators.find? id) ∧
      (∀ id, s'.mNonMeasurementFrames.find? id =
        if id ∈ dl ∨ id ∈ sl then none else s.mNonMeasurementFrames.find? id) ∧
      (∀ id, s'.mNumberOfTrackedFrames.find? id =
        if id ∈ dl then none else s.mNumberOfTrackedFrames.find? id) ∧
      (∀ id, s'.mSuspendedKalmanEstimators.find? id =
        if id ∈ sl then s.mKalmanEstimators.find? id
        else s.mSuspendedKalmanEstimators.find? id) ∧
      (s.mKalmanEstimators.keys.Nodup → s'.mKalmanEstimators.keys.Nodup) ∧
      s'.mNonMeasurementFrames.keys.Nodup ∧
      (s.mSuspendedKalmanEstimators.keys.Nodup → s'.mSuspendedKalmanEstimators.keys.Nodup) := by
  have hk' : ∀ p ∈ s.mNonMeasurementFrames,
      p.1 ∈ s.mNumberOfTrackedFrames.keys ∧ p.1 ∈ s.mKalmanEstimators.keys := by
    intro p hp
    have hm : p.1 ∈ s.mNonMeasurementFrames.keys := List.mem_map.mpr ⟨p, hp, rfl⟩
    exact ⟨(hk _ hm).1, (hk _ hm).2.1⟩
  have hdl := mem_filter_keys s.mNonMeasurementFrames hnd s.toDelete
  have hsl := mem_filter_keys s.mNonMeasurementFrames hnd s.toSuspend
  generalize hdlD : (List.filter s.toDelete s.mNonMeasurementFrames).map Prod.fst = dl at hdl
  generalize hslD : (List.filter s.toSuspend s.mNonMeasurementFrames).map Prod.fst = sl at hsl
  have hsub : ∀ id ∈ dl, id ∉ s.mSuspendedKalmanEstimators.keys := by
    intro id hid
    obtain ⟨n, hf, _⟩ := (hdl id).mp hid
    have hm : id ∈ s.mNonMeasurementFrames.keys := by
      rw [mem_keys_iff_isSome, hf]
      rfl
    exact (hk id hm).2.2
  have hslnd : sl.Nodup := by
    rw [← hslD]
    exact List.Nodup.sublist (List.Sublist.map _ (List.filter_sublist _)) hnd
  have hdisj : ∀ id ∈ sl, id ∉ dl := by
    intro id hs hd
    obtain ⟨n, hf, ht⟩ := (hsl id).mp hs
    obtain ⟨n', hf', ht'⟩ := (hdl id).mp hd
    rw [hf] at hf'
    cases hf'
    rw [toSuspend_of_toDelete s _ ht'] at ht
    exact absurd ht (by simp)
  unfold correctPhase3 at h
  rw [classify_fold s _ _ _ hk'] at h
  simp only [List.nil_append, hdlD, hslD, Option.bind_eq_bind, delete_fold dl s hsub,
    Option.some_bind] at h
  obtain ⟨c, m, ci, a, ke, nm, tf, su, nd⟩ := suspend_fold sl _ s' hslnd h
  refine ⟨dl, sl, hdl, hsl, c, m, ci, a, ?_, ?_, ?_, ?_, ?_, ?_, ?_⟩
  · intro id
    rw [ke, find?_foldl_erase, find?_foldl_erase]
    by_cases h1 : id ∈ sl
    · simp [h1]
    · by_cases h2 : id ∈ dl
      · simp [h1, h2]
      · simp [h1, h2]
  · intro id
    rw [nm, find?_foldl_erase, find?_foldl_erase]
    by_cases h1 : id ∈ sl
    · simp [h1]
    · by_cases h2 : id ∈ dl
      · simp [h1, h2]
      · simp [h1, h2]
  · intro id
    rw [tf, find?_foldl_erase]
  · intro id
    rw [su id]
    by_cases h1 : id ∈ sl
    · simp [h1, find?_foldl_erase, hdisj id h1]
    · simp [h1]
  · intro hn
    rw [ke]
    exact nodup_foldl_erase _ _ (nodup_foldl_erase _ _ hn)
  · rw [nm]
    exact nodup_foldl_erase _ _ (nodup_foldl_erase _ _ hnd)
  · exact nd

/-! ## The whole of `TrackManager::correct` -/

theorem correctPhase1_spec (ops : EstimatorOps K) (s s1 : TrackManager K) (hwf : s.WF)
    (h : correctPhase1 ops s = some s1) :
    s1.mConfig = s.mConfig ∧ s1.mMeasurementMap = s.mMeasurementMap ∧
    s1.mCurrentId = s.mCurrentId ∧ s1.mAutoIdGeneration = s.mAutoIdGeneration ∧
    s1.mSuspendedKalmanEstimators = s.mSuspendedKalmanEstimators ∧
    UMap.keys s1.mKalmanEstimators = UMap.keys s.mKalmanEstimators ∧
    (∀ id e, s.mKalmanEstimators.find? id = some e →
      ∃ e1, CorrectedEntry ops s.mMeasurementMap (id, e) (id, e1) ∧
        s1.mKalmanEstimators.find? id = some e1 ∧
        s1.mNonMeasurementFrames.find? id = some (s.nmfUpdated id) ∧
        s1.mNumberOfTrackedFrames.find? id = some (s.tfUpdated id)) ∧
    (∀ id, s.mKalmanEstimators.find? id = none →
      s1.mKalmanEstimators.find? id = none ∧
      s1.mNonMeasurementFrames.find? id = none ∧
      s1.mNumberOfTrackedFrames.find? id = s.mNumberOfTrackedFrames.find? id) ∧
    s1.mNonMeasurementFrames.keys.Nodup := by
  unfold correctPhase1 at h
  cases hl : correctLoop1 ops s.mMeasurementMap s.mKalmanEstimators [] s.mNonMeasurementFrames
      s.mNumberOfTrackedFrames with
  | none => simp [hl] at h
  | some r =>
    obtain ⟨est, nmf, tf⟩ := r
    simp only [hl, Option.some.injEq] at h
    subst h
    obtain ⟨⟨todo', he, hf⟩, hn, ht, hk⟩ :=
      correctLoop1_spec ops s.mMeasurementMap _ _ _ _ _ _ _ hwf.activeNodup hl
    simp only [List.reverse_nil, List.nil_append] at he
    subst he
    have hfind := find?_of_correctedEntries ops s.mMeasurementMap _ _ hf
    refine ⟨rfl, rfl, rfl, rfl, rfl, keys_of_correctedEntries ops _ _ _ hf, ?_, ?_, hk hwf.nmfNodup⟩
    · intro id e hid
      have hmem : id ∈ UMap.keys s.mKalmanEstimators := by
        rw [mem_keys_iff_isSome, hid]
        rfl
      have htf : (UMap.find? s.mNumberOfTrackedFrames id).isSome = true :=
        (mem_keys_iff_isSome _ _).mp (hwf.tfKeys id hmem)
      have h1 := hfind id
      rw [hid] at h1
      simp only at h1
      cases hm : UMap.find? s.mMeasurementMap id with
      | none =>
        rw [hm] at h1
        refine ⟨e, ⟨rfl, by simp [hm]⟩, h1, ?_, ?_⟩
        · rw [hn id]
          simp [hmem, hm, nmfUpdated, pendingNow]
        · rw [ht id]
          cases htf' : UMap.find? s.mNumberOfTrackedFrames id with
          | none => simp [htf'] at htf
          | some v => simp [hmem, hm, tfUpdated, pendingNow, UMap.getD, htf']
      | some m =>
        rw [hm] at h1
        simp only at h1
        cases hc : ops.correct e m with
        | none =>
          -- the entry of `id` exists after the loop, so its correction did not throw
          have hk1 := keys_of_correctedEntries ops _ _ _ hf
          have : id ∈ UMap.keys est := by rw [hk1]; exact hmem
          rw [mem_keys_iff_isSome, h1, hc] at this
          simp at this
        | some e1 =>
          refine ⟨e1, ⟨rfl, by simp [hm, hc]⟩, by rw [h1, hc], ?_, ?_⟩
          · rw [hn id]
            simp [hmem, hm, nmfUpdated, pendingNow]
          · rw [ht id]
            simp [hmem, hm, tfUpdated, pendingNow]
    · intro id hid
      have hmem : id ∉ UMap.keys s.mKalmanEstimators := by
        rw [mem_keys_iff_isSome, hid]
        simp
      have hnmf : UMap.find? s.mNonMeasurementFrames id = none := by
        rw [UMap.find?_eq_none_iff]
        intro hmm
        exact hmem ((hwf.nmfKeys id).mp hmm)
      have h1 := hfind id
      rw [hid] at h1
      refine ⟨h1, ?_, ?_⟩
      · rw [hn id]
        simp [hmem, hnmf]
      · rw [ht id]
        simp [hmem]

theorem find?_some_of_mem_keys {V : Type} (m : UMap V) (k : Id) (h : k ∈ UMap.keys m) :
    ∃ v, UMap.find? m k = some v := by
  rw [mem_keys_iff_isSome] at h
  exact Option.isSome_iff_exists.mp h

theorem mem_keys_of_find? {V : Type} (m : UMap V) (k : Id) (v : V) (h : UMap.find? m k = some v) :
    k ∈ UMap.keys m := by
  rw [mem_keys_iff_isSome, h]
  rfl

theorem correctPhase1_wf (ops : EstimatorOps K) (s s1 : TrackManager K) (hwf : s.WF)
    (h : correctPhase1 ops s = some s1) : s1.WF := by
  obtain ⟨_, _, _, _, su1, k1, act1, abs1, nd1⟩ := correctPhase1_spec ops s s1 hwf h
  have hcase : ∀ id, (id ∈ UMap.keys s.mKalmanEstimators ∧
      id ∈ UMap.keys s1.mNonMeasurementFrames ∧ id ∈ UMap.keys s1.mNumberOfTrackedFrames) ∨
      (id ∉ UMap.keys s.mKalmanEstimators ∧ id ∉ UMap.keys s1.mNonMeasurementFrames) := by
    intro id
    cases hf : UMap.find? s.mKalmanEstimators id with
    | none =>
      right
      obtain ⟨_, h2, _⟩ := abs1 id hf
      exact ⟨(UMap.find?_eq_none_iff _ _).mp hf, (UMap.find?_eq_none_iff _ _).mp h2⟩
    | some e =>
      left
      obtain ⟨e1, _, _, h2, h3⟩ := act1 id e hf
      exact ⟨mem_keys_of_find? _ _ _ hf, mem_keys_of_find? _ _ _ h2, mem_keys_of_find? _ _ _ h3⟩
  refine ⟨?_, ?_, nd1, ?_, ?_, ?_⟩
  · rw [k1]
    exact hwf.activeNodup
  · rw [su1]
    exact hwf.suspendedNodup
  · intro id
    rw [k1]
    rcases hcase id with ⟨a, b, _⟩ | ⟨a, b⟩
    · exact ⟨fun _ => a, fun _ => b⟩
    · exact ⟨fun x => absurd x b, fun x => absurd x a⟩
  · intro id hid
    rw [k1] at hid
    rcases hcase id with ⟨_, _, c⟩ | ⟨a, _⟩
    · exact c
    · exact absurd hid a
  · intro id hid
    rw [k1] at hid
    rw [su1]
    exact hwf.disjoint id hid

theorem reactivationList_spec (s : TrackManager K)
    (hnd : s.mSuspendedKalmanEstimators.keys.Nodup) :
    (reactivationList s).Nodup ∧
    ∀ id, id ∈ reactivationList s ↔
      (∃ e, s.mSuspendedKalmanEstimators.find? id = some e) ∧
        (s.mMeasurementMap.find? id).isSome = true := by
  constructor
  · exact List.Nodup.sublist (List.Sublist.map _ (List.filter_sublist _)) hnd
  · intro id
    unfold reactivationList
    rw [mem_filter_keys _ hnd]
    simp only [UMap.count, UMap.contains]
    constructor
    · rintro ⟨e, he, hm⟩
      refine ⟨⟨e, he⟩, ?_⟩
      by_contra hc
      simp [hc] at hm
    · rintro ⟨⟨e, he⟩, hm⟩
      exact ⟨e, he, by simp [hm]⟩

theorem correctPhase2_spec (ops : EstimatorOps K) (s s2 : TrackManager K) (hwf : s.WF)
    (h : correctPhase2 ops s = some s2) :
    s2.WF ∧ s2.mConfig = s.mConfig ∧ s2.mMeasurementMap = s.mMeasurementMap ∧
    s2.mCurrentId = s.mCurrentId ∧ s2.mAutoIdGeneration = s.mAutoIdGeneration ∧
    (∀ id e m, s.mSuspendedKalmanEstimators.find? id = some e →
      s.mMeasurementMap.find? id = some m →
      ∃ e1, ops.correct e m = some e1 ∧
        s2.mKalmanEstimators.find? id = some e1 ∧
        s2.mNonMeasurementFrames.find? id = some 0 ∧
        s2.mNumberOfTrackedFrames.find? id = some (reactivationCount s.mConfig) ∧
        s2.mSuspendedKalmanEstimators.find? id = none) ∧
    (∀ id, (s.mSuspendedKalmanEstimators.find? id = none ∨ s.mMeasurementMap.find? id = none) →
      s2.mKalmanEstimators.find? id = s.mKalmanEstimators.find? id ∧
      s2.mNonMeasurementFrames.find? id = s.mNonMeasurementFrames.find? id ∧
      s2.mNumberOfTrackedFrames.find? id = s.mNumberOfTrackedFrames.find? id ∧
      s2.mSuspendedKalmanEstimators.find? id = s.mSuspendedKalmanEstimators.find? id) := by
  obtain ⟨rnd, rmem⟩ := reactivationList_spec s hwf.suspendedNodup
  unfold correctPhase2 at h
  have hm : ∀ id ∈ reactivationList s, (s.mMeasurementMap.find? id).isSome := fun id hid =>
    ((rmem id).mp hid).2
  obtain ⟨c, m, ci, a, e2, e2', su2, n2, t2, k1, k2, k3⟩ :=
    reactivate_fold_spec ops _ s s2 rnd hm h
  have hin : ∀ id e m, s.mSuspendedKalmanEstimators.find? id = some e →
      s.mMeasurementMap.find? id = some m → id ∈ reactivationList s := by
    intro id e m he hmm
    exact (rmem id).mpr ⟨⟨e, he⟩, by simp [hmm]⟩
  have hout : ∀ id, (s.mSuspendedKalmanEstimators.find? id = none ∨
      s.mMeasurementMap.find? id = none) → id ∉ reactivationList s := by
    intro id hor hid
    obtain ⟨⟨e, he⟩, hmm⟩ := (rmem id).mp hid
    rcases hor with h1 | h1
    · rw [h1] at he
      cases he
    · rw [h1] at hmm
      cases hmm
  have hpend : ∀ id e m, s.mSuspendedKalmanEstimators.find? id = some e →
      s.mMeasurementMap.find? id = some m →
      ∃ e1, ops.correct e m = some e1 ∧
        s2.mKalmanEstimators.find? id = some e1 ∧
        s2.mNonMeasurementFrames.find? id = some 0 ∧
        s2.mNumberOfTrackedFrames.find? id = some (reactivationCount s.mConfig) ∧
        s2.mSuspendedKalmanEstimators.find? id = none := by
    intro id e mm he hmm
    have hid := hin id e mm he hmm
    have h1 := e2 id
    have h2 := e2' id hid
    simp only [hid, if_true, he, hmm, Option.some_bind] at h1
    cases hc : ops.correct e mm with
    | none =>
      rw [h1, hc] at h2
      cases h2
    | some e1 =>
      refine ⟨e1, rfl, by rw [h1, hc], ?_, ?_, ?_⟩
      · rw [n2 id]; simp [hid]
      · rw [t2 id]; simp [hid]
      · rw [su2 id]; simp [hid]
  have hidle : ∀ id, (s.mSuspendedKalmanEstimators.find? id = none ∨
      s.mMeasurementMap.find? id = none) →
      s2.mKalmanEstimators.find? id = s.mKalmanEstimators.find? id ∧
      s2.mNonMeasurementFrames.find? id = s.mNonMeasurementFrames.find? id ∧
      s2.mNumberOfTrackedFrames.find? id = s.mNumberOfTrackedFrames.find? id ∧
      s2.mSuspendedKalmanEstimators.find? id = s.mSuspendedKalmanEstimators.find? id := by
    intro id hor
    have hid := hout id hor
    refine ⟨?_, ?_, ?_, ?_⟩
    · rw [e2 id]; simp [hid]
    · rw [n2 id]; simp [hid]
    · rw [t2 id]; simp [hid]
    · rw [su2 id]; simp [hid]
  have hcases : ∀ id, id ∈ reactivationList s ∨ id ∉ reactivationList s := fun id => em _
  refine ⟨⟨k1 hwf.activeNodup, k2 hwf.suspendedNodup, k3 hwf.nmfNodup, ?_, ?_, ?_⟩,
    c, m, ci, a, hpend, hidle⟩
  · intro id
    rw [mem_keys_iff_isSome, mem_keys_iff_isSome, n2 id, e2 id]
    by_cases hid : id ∈ reactivationList s
    · have := e2' id hid
      rw [e2 id] at this
      simp only [hid, if_true] at this ⊢
      simp [this]
    · simp only [hid, if_false]
      rw [← mem_keys_iff_isSome, ← mem_keys_iff_isSome]
      exact hwf.nmfKeys id
  · intro id
    rw [mem_keys_iff_isSome, mem_keys_iff_isSome, t2 id, e2 id]
    by_cases hid : id ∈ reactivationList s
    · simp [hid]
    · simp only [hid, if_false]
      rw [← mem_keys_iff_isSome, ← mem_keys_iff_isSome]
      exact hwf.tfKeys id
  · intro id
    rw [mem_keys_iff_isSome, ← UMap.find?_eq_none_iff, su2 id, e2 id]
    by_cases hid : id ∈ reactivationList s
    · simp [hid]
    · simp only [hid, if_false]
      rw [← mem_keys_iff_isSome, UMap.find?_eq_none_iff]
      exact hwf.disjoint id

theorem correctPhase3_post (s s' : TrackManager K) (hwf : s.WF)
    (h : correctPhase3 s = some s') :
    s'.WF ∧ s'.mConfig = s.mConfig ∧ s'.mMeasurementMap = s.mMeasurementMap ∧
    s'.mCurrentId = s.mCurrentId ∧ s'.mAutoIdGeneration = s.mAutoIdGeneration ∧
    (∀ id n, s.mNonMeasurementFrames.find? id = some n →
      s'.mKalmanEstimators.find? id =
        (if s.toDelete (id, n) || s.toSuspend (id, n) then none
          else s.mKalmanEstimators.find? id) ∧
      s'.mNonMeasurementFrames.find? id =
        (if s.toDelete (id, n) || s.toSuspend (id, n) then none else some n) ∧
      s'.mNumberOfTrackedFrames.find? id =
        (if s.toDelete (id, n) then none else s.mNumberOfTrackedFrames.find? id) ∧
      s'.mSuspendedKalmanEstimators.find? id =
        (if s.toSuspend (id, n) then s.mKalmanEstimators.find? id
          else s.mSuspendedKalmanEstimators.find? id)) ∧
    (∀ id, s.mNonMeasurementFrames.find? id = none →
      s'.mKalmanEstimators.find? id = s.mKalmanEstimators.find? id ∧
      s'.mNonMeasurementFrames.find? id = none ∧
      s'.mNumberOfTrackedFrames.find? id = s.mNumberOfTrackedFrames.find? id ∧
      s'.mSuspendedKalmanEstimators.find? id = s.mSuspendedKalmanEstimators.find? id) := by
  have hk : ∀ id ∈ s.mNonMeasurementFrames.keys, id ∈ s.mNumberOfTrackedFrames.keys ∧
      id ∈ s.mKalmanEstimators.keys ∧ id ∉ s.mSuspendedKalmanEstimators.keys := by
    intro id hid
    have ha := (hwf.nmfKeys id).mp hid
    exact ⟨hwf.tfKeys id ha, ha, hwf.disjoint id ha⟩
  obtain ⟨dl, sl, hdl, hsl, c, m, ci, a, ke, nm, tf, su, nd1, nd2, nd3⟩ :=
    correctPhase3_spec s s' hwf.nmfNodup hk h
  have hsome : ∀ id n, s.mNonMeasurementFrames.find? id = some n →
      (id ∈ dl ↔ s.toDelete (id, n) = true) ∧ (id ∈ sl ↔ s.toSuspend (id, n) = true) := by
    intro id n hn
    constructor
    · rw [hdl id]
      constructor
      · rintro ⟨n', hn', ht⟩
        rw [hn] at hn'
        cases hn'
        exact ht
      · intro ht
        exact ⟨n, hn, ht⟩
    · rw [hsl id]
      constructor
      · rintro ⟨n', hn', ht⟩
        rw [hn] at hn'
        cases hn'
        exact ht
      · intro ht
        exact ⟨n, hn, ht⟩
  have hnone : ∀ id, s.mNonMeasurementFrames.find? id = none → id ∉ dl ∧ id ∉ sl := by
    intro id hn
    constructor
    · rw [hdl id]
      rintro ⟨n', hn', _⟩
      rw [hn] at hn'
      cases hn'
    · rw [hsl id]
      rintro ⟨n', hn', _⟩
      rw [hn] at hn'
      cases hn'
  have hact : ∀ id, (s'.mKalmanEstimators.find? id).isSome = true →
      id ∉ dl ∧ id ∉ sl ∧ (s.mKalmanEstimators.find? id).isSome = true := by
    intro id hs
    rw [ke id] at hs
    by_cases hd : id ∈ dl ∨ id ∈ sl
    · simp [hd] at hs
    · simp only [hd, if_false] at hs
      exact ⟨fun x => hd (Or.inl x), fun x => hd (Or.inr x), hs⟩
  refine ⟨⟨nd1 hwf.activeNodup, nd3 hwf.suspendedNodup, nd2, ?_, ?_, ?_⟩, c, m, ci, a, ?_, ?_⟩
  · intro id
    rw [mem_keys_iff_isSome, mem_keys_iff_isSome, nm id, ke id]
    by_cases hd : id ∈ dl ∨ id ∈ sl
    · simp [hd]
    · simp only [hd, if_false]
      rw [← mem_keys_iff_isSome, ← mem_keys_iff_isSome]
      exact hwf.nmfKeys id
  · intro id
    rw [mem_keys_iff_isSome, mem_keys_iff_isSome]
    intro hs
    obtain ⟨h1, _, h3⟩ := hact id hs
    rw [tf id]
    simp only [h1, if_false]
    rw [← mem_keys_iff_isSome] at h3 ⊢
    exact hwf.tfKeys id h3
  · intro id
    rw [mem_keys_iff_isSome, ← UMap.find?_eq_none_iff]
    intro hs
    obtain ⟨_, h2, h3⟩ := hact id hs
    rw [su id]
    simp only [h2, if_false]
    rw [← mem_keys_iff_isSome] at h3
    rw [UMap.find?_eq_none_iff]
    exact hwf.disjoint id h3
  · intro id n hn
    obtain ⟨h1, h2⟩ := hsome id n hn
    refine ⟨?_, ?_, ?_, ?_⟩
    · rw [ke id]
      simp only [h1, h2, Bool.or_eq_true]
    · rw [nm id, hn]
      simp only [h1, h2, Bool.or_eq_true]
    · rw [tf id]
      simp only [h1]
    · rw [su id]
      simp only [h2]
  · intro id hn
    obtain ⟨h1, h2⟩ := hnone id hn
    refine ⟨?_, ?_, ?_, ?_⟩
    · rw [ke id]; simp [h1, h2]
    · rw [nm id]; simp [h1, h2, hn]
    · rw [tf id]; simp [h1]
    · rw [su id]; simp [h2]

theorem correct_post (ops : EstimatorOps K) (s s' : TrackManager K) (hwf : s.WF)
    (h : correct ops s = some s') : CorrectPost ops s s' := by
  unfold correct at h
  simp only [Option.bind_eq_bind] at h
  cases h1 : correctPhase1 ops s with
  | none => simp [h1] at h
  | some s1 =>
    simp only [h1, Option.some_bind] at h
    cases h2 : correctPhase2 ops s1 with
    | none => simp [h2] at h
    | some s2 =>
      simp only [h2, Option.some_bind] at h
      have wf1 := correctPhase1_wf ops s s1 hwf h1
      obtain ⟨c1, m1, i1, a1, su1, k1, act1, abs1, _⟩ := correctPhase1_spec ops s s1 hwf h1
      obtain ⟨wf2, c2, m2, i2, a2, pend2, idle2⟩ := correctPhase2_spec ops s1 s2 wf1 h2
      obtain ⟨wf3, c3, m3, i3, a3, some3, none3⟩ := correctPhase3_post s2 s' wf2 h
      refine ⟨wf3, c3.trans (c2.trans c1), m3.trans (m2.trans m1), i3.trans (i2.trans i1),
        a3.trans (a2.trans a1), ?_, ?_, ?_, ?_⟩
      · intro id e he
        obtain ⟨e1, hce, ha1, hn1, ht1⟩ := act1 id e he
        have hsus : s1.mSuspendedKalmanEstimators.find? id = none := by
          rw [su1, UMap.find?_eq_none_iff]
          exact hwf.disjoint id (mem_keys_of_find? _ _ _ he)
        obtain ⟨ha2, hn2, ht2, hs2⟩ := idle2 id (Or.inl hsus)
        rw [ha1] at ha2
        rw [hn1] at hn2
        rw [ht1] at ht2
        rw [hsus] at hs2
        obtain ⟨ha3, hn3, ht3, hs3⟩ := some3 id _ hn2
        have hrel : s2.reliableNow id = s.reliableUpdated id := by
          simp [reliableNow, isReliable, reliableUpdated, UMap.getD, ht2, c2, c1]
        have hdyn : s2.dynamicNow id = e1.currentState.isDynamic := by
          simp [dynamicNow, UMap.getD, ha2]
        have hdel : s2.toDelete (id, s.nmfUpdated id) = s.deletes id e1 := by
          simp only [toDelete, deletes, hrel, hdyn, c2, c1]
          cases s.reliableUpdated id <;> cases e1.currentState.isDynamic <;> simp
        have hsu : s2.toSuspend (id, s.nmfUpdated id) = s.suspends id e1 := by
          simp only [toSuspend, suspends, hrel, hdyn, c2, c1]
        refine ⟨e1, hce, ?_, ?_, ?_, ?_⟩
        · rw [ha3, hdel, hsu, ha2]
        · rw [hn3, hdel, hsu]
        · rw [ht3, hdel, ht2]
        · rw [hs3, hsu, ha2, hs2]
      · intro id e m he hm
        rw [← su1] at he
        rw [← m1] at hm
        obtain ⟨e1, hc, ha2, hn2, ht2, hs2⟩ := pend2 id e m he hm
        obtain ⟨ha3, hn3, ht3, hs3⟩ := some3 id _ hn2
        have hdel : s2.toDelete (id, 0) = false := by
          simp [toDelete]
        have hsu : s2.toSuspend (id, 0) = false := by
          simp [toSuspend]
        refine ⟨e1, hc, ?_, ?_, ?_, ?_⟩
        · rw [ha3, hdel, hsu, ha2]; rfl
        · rw [hn3, hdel, hsu]; rfl
        · rw [ht3, hdel, ht2, c1]; rfl
        · rw [hs3, hsu, hs2]; rfl
      · intro id e he hm
        have hact : s.mKalmanEstimators.find? id = none := by
          rw [UMap.find?_eq_none_iff]
          intro hmem
          exact hwf.disjoint id hmem (mem_keys_of_find? _ _ _ he)
        obtain ⟨ha1, hn1, ht1⟩ := abs1 id hact
        rw [← m1] at hm
        obtain ⟨ha2, hn2, ht2, hs2⟩ := idle2 id (Or.inr hm)
        rw [hn1] at hn2
        obtain ⟨ha3, hn3, ht3, hs3⟩ := none3 id hn2
        refine ⟨?_, hn3, ?_, ?_⟩
        · rw [ha3, ha2, ha1]
        · rw [ht3, ht2, ht1]
        · rw [hs3, hs2, su1, he]
      · intro id ha hs
        obtain ⟨ha1, hn1, ht1⟩ := abs1 id ha
        rw [← su1] at hs
        obtain ⟨ha2, hn2, ht2, hs2⟩ := idle2 id (Or.inl hs)
        rw [hn1] at hn2
        obtain ⟨ha3, hn3, ht3, hs3⟩ := none3 id hn2
        refine ⟨?_, hn3, ?_, ?_⟩
        · rw [ha3, ha2, ha1]
        · rw [ht3, ht2, ht1]
        · rw [hs3, hs2, hs]

/-! ## The accessors -/

theorem reliability_fold (s : TrackManager K) (b : Bool) :
    ∀ (l acc : List (Id × MultiModelKalmanEstimator K)) (t : TrackManager K),
      t.mConfig = s.mConfig →
      (∀ id, t.mNumberOfTrackedFrames.getD id 0 = s.mNumberOfTrackedFrames.getD id 0) →
      (l.foldl (reliabilityStep b) (acc, t)).1 =
        acc ++ l.filter (fun p => decide (s.reliableNow p.1 = b)) := by
  intro l
  induction l with
  | nil => intro acc t _ _; simp
  | cons p rest ih =>
    intro acc t hc ht
    have hrel : (t.isReliable p.1).1 = s.reliableNow p.1 := by
      simp [reliableNow, isReliable, hc, ht]
    have ht' : ∀ id, (t.isReliable p.1).2.mNumberOfTrackedFrames.getD id 0
        = s.mNumberOfTrackedFrames.getD id 0 := by
      intro id
      simp only [isReliable]
      rw [UMap.getD_touch]
      exact ht id
    have hc' : (t.isReliable p.1).2.mConfig = s.mConfig := hc
    simp only [List.foldl_cons]
    by_cases hb : s.reliableNow p.1 = b
    · have : reliabilityStep b (acc, t) p = (acc ++ [p], (t.isReliable p.1).2) := by
        simp [reliabilityStep, hrel, hb]
      rw [this, ih _ _ hc' ht']
      simp [List.filter, hb]
    · have : reliabilityStep b (acc, t) p = (acc, (t.isReliable p.1).2) := by
        simp [reliabilityStep, hrel, hb]
      rw [this, ih _ _ hc' ht']
      simp [List.filter, hb]

theorem reliableEntries_eq (s : TrackManager K) :
    s.reliableEntries.1 = s.mKalmanEstimators.filter (fun p => s.reliableNow p.1) := by
  unfold reliableEntries
  rw [reliability_fold s true _ [] s rfl (fun _ => rfl)]
  simp

theorem unreliableEntries_eq (s : TrackManager K) :
    s.unreliableEntries.1 = s.mKalmanEstimators.filter (fun p => !s.reliableNow p.1) := by
  unfold unreliableEntries
  rw [reliability_fold s false _ [] s rfl (fun _ => rfl)]
  simp

theorem inReliableTracks_iff (s : TrackManager K) (hnd : s.mKalmanEstimators.keys.Nodup)
    (id : Id) :
    s.inReliableTracks id ↔
      (∃ e, s.mKalmanEstimators.find? id = some e) ∧
        s.mNumberOfTrackedFrames.getD id 0 ≥ s.mConfig.mMaxNumberOfUnreliableFrames := by
  unfold inReliableTracks
  rw [reliableEntries_eq, UMap.keys, mem_filter_keys _ hnd]
  simp only [reliableNow, isReliable, decide_eq_true_eq]
  constructor
  · rintro ⟨e, he, hr⟩
    exact ⟨⟨e, he⟩, hr⟩
  · rintro ⟨⟨e, he⟩, hr⟩
    exact ⟨e, he, hr⟩

theorem inUnreliableTracks_iff (s : TrackManager K) (hnd : s.mKalmanEstimators.keys.Nodup)
    (id : Id) :
    s.inUnreliableTracks id ↔
      (∃ e, s.mKalmanEstimators.find? id = some e) ∧
        ¬ s.mNumberOfTrackedFrames.getD id 0 ≥ s.mConfig.mMaxNumberOfUnreliableFrames := by
  unfold inUnreliableTracks
  rw [unreliableEntries_eq, UMap.keys, mem_filter_keys _ hnd]
  simp only [reliableNow, isReliable, Bool.not_eq_true', decide_eq_false_iff_not]
  constructor
  · rintro ⟨e, he, hr⟩
    exact ⟨⟨e, he⟩, hr⟩
  · rintro ⟨⟨e, he⟩, hr⟩
    exact ⟨e, he, hr⟩

/-! ## One cycle `predict`, `setMeasurement`, `correct` -/

theorem setMeasurement_fold (l : List (Id × TrackedObject)) :
    ∀ (s : TrackManager K),
      l.foldl (fun s p => s.setMeasurement p.1 p.2) s =
        { s with mMeasurementMap := l.foldl (fun m p => UMap.assign m p.1 p.2) s.mMeasurementMap } := by
  induction l with
  | nil => intro s; rfl
  | cons p rest ih =>
    intro s
    simp only [List.foldl_cons]
    rw [ih]
    rfl

theorem find?_foldl_assign_isSome {V : Type} (l : List (Id × V)) :
    ∀ (m : UMap V) (id : Id),
      (UMap.find? (l.foldl (fun m p => UMap.assign m p.1 p.2) m) id).isSome = true ↔
        id ∈ UMap.keys l ∨ (UMap.find? m id).isSome = true := by
  induction l with
  | nil => intro m id; simp [UMap.keys]
  | cons p rest ih =>
    intro m id
    obtain ⟨k, v⟩ := p
    simp only [List.foldl_cons, ih, UMap.keys_cons, List.mem_cons, UMap.find?_assign]
    by_cases h : id = k
    · simp [h]
    · simp [h]

theorem keys_mapValues {V : Type} (m : UMap V) (f : V → V) :
    UMap.keys (List.map (fun p : Id × V => (p.1, f p.2)) m) = UMap.keys m := by
  simp [UMap.keys, List.map_map, Function.comp_def]

theorem prepare_spec (ops : EstimatorOps K) (s : TrackManager K) (f : Frame) :
    (s.prepare ops f).mConfig = s.mConfig ∧
    (s.prepare ops f).mCurrentId = s.mCurrentId ∧
    (s.prepare ops f).mAutoIdGeneration = s.mAutoIdGeneration ∧
    (s.prepare ops f).mNonMeasurementFrames = s.mNonMeasurementFrames ∧
    (s.prepare ops f).mNumberOfTrackedFrames = s.mNumberOfTrackedFrames ∧
    (s.prepare ops f).mSuspendedKalmanEstimators = s.mSuspendedKalmanEstimators ∧
    (∀ id, (s.prepare ops f).mKalmanEstimators.find? id =
      (s.mKalmanEstimators.find? id).map (fun e => ops.predict e f.deltaT)) ∧
    (∀ id, (s.prepare ops f).pendingNow id = true ↔ id ∈ UMap.keys f.measurements) ∧
    (s.WF → (s.prepare ops f).WF) := by
  unfold prepare
  rw [setMeasurement_fold]
  have hk : UMap.keys (List.map (fun p => (p.1, ops.predict p.2 f.deltaT)) s.mKalmanEstimators)
      = UMap.keys s.mKalmanEstimators := keys_mapValues _ (fun e => ops.predict e f.deltaT)
  refine ⟨rfl, rfl, rfl, rfl, rfl, rfl, ?_, ?_, ?_⟩
  · intro id
    exact UMap.find?_mapValues s.mKalmanEstimators (fun e => ops.predict e f.deltaT) id
  · intro id
    simp only [pendingNow, predict, UMap.clear]
    rw [find?_foldl_assign_isSome]
    simp [UMap.find?]
  · intro hwf
    refine ⟨?_, hwf.suspendedNodup, hwf.nmfNodup, ?_, ?_, ?_⟩
    · simp only [predict]
      rw [hk]
      exact hwf.activeNodup
    · intro id
      simp only [predict]
      rw [hk]
      exact hwf.nmfKeys id
    · intro id
      simp only [predict]
      rw [hk]
      exact hwf.tfKeys id
    · intro id
      simp only [predict]
      rw [hk]
      exact hwf.disjoint id

/-- The effect of one cycle on an active track, in terms of the state before the cycle. -/
theorem applyFrame_active (ops : EstimatorOps K) (s s' : TrackManager K) (f : Frame) (id : Id)
    (e : MultiModelKalmanEstimator K) (hwf : s.WF)
    (ha : s.mKalmanEstimators.find? id = some e) (h : applyFrame ops s f = some s') :
    s'.WF ∧ s'.mConfig = s.mConfig ∧
    ∃ e1 n1 t1,
      (id ∈ UMap.keys f.measurements →
        (∃ m, ops.correct (ops.predict e f.deltaT) m = some e1) ∧ n1 = 0 ∧
          t1 = (s.mNumberOfTrackedFrames.getD id 0 + 1) % UINT32_MOD) ∧
      (id ∉ UMap.keys f.measurements →
        e1 = ops.predict e f.deltaT ∧
          n1 = (s.mNonMeasurementFrames.getD id 0 + 1) % UINT32_MOD ∧
          t1 = s.mNumberOfTrackedFrames.getD id 0) ∧
      (n1 > s.mConfig.mNonMeasurementFramesDynamic ∧
          (¬ t1 ≥ s.mConfig.mMaxNumberOfUnreliableFrames ∨ e1.currentState.isDynamic = true) →
        s'.mKalmanEstimators.find? id = none ∧ s'.mSuspendedKalmanEstimators.find? id = none ∧
          s'.mNonMeasurementFrames.find? id = none ∧ s'.mNumberOfTrackedFrames.find? id = none) ∧
      (t1 ≥ s.mConfig.mMaxNumberOfUnreliableFrames ∧ e1.currentState.isDynamic = false ∧
          n1 > s.mConfig.mNonMeasurementFramesStatic →
        s'.mKalmanEstimators.find? id = none ∧ s'.mSuspendedKalmanEstimators.find? id = some e1 ∧
          s'.mNonMeasurementFrames.find? id = none ∧
          s'.mNumberOfTrackedFrames.find? id = some t1) ∧
      (¬ (n1 > s.mConfig.mNonMeasurementFramesDynamic ∧
            (¬ t1 ≥ s.mConfig.mMaxNumberOfUnreliableFrames ∨ e1.currentState.isDynamic = true)) →
        ¬ (t1 ≥ s.mConfig.mMaxNumberOfUnreliableFrames ∧ e1.currentState.isDynamic = false ∧
            n1 > s.mConfig.mNonMeasurementFramesStatic) →
        s'.mKalmanEstimators.find? id = some e1 ∧ s'.mSuspendedKalmanEstimators.find? id = none ∧
          s'.mNonMeasurementFrames.find? id = some n1 ∧
          s'.mNumberOfTrackedFrames.find? id = some t1) := by
  obtain ⟨pc, _, _, pn, pt, _, pa, pp, pwf⟩ := prepare_spec ops s f
  have post := correct_post ops (s.prepare ops f) s' (pwf hwf) h
  have ha' : (s.prepare ops f).mKalmanEstimators.find? id = some (ops.predict e f.deltaT) := by
    rw [pa id, ha]
    rfl
  obtain ⟨e1, hce, oa, onm, otf, osu⟩ := post.active id _ ha'
  refine ⟨post.wf, post.config.trans pc, e1, (s.prepare ops f).nmfUpdated id,
    (s.prepare ops f).tfUpdated id, ?_, ?_, ?_, ?_, ?_⟩
  · intro hmem
    have hp := (pp id).mpr hmem
    have hp' := hp
    unfold pendingNow at hp'
    obtain ⟨m, hm⟩ := Option.isSome_iff_exists.mp hp'
    obtain ⟨_, hc⟩ := hce
    simp only [hm] at hc
    refine ⟨⟨m, hc⟩, ?_, ?_⟩
    · simp [nmfUpdated, hp]
    · simp [tfUpdated, hp, pt]
  · intro hmem
    have hp : (s.prepare ops f).pendingNow id = false := by
      cases hx : (s.prepare ops f).pendingNow id with
      | false => rfl
      | true => exact absurd ((pp id).mp hx) hmem
    have hp' := hp
    unfold pendingNow at hp'
    have hm : (s.prepare ops f).mMeasurementMap.find? id = none := by
      cases hx : (s.prepare ops f).mMeasurementMap.find? id with
      | none => rfl
      | some v => simp [hx] at hp'
    obtain ⟨_, hc⟩ := hce
    simp only [hm] at hc
    refine ⟨hc, ?_, ?_⟩
    · simp [nmfUpdated, hp, pn]
    · simp [tfUpdated, hp, pt]
  · rintro ⟨h1, h2⟩
    have hd : (s.prepare ops f).deletes id e1 = true := by
      simp only [deletes, reliableUpdated, pc, Bool.and_eq_true, decide_eq_true_eq,
        Bool.or_eq_true, Bool.not_eq_true', decide_eq_false_iff_not]
      exact ⟨h1, h2⟩
    have hsu : (s.prepare ops f).suspends id e1 = false := by
      simp only [suspends, reliableUpdated, pc]
      rcases h2 with h2 | h2
      · simp [h2]
      · simp [h2]
    simp only [hd, hsu, Bool.true_or, if_true] at oa onm otf osu
    exact ⟨oa, by simpa using osu, onm, otf⟩
  · rintro ⟨h1, h2, h3⟩
    have hd : (s.prepare ops f).deletes id e1 = false := by
      simp [deletes, reliableUpdated, pc, h1, h2]
    have hsu : (s.prepare ops f).suspends id e1 = true := by
      simp [suspends, reliableUpdated, pc, h1, h2, h3]
    simp only [hd, hsu, Bool.or_true, if_true] at oa onm otf osu
    exact ⟨oa, osu, onm, by simpa using otf⟩
  · intro h1 h2
    have hd : (s.prepare ops f).deletes id e1 = false := by
      cases hx : (s.prepare ops f).deletes id e1 with
      | false => rfl
      | true =>
        exfalso
        apply h1
        simpa only [deletes, reliableUpdated, pc, Bool.and_eq_true, decide_eq_true_eq,
          Bool.or_eq_true, Bool.not_eq_true', decide_eq_false_iff_not] using hx
    have hsu : (s.prepare ops f).suspends id e1 = false := by
      cases hx : (s.prepare ops f).suspends id e1 with
      | false => rfl
      | true =>
        exfalso
        apply h2
        simp only [suspends, reliableUpdated, pc, Bool.and_eq_true, decide_eq_true_eq,
          Bool.not_eq_true'] at hx
        exact ⟨hx.1.1, hx.1.2, hx.2⟩
    simp only [hd, hsu, Bool.or_false] at oa onm otf osu
    exact ⟨by simpa using oa, by simpa using osu, by simpa using onm, by simpa using otf⟩

/-! ## Consecutive cycles -/

theorem getD_of_find? {V : Type} (m : UMap V) (k : Id) (v d : V) (h : UMap.find? m k = some v) :
    UMap.getD m k d = v := by
  simp [UMap.getD, h]

/-- A track that receives a measurement in every cycle stays active, and every cycle adds one
to its tracked-frames counter. -/
theorem run_measured (ops : EstimatorOps K) (id : Id) :
    ∀ (fs : List Frame) (s s' : TrackManager K) (e : MultiModelKalmanEstimator K),
      s.WF → s.mKalmanEstimators.find? id = some e →
      (∀ f ∈ fs, id ∈ UMap.keys f.measurements) →
      run ops fs s = some s' →
      s'.WF ∧ s'.mConfig = s.mConfig ∧ (∃ e', s'.mKalmanEstimators.find? id = some e') ∧
        s'.mNumberOfTrackedFrames.getD id 0 =
          (s.mNumberOfTrackedFrames.getD id 0 + fs.length) % UINT32_MOD ∨
        (fs = [] ∧ s' = s) := by
  intro fs
  induction fs with
  | nil =>
    intro s s' e _ _ _ h
    simp only [run, List.foldlM_nil, pure, Option.some.injEq] at h
    exact Or.inr ⟨rfl, h.symm⟩
  | cons f rest ih =>
    intro s s' e hwf ha hm h
    left
    simp only [run, List.foldlM_cons, Option.bind_eq_bind] at h
    cases h1 : applyFrame ops s f with
    | none => simp [h1] at h
    | some s1 =>
      simp only [h1, Option.some_bind] at h
      obtain ⟨wf1, c1, e1, n1, t1, hmeas, _, _, _, hstay⟩ :=
        applyFrame_active ops s s1 f id e hwf ha h1
      obtain ⟨_, hn1, ht1⟩ := hmeas (hm f (List.mem_cons_self _ _))
      subst hn1
      obtain ⟨a1, _, _, tf1⟩ := hstay (by simp) (by simp)
      have htf1 : s1.mNumberOfTrackedFrames.getD id 0 = t1 := getD_of_find? _ _ _ _ tf1
      rcases ih s1 s' e1 wf1 a1 (fun g hg => hm g (List.mem_cons_of_mem _ hg)) h with
        ⟨wf', c', he', ht'⟩ | ⟨hnil, hs⟩
      · refine ⟨wf', c'.trans c1, he', ?_⟩
        rw [ht', htf1, ht1]
        simp only [List.length_cons, UINT32_MOD]
        omega
      · subst hs
        subst hnil
        refine ⟨wf1, c1, ⟨e1, a1⟩, ?_⟩
        rw [htf1, ht1]
        simp

/-- A reliable track that is dynamic after every `predict` and receives no measurement stays
active as long as its non-measurement counter does not exceed
`mNonMeasurementFramesDynamic`. -/
theorem run_missed_dynamic (ops : EstimatorOps K) (id : Id) :
    ∀ (fs : List Frame) (s s' : TrackManager K) (e : MultiModelKalmanEstimator K),
      s.WF → s.mKalmanEstimators.find? id = some e →
      (∀ f ∈ fs, id ∉ UMap.keys f.measurements) →
      s.mNumberOfTrackedFrames.getD id 0 ≥ s.mConfig.mMaxNumberOfUnreliableFrames →
      (∀ k, 1 ≤ k → k ≤ fs.length →
        (predictThrough ops (fs.take k) e).currentState.isDynamic = true) →
      s.mNonMeasurementFrames.getD id 0 + fs.length ≤ s.mConfig.mNonMeasurementFramesDynamic →
      s.mConfig.mNonMeasurementFramesDynamic < UINT32_MOD →
      run ops fs s = some s' →
      s'.WF ∧ s'.mConfig = s.mConfig ∧
        s'.mKalmanEstimators.find? id = some (predictThrough ops fs e) ∧
        s'.mNumberOfTrackedFrames.getD id 0 = s.mNumberOfTrackedFrames.getD id 0 ∧
        s'.mNonMeasurementFrames.getD id 0 = s.mNonMeasurementFrames.getD id 0 + fs.length := by
  intro fs
  induction fs with
  | nil =>
    intro s s' e hwf ha _ _ _ _ _ h
    simp only [run, List.foldlM_nil, pure, Option.some.injEq] at h
    subst h
    exact ⟨hwf, rfl, ha, rfl, rfl⟩
  | cons f rest ih =>
    intro s s' e hwf ha hm hrel hdyn hbound hD h
    simp only [run, List.foldlM_cons, Option.bind_eq_bind] at h
    cases h1 : applyFrame ops s f with
    | none => simp [h1] at h
    | some s1 =>
      simp only [h1, Option.some_bind] at h
      obtain ⟨wf1, c1, e1, n1, t1, _, hmiss, _, _, hstay⟩ :=
        applyFrame_active ops s s1 f id e hwf ha h1
      obtain ⟨he1, hn1, ht1⟩ := hmiss (hm f (List.mem_cons_self _ _))
      have hd1 : e1.currentState.isDynamic = true := by
        rw [he1]
        have := hdyn 1 (le_refl 1) (by simp)
        simpa [predictThrough] using this
      simp only [List.length_cons] at hbound
      have hn1' : n1 = s.mNonMeasurementFrames.getD id 0 + 1 := by
        rw [hn1]
        apply Nat.mod_eq_of_lt
        omega
      obtain ⟨a1, _, nm1, tf1⟩ := hstay (by
        rintro ⟨hgt, _⟩
        omega) (by
        rintro ⟨_, hfalse, _⟩
        rw [hd1] at hfalse
        cases hfalse)
      have htf1 : s1.mNumberOfTrackedFrames.getD id 0 = t1 := getD_of_find? _ _ _ _ tf1
      have hnm1 : s1.mNonMeasurementFrames.getD id 0 = n1 := getD_of_find? _ _ _ _ nm1
      have hdyn' : ∀ k, 1 ≤ k → k ≤ rest.length →
          (predictThrough ops (rest.take k) e1).currentState.isDynamic = true := by
        intro k hk1 hk2
        have := hdyn (k + 1) (by omega) (by simp; omega)
        simpa [predictThrough, he1] using this
      obtain ⟨wf', c', ha', ht', hn'⟩ := ih s1 s' e1 wf1 a1
        (fun g hg => hm g (List.mem_cons_of_mem _ hg))
        (by rw [htf1, ht1, c1]; exact hrel) hdyn'
        (by rw [hnm1, hn1', c1]; omega) (by rw [c1]; exact hD) h
      refine ⟨wf', c'.trans c1, ?_, ?_, ?_⟩
      · rw [ha', he1]
        rfl
      · rw [ht', htf1, ht1]
      · rw [hn', hnm1, hn1']
        simp only [List.length_cons]
        omega

/-! ## `createTrack` -/

theorem createTrack_maps (ops : EstimatorOps K) (s : TrackManager K) (o : TrackedObject) (t : ℚ) :
    (s.createTrack ops o t).2.mConfig = s.mConfig ∧
    (s.createTrack ops o t).2.mSuspendedKalmanEstimators = s.mSuspendedKalmanEstimators ∧
    (s.createTrack ops o t).2.mMeasurementMap = s.mMeasurementMap ∧
    (∃ e, (s.createTrack ops o t).2.mKalmanEstimators =
        s.mKalmanEstimators.assign (s.createTrack ops o t).1 e ∧
      e.currentState = { o with id := (s.createTrack ops o t).1 }) ∧
    (s.createTrack ops o t).2.mNonMeasurementFrames =
      s.mNonMeasurementFrames.assign (s.createTrack ops o t).1 0 ∧
    (s.createTrack ops o t).2.mNumberOfTrackedFrames =
      s.mNumberOfTrackedFrames.assign (s.createTrack ops o t).1 0 := by
  refine ⟨rfl, rfl, rfl, ⟨_, rfl, ?_⟩, rfl, rfl⟩
  unfold createTrack
  by_cases h : s.mAutoIdGeneration = true
  · simp [h, MultiModelKalmanEstimator.currentState,
      MultiModelKalmanEstimator.initializeEstimator]
  · simp [h, MultiModelKalmanEstimator.currentState,
      MultiModelKalmanEstimator.initializeEstimator]

theorem createTrack_wf (ops : EstimatorOps K) (s : TrackManager K) (o : TrackedObject) (t : ℚ)
    (hwf : s.WF) (hfresh : (s.createTrack ops o t).1 ∉ UMap.keys s.mSuspendedKalmanEstimators) :
    (s.createTrack ops o t).2.WF := by
  obtain ⟨_, hs, _, ⟨e, ha, _⟩, hn, ht⟩ := createTrack_maps ops s o t
  refine ⟨?_, ?_, ?_, ?_, ?_, ?_⟩
  · rw [ha]
    exact UMap.nodup_assign _ _ _ hwf.activeNodup
  · rw [hs]
    exact hwf.suspendedNodup
  · rw [hn]
    exact UMap.nodup_assign _ _ _ hwf.nmfNodup
  · intro id
    rw [hn, ha, UMap.mem_keys_assign, UMap.mem_keys_assign, hwf.nmfKeys id]
  · intro id
    rw [ht, ha, UMap.mem_keys_assign, UMap.mem_keys_assign]
    rintro (h | h)
    · exact Or.inl h
    · exact Or.inr (hwf.tfKeys id h)
  · intro id
    rw [ha, hs, UMap.mem_keys_assign]
    rintro (h | h)
    · rw [h]
      exact hfresh
    · exact hwf.disjoint id h

theorem mem_getReliableTracks (s : TrackManager K) (hnd : s.mKalmanEstimators.keys.Nodup)
    (id : Id) (e : MultiModelKalmanEstimator K) (he : s.mKalmanEstimators.find? id = some e)
    (hr : s.mNumberOfTrackedFrames.getD id 0 ≥ s.mConfig.mMaxNumberOfUnreliableFrames) :
    e.currentState ∈ s.getReliableTracks.1 := by
  unfold getReliableTracks
  rw [reliableEntries_eq]
  refine List.mem_map.mpr ⟨(id, e), ?_, rfl⟩
  rw [List.mem_filter]
  refine ⟨(mem_iff_find?_of_nodup _ hnd id e).mpr he, ?_⟩
  simp [reliableNow, isReliable, hr]

theorem hasId_eq_false_iff (s : TrackManager K) (id : Id) :
    s.hasId id = false ↔
      s.mKalmanEstimators.find? id = none ∧ s.mSuspendedKalmanEstimators.find? id = none := by
  unfold hasId UMap.count UMap.contains
  cases h1 : s.mKalmanEstimators.find? id <;> cases h2 : s.mSuspendedKalmanEstimators.find? id <;>
    simp

theorem run_append (ops : EstimatorOps K) (a b : List Frame) (s : TrackManager K) :
    run ops (a ++ b) s = (run ops a s).bind (run ops b) := by
  unfold run
  rw [List.foldlM_append]
  rfl

theorem run_singleton (ops : EstimatorOps K) (f : Frame) (s : TrackManager K) :
    run ops [f] s = applyFrame ops s f := by
  unfold run
  simp [List.foldlM_cons, List.foldlM_nil]

/-- The track is deleted when it is measured, or its estimator is unchanged: the decision of
`correct` can be stated on the estimator before the call. -/
theorem deletes_congr (ops : EstimatorOps K) (s : TrackManager K) (id : Id)
    (e e1 : MultiModelKalmanEstimator K)
    (h : CorrectedEntry ops s.mMeasurementMap (id, e) (id, e1)) :
    s.deletes id e1 = s.deletes id e ∧ s.suspends id e1 = s.suspends id e := by
  obtain ⟨_, hv⟩ := h
  simp only at hv
  cases hm : s.mMeasurementMap.find? id with
  | none =>
    rw [hm] at hv
    simp only at hv
    rw [hv]
    exact ⟨rfl, rfl⟩
  | some m =>
    have hp : s.pendingNow id = true := by simp [pendingNow, hm]
    constructor
    · simp [deletes, nmfUpdated, hp]
    · simp [suspends, nmfUpdated, hp]

theorem wf_of_check (s : TrackManager K) (h : s.checkWF = true) : s.WF := by
  simp only [checkWF, Bool.and_eq_true, decide_eq_true_eq, List.all_eq_true] at h
  obtain ⟨⟨⟨⟨h1, h2⟩, h3⟩, h4⟩, h5⟩ := h
  exact ⟨h1, h2, h3, fun id => ⟨fun hm => h4 id hm, fun hm => (h5 id hm).1.1⟩,
    fun id hm => (h5 id hm).1.2, fun id hm => (h5 id hm).2⟩

theorem predictThrough_exampleOps (l : List Frame) (e : MultiModelKalmanEstimator Unit) :
    predictThrough exampleOps l e = e := by
  induction l with
  | nil => rfl
  | cons f rest ih => simpa [predictThrough] using ih

theorem isSuspended_iff (s : TrackManager K) (id : Id) :
    s.isSuspended id = true ↔ ∃ e, s.mSuspendedKalmanEstimators.find? id = some e := by
  unfold isSuspended UMap.count UMap.contains
  cases h : s.mSuspendedKalmanEstimators.find? id <;> simp

theorem suspends_iff (s : TrackManager K) (id : Id) (e : MultiModelKalmanEstimator K) :
    s.suspends id e = true ↔
      (s.tfUpdated id ≥ s.mConfig.mMaxNumberOfUnreliableFrames ∧
        ¬ (e.currentState.vx * e.currentState.vx + e.currentState.vy * e.currentState.vy > 1) ∧
        s.nmfUpdated id > s.mConfig.mNonMeasurementFramesStatic) := by
  simp only [suspends, reliableUpdated, TrackedObject.isDynamic, Bool.and_eq_true,
    decide_eq_true_eq, Bool.not_eq_true', decide_eq_false_iff_not, and_assoc]

theorem not_pending_of_suspends (s : TrackManager K) (id : Id)
    (e : MultiModelKalmanEstimator K) (h : s.suspends id e = true) : s.pendingNow id = false := by
  cases hp : s.pendingNow id with
  | false => rfl
  | true => simp [suspends, nmfUpdated, hp] at h

theorem reactivationCount_eq (c : TrackManagerConfig)
    (h1 : c.mReactivationFrames ≤ c.mMaxNumberOfUnreliableFrames)
    (h2 : c.mMaxNumberOfUnreliableFrames < UINT32_MOD) :
    reactivationCount c = c.mMaxNumberOfUnreliableFrames - c.mReactivationFrames := by
  unfold reactivationCount
  unfold UINT32_MOD at *
  omega

/-- While no gap between two measurements is long enough for a deletion or a suspension, the
track stays active and its tracked-frames counter counts the cycles with a measurement. -/
theorem run_mixed (ops : EstimatorOps K) (id : Id) :
    ∀ (fs : List Frame) (s s' : TrackManager K) (e : MultiModelKalmanEstimator K),
      s.WF → s.mKalmanEstimators.find? id = some e →
      gapsWithin (min s.mConfig.mNonMeasurementFramesDynamic s.mConfig.mNonMeasurementFramesStatic)
        id (s.mNonMeasurementFrames.getD id 0) fs = true →
      s.mConfig.mNonMeasurementFramesDynamic < UINT32_MOD →
      s.mNumberOfTrackedFrames.getD id 0 < UINT32_MOD →
      run ops fs s = some s' →
      s'.WF ∧ s'.mConfig = s.mConfig ∧ (∃ e', s'.mKalmanEstimators.find? id = some e') ∧
        s'.mNumberOfTrackedFrames.getD id 0 =
          (s.mNumberOfTrackedFrames.getD id 0 + fs.countP (Frame.measures id)) % UINT32_MOD := by
  intro fs
  induction fs with
  | nil =>
    intro s s' e hwf ha _ _ ht h
    simp only [run, List.foldlM_nil, pure, Option.some.injEq] at h
    subst h
    refine ⟨hwf, rfl, ⟨e, ha⟩, ?_⟩
    simp only [List.countP_nil, Nat.add_zero]
    exact (Nat.mod_eq_of_lt ht).symm
  | cons f rest ih =>
    intro s s' e hwf ha hgap hD htlt h
    simp only [run, List.foldlM_cons, Option.bind_eq_bind] at h
    cases h1 : applyFrame ops s f with
    | none => simp [h1] at h
    | some s1 =>
      simp only [h1, Option.some_bind] at h
      obtain ⟨wf1, c1, e1, n1, t1, hmeas, hmiss, _, _, hstay⟩ :=
        applyFrame_active ops s s1 f id e hwf ha h1
      by_cases hf : id ∈ UMap.keys f.measurements
      · have hfm : f.measures id = true := by simp [Frame.measures, hf]
        obtain ⟨_, hn1, ht1⟩ := hmeas hf
        subst hn1
        obtain ⟨a1, _, nm1, tf1⟩ := hstay (by simp) (by simp)
        have htf1 : s1.mNumberOfTrackedFrames.getD id 0 = t1 := getD_of_find? _ _ _ _ tf1
        have hnm1 : s1.mNonMeasurementFrames.getD id 0 = 0 := getD_of_find? _ _ _ _ nm1
        simp only [gapsWithin, hfm, if_true] at hgap
        obtain ⟨w, c, he, ht⟩ := ih s1 s' e1 wf1 a1 (by rw [hnm1, c1]; exact hgap)
          (by rw [c1]; exact hD)
          (by rw [htf1, ht1]; exact Nat.mod_lt _ (by unfold UINT32_MOD; omega)) h
        refine ⟨w, c.trans c1, he, ?_⟩
        rw [ht, htf1, ht1, List.countP_cons_of_pos _ _ hfm]
        unfold UINT32_MOD
        omega
      · have hfm : f.measures id = false := by simp [Frame.measures, hf]
        obtain ⟨_, hn1, ht1⟩ := hmiss hf
        simp only [gapsWithin, hfm, Bool.false_eq_true, if_false, Bool.and_eq_true,
          decide_eq_true_eq] at hgap
        obtain ⟨hle, hgap'⟩ := hgap
        have hn1' : n1 = s.mNonMeasurementFrames.getD id 0 + 1 := by
          rw [hn1]
          apply Nat.mod_eq_of_lt
          have := Nat.min_le_left s.mConfig.mNonMeasurementFramesDynamic
            s.mConfig.mNonMeasurementFramesStatic
          omega
        obtain ⟨a1, _, nm1, tf1⟩ := hstay (by
          rintro ⟨hgt, _⟩
          have := Nat.min_le_left s.mConfig.mNonMeasurementFramesDynamic
            s.mConfig.mNonMeasurementFramesStatic
          omega) (by
          rintro ⟨_, _, hgt⟩
          have := Nat.min_le_right s.mConfig.mNonMeasurementFramesDynamic
            s.mConfig.mNonMeasurementFramesStatic
          omega)
        have htf1 : s1.mNumberOfTrackedFrames.getD id 0 = t1 := getD_of_find? _ _ _ _ tf1
        have hnm1 : s1.mNonMeasurementFrames.getD id 0 = n1 := getD_of_find? _ _ _ _ nm1
        obtain ⟨w, c, he, ht⟩ := ih s1 s' e1 wf1 a1 (by rw [hnm1, hn1', c1]; exact hgap')
          (by rw [c1]; exact hD) (by rw [htf1, ht1]; exact htlt) h
        refine ⟨w, c.trans c1, he, ?_⟩
        have hfm' : ¬ f.measures id = true := by simp [hfm]
        rw [ht, htf1, ht1, List.countP_cons_of_neg _ _ hfm']

end TrackManager

/-! ## The matcher -/

theorem injections_spec :
    ∀ (rs cols : List Nat) (m : List (Nat × Nat)), m ∈ injections rs cols →
      m.map Prod.fst = rs ∧ (cols.Nodup → (m.map Prod.snd).Nodup) ∧
        ∀ c ∈ m.map Prod.snd, c ∈ cols := by
  intro rs
  induction rs with
  | nil =>
    intro cols m hm
    simp only [injections, List.mem_singleton] at hm
    subst hm
    simp
  | cons r rs ih =>
    intro cols m hm
    simp only [injections, List.mem_flatMap, List.mem_map] at hm
    obtain ⟨c, hc, m', hm', rfl⟩ := hm
    obtain ⟨h1, h2, h3⟩ := ih (cols.erase c) m' hm'
    refine ⟨by simp [h1], ?_, ?_⟩
    · intro hnd
      simp only [List.map_cons, List.nodup_cons]
      refine ⟨?_, h2 (hnd.erase c)⟩
      intro hmem
      have := h3 c hmem
      rw [hnd.mem_erase_iff] at this
      exact this.1 rfl
    · intro c' hc'
      simp only [List.map_cons, List.mem_cons] at hc'
      rcases hc' with rfl | hc'
      · exact hc
      · exact List.mem_of_mem_erase (h3 c' hc')

theorem foldl_choice {α : Type} (f : α → α → Bool) :
    ∀ (ms : List α) (b : α),
      ms.foldl (fun best c => if f c best then c else best) b = b ∨
        ms.foldl (fun best c => if f c best then c else best) b ∈ ms := by
  intro ms
  induction ms with
  | nil => intro b; exact Or.inl rfl
  | cons m ms ih =>
    intro b
    simp only [List.foldl_cons]
    by_cases h : f m b = true
    · simp only [h, if_true]
      rcases ih m with h1 | h1
      · right
        rw [h1]
        exact List.mem_cons_self _ _
      · exact Or.inr (List.mem_cons_of_mem _ h1)
    · simp only [h]
      rcases ih b with h1 | h1
      · exact Or.inl h1
      · exact Or.inr (List.mem_cons_of_mem _ h1)

theorem cheapest_mem (cost : Nat → Nat → ℚ) (l : List (List (Nat × Nat))) :
    cheapest cost l = [] ∨ cheapest cost l ∈ l := by
  cases l with
  | nil => exact Or.inl rfl
  | cons m ms =>
    right
    have := foldl_choice (fun c best => decide (totalCost cost c < totalCost cost best)) ms m
    simp only [decide_eq_true_eq] at this
    show List.foldl (fun best c => if totalCost cost c < totalCost cost best then c else best) m ms
      ∈ m :: ms
    rcases this with h | h
    · rw [h]
      exact List.mem_cons_self _ _
    · exact List.mem_cons_of_mem _ h

theorem hungarian_spec (cost : Nat → Nat → ℚ) (rows cols : Nat) :
    ((hungarian cost rows cols).map Prod.fst).Nodup ∧
    ((hungarian cost rows cols).map Prod.snd).Nodup ∧
    (∀ r ∈ (hungarian cost rows cols).map Prod.fst, r < rows) ∧
    (∀ c ∈ (hungarian cost rows cols).map Prod.snd, c < cols) := by
  unfold hungarian
  by_cases h : rows ≤ cols
  · simp only [h, if_true]
    rcases cheapest_mem cost (injections (List.range rows) (List.range cols)) with h0 | hm
    · rw [h0]
      simp
    · obtain ⟨h1, h2, h3⟩ := injections_spec _ _ _ hm
      refine ⟨?_, h2 (List.nodup_range cols), ?_, ?_⟩
      · rw [h1]
        exact List.nodup_range rows
      · intro r hr
        rw [h1] at hr
        exact List.mem_range.mp hr
      · intro c hc
        exact List.mem_range.mp (h3 c hc)
  · simp only [h, if_false]
    rcases cheapest_mem (fun c r => cost r c) (injections (List.range cols) (List.range rows))
      with h0 | hm
    · rw [h0]
      simp
    · obtain ⟨h1, h2, h3⟩ := injections_spec _ _ _ hm
      have e1 : ∀ l : List (Nat × Nat), (l.map Prod.swap).map Prod.fst = l.map Prod.snd := by
        intro l
        simp [List.map_map, Function.comp_def]
      have e2 : ∀ l : List (Nat × Nat), (l.map Prod.swap).map Prod.snd = l.map Prod.fst := by
        intro l
        simp [List.map_map, Function.comp_def]
      rw [e1, e2]
      refine ⟨h2 (List.nodup_range rows), ?_, ?_, ?_⟩
      · rw [h1]
        exact List.nodup_range cols
      · intro r hr
        exact List.mem_range.mp (h3 r hr)
      · intro c hc
        rw [h1] at hc
        exact List.mem_range.mp hc

theorem complement_perm (n : Nat) (a : List Nat) (hnd : a.Nodup) (hlt : ∀ i ∈ a, i < n) :
    (a ++ (List.range n).filter (fun i => decide (i ∉ a))).Perm (List.range n) := by
  rw [List.perm_ext_iff_of_nodup]
  · intro i
    simp only [List.mem_append, List.mem_filter, List.mem_range, decide_eq_true_eq]
    constructor
    · rintro (h | h)
      · exact hlt i h
      · exact h.1
    · intro h
      by_cases hi : i ∈ a
      · exact Or.inl hi
      · exact Or.inr ⟨h, hi⟩
  · rw [List.nodup_append]
    refine ⟨hnd, (List.nodup_range n).filter _, ?_⟩
    intro i hi hf
    simp only [List.mem_filter, decide_eq_true_eq] at hf
    exact hf.2 hi
  · exact List.nodup_range n

theorem gatedHungarianMatch_spec (costs : Mat) (rows cols : Nat) (costThresh boundValue : ℚ) :
    (∀ p ∈ (gatedHungarianMatch costs rows cols costThresh boundValue).assignments,
      costAt costs p.1 p.2 ≤ costThresh ∧ p.1 < rows ∧ p.2 < cols) ∧
    ((gatedHungarianMatch costs rows cols costThresh boundValue).assignments.map Prod.fst).Nodup ∧
    ((gatedHungarianMatch costs rows cols costThresh boundValue).assignments.map Prod.snd).Nodup ∧
    ((gatedHungarianMatch costs rows cols costThresh boundValue).assignments.map Prod.fst ++
      (gatedHungarianMatch costs rows cols costThresh boundValue).unassignedTracks).Perm
        (List.range rows) ∧
    ((gatedHungarianMatch costs rows cols costThresh boundValue).assignments.map Prod.snd ++
      (gatedHungarianMatch costs rows cols costThresh boundValue).unassignedMeasurements).Perm
        (List.range cols) := by
  obtain ⟨h1, h2, h3, h4⟩ := hungarian_spec (cappedCost costs costThresh boundValue) rows cols
  have hsub : (List.filter (fun p : Nat × Nat => decide (costAt costs p.1 p.2 ≤ costThresh))
      (hungarian (cappedCost costs costThresh boundValue) rows cols)).Sublist
      (hungarian (cappedCost costs costThresh boundValue) rows cols) := List.filter_sublist _
  have n1 := List.Nodup.sublist (hsub.map Prod.fst) h1
  have n2 := List.Nodup.sublist (hsub.map Prod.snd) h2
  have l1 : ∀ r ∈ (List.filter (fun p : Nat × Nat => decide (costAt costs p.1 p.2 ≤ costThresh))
      (hungarian (cappedCost costs costThresh boundValue) rows cols)).map Prod.fst, r < rows :=
    fun r hr => h3 r ((hsub.map Prod.fst).subset hr)
  have l2 : ∀ c ∈ (List.filter (fun p : Nat × Nat => decide (costAt costs p.1 p.2 ≤ costThresh))
      (hungarian (cappedCost costs costThresh boundValue) rows cols)).map Prod.snd, c < cols :=
    fun c hc => h4 c ((hsub.map Prod.snd).subset hc)
  refine ⟨?_, n1, n2, complement_perm rows _ n1 l1, complement_perm cols _ n2 l2⟩
  intro p hp
  have hp' := hp
  simp only [gatedHungarianMatch, List.mem_filter, decide_eq_true_eq] at hp'
  exact ⟨hp'.2, l1 p.1 (List.mem_map_of_mem _ hp), l2 p.2 (List.mem_map_of_mem _ hp)⟩

theorem collect_eq_some {α : Type} :
    ∀ (l : List (Option α)) (r : List α), collect l = some r → l = r.map some := by
  intro l
  induction l with
  | nil =>
    intro r h
    simp only [collect, Option.some.injEq] at h
    subst h
    rfl
  | cons x l ih =>
    intro r h
    cases x with
    | none => simp [collect] at h
    | some a =>
      simp only [collect] at h
      cases hc : collect l with
      | none => simp [hc] at h
      | some r' =>
        simp only [hc, Option.some.injEq] at h
        subst h
        simp [ih r' hc]

/-- The entries of the cost matrix that `match` fills are the distances. -/
theorem costMatrix_entry (dist : TrackedObject → TrackedObject → Option ℚ)
    (tracks measurements : List TrackedObject) (costMatrix : Mat)
    (h : collect (tracks.map (fun track =>
        collect (measurements.map (fun measurement => dist measurement track)))) = some costMatrix)
    (i j : Nat) (hi : i < tracks.length) (hj : j < measurements.length) :
    ∃ track measurement, tracks[i]? = some track ∧ measurements[j]? = some measurement ∧
      dist measurement track = some (costAt costMatrix i j) := by
  have h1 := collect_eq_some _ _ h
  have hlen : costMatrix.length = tracks.length := by
    have := congrArg List.length h1
    simpa using this.symm
  have hi' : i < costMatrix.length := by omega
  have hrow := congrArg (fun l => l[i]?) h1
  simp only [List.getElem?_map, List.getElem?_eq_getElem hi, List.getElem?_eq_getElem hi',
    Option.map_some'] at hrow
  have hrow' := collect_eq_some _ _ (Option.some.inj hrow)
  have hlen2 : (costMatrix[i]).length = measurements.length := by
    have := congrArg List.length hrow'
    simpa using this.symm
  have hj' : j < (costMatrix[i]).length := by omega
  have hent := congrArg (fun l => l[j]?) hrow'
  simp only [List.getElem?_map, List.getElem?_eq_getElem hj, List.getElem?_eq_getElem hj',
    Option.map_some'] at hent
  refine ⟨tracks[i], measurements[j], List.getElem?_eq_getElem hi, List.getElem?_eq_getElem hj, ?_⟩
  rw [Option.some.inj hent]
  simp [costAt, List.getD_eq_getElem?_getD, List.getElem?_eq_getElem hi',
    List.getElem?_eq_getElem hj']

/-! ## The facade -/

theorem map_getD_range (l : List TrackedObject) :
    (List.range l.length).map (fun i => l.getD i {}) = l := by
  apply List.ext_getElem
  · simp
  · intro n h1 h2
    simp [List.getD_eq_getElem?_getD, List.getElem?_eq_getElem h2]

theorem matchObjects_measurement_perm (R : RealOps) (tracks measurements : List TrackedObject)
    (prev res : MatchResult) (distanceType : DistanceType) (threshold : ℚ)
    (h : matchObjects R tracks measurements prev distanceType threshold = some res) :
    (res.assignments.map Prod.snd ++ res.unassignedMeasurements).Perm
      (List.range measurements.length) := by
  unfold matchObjects at h
  by_cases he : (measurements.isEmpty || tracks.isEmpty) = true
  · simp only [he, if_true, Option.some.injEq] at h
    subst h
    simp
  · simp only [he] at h
    cases hc : collect (tracks.map (fun track =>
        collect (measurements.map (fun measurement =>
          distanceFunction R distanceType measurement track)))) with
    | none => simp [hc] at h
    | some costMatrix =>
      simp only [hc, Bool.false_eq_true, if_false, Option.some.injEq] at h
      subst h
      exact (gatedHungarianMatch_spec costMatrix tracks.length measurements.length threshold
        kDefaultClassBoundValue).2.2.2.2

theorem filterByIndex_perm (objs : List TrackedObject) (a : List (Nat × Nat)) (u : List Nat)
    (h : (a.map Prod.snd ++ u).Perm (List.range objs.length)) :
    (a.map (fun p => objs.getD p.2 {}) ++ filterByIndex objs u).Perm objs := by
  have h1 := List.Perm.map (fun i => objs.getD i {}) h
  rw [map_getD_range, List.map_append, List.map_map] at h1
  exact h1

namespace TrackManager

variable {K : Type}

theorem createTrack_auto_length (ops : EstimatorOps K) (s : TrackManager K) (o : TrackedObject)
    (t : ℚ) (hauto : s.mAutoIdGeneration = true)
    (hle : ∀ k ∈ UMap.keys s.mKalmanEstimators, k ≤ s.mCurrentId) :
    (s.createTrack ops o t).2.mAutoIdGeneration = true ∧
    (∀ k ∈ UMap.keys (s.createTrack ops o t).2.mKalmanEstimators,
      k ≤ (s.createTrack ops o t).2.mCurrentId) ∧
    (s.createTrack ops o t).2.getTracks.length = s.getTracks.length + 1 := by
  have hid : (s.createTrack ops o t).1 = s.mCurrentId + 1 := by
    simp [createTrack, hauto]
  have hcur : (s.createTrack ops o t).2.mCurrentId = s.mCurrentId + 1 := by
    simp [createTrack, hauto]
  obtain ⟨_, hs, _, ⟨e, ha, _⟩, _, _⟩ := createTrack_maps ops s o t
  have hnew : s.mCurrentId + 1 ∉ UMap.keys s.mKalmanEstimators := by
    intro hmem
    have h1 : (s.mCurrentId + 1 : Int) ≤ (s.mCurrentId : Int) := hle _ hmem
    linarith
  have hkeys : UMap.keys (s.createTrack ops o t).2.mKalmanEstimators =
      UMap.keys s.mKalmanEstimators ++ [s.mCurrentId + 1] := by
    rw [ha, hid, UMap.keys_assign]
    simp only [hnew, if_false]
  refine ⟨hauto, ?_, ?_⟩
  · intro k hk
    rw [hkeys] at hk
    rw [hcur]
    simp only [List.mem_append, List.mem_singleton] at hk
    rcases hk with hk | hk
    · have h1 : (k : Int) ≤ (s.mCurrentId : Int) := hle k hk
      show (k : Int) ≤ (s.mCurrentId : Int) + 1
      linarith
    · show (k : Int) ≤ (s.mCurrentId : Int) + 1
      have h1 : (k : Int) = (s.mCurrentId : Int) + 1 := hk
      linarith
  · have hlen := congrArg List.length hkeys
    simp only [UMap.keys, List.length_map, List.length_append, List.length_singleton] at hlen
    simp only [getTracks, List.length_append, List.length_map, hs, hlen]
    omega

theorem createTrack_fold_length (ops : EstimatorOps K) (t : ℚ) :
    ∀ (os : List TrackedObject) (s : TrackManager K), s.mAutoIdGeneration = true →
      (∀ k ∈ UMap.keys s.mKalmanEstimators, k ≤ s.mCurrentId) →
      (os.foldl (fun m o => (m.createTrack ops o t).2) s).getTracks.length =
        s.getTracks.length + os.length := by
  intro os
  induction os with
  | nil => intro s _ _; rfl
  | cons o rest ih =>
    intro s hauto hle
    obtain ⟨h1, h2, h3⟩ := createTrack_auto_length ops s o t hauto hle
    simp only [List.foldl_cons, List.length_cons]
    rw [ih _ h1 h2, h3]
    omega

theorem reliability_fold_state (b : Bool) :
    ∀ (l acc : List (Id × MultiModelKalmanEstimator K)) (t : TrackManager K),
      (∀ p ∈ l, p.1 ∈ UMap.keys t.mNumberOfTrackedFrames) →
      (l.foldl (reliabilityStep b) (acc, t)).2 = t := by
  intro l
  induction l with
  | nil => intro acc t _; rfl
  | cons p rest ih =>
    intro acc t h
    have hp : (t.isReliable p.1).2 = t := by
      simp only [isReliable]
      rw [UMap.touch_of_mem _ _ _ (h p (List.mem_cons_self _ _))]
    simp only [List.foldl_cons, reliabilityStep, hp]
    split
    · exact ih _ _ (fun q hq => h q (List.mem_cons_of_mem _ hq))
    · exact ih _ _ (fun q hq => h q (List.mem_cons_of_mem _ hq))

theorem getReliableTracks_state (s : TrackManager K) (hwf : s.WF) :
    s.getReliableTracks.2 = s ∧ s.getUnreliableTracks.2 = s := by
  have h : ∀ p ∈ s.mKalmanEstimators, p.1 ∈ UMap.keys s.mNumberOfTrackedFrames := by
    intro p hp
    exact hwf.tfKeys p.1 (List.mem_map.mpr ⟨p, hp, rfl⟩)
  exact ⟨reliability_fold_state true _ [] s h, reliability_fold_state false _ [] s h⟩

theorem predict_wf (ops : EstimatorOps K) (s : TrackManager K) (dt : ℚ) (hwf : s.WF) :
    (s.predict ops dt).WF := by
  have := (prepare_spec ops s { deltaT := dt, measurements := [] }).2.2.2.2.2.2.2.2 hwf
  simpa [prepare] using this

theorem correct_keys (ops : EstimatorOps K) (s s' : TrackManager K) (hwf : s.WF)
    (h : correct ops s = some s') (k : Id) (hk : k ∈ UMap.keys s'.mKalmanEstimators) :
    k ∈ UMap.keys s.mKalmanEstimators ∨ k ∈ UMap.keys s.mSuspendedKalmanEstimators := by
  have post := correct_post ops s s' hwf h
  by_contra hcon
  push_neg at hcon
  have h1 := (UMap.find?_eq_none_iff _ _).mpr hcon.1
  have h2 := (UMap.find?_eq_none_iff _ _).mpr hcon.2
  have := (post.absent k h1 h2).1
  exact ((UMap.find?_eq_none_iff _ _).mp this) hk

end TrackManager

namespace MultipleObjectTracker

variable {K : Type}

/-- Every high-score detection is either handed to `setMeasurement` by one of the three passes
over high-score detections or left for `createTrack`, exactly once. -/
theorem associate_perm (ops : EstimatorOps K) (R : RealOps) (t : MultipleObjectTracker K)
    (objects : List TrackedObject) (timestamp : ℚ) (distanceType : DistanceType)
    (distanceThreshold scoreThreshold : ℚ) (p : Passes K)
    (h : associate ops R t objects timestamp distanceType distanceThreshold scoreThreshold
      = some p) :
    p.highScore = objects.filter (divider scoreThreshold) ∧
    p.lowScore = objects.filter (fun o => !divider scoreThreshold o) ∧
    (assignedHighScore p ++ births p).Perm p.highScore := by
  unfold associate at h
  simp only at h
  split at h
  · cases h
  · rename_i r1 h1
    split at h
    · cases h
    · rename_i r2 h2
      split at h
      · cases h
      · rename_i r3 h3
        split at h
        · cases h
        · rename_i r4 h4
          simp only [Option.some.injEq] at h
          subst h
          have p1 := filterByIndex_perm _ _ _ (matchObjects_measurement_perm _ _ _ _ _ _ _ h1)
          have p3 := filterByIndex_perm _ _ _ (matchObjects_measurement_perm _ _ _ _ _ _ _ h3)
          have p4 := filterByIndex_perm _ _ _ (matchObjects_measurement_perm _ _ _ _ _ _ _ h4)
          refine ⟨rfl, rfl, ?_⟩
          simp only [assignedHighScore, births, List.append_assoc]
          refine List.Perm.trans ?_ p1
          refine List.Perm.append_left _ ?_
          refine List.Perm.trans ?_ p3
          exact List.Perm.append_left _ p4

theorem setMeasurements_eq (tracks objects : List TrackedObject) :
    ∀ (assignments : List (Nat × Nat)) (m : TrackManager K),
      ∃ mm, setMeasurements m tracks objects assignments = { m with mMeasurementMap := mm } := by
  intro assignments
  induction assignments with
  | nil => intro m; exact ⟨m.mMeasurementMap, rfl⟩
  | cons a rest ih =>
    intro m
    obtain ⟨mm, h⟩ := ih (m.setMeasurement (tracks.getD a.1 {}).id (objects.getD a.2 {}))
    exact ⟨mm, by simp only [setMeasurements, List.foldl_cons] at h ⊢; rw [h]; rfl⟩

theorem wf_with_measurements (m : TrackManager K) (mm : UMap TrackedObject) (h : m.WF) :
    TrackManager.WF { m with mMeasurementMap := mm } :=
  ⟨h.activeNodup, h.suspendedNodup, h.nmfNodup, h.nmfKeys, h.tfKeys, h.disjoint⟩

/-- The passes of `track` change the manager by `predict` and in its pending measurements
only. -/
theorem associate_manager (ops : EstimatorOps K) (R : RealOps) (t : MultipleObjectTracker K)
    (objects : List TrackedObject) (timestamp : ℚ) (distanceType : DistanceType)
    (distanceThreshold scoreThreshold : ℚ) (p : Passes K) (hwf : t.mTrackManager.WF)
    (h : associate ops R t objects timestamp distanceType distanceThreshold scoreThreshold
      = some p) :
    ∃ mm, p.manager =
      { t.mTrackManager.predict ops (timestamp - t.mLastTimestamp) with mMeasurementMap := mm } := by
  have wf0 := TrackManager.predict_wf ops t.mTrackManager (timestamp - t.mLastTimestamp) hwf
  unfold associate at h
  simp only at h
  rw [(TrackManager.getReliableTracks_state _ wf0).1] at h
  split at h
  · cases h
  · rename_i r1 h1
    obtain ⟨mm1, e1⟩ := setMeasurements_eq
      (t.mTrackManager.predict ops (timestamp - t.mLastTimestamp)).getReliableTracks.1
      (splitByThreshold objects [] scoreThreshold).1 r1.assignments
      (t.mTrackManager.predict ops (timestamp - t.mLastTimestamp))
    rw [e1] at h
    split at h
    · cases h
    · rename_i r2 h2
      obtain ⟨mm2, e2⟩ := setMeasurements_eq
        (filterByIndex (t.mTrackManager.predict ops (timestamp - t.mLastTimestamp)).getReliableTracks.1
          r1.unassignedTracks)
        (splitByThreshold objects [] scoreThreshold).2 r2.assignments
        { t.mTrackManager.predict ops (timestamp - t.mLastTimestamp) with mMeasurementMap := mm1 }
      rw [e2] at h
      have wf2 : TrackManager.WF
          { t.mTrackManager.predict ops (timestamp - t.mLastTimestamp) with
            mMeasurementMap := mm2 } := wf_with_measurements _ mm2 wf0
      simp only at h
      rw [(TrackManager.getReliableTracks_state _ wf2).2] at h
      split at h
      · cases h
      · rename_i r3 h3
        split at h
        · cases h
        · rename_i r4 h4
          simp only [Option.some.injEq] at h
          subst h
          simp only
          obtain ⟨mm3, e3⟩ := setMeasurements_eq
            (TrackManager.getUnreliableTracks
              { t.mTrackManager.predict ops (timestamp - t.mLastTimestamp) with
                mMeasurementMap := mm2 }).1
            (filterByIndex (splitByThreshold objects [] scoreThreshold).1 r1.unassignedMeasurements)
            r3.assignments
            { t.mTrackManager.predict ops (timestamp - t.mLastTimestamp) with
              mMeasurementMap := mm2 }
          rw [e3]
          obtain ⟨mm4, e4⟩ := setMeasurements_eq
            (TrackManager.getSuspendedTracks
              { t.mTrackManager.predict ops (timestamp - t.mLastTimestamp) with
                mMeasurementMap := mm3 })
            (filterByIndex
              (filterByIndex (splitByThreshold objects [] scoreThreshold).1
                r1.unassignedMeasurements) r3.unassignedMeasurements)
            r4.assignments
            { t.mTrackManager.predict ops (timestamp - t.mLastTimestamp) with
              mMeasurementMap := mm3 }
          exact ⟨mm4, e4⟩

theorem filterByIndex_range (l : List TrackedObject) :
    filterByIndex l (List.range l.length) = l := map_getD_range l

theorem matchObjects_no_tracks (R : RealOps) (measurements : List TrackedObject)
    (prev : MatchResult) (distanceType : DistanceType) (threshold : ℚ) :
    matchObjects R [] measurements prev distanceType threshold =
      some { assignments := [], unassignedTracks := [],
             unassignedMeasurements := List.range measurements.length } := by
  simp [matchObjects]

theorem filterByIndex_nil (l : List TrackedObject) : filterByIndex l [] = [] := rfl

/-- In a manager without tracks the passes of `track` assign nothing: every high-score
detection is left for `createTrack`. -/
theorem associate_empty (ops : EstimatorOps K) (R : RealOps) (t : MultipleObjectTracker K)
    (objects : List TrackedObject) (timestamp : ℚ) (distanceType : DistanceType)
    (distanceThreshold scoreThreshold : ℚ)
    (hact : t.mTrackManager.mKalmanEstimators = [])
    (hsus : t.mTrackManager.mSuspendedKalmanEstimators = []) :
    associate ops R t objects timestamp distanceType distanceThreshold scoreThreshold =
      some
        { highScore := objects.filter (divider scoreThreshold)
          lowScore := objects.filter (fun o => !divider scoreThreshold o)
          reliablePass :=
            { unassignedMeasurements :=
                List.range (objects.filter (divider scoreThreshold)).length }
          lowScorePass :=
            { unassignedMeasurements :=
                List.range (objects.filter (fun o => !divider scoreThreshold o)).length }
          afterReliable := objects.filter (divider scoreThreshold)
          unreliablePass :=
            { unassignedMeasurements :=
                List.range (objects.filter (divider scoreThreshold)).length }
          afterUnreliable := objects.filter (divider scoreThreshold)
          suspendedPass :=
            { unassignedMeasurements :=
                List.range (objects.filter (divider scoreThreshold)).length }
          manager := { t.mTrackManager with mMeasurementMap := [] } } := by
  have hpred : t.mTrackManager.predict ops (timestamp - t.mLastTimestamp) =
      { t.mTrackManager with mMeasurementMap := [] } := by
    simp [TrackManager.predict, hact, UMap.clear]
  have hrel : TrackManager.getReliableTracks
      ({ t.mTrackManager with mMeasurementMap := [] } : TrackManager K) =
      ([], { t.mTrackManager with mMeasurementMap := [] }) := by
    simp [TrackManager.getReliableTracks, TrackManager.reliableEntries, hact]
  have hunrel : TrackManager.getUnreliableTracks
      ({ t.mTrackManager with mMeasurementMap := [] } : TrackManager K) =
      ([], { t.mTrackManager with mMeasurementMap := [] }) := by
    simp [TrackManager.getUnreliableTracks, TrackManager.unreliableEntries, hact]
  have hsusp : TrackManager.getSuspendedTracks
      ({ t.mTrackManager with mMeasurementMap := [] } : TrackManager K) = [] := by
    simp [TrackManager.getSuspendedTracks, hsus]
  unfold associate
  simp only [hpred, hrel, matchObjects_no_tracks, setMeasurements, List.foldl_nil,
    filterByIndex_nil, hunrel, hsusp, splitByThreshold, filterByIndex_range]

end MultipleObjectTracker

namespace TrackManager

variable {K : Type}

theorem correct_no_tracks (ops : EstimatorOps K) (s : TrackManager K)
    (hact : s.mKalmanEstimators = []) (hsus : s.mSuspendedKalmanEstimators = [])
    (hnmf : s.mNonMeasurementFrames = []) : correct ops s = some s := by
  have h1 : correctPhase1 ops s = some s := by
    simp [correctPhase1, hact, correctLoop1, hnmf]
    rw [← hact, ← hnmf]
  have h2 : correctPhase2 ops s = some s := by
    simp [correctPhase2, reactivationList, hsus]
  have h3 : correctPhase3 s = some s := by
    simp [correctPhase3, hnmf]
  simp [correct, h1, h2, h3]

end TrackManager

namespace MultipleObjectTracker

variable {K : Type}

/-- The last loop of `track` is a fold of `createTrack` over `births`. -/
theorem births_fold (ops : EstimatorOps K) (p : Passes K) (timestamp : ℚ) (m : TrackManager K) :
    (births p).foldl (fun m o => (m.createTrack ops o timestamp).2) m =
      p.suspendedPass.unassignedMeasurements.foldl
        (fun m id => (m.createTrack ops (p.afterUnreliable.getD id {}) timestamp).2) m := by
  unfold births filterByIndex
  rw [List.foldl_map]

/-- A call of `track` with detections returns exactly when the passes and `correct()` return,
and then the manager is the one after `correct()` with one `createTrack` for each birth. -/
theorem track_eq_some_iff (ops : EstimatorOps K) (R : RealOps) (t : MultipleObjectTracker K)
    (objects : List TrackedObject) (timestamp : ℚ) (distanceType : DistanceType)
    (distanceThreshold scoreThreshold : ℚ) (hne : objects ≠ []) (t' : MultipleObjectTracker K) :
    track ops R t objects timestamp distanceType distanceThreshold scoreThreshold = some t' ↔
      ∃ p m, associate ops R t objects timestamp distanceType distanceThreshold scoreThreshold
          = some p ∧
        p.manager.correct ops = some m ∧
        t' = { t with
          mTrackManager := (births p).foldl (fun m o => (m.createTrack ops o timestamp).2) m
          mLastTimestamp := timestamp } := by
  have hemp : objects.isEmpty = false := by
    cases objects with
    | nil => exact absurd rfl hne
    | cons _ _ => rfl
  unfold track
  simp only [hemp, Bool.false_eq_true, if_false]
  cases ha : associate ops R t objects timestamp distanceType distanceThreshold scoreThreshold with
  | none => simp
  | some p =>
    cases hc : p.manager.correct ops with
    | none => simp [hc]
    | some m =>
      simp only [hc, Option.some.injEq]
      constructor
      · intro h
        exact ⟨p, m, rfl, hc, by rw [births_fold]; exact h.symm⟩
      · rintro ⟨p1, m1, hp, hm, h⟩
        cases hp
        rw [hc] at hm
        cases hm
        rw [births_fold] at h
        exact h.symm

/-- After the passes and `correct()`, the ids of the active tracks are ids that the manager
held before the call, and the id counter and the auto-id flag are unchanged. -/
theorem associate_correct_ids (ops : EstimatorOps K) (R : RealOps) (t : MultipleObjectTracker K)
    (objects : List TrackedObject) (timestamp : ℚ) (distanceType : DistanceType)
    (distanceThreshold scoreThreshold : ℚ) (p : Passes K) (m : TrackManager K)
    (hwf : t.mTrackManager.WF)
    (ha : associate ops R t objects timestamp distanceType distanceThreshold scoreThreshold
      = some p)
    (hc : p.manager.correct ops = some m) :
    m.mCurrentId = t.mTrackManager.mCurrentId ∧
    m.mAutoIdGeneration = t.mTrackManager.mAutoIdGeneration ∧
    ∀ k ∈ UMap.keys m.mKalmanEstimators,
      k ∈ UMap.keys t.mTrackManager.mKalmanEstimators ∨
      k ∈ UMap.keys t.mTrackManager.mSuspendedKalmanEstimators := by
  obtain ⟨mm, hp⟩ := associate_manager ops R t objects timestamp distanceType distanceThreshold
    scoreThreshold p hwf ha
  have wf0 := TrackManager.predict_wf ops t.mTrackManager (timestamp - t.mLastTimestamp) hwf
  have wf1 := wf_with_measurements _ mm wf0
  rw [hp] at hc
  have post := TrackManager.correct_post ops _ m wf1 hc
  have hk : UMap.keys (List.map (fun q => (q.1, ops.predict q.2 (timestamp - t.mLastTimestamp)))
      t.mTrackManager.mKalmanEstimators) = UMap.keys t.mTrackManager.mKalmanEstimators :=
    TrackManager.keys_mapValues _ (fun e => ops.predict e (timestamp - t.mLastTimestamp))
  refine ⟨post.currentId, post.autoId, ?_⟩
  intro k hk1
  have := TrackManager.correct_keys ops _ m wf1 hc k hk1
  simpa [TrackManager.predict, hk] using this

end MultipleObjectTracker

/-! ## The ids of `createTrack` -/

namespace TrackManager

variable {K : Type}

theorem hasId_iff (s : TrackManager K) (id : Id) :
    s.hasId id = true ↔
      id ∈ UMap.keys s.mKalmanEstimators ∨ id ∈ UMap.keys s.mSuspendedKalmanEstimators := by
  rw [← UMap.contains_iff, ← UMap.contains_iff]
  unfold hasId UMap.count
  cases h1 : UMap.contains s.mKalmanEstimators id <;>
    cases h2 : UMap.contains s.mSuspendedKalmanEstimators id <;> simp

theorem createTrack_auto (ops : EstimatorOps K) (s : TrackManager K) (o : TrackedObject)
    (t : ℚ) (hauto : s.mAutoIdGeneration = true) :
    (s.createTrack ops o t).1 = s.mCurrentId + 1 ∧
    (s.createTrack ops o t).2.mCurrentId = s.mCurrentId + 1 ∧
    (s.createTrack ops o t).2.mAutoIdGeneration = true := by
  refine ⟨?_, ?_, ?_⟩ <;> simp [createTrack, hauto]

theorem createTrack_hasId (ops : EstimatorOps K) (s : TrackManager K) (o : TrackedObject)
    (t : ℚ) (k : Id) :
    (s.createTrack ops o t).2.hasId k = true ↔
      k = (s.createTrack ops o t).1 ∨ s.hasId k = true := by
  obtain ⟨_, hs, _, ⟨e, ha, _⟩, _, _⟩ := createTrack_maps ops s o t
  rw [hasId_iff, hasId_iff, ha, hs, UMap.mem_keys_assign]
  tauto

theorem createTracks_fold (ops : EstimatorOps K) (t : ℚ) :
    ∀ (os : List TrackedObject) (acc : List Id) (s : TrackManager K),
      s.mAutoIdGeneration = true →
      (os.foldl
        (fun acc o =>
          (acc.1 ++ [(acc.2.createTrack ops o t).1], (acc.2.createTrack ops o t).2))
        (acc, s)).1 =
        acc ++ (List.range os.length).map (fun (i : Nat) => s.mCurrentId + 1 + (i : Int)) := by
  intro os
  induction os with
  | nil => intro acc s _; simp
  | cons o rest ih =>
    intro acc s hauto
    obtain ⟨h1, h2, h3⟩ := createTrack_auto ops s o t hauto
    simp only [List.foldl_cons, List.length_cons]
    rw [ih _ _ h3, h1, h2, List.range_succ_eq_map]
    simp only [List.map_cons, List.map_map, List.append_assoc, List.singleton_append,
      Nat.cast_zero, add_zero]
    congr 2
    apply List.map_congr_left
    intro i _
    simp only [Function.comp, Nat.cast_succ]
    ring

theorem createTracks_ids (ops : EstimatorOps K) (s : TrackManager K) (os : List TrackedObject)
    (t : ℚ) (hauto : s.mAutoIdGeneration = true) :
    (s.createTracks ops os t).1 =
      (List.range os.length).map (fun (i : Nat) => s.mCurrentId + 1 + (i : Int)) := by
  unfold createTracks
  rw [createTracks_fold ops t os [] s hauto]
  rfl

end TrackManager

/-! ## `correct()` without pending measurements -/

namespace TrackManager

variable {K : Type}

end TrackManager

namespace TrackManager

variable {K : Type}

end TrackManager

namespace TrackManager

variable {K : Type}

theorem drifting_fold (s : TrackManager K) :
    ∀ (l acc : List (Id × MultiModelKalmanEstimator K)) (t : TrackManager K),
      t.mConfig = s.mConfig →
      (∀ id, t.mNumberOfTrackedFrames.getD id 0 = s.mNumberOfTrackedFrames.getD id 0) →
      (∀ id, t.mNonMeasurementFrames.getD id 0 = s.mNonMeasurementFrames.getD id 0) →
      (l.foldl driftingStep (acc, t)).1 =
        acc ++ l.filter (fun p => s.reliableNow p.1 &&
          decide (s.mNonMeasurementFrames.getD p.1 0 > s.mConfig.mNonMeasurementFramesDynamic / 2))
        := by
  intro l
  induction l with
  | nil => intro acc t _ _ _; simp
  | cons p rest ih =>
    intro acc t hc ht hn
    have hrel : (t.isReliable p.1).1 = s.reliableNow p.1 := by
      simp [reliableNow, isReliable, hc, ht]
    have ht1 : ∀ id, (t.isReliable p.1).2.mNumberOfTrackedFrames.getD id 0
        = s.mNumberOfTrackedFrames.getD id 0 := by
      intro id
      simp only [isReliable]
      rw [UMap.getD_touch]
      exact ht id
    have hn1 : ∀ id, (UMap.touch t.mNonMeasurementFrames p.1 0).getD id 0
        = s.mNonMeasurementFrames.getD id 0 := by
      intro id
      rw [UMap.getD_touch]
      exact hn id
    simp only [List.foldl_cons]
    by_cases hb : s.reliableNow p.1 = true
    · by_cases hd : s.mNonMeasurementFrames.getD p.1 0 > s.mConfig.mNonMeasurementFramesDynamic / 2
      · have hstep : driftingStep (acc, t) p = (acc ++ [p],
            { (t.isReliable p.1).2 with
              mNonMeasurementFrames := UMap.touch t.mNonMeasurementFrames p.1 0 }) := by
          have hd1 : t.mNonMeasurementFrames.getD p.1 0 >
              t.mConfig.mNonMeasurementFramesDynamic / 2 := by
            rw [hn, hc]
            exact hd
          simp only [driftingStep, hrel, hb, if_true]
          simp only [isReliable]
          rw [if_pos hd1]
        rw [hstep, ih (acc ++ [p])
          { (t.isReliable p.1).2 with
            mNonMeasurementFrames := UMap.touch t.mNonMeasurementFrames p.1 0 } hc ht1 hn1]
        simp [List.filter, hb, hd]
      · have hstep : driftingStep (acc, t) p = (acc,
            { (t.isReliable p.1).2 with
              mNonMeasurementFrames := UMap.touch t.mNonMeasurementFrames p.1 0 }) := by
          have hd1 : ¬ t.mNonMeasurementFrames.getD p.1 0 >
              t.mConfig.mNonMeasurementFramesDynamic / 2 := by
            rw [hn, hc]
            exact hd
          simp only [driftingStep, hrel, hb, if_true]
          simp only [isReliable]
          rw [if_neg hd1]
        rw [hstep, ih acc
          { (t.isReliable p.1).2 with
            mNonMeasurementFrames := UMap.touch t.mNonMeasurementFrames p.1 0 } hc ht1 hn1]
        simp [List.filter, hb, hd]
    · have hstep : driftingStep (acc, t) p = (acc, (t.isReliable p.1).2) := by
        simp [driftingStep, hrel, hb]
      rw [hstep, ih acc (t.isReliable p.1).2 hc ht1 hn]
      simp [List.filter, hb]

theorem driftingEntries_eq (s : TrackManager K) :
    s.driftingEntries.1 = s.mKalmanEstimators.filter (fun p => s.reliableNow p.1 &&
      decide (s.mNonMeasurementFrames.getD p.1 0 > s.mConfig.mNonMeasurementFramesDynamic / 2))
    := by
  unfold driftingEntries
  rw [drifting_fold s _ [] s rfl (fun _ => rfl) (fun _ => rfl)]
  simp

end TrackManager

/-! ## The classification algebra -/

theorem clamp_eq_specClamp (v lower upper : ℚ) (h : lower ≤ upper) :
    clamp v lower upper = specClamp v lower upper := by
  unfold clamp specClamp
  by_cases h1 : v < lower
  · rw [if_pos h1, min_eq_left (le_trans (le_of_lt h1) h), max_eq_left (le_of_lt h1)]
  · rw [if_neg h1]
    by_cases h2 : upper < v
    · rw [if_pos h2, min_eq_right (le_of_lt h2), max_eq_right h]
    · rw [if_neg h2, min_eq_left (not_lt.mp h2), max_eq_right (not_lt.mp h1)]

theorem zipWith_eq_map_range (f : ℚ → ℚ → ℚ) (a b : List ℚ) (h : a.length = b.length) :
    List.zipWith f a b = (List.range a.length).map (fun i => f (a.getD i 0) (b.getD i 0)) := by
  apply List.ext_getElem
  · simp [h]
  · intro i h1 h2
    have ha : i < a.length := by simpa [h] using h1
    have hb : i < b.length := h ▸ ha
    simp [List.getD_eq_getElem?_getD, List.getElem?_eq_getElem ha, List.getElem?_eq_getElem hb]

theorem productSum_eq (a b : Classification) (h : a.length = b.length) :
    productSum a b = (List.zipWith (fun x y => x * y) a b).sum := by
  unfold productSum
  rw [zipWith_eq_map_range _ a b h]

theorem combine_eq_some (a b : Classification) (h : a.length = b.length) :
    classification.combine a b =
      some ((List.zipWith (fun x y => x * y) a b).map (fun p =>
        p / ((List.zipWith (fun x y => x * y) a b).sum +
          clamp (1 - a.sum) 0 1 * clamp (1 - b.sum) 0 1 + 1 / 1000000))) := by
  unfold classification.combine
  simp [h]

theorem sum_sq_nonneg (l : List ℚ) : 0 ≤ (l.map (fun r => r * r)).sum := by
  apply List.sum_nonneg
  intro x hx
  obtain ⟨r, _, rfl⟩ := List.mem_map.mp hx
  exact mul_self_nonneg r

theorem sum_sq_le_sq_sum :
    ∀ (a : List ℚ), (∀ x ∈ a, 0 ≤ x) → (a.map (fun x => x * x)).sum ≤ a.sum * a.sum := by
  intro a
  induction a with
  | nil => intro _; simp
  | cons x rest ih =>
    intro h
    have hx : 0 ≤ x := h x (List.mem_cons_self _ _)
    have hrest : ∀ y ∈ rest, 0 ≤ y := fun y hy => h y (List.mem_cons_of_mem _ hy)
    have hs : 0 ≤ rest.sum := List.sum_nonneg hrest
    have := ih hrest
    simp only [List.map_cons, List.sum_cons]
    nlinarith [mul_nonneg hx hs]

theorem sq_residual_sum_le :
    ∀ (a b : List ℚ), (∀ x ∈ a, 0 ≤ x) → (∀ x ∈ b, 0 ≤ x) →
      ((List.zipWith (fun x y => x - y) a b).map (fun r => r * r)).sum ≤
        (a.map (fun x => x * x)).sum + (b.map (fun x => x * x)).sum := by
  intro a
  induction a with
  | nil =>
    intro b _ _
    simpa using sum_sq_nonneg b
  | cons x rest ih =>
    intro b ha hb
    cases b with
    | nil => simpa using sum_sq_nonneg (x :: rest)
    | cons y tail =>
      have hx : 0 ≤ x := ha x (List.mem_cons_self _ _)
      have hy : 0 ≤ y := hb y (List.mem_cons_self _ _)
      have := ih tail (fun z hz => ha z (List.mem_cons_of_mem _ hz))
        (fun z hz => hb z (List.mem_cons_of_mem _ hz))
      simp only [List.zipWith_cons_cons, List.map_cons, List.sum_cons]
      nlinarith [mul_nonneg hx hy]

/-- The radicand of `classification::distance` lies in the unit interval for proper
distributions. -/
theorem radicand_unit (a b : Classification) (ha : IsDistribution a) (hb : IsDistribution b) :
    0 ≤ 1 / 2 * ((List.zipWith (fun x y => x - y) a b).map (fun r => r * r)).sum ∧
    1 / 2 * ((List.zipWith (fun x y => x - y) a b).map (fun r => r * r)).sum ≤ 1 := by
  have h0 := sum_sq_nonneg (List.zipWith (fun x y => x - y) a b)
  have h1 := sq_residual_sum_le a b ha.1 hb.1
  have h2 := sum_sq_le_sq_sum a ha.1
  have h3 := sum_sq_le_sq_sum b hb.1
  rw [ha.2] at h2
  rw [hb.2] at h3
  constructor
  · linarith
  · linarith

theorem exampleReal_sqrtUnit : exampleReal.SqrtUnit := by
  intro x h0 h1
  show 0 ≤ exampleReal.sqrt x ∧ exampleReal.sqrt x ≤ 1
  unfold exampleReal
  simp only
  cases hf : (List.range 50).find? (fun k => decide ((k : ℚ) * (k : ℚ) = x)) with
  | none => exact ⟨h0, h1⟩
  | some k =>
    have hk := List.find?_some hf
    simp only [decide_eq_true_eq] at hk
    have hm := List.mem_of_find?_eq_some hf
    rw [List.bind_eq_flatMap, List.mem_flatMap] at hm
    obtain ⟨n, _, hn⟩ := hm
    simp only [List.pure_def, List.mem_singleton] at hn
    subst hn
    have hk0 : (0 : ℚ) ≤ (n : ℚ) := Nat.cast_nonneg n
    refine ⟨hk0, ?_⟩
    show (n : ℚ) ≤ 1
    nlinarith

theorem zipWith_replicate_left (c : ℚ) :
    ∀ x : List ℚ,
      List.zipWith (fun a b => a * b) (List.replicate x.length c) x = x.map (fun v => c * v) := by
  intro x
  induction x with
  | nil => rfl
  | cons v rest ih => simp [List.replicate_succ, ih]

theorem clamp_zero : clamp 0 0 1 = 0 := by
  unfold clamp
  simp

theorem combine_replicate (n : Nat) (x : Classification) (hn : 1 ≤ n) (hx : x.length = n) :
    classification.combine (List.replicate n (1 / (n : ℚ))) x =
      some (x.map (fun xi => xi / (x.sum + (n : ℚ) * (1 / 1000000)))) := by
  have hn0 : (n : ℚ) ≠ 0 := by
    have : (0 : ℚ) < (n : ℚ) := by exact_mod_cast hn
    exact ne_of_gt this
  have hc : (1 / (n : ℚ)) ≠ 0 := one_div_ne_zero hn0
  subst hx
  rw [combine_eq_some _ _ (by simp), zipWith_replicate_left]
  have hs : (List.replicate x.length (1 / (x.length : ℚ))).sum = 1 := by
    rw [List.sum_replicate, nsmul_eq_mul]
    field_simp
  rw [hs, sub_self, clamp_zero, zero_mul, add_zero, List.map_map, List.sum_map_mul_left]
  congr 1
  apply List.map_congr_left
  intro v _
  have hden : 1 / (x.length : ℚ) * (x.map (fun v => v)).sum + 1 / 1000000 =
      1 / (x.length : ℚ) * (x.sum + (x.length : ℚ) * (1 / 1000000)) := by
    simp only [List.map_id']
    field_simp
  simp only [Function.comp]
  rw [hden, mul_div_mul_left _ _ hc]

theorem relative_error_bound (xi S e : ℚ) (hxi : 0 ≤ xi) (hS : 0 < S) (he : 0 ≤ e) :
    |xi / (S + e) - xi / S| ≤ e / S * (xi / S) := by
  have hSe : 0 < S + e := by linarith
  have key : xi / S - xi / (S + e) = xi * e / (S * (S + e)) := by
    field_simp
    ring
  have h1 : 0 ≤ xi * e / (S * (S + e)) :=
    div_nonneg (mul_nonneg hxi he) (le_of_lt (mul_pos hS hSe))
  have h2 : xi * e / (S * (S + e)) ≤ xi * e / (S * S) := by
    apply div_le_div_of_nonneg_left (mul_nonneg hxi he) (mul_pos hS hS)
    nlinarith
  have h3 : e / S * (xi / S) = xi * e / (S * S) := by
    field_simp
    ring
  rw [abs_sub_comm, key, abs_of_nonneg h1, h3]
  exact h2

theorem zipWith_mul_nonneg :
    ∀ (a b : List ℚ), (∀ x ∈ a, 0 ≤ x) → (∀ x ∈ b, 0 ≤ x) →
      ∀ v ∈ List.zipWith (fun x y => x * y) a b, 0 ≤ v := by
  intro a
  induction a with
  | nil => intro b _ _ v hv; simp at hv
  | cons x rest ih =>
    intro b ha hb v hv
    cases b with
    | nil => simp at hv
    | cons y tail =>
      simp only [List.zipWith_cons_cons, List.mem_cons] at hv
      rcases hv with h | h
      · rw [h]
        exact mul_nonneg (ha x (List.mem_cons_self _ _)) (hb y (List.mem_cons_self _ _))
      · exact ih tail (fun z hz => ha z (List.mem_cons_of_mem _ hz))
          (fun z hz => hb z (List.mem_cons_of_mem _ hz)) v h

theorem zipWith_mul_disjoint :
    ∀ (a b : List ℚ), DisjointSupport a b →
      ∀ v ∈ List.zipWith (fun x y => x * y) a b, v = 0 := by
  intro a
  induction a with
  | nil => intro b _ v hv; simp at hv
  | cons x rest ih =>
    intro b hd v hv
    cases b with
    | nil => simp at hv
    | cons y tail =>
      simp only [List.zipWith_cons_cons, List.mem_cons] at hv
      rcases hv with h | h
      · rw [h]
        rcases hd (x, y) (by simp) with h0 | h0
        · simp only at h0
          rw [h0, zero_mul]
        · simp only at h0
          rw [h0, mul_zero]
      · exact ih tail (fun q hq => hd q (by simp [hq])) v h

theorem sum_eq_zero_of_forall (l : List ℚ) (h : ∀ v ∈ l, v = 0) : l.sum = 0 := by
  induction l with
  | nil => rfl
  | cons x rest ih =>
    rw [List.sum_cons, h x (List.mem_cons_self _ _),
      ih (fun v hv => h v (List.mem_cons_of_mem _ hv)), add_zero]

theorem sum_map_div (l : List ℚ) (c : ℚ) : (l.map (fun p => p / c)).sum = l.sum / c := by
  induction l with
  | nil => simp
  | cons x rest ih => rw [List.map_cons, List.sum_cons, List.sum_cons, ih, add_div]

/-- The sum of `combine(a, b)` for two vectors whose entries sum to one. -/
theorem combine_sum (a b : Classification) (hlen : a.length = b.length) (ha : a.sum = 1)
    (hb : b.sum = 1) :
    ∃ r, classification.combine a b = some r ∧
      r = (List.zipWith (fun x y => x * y) a b).map
        (fun p => p / (productSum a b + 1 / 1000000)) ∧
      r.sum = productSum a b / (productSum a b + 1 / 1000000) := by
  refine ⟨_, combine_eq_some a b hlen, ?_, ?_⟩
  · rw [ha, hb, sub_self, clamp_zero, zero_mul, add_zero, productSum_eq a b hlen]
  · rw [ha, hb, sub_self, clamp_zero, zero_mul, add_zero, sum_map_div, productSum_eq a b hlen]

/-! ## The class table -/

namespace ClassificationData

theorem findPosition_spec (class_ : String) :
    ∀ cs : List String,
      findPosition cs class_ ≤ cs.length ∧
      (findPosition cs class_ < cs.length ↔ class_ ∈ cs) ∧
      (class_ ∈ cs → cs[findPosition cs class_]? = some class_) ∧
      (∀ i, i < findPosition cs class_ → cs[i]? ≠ some class_) := by
  intro cs
  induction cs with
  | nil => simp [findPosition]
  | cons c rest ih =>
    obtain ⟨h1, h2, h3, h4⟩ := ih
    by_cases hc : c = class_
    · simp [findPosition, hc]
    · have hne : ¬ class_ = c := fun e => hc e.symm
      simp only [findPosition, hc, if_false]
      refine ⟨by simpa using h1, ?_, ?_, ?_⟩
      · simp only [List.length_cons, Nat.add_lt_add_iff_right, List.mem_cons, hne, false_or]
        exact h2
      · intro hm
        have hm1 : class_ ∈ rest := by simpa [hne] using hm
        simpa using h3 hm1
      · intro i hi
        cases i with
        | zero => simpa using hc
        | succ k =>
          simp only [List.getElem?_cons_succ]
          exact h4 k (by omega)

theorem classIndex_eq_none_iff (d : ClassificationData) (class_ : String) :
    d.classIndex class_ = none ↔ class_ ∉ d.classes := by
  obtain ⟨h1, h2, _, _⟩ := findPosition_spec class_ d.classes
  unfold classIndex
  simp only
  by_cases h : findPosition d.classes class_ = d.classes.length
  · simp only [h, if_true, true_iff]
    intro hm
    have := h2.mpr hm
    omega
  · rw [if_neg h]
    have hlt : findPosition d.classes class_ < d.classes.length := by omega
    have hm := h2.mp hlt
    simp [hm]

theorem classIndex_of_mem (d : ClassificationData) (class_ : String) (h : class_ ∈ d.classes) :
    d.classIndex class_ = some (findPosition d.classes class_) := by
  obtain ⟨_, h2, _, _⟩ := findPosition_spec class_ d.classes
  have hlt := h2.mpr h
  unfold classIndex
  simp only
  rw [if_neg (by omega)]

theorem classIndex_eq_some (d : ClassificationData) (class_ : String) (j : Nat)
    (h : d.classIndex class_ = some j) :
    j = findPosition d.classes class_ ∧ class_ ∈ d.classes := by
  have hm : class_ ∈ d.classes := by
    by_contra hc
    rw [(classIndex_eq_none_iff d class_).mpr hc] at h
    cases h
  rw [classIndex_of_mem d class_ hm] at h
  cases h
  exact ⟨rfl, hm⟩

theorem classification_eq_none_iff (d : ClassificationData) (className : String) (p : ℚ) :
    d.classification className p = none ↔ className ∉ d.classes := by
  rw [← classIndex_eq_none_iff]
  unfold classification
  cases d.classIndex className <;> simp

end ClassificationData

namespace ClassificationData

/-- The vector that `classification` fills before it sets the entry of the class: with a
probability in `[0, 1]` and at least two classes every entry is `(1 - p) / (n - 1)`. -/
theorem spread_value (n : Nat) (p : ℚ) (hn : 2 ≤ n) (hp0 : 0 ≤ p) (hp1 : p ≤ 1) :
    clamp (1 - p) 0 1 / max (((n - 1 : Nat) : ℚ)) 1 = (1 - p) / ((n : ℚ) - 1) := by
  have h1 : clamp (1 - p) 0 1 = 1 - p := by
    unfold clamp
    rw [min_eq_left (by linarith), max_eq_right (by linarith)]
  have h2 : (((n - 1 : Nat) : ℚ)) = (n : ℚ) - 1 := by
    rw [Nat.cast_sub (by omega)]
    simp
  have h3 : (1 : ℚ) ≤ (n : ℚ) - 1 := by
    have : (2 : ℚ) ≤ (n : ℚ) := by exact_mod_cast hn
    linarith
  rw [h1, h2, max_eq_left h3]

theorem sum_set_replicate (n j : Nat) (c p : ℚ) (hj : j < n) :
    ((List.replicate n c).set j p).sum = ((n : ℚ) - 1) * c + p := by
  rw [List.sum_set, List.take_replicate, List.drop_replicate, List.sum_replicate,
    List.sum_replicate, List.length_replicate, if_pos hj, nsmul_eq_mul, nsmul_eq_mul,
    min_eq_left (le_of_lt hj), Nat.cast_sub (by omega)]
  push_cast
  ring

end ClassificationData

namespace TrackManager

variable {K : Type}

/-- A call `correct()` creates no id. -/
theorem correct_hasId (ops : EstimatorOps K) (s s1 : TrackManager K) (hwf : s.WF)
    (h : correct ops s = some s1) (k : Id) (hk : s1.hasId k = true) : s.hasId k = true := by
  have post := correct_post ops s s1 hwf h
  by_contra hcon
  have hf : s.hasId k = false := by simpa using hcon
  obtain ⟨h1, h2⟩ := (hasId_eq_false_iff s k).mp hf
  have habs := post.absent k h1 h2
  have hf1 : s1.hasId k = false := (hasId_eq_false_iff s1 k).mpr ⟨habs.1, habs.2.2.2⟩
  rw [hf1] at hk
  cases hk

theorem predict_hasId (ops : EstimatorOps K) (s : TrackManager K) (deltaT : ℚ) (k : Id) :
    (s.predict ops deltaT).hasId k = s.hasId k := by
  have h : UMap.find? (List.map (fun p => (p.1, ops.predict p.2 deltaT)) s.mKalmanEstimators) k
      = (UMap.find? s.mKalmanEstimators k).map (fun e => ops.predict e deltaT) :=
    UMap.find?_mapValues s.mKalmanEstimators (fun e => ops.predict e deltaT) k
  unfold hasId UMap.count UMap.contains predict
  simp only
  rw [h]
  simp

end TrackManager

/-! ## Angles -/

theorem angleDifference_add_two_pi {F : Type} [LinearOrderedField F] (T : AngleOps F)
    (hT : T.Exact) (a b : F) :
    angleDifference T (a + 2 * T.pi) b = angleDifference T a b := by
  unfold angleDifference
  rw [hT.cos_add_two_pi, hT.sin_add_two_pi]

theorem angleDifference_self {F : Type} [LinearOrderedField F] (T : AngleOps F)
    (hT : T.Exact) (a : F) : angleDifference T a a = 0 := by
  unfold angleDifference
  simp only
  rw [hT.cos_sq_add_sin_sq, mul_comm (T.sin a) (T.cos a), sub_self, hT.atan2_zero_one]

/-- The real functions satisfy the facts collected in `AngleOps.Exact`. -/
theorem real_angles_exact :
    AngleOps.Exact (AngleOps.mk Real.cos Real.sin (fun y x => Complex.arg ⟨x, y⟩) Real.pi) := by
  refine ⟨Real.cos_add_two_pi, Real.sin_add_two_pi, Real.cos_add_pi, Real.sin_add_pi, ?_, ?_⟩
  · intro x
    have := Real.cos_sq_add_sin_sq x
    nlinarith [this]
  · show Complex.arg ⟨1, 0⟩ = 0
    have h : (⟨1, 0⟩ : ℂ) = 1 := rfl
    rw [h, Complex.arg_one]

/-! ## Motion models -/

theorem length_eq_seven (l : List ℚ) (h : l.length = 7) :
    ∃ a0 a1 a2 a3 a4 a5 a6, l = [a0, a1, a2, a3, a4, a5, a6] := by
  rcases l with _ | ⟨a0, _ | ⟨a1, _ | ⟨a2, _ | ⟨a3, _ | ⟨a4, _ | ⟨a5, _ | ⟨a6, _ | ⟨a7, t⟩⟩⟩⟩⟩⟩⟩⟩ <;>
    simp at h
  exact ⟨a0, a1, a2, a3, a4, a5, a6, rfl⟩

theorem length_eq_twelve (l : List ℚ) (h : l.length = 12) :
    ∃ a0 a1 a2 a3 a4 a5 a6 a7 a8 a9 a10 a11,
      l = [a0, a1, a2, a3, a4, a5, a6, a7, a8, a9, a10, a11] := by
  rcases l with _ | ⟨a0, _ | ⟨a1, _ | ⟨a2, _ | ⟨a3, _ | ⟨a4, _ | ⟨a5, _ | ⟨a6, _ | ⟨a7, _ | ⟨a8,
    _ | ⟨a9, _ | ⟨a10, _ | ⟨a11, _ | ⟨a12, t⟩⟩⟩⟩⟩⟩⟩⟩⟩⟩⟩⟩⟩ <;> simp at h
  exact ⟨a0, a1, a2, a3, a4, a5, a6, a7, a8, a9, a10, a11, rfl⟩

/-! ## Matrices -/

theorem entry_scaledEye (n : Nat) (c : ℚ) (i j : Nat) :
    entry (scaledEye n c) i j = if i < n ∧ j < n ∧ i = j then c else 0 := by
  unfold entry scaledEye
  simp only [List.getD_eq_getElem?_getD, List.getElem?_map]
  by_cases hi : i < n
  · rw [List.getElem?_range hi]
    simp only [Option.map_some', Option.getD_some, List.getElem?_map]
    by_cases hj : j < n
    · rw [List.getElem?_range hj]
      simp [hi, hj]
    · rw [List.getElem?_eq_none (by simpa using hj)]
      simp [hj]
  · rw [List.getElem?_eq_none (l := List.range n) (by simpa using hi)]
    simp [hi]

theorem getD_set_self (l : List ℚ) (b : Nat) (v d : ℚ) (j : Nat) :
    (l.set b v).getD j d = if j = b ∧ b < l.length then v else l.getD j d := by
  simp only [List.getD_eq_getElem?_getD, List.getElem?_set]
  by_cases hjb : b = j
  · subst hjb
    by_cases hbl : b < l.length
    · simp [hbl]
    · simp [hbl]
      rw [List.getElem?_eq_none (by simpa using hbl)]
      rfl
  · have hjb1 : ¬ j = b := fun e => hjb e.symm
    simp [hjb, hjb1]

theorem entry_setEntry (m : Mat) (a b : Nat) (v : ℚ) (i j : Nat) :
    entry (setEntry m a b v) i j =
      if i = a ∧ j = b ∧ a < m.length ∧ b < (m.getD a []).length then v else entry m i j := by
  unfold entry setEntry
  by_cases hia : i = a
  · subst hia
    by_cases hal : i < m.length
    · have h1 : (m.set i ((m.getD i []).set b v)).getD i [] = (m.getD i []).set b v := by
        simp [List.getD_eq_getElem?_getD, List.getElem?_set, hal]
      rw [h1, getD_set_self]
      simp [hal]
    · have h0 : m[i]? = none := List.getElem?_eq_none (by simpa using hal)
      have h1 : (m.set i ((m.getD i []).set b v)).getD i [] = m.getD i [] := by
        simp [List.getD_eq_getElem?_getD, List.getElem?_set, hal, h0]
      rw [h1]
      simp [hal]
  · have h1 : (m.set a ((m.getD a []).set b v)).getD i [] = m.getD i [] := by
      have hia1 : ¬ a = i := fun e => hia e.symm
      simp [List.getD_eq_getElem?_getD, List.getElem?_set, hia1]
    rw [h1]
    simp [hia]

theorem entry_matScale (t : ℚ) (m : Mat) (i j : Nat) :
    entry (matScale t m) i j = t * entry m i j := by
  unfold entry matScale
  have h1 : (List.map (vecScale t) m).getD i [] = vecScale t (m.getD i []) := by
    have := List.getD_map m ([] : Vec) (n := i) (vecScale t)
    simpa [vecScale] using this
  rw [h1]
  have h2 := List.getD_map (m.getD i []) (0 : ℚ) (n := j) (fun x => t * x)
  simpa [vecScale] using h2

namespace UnscentedKalmanFilterMod

theorem create_total (params : UnscentedKalmanFilterParams)
    (hDP : 0 < params.DP) (hMP : 0 < params.MP)
    (hs : params.stateInit.length = params.DP)
    (hE : hasShape params.errorCovInit params.DP params.DP = true)
    (hQ : hasShape params.processNoiseCov params.DP params.DP = true)
    (hR : hasShape params.measurementNoiseCov params.MP params.MP = true) :
    ∃ f, create params = some f := by
  unfold create
  simp only [hDP, hMP, hs, hE, hQ, hR, and_self, not_true_eq_false, if_false]
  exact ⟨_, rfl⟩

theorem create_fields (params : UnscentedKalmanFilterParams) (f : UnscentedKalmanFilterMod)
    (h : create params = some f) :
    (0 < params.DP ∧ 0 < params.MP ∧ params.stateInit.length = params.DP ∧
      hasShape params.errorCovInit params.DP params.DP = true ∧
      hasShape params.processNoiseCov params.DP params.DP = true ∧
      hasShape params.measurementNoiseCov params.MP params.MP = true) ∧
    f.DP = params.DP ∧ f.MP = params.MP ∧
    f.state = params.stateInit ∧ f.errorCov = params.errorCovInit ∧
    f.lambda = params.alpha * params.alpha * ((params.DP : ℚ) + params.k) - (params.DP : ℚ) ∧
    f.tmpLambda = f.lambda + (params.DP : ℚ) ∧
    f.Wm = (vecScale (1 / 2 / f.tmpLambda) (List.replicate (2 * params.DP + 1) 1)).set 0
      (f.lambda / f.tmpLambda) ∧
    f.Wc = setEntry (matScale (1 / 2 / f.tmpLambda) (scaledEye (2 * params.DP + 1) 1)) 0 0
      (f.lambda / f.tmpLambda + 1 - params.alpha * params.alpha + params.beta) := by
  unfold create at h
  split at h
  · cases h
  · split at h
    · cases h
    · split at h
      · cases h
      · split at h
        · cases h
        · split at h
          · cases h
          · rename_i h1 h2 h3 h4 h5
            simp only [Option.some.injEq] at h
            subst h
            simp only [not_not] at h1 h2 h3 h4 h5
            exact ⟨⟨h1.1, h1.2, h2, h3, h4, h5⟩, rfl, rfl, rfl, rfl, rfl, rfl, rfl, rfl⟩

end UnscentedKalmanFilterMod

theorem ukf_mean_weights (n : Nat) (t w : ℚ) :
    ((vecScale t (List.replicate (2 * n + 1) 1)).set 0 w).length = 2 * n + 1 ∧
    ((vecScale t (List.replicate (2 * n + 1) 1)).set 0 w)[0]? = some w ∧
    (∀ i, 1 ≤ i → i ≤ 2 * n →
      ((vecScale t (List.replicate (2 * n + 1) 1)).set 0 w)[i]? = some t) ∧
    ((vecScale t (List.replicate (2 * n + 1) 1)).set 0 w).sum = 2 * (n : ℚ) * t + w := by
  have hrep : vecScale t (List.replicate (2 * n + 1) 1) = List.replicate (2 * n + 1) t := by
    unfold vecScale
    rw [List.map_replicate, mul_one]
  rw [hrep]
  refine ⟨by simp, ?_, ?_, ?_⟩
  · rw [List.getElem?_set_self (by simp)]
  · intro i h1 h2
    rw [List.getElem?_set_ne (by omega), List.getElem?_replicate, if_pos (by omega)]
  · rw [ClassificationData.sum_set_replicate _ _ _ _ (by omega)]
    push_cast
    ring

theorem ukf_covariance_weights (n : Nat) (t w : ℚ) (i j : Nat) :
    entry (setEntry (matScale t (scaledEye (2 * n + 1) 1)) 0 0 w) i j =
      if i = 0 ∧ j = 0 then w
      else if i < 2 * n + 1 ∧ j < 2 * n + 1 ∧ i = j then t else 0 := by
  have hlen : (matScale t (scaledEye (2 * n + 1) 1)).length = 2 * n + 1 := by
    simp [matScale, scaledEye]
  have hrow : ((matScale t (scaledEye (2 * n + 1) 1)).getD 0 []).length = 2 * n + 1 := by
    simp [matScale, scaledEye, vecScale, List.range_succ_eq_map]
  rw [entry_setEntry, hlen, hrow, entry_matScale, entry_scaledEye]
  by_cases h : i = 0 ∧ j = 0
  · simp [h]
  · have h1 : ¬ (i = 0 ∧ j = 0 ∧ 0 < 2 * n + 1 ∧ 0 < 2 * n + 1) := fun hc => h ⟨hc.1, hc.2.1⟩
    rw [if_neg h1, if_neg h]
    split <;> simp

/-! ## Shapes -/

theorem hasShape_iff (m : Mat) (r c : Nat) :
    hasShape m r c = true ↔ m.length = r ∧ ∀ row ∈ m, row.length = c := by
  unfold hasShape
  simp [List.all_eq_true]

theorem matCols_of_hasShape (m : Mat) (r c : Nat) (h : hasShape m r c = true) (hr : 0 < r) :
    matCols m = c := by
  obtain ⟨h1, h2⟩ := (hasShape_iff m r c).mp h
  cases m with
  | nil => simp at h1; omega
  | cons row rest => exact h2 row (List.mem_cons_self _ _)

theorem hasShape_matMul (a b : Mat) : hasShape (matMul a b) a.length (matCols b) = true := by
  rw [hasShape_iff]
  unfold matMul
  refine ⟨by simp, ?_⟩
  intro row hrow
  obtain ⟨x, _, rfl⟩ := List.mem_map.mp hrow
  simp

theorem hasShape_matTranspose (m : Mat) :
    hasShape (matTranspose m) (matCols m) m.length = true := by
  rw [hasShape_iff]
  unfold matTranspose column
  refine ⟨by simp, ?_⟩
  intro row hrow
  obtain ⟨x, _, rfl⟩ := List.mem_map.mp hrow
  simp

theorem mem_zipWith_length (f : Vec → Vec → Vec) (c : Nat)
    (hf : ∀ x y : Vec, x.length = c → y.length = c → (f x y).length = c) :
    ∀ (a b : Mat), (∀ row ∈ a, row.length = c) → (∀ row ∈ b, row.length = c) →
      ∀ row ∈ List.zipWith f a b, row.length = c := by
  intro a
  induction a with
  | nil => intro b _ _ row hrow; simp at hrow
  | cons x rest ih =>
    intro b ha hb row hrow
    cases b with
    | nil => simp at hrow
    | cons y tail =>
      simp only [List.zipWith_cons_cons, List.mem_cons] at hrow
      rcases hrow with h | h
      · rw [h]
        exact hf x y (ha x (List.mem_cons_self _ _)) (hb y (List.mem_cons_self _ _))
      · exact ih tail (fun r hr => ha r (List.mem_cons_of_mem _ hr))
          (fun r hr => hb r (List.mem_cons_of_mem _ hr)) row h

theorem hasShape_matAdd (a b : Mat) (r c : Nat) (ha : hasShape a r c = true)
    (hb : hasShape b r c = true) : hasShape (matAdd a b) r c = true := by
  rw [hasShape_iff] at ha hb ⊢
  unfold matAdd
  refine ⟨by simp [ha.1, hb.1], ?_⟩
  exact mem_zipWith_length vecAdd c (fun x y hx hy => by simp [vecAdd, hx, hy]) a b ha.2 hb.2

theorem hasShape_matSub (a b : Mat) (r c : Nat) (ha : hasShape a r c = true)
    (hb : hasShape b r c = true) : hasShape (matSub a b) r c = true := by
  rw [hasShape_iff] at ha hb ⊢
  unfold matSub
  refine ⟨by simp [ha.1, hb.1], ?_⟩
  exact mem_zipWith_length vecSub c (fun x y hx hy => by simp [vecSub, hx, hy]) a b ha.2 hb.2

theorem hasShape_repeatColumn (v : Vec) (n : Nat) :
    hasShape (repeatColumn v n) v.length n = true := by
  rw [hasShape_iff]
  unfold repeatColumn
  refine ⟨by simp, ?_⟩
  intro row hrow
  obtain ⟨x, _, rfl⟩ := List.mem_map.mp hrow
  simp

theorem length_matVec (a : Mat) (v : Vec) : (matVec a v).length = a.length := by
  simp [matVec]

theorem hasShape_setColumn (m : Mat) (r c i : Nat) (col : Vec) (h : hasShape m r c = true) :
    hasShape (setColumn m i col) r c = true := by
  rw [hasShape_iff] at h ⊢
  unfold setColumn
  refine ⟨by simp [h.1], ?_⟩
  intro row hrow
  obtain ⟨k, hk, rfl⟩ := List.mem_map.mp hrow
  rw [List.length_set]
  have hk1 : k < m.length := by simpa using hk
  rw [List.getD_eq_getElem _ _ hk1]
  exact h.2 _ (List.getElem_mem _)

theorem hasShape_unique (m : Mat) (r c r1 c1 : Nat) (h : hasShape m r c = true)
    (h1 : hasShape m r1 c1 = true) (hr : 0 < r) : r1 = r ∧ c1 = c := by
  have e1 := matCols_of_hasShape m r c h hr
  obtain ⟨l1, _⟩ := (hasShape_iff m r c).mp h
  obtain ⟨l2, _⟩ := (hasShape_iff m r1 c1).mp h1
  have hr1 : 0 < r1 := by omega
  have e2 := matCols_of_hasShape m r1 c1 h1 hr1
  exact ⟨by omega, by omega⟩

theorem matVec?_eq_some (a : Mat) (v w : Vec) (h : matVec? a v = some w) :
    hasShape a a.length v.length = true ∧ w = matVec a v := by
  unfold matVec? at h
  split at h
  · rename_i hc
    exact ⟨hc, (Option.some.inj h).symm⟩
  · cases h

theorem matMul?_eq_some (a b c : Mat) (h : matMul? a b = some c) :
    hasShape a a.length b.length = true ∧ hasShape b b.length (matCols b) = true ∧
      c = matMul a b := by
  unfold matMul? at h
  split at h
  · rename_i hc
    simp only [Bool.and_eq_true] at hc
    exact ⟨hc.1, hc.2, (Option.some.inj h).symm⟩
  · cases h

theorem matAdd?_eq_some (a b c : Mat) (h : matAdd? a b = some c) :
    hasShape a a.length (matCols a) = true ∧ hasShape b a.length (matCols a) = true ∧
      c = matAdd a b := by
  unfold matAdd? at h
  split at h
  · rename_i hc
    simp only [Bool.and_eq_true] at hc
    exact ⟨hc.1, hc.2, (Option.some.inj h).symm⟩
  · cases h

theorem matSub?_eq_some (a b c : Mat) (h : matSub? a b = some c) :
    hasShape a a.length (matCols a) = true ∧ hasShape b a.length (matCols a) = true ∧
      c = matSub a b := by
  unfold matSub? at h
  split at h
  · rename_i hc
    simp only [Bool.and_eq_true] at hc
    exact ⟨hc.1, hc.2, (Option.some.inj h).symm⟩
  · cases h

theorem vecSub?_eq_some (a b c : Vec) (h : vecSub? a b = some c) :
    a.length = b.length ∧ c = vecSub a b := by
  unfold vecSub? at h
  split at h
  · rename_i hc
    exact ⟨hc, (Option.some.inj h).symm⟩
  · cases h

theorem vecAdd?_eq_some (a b c : Vec) (h : vecAdd? a b = some c) :
    a.length = b.length ∧ c = vecAdd a b := by
  unfold vecAdd? at h
  split at h
  · rename_i hc
    exact ⟨hc, (Option.some.inj h).symm⟩
  · cases h

theorem vecSub_self (z : Vec) : vecSub z z = List.replicate z.length 0 := by
  unfold vecSub
  induction z with
  | nil => rfl
  | cons x rest ih => simp [List.replicate_succ, ih]

theorem dot_zeros (row : Vec) (n : Nat) : dot row (List.replicate n 0) = 0 := by
  unfold dot
  induction row generalizing n with
  | nil => simp
  | cons x rest ih =>
    cases n with
    | zero => simp
    | succ k => simp [List.replicate_succ, ih k]

theorem matVec_zeros (a : Mat) (n : Nat) :
    matVec a (List.replicate n 0) = List.replicate a.length 0 := by
  unfold matVec
  induction a with
  | nil => rfl
  | cons row rest ih => simp [List.replicate_succ, dot_zeros, ih]

theorem vecAdd_zeros (a : Vec) : vecAdd a (List.replicate a.length 0) = a := by
  unfold vecAdd
  induction a with
  | nil => rfl
  | cons x rest ih => simp [List.replicate_succ, ih]

namespace UnscentedKalmanFilterMod

/-- What a call `correct(measurement)` that returns has computed. -/
theorem correct_eq_some (O : NumericOps) (f g : UnscentedKalmanFilterMod) (z : Vec)
    (h : correct O f z = some g) :
    g = { f with
      xyCov := matMul (matMul f.transitionSPFuncValsCenter f.Wc)
        (matTranspose f.measurementSPFuncValsCenter)
      gain := matMul (matMul (matMul f.transitionSPFuncValsCenter f.Wc)
        (matTranspose f.measurementSPFuncValsCenter)) (O.inv f.yyCov)
      state := vecAdd f.state (matVec (matMul (matMul (matMul f.transitionSPFuncValsCenter f.Wc)
        (matTranspose f.measurementSPFuncValsCenter)) (O.inv f.yyCov))
        (vecSub z f.measurementEstimate))
      errorCov := matSub f.errorCov (matMul (matMul (matMul (matMul f.transitionSPFuncValsCenter
        f.Wc) (matTranspose f.measurementSPFuncValsCenter)) (O.inv f.yyCov))
        (matTranspose (matMul (matMul f.transitionSPFuncValsCenter f.Wc)
          (matTranspose f.measurementSPFuncValsCenter)))) } ∧
    z.length = f.measurementEstimate.length ∧
    f.state.length = (matMul (matMul (matMul f.transitionSPFuncValsCenter f.Wc)
        (matTranspose f.measurementSPFuncValsCenter)) (O.inv f.yyCov)).length := by
  unfold correct at h
  split at h
  · cases h
  · rename_i t ht
    obtain ⟨_, _, rfl⟩ := matMul?_eq_some _ _ _ ht
    split at h
    · cases h
    · rename_i xy hxy
      obtain ⟨_, _, rfl⟩ := matMul?_eq_some _ _ _ hxy
      split at h
      · cases h
      · rename_i gain hgain
        obtain ⟨_, _, rfl⟩ := matMul?_eq_some _ _ _ hgain
        split at h
        · cases h
        · rename_i inn hinn
          obtain ⟨hzl, rfl⟩ := vecSub?_eq_some _ _ _ hinn
          split at h
          · cases h
          · rename_i step hstep
            obtain ⟨_, rfl⟩ := matVec?_eq_some _ _ _ hstep
            split at h
            · cases h
            · rename_i st hst
              obtain ⟨hsl, rfl⟩ := vecAdd?_eq_some _ _ _ hst
              split at h
              · cases h
              · rename_i t2 ht2
                obtain ⟨_, _, rfl⟩ := matMul?_eq_some _ _ _ ht2
                split at h
                · cases h
                · rename_i ec hec
                  obtain ⟨_, _, rfl⟩ := matSub?_eq_some _ _ _ hec
                  simp only [Option.some.injEq] at h
                  rw [length_matVec] at hsl
                  exact ⟨h.symm, hzl, hsl⟩

end UnscentedKalmanFilterMod

theorem hasShape_transpose_of (m : Mat) (r c : Nat) (h : hasShape m r c = true) (hr : 0 < r) :
    hasShape (matTranspose m) c r = true := by
  have h1 := hasShape_matTranspose m
  rw [matCols_of_hasShape m r c h hr, ((hasShape_iff m r c).mp h).1] at h1
  exact h1

theorem matMul?_of_shapes (a b : Mat) (r k c : Nat) (ha : hasShape a r k = true)
    (hb : hasShape b k c = true) (hk : 0 < k) :
    matMul? a b = some (matMul a b) ∧ hasShape (matMul a b) r c = true := by
  have la := ((hasShape_iff a r k).mp ha).1
  have lb := ((hasShape_iff b k c).mp hb).1
  have cb := matCols_of_hasShape b k c hb hk
  constructor
  · unfold matMul?
    rw [la, lb, cb, ha, hb]
    rfl
  · have := hasShape_matMul a b
    rw [la, cb] at this
    exact this

theorem matAdd?_of_shapes (a b : Mat) (r c : Nat) (ha : hasShape a r c = true)
    (hb : hasShape b r c = true) (hr : 0 < r) :
    matAdd? a b = some (matAdd a b) ∧ hasShape (matAdd a b) r c = true := by
  have la := ((hasShape_iff a r c).mp ha).1
  have ca := matCols_of_hasShape a r c ha hr
  constructor
  · unfold matAdd?
    rw [la, ca, ha, hb]
    rfl
  · exact hasShape_matAdd a b r c ha hb

theorem matSub?_of_shapes (a b : Mat) (r c : Nat) (ha : hasShape a r c = true)
    (hb : hasShape b r c = true) (hr : 0 < r) :
    matSub? a b = some (matSub a b) ∧ hasShape (matSub a b) r c = true := by
  have la := ((hasShape_iff a r c).mp ha).1
  have ca := matCols_of_hasShape a r c ha hr
  constructor
  · unfold matSub?
    rw [la, ca, ha, hb]
    rfl
  · exact hasShape_matSub a b r c ha hb

theorem matVec?_of_shape (a : Mat) (v : Vec) (r : Nat) (ha : hasShape a r v.length = true) :
    matVec? a v = some (matVec a v) ∧ (matVec a v).length = r := by
  have la := ((hasShape_iff a r v.length).mp ha).1
  constructor
  · unfold matVec?
    rw [la, ha]
    rfl
  · rw [length_matVec, la]

namespace UnscentedKalmanFilterMod

/-- After a `predict`, `correct` returns for every measurement of `MP` entries, when the
inverse of the `MP × MP` matrix `yyCov` is an `MP × MP` matrix. -/
theorem correct_total (O : NumericOps) (f : UnscentedKalmanFilterMod) (z : Vec)
    (hf : f.Predicted) (hz : z.length = f.MP) (hinv : hasShape (O.inv f.yyCov) f.MP f.MP = true) :
    ∃ g, correct O f z = some g := by
  have hn : 0 < 2 * f.DP + 1 := by omega
  obtain ⟨e1, s1⟩ := matMul?_of_shapes _ _ _ _ _ hf.shapeFc hf.shaped.shapeWc hn
  obtain ⟨e2, s2⟩ := matMul?_of_shapes _ _ _ _ _ s1
    (hasShape_transpose_of _ _ _ hf.shapeHc hf.shaped.posMP) hn
  obtain ⟨e3, s3⟩ := matMul?_of_shapes _ _ _ _ _ s2 hinv hf.shaped.posMP
  have e4 : vecSub? z f.measurementEstimate = some (vecSub z f.measurementEstimate) := by
    unfold vecSub?
    rw [if_pos (by rw [hz, hf.lengthEstimate])]
  have hlen : (vecSub z f.measurementEstimate).length = f.MP := by
    simp [vecSub, hz, hf.lengthEstimate]
  have s3' : hasShape (matMul (matMul (matMul f.transitionSPFuncValsCenter f.Wc)
      (matTranspose f.measurementSPFuncValsCenter)) (O.inv f.yyCov)) f.DP
      (vecSub z f.measurementEstimate).length = true := by
    rw [hlen]
    exact s3
  obtain ⟨e5, l5⟩ := matVec?_of_shape _ _ _ s3'
  have e6 : vecAdd? f.state (matVec (matMul (matMul (matMul f.transitionSPFuncValsCenter f.Wc)
      (matTranspose f.measurementSPFuncValsCenter)) (O.inv f.yyCov))
      (vecSub z f.measurementEstimate)) = some (vecAdd f.state (matVec (matMul (matMul (matMul
      f.transitionSPFuncValsCenter f.Wc) (matTranspose f.measurementSPFuncValsCenter))
      (O.inv f.yyCov)) (vecSub z f.measurementEstimate))) := by
    unfold vecAdd?
    rw [if_pos (by rw [l5, hf.lengthState])]
  obtain ⟨e7, s7⟩ := matMul?_of_shapes _ _ _ _ _ s3
    (hasShape_transpose_of _ _ _ s2 hf.shaped.posDP) hf.shaped.posMP
  obtain ⟨e8, _⟩ := matSub?_of_shapes _ _ _ _ hf.shapeP s7 hf.shaped.posDP
  unfold correct
  simp only [e1, e2, e3, e4, e5, e6, e7, e8]
  exact ⟨_, rfl⟩

end UnscentedKalmanFilterMod

namespace UnscentedKalmanFilterMod

theorem evalAtSigmaPoints_shape (fn : Vec → Vec → Option Vec) (sigmaPoints : Mat)
    (DP rows r c : Nat) (vals out : Mat) (hv : hasShape vals r c = true)
    (h : evalAtSigmaPoints fn sigmaPoints DP rows vals = some out) :
    hasShape out r c = true := by
  unfold evalAtSigmaPoints at h
  generalize List.range (2 * DP + 1) = l at h
  induction l generalizing vals with
  | nil =>
    simp only [List.foldlM_nil, pure, Option.some.injEq] at h
    rw [← h]
    exact hv
  | cons i rest ih =>
    simp only [List.foldlM_cons, Option.bind_eq_bind] at h
    cases hx : roiColumn sigmaPoints i DP with
    | none => simp [hx] at h
    | some x =>
      cases hfx : roiColumn vals i rows with
      | none => simp [hx, hfx] at h
      | some fx =>
        cases hfn : fn x fx with
        | none => simp [hx, hfx, hfn] at h
        | some y =>
          simp only [hx, hfx, hfn, Option.some_bind] at h
          exact ih _ (hasShape_setColumn vals r c i y hv) h

/-- What a call `predict(control)` that returns has computed, step by step. -/
theorem predict_eq_some (O : NumericOps) (Sys : MotionModel → UkfSystemModel)
    (f g : UnscentedKalmanFilterMod) (control : Vec) (h : predict O Sys f control = some g) :
    ∃ sp1 fv sp2 hv,
      getSigmaPoints O f.state f.errorCov (O.sqrt f.tmpLambda) = some sp1 ∧
      evalAtSigmaPoints (fun x fx => (Sys f.model).stateConversionFunction x control f.q fx)
        sp1 f.DP f.DP f.transitionSPFuncVals = some fv ∧
      getSigmaPoints O (matVec fv f.Wm)
        (matAdd (matMul (matMul (matSub fv (repeatColumn (matVec fv f.Wm) (2 * f.DP + 1))) f.Wc)
          (matTranspose (matSub fv (repeatColumn (matVec fv f.Wm) (2 * f.DP + 1)))))
          f.processNoiseCov) (O.sqrt f.tmpLambda) = some sp2 ∧
      evalAtSigmaPoints (fun x hx => (Sys f.model).measurementFunction x f.r hx)
        sp2 f.DP f.MP f.measurementSPFuncVals = some hv ∧
      g = { f with
        sigmaPoints := sp2
        transitionSPFuncVals := fv
        state := matVec fv f.Wm
        transitionSPFuncValsCenter := matSub fv (repeatColumn (matVec fv f.Wm) (2 * f.DP + 1))
        errorCov :=
          matAdd (matMul (matMul (matSub fv (repeatColumn (matVec fv f.Wm) (2 * f.DP + 1))) f.Wc)
            (matTranspose (matSub fv (repeatColumn (matVec fv f.Wm) (2 * f.DP + 1)))))
            f.processNoiseCov
        measurementSPFuncVals := hv
        measurementEstimate := matVec hv f.Wm
        measurementSPFuncValsCenter :=
          matSub hv (repeatColumn (matVec hv f.Wm) (2 * f.DP + 1))
        yyCov :=
          matAdd (matMul (matMul (matSub hv (repeatColumn (matVec hv f.Wm) (2 * f.DP + 1))) f.Wc)
            (matTranspose (matSub hv (repeatColumn (matVec hv f.Wm) (2 * f.DP + 1)))))
            f.measurementNoiseCov } := by
  unfold predict at h
  split at h
  · cases h
  · rename_i sp1 hsp1
    split at h
    · cases h
    · rename_i fv hfv
      split at h
      · cases h
      · rename_i st hst
        obtain ⟨_, rfl⟩ := matVec?_eq_some _ _ _ hst
        split at h
        · cases h
        · rename_i fc hfc
          obtain ⟨_, _, rfl⟩ := matSub?_eq_some _ _ _ hfc
          split at h
          · cases h
          · rename_i t1 ht1
            obtain ⟨_, _, rfl⟩ := matMul?_eq_some _ _ _ ht1
            split at h
            · cases h
            · rename_i t2 ht2
              obtain ⟨_, _, rfl⟩ := matMul?_eq_some _ _ _ ht2
              split at h
              · cases h
              · rename_i ec hec
                obtain ⟨_, _, rfl⟩ := matAdd?_eq_some _ _ _ hec
                split at h
                · cases h
                · rename_i sp2 hsp2
                  split at h
                  · cases h
                  · rename_i hv hhv
                    split at h
                    · cases h
                    · rename_i me hme
                      obtain ⟨_, rfl⟩ := matVec?_eq_some _ _ _ hme
                      split at h
                      · cases h
                      · rename_i hc hhc
                        obtain ⟨_, _, rfl⟩ := matSub?_eq_some _ _ _ hhc
                        split at h
                        · cases h
                        · rename_i t3 ht3
                          obtain ⟨_, _, rfl⟩ := matMul?_eq_some _ _ _ ht3
                          split at h
                          · cases h
                          · rename_i t4 ht4
                            obtain ⟨_, _, rfl⟩ := matMul?_eq_some _ _ _ ht4
                            split at h
                            · cases h
                            · rename_i yy hyy
                              obtain ⟨_, _, rfl⟩ := matAdd?_eq_some _ _ _ hyy
                              simp only [Option.some.injEq] at h
                              exact ⟨sp1, fv, sp2, hv, hsp1, hfv, hsp2, hhv, h.symm⟩

end UnscentedKalmanFilterMod

theorem hasShape_zerosMat (r c : Nat) : hasShape (zerosMat r c) r c = true := by
  rw [hasShape_iff]
  unfold zerosMat
  refine ⟨by simp, ?_⟩
  intro row hrow
  rw [List.eq_of_mem_replicate hrow]
  simp

theorem hasShape_scaledEye (n : Nat) (c : ℚ) : hasShape (scaledEye n c) n n = true := by
  rw [hasShape_iff]
  unfold scaledEye
  refine ⟨by simp, ?_⟩
  intro row hrow
  obtain ⟨x, _, rfl⟩ := List.mem_map.mp hrow
  simp

theorem hasShape_matScale (m : Mat) (r c : Nat) (k : ℚ) (h : hasShape m r c = true) :
    hasShape (matScale k m) r c = true := by
  rw [hasShape_iff] at h ⊢
  unfold matScale vecScale
  refine ⟨by simp [h.1], ?_⟩
  intro row hrow
  obtain ⟨x, hx, rfl⟩ := List.mem_map.mp hrow
  simp [h.2 x hx]

theorem hasShape_setEntry (m : Mat) (r c i j : Nat) (v : ℚ) (h : hasShape m r c = true) :
    hasShape (setEntry m i j v) r c = true := by
  rw [hasShape_iff] at h ⊢
  unfold setEntry
  refine ⟨by simp [h.1], ?_⟩
  intro row hrow
  rcases List.mem_or_eq_of_mem_set hrow with hm | rfl
  · exact h.2 row hm
  · rw [List.length_set]
    by_cases hi : i < m.length
    · rw [List.getD_eq_getElem _ _ hi]
      exact h.2 _ (List.getElem_mem _)
    · have hn : m[i]? = none := List.getElem?_eq_none (by omega)
      rw [List.getD_eq_getElem?_getD, hn] at hrow ⊢
      rw [List.set_eq_of_length_le (by omega)] at hrow
      exact h.2 _ (by simpa using hrow)

namespace UnscentedKalmanFilterMod

theorem create_shaped (params : UnscentedKalmanFilterParams) (f : UnscentedKalmanFilterMod)
    (h : create params = some f) : f.Shaped := by
  unfold create at h
  split at h
  · cases h
  · rename_i h1
    split at h
    · cases h
    · split at h
      · cases h
      · split at h
        · cases h
        · rename_i hQ
          split at h
          · cases h
          · rename_i hR
            simp only [Option.some.injEq] at h
            simp only [not_not] at h1 hQ hR
            subst h
            refine ⟨h1.1, h1.2, hasShape_zerosMat _ _, hasShape_zerosMat _ _, ?_, ?_, hQ, hR⟩
            · simp [vecScale]
            · exact hasShape_setEntry _ _ _ _ _ _
                (hasShape_matScale _ _ _ _ (hasShape_scaledEye _ _))

theorem predict_predicted (O : NumericOps) (Sys : MotionModel → UkfSystemModel)
    (f g : UnscentedKalmanFilterMod) (control : Vec) (hf : f.Shaped)
    (h : predict O Sys f control = some g) : g.Predicted := by
  obtain ⟨sp1, fv, sp2, hv, _, hfv, _, hhv, rfl⟩ := predict_eq_some O Sys f g control h
  have sF := evalAtSigmaPoints_shape _ _ _ _ _ _ _ _ hf.shapeF hfv
  have sH := evalAtSigmaPoints_shape _ _ _ _ _ _ _ _ hf.shapeH hhv
  have hpos : 0 < 2 * f.DP + 1 := by omega
  have lF : fv.length = f.DP := ((hasShape_iff _ _ _).mp sF).1
  have lH : hv.length = f.MP := ((hasShape_iff _ _ _).mp sH).1
  have sFc : hasShape (matSub fv (repeatColumn (matVec fv f.Wm) (2 * f.DP + 1))) f.DP
      (2 * f.DP + 1) = true := by
    refine hasShape_matSub _ _ _ _ sF ?_
    have := hasShape_repeatColumn (matVec fv f.Wm) (2 * f.DP + 1)
    rwa [length_matVec, lF] at this
  have sHc : hasShape (matSub hv (repeatColumn (matVec hv f.Wm) (2 * f.DP + 1))) f.MP
      (2 * f.DP + 1) = true := by
    refine hasShape_matSub _ _ _ _ sH ?_
    have := hasShape_repeatColumn (matVec hv f.Wm) (2 * f.DP + 1)
    rwa [length_matVec, lH] at this
  refine ⟨⟨hf.posDP, hf.posMP, sF, sH, hf.lengthWm, hf.shapeWc, hf.shapeQ, hf.shapeR⟩, ?_, ?_,
    sFc, sHc, ?_, ?_⟩
  · show (matVec fv f.Wm).length = f.DP
    rw [length_matVec, lF]
  · show hasShape (matAdd _ f.processNoiseCov) f.DP f.DP = true
    refine hasShape_matAdd _ _ _ _ ?_ hf.shapeQ
    exact (matMul?_of_shapes _ _ _ _ _ (matMul?_of_shapes _ _ _ _ _ sFc hf.shapeWc hpos).2
      (hasShape_transpose_of _ _ _ sFc hf.posDP) hpos).2
  · show (matVec hv f.Wm).length = f.MP
    rw [length_matVec, lH]
  · show hasShape (matAdd _ f.measurementNoiseCov) f.MP f.MP = true
    refine hasShape_matAdd _ _ _ _ ?_ hf.shapeR
    exact (matMul?_of_shapes _ _ _ _ _ (matMul?_of_shapes _ _ _ _ _ sHc hf.shapeWc hpos).2
      (hasShape_transpose_of _ _ _ sHc hf.posMP) hpos).2

end UnscentedKalmanFilterMod

theorem rebuild_self (m : Mat) :
    (List.range m.length).map (fun i =>
      (List.range (m.getD i []).length).map (fun j => entry m i j)) = m := by
  apply List.ext_getElem
  · simp
  · intro i h1 h2
    simp only [List.getElem_map, List.getElem_range]
    have hi : i < m.length := h2
    rw [List.getD_eq_getElem _ _ hi]
    apply List.ext_getElem
    · simp
    · intro j h3 h4
      simp only [List.getElem_map, List.getElem_range]
      unfold entry
      rw [List.getD_eq_getElem _ _ hi, List.getD_eq_getElem _ _ h4]

theorem choleskyDecomposition_failed (O : NumericOps) (cov : Mat)
    (hfail : (O.cholesky cov).1 = false) :
    choleskyDecomposition O cov cov.length cov = (false, (O.cholesky cov).2) := by
  unfold choleskyDecomposition
  simp only [ite_self]
  rw [rebuild_self cov, hfail]
  rfl

theorem entry_tabulate (n : Nat) (g : Nat → Nat → ℚ) (i j : Nat) :
    entry ((List.range n).map (fun i => (List.range n).map (fun j => g i j))) i j =
      if i < n ∧ j < n then g i j else 0 := by
  unfold entry
  simp only [List.getD_eq_getElem?_getD, List.getElem?_map]
  by_cases hi : i < n
  · rw [List.getElem?_range hi]
    simp only [Option.map_some', Option.getD_some, List.getElem?_map]
    by_cases hj : j < n
    · rw [List.getElem?_range hj]
      simp [hi, hj]
    · rw [List.getElem?_eq_none (by simpa using hj)]
      simp [hj]
  · rw [List.getElem?_eq_none (l := List.range n) (by simpa using hi)]
    simp [hi]

theorem sum_indicator_row (n i : Nat) (a b : ℚ) :
    ((List.range n).map (fun j => if i = j then a else b)).sum =
      if i < n then a + ((n : ℚ) - 1) * b else (n : ℚ) * b := by
  induction n with
  | zero => simp
  | succ n ih =>
    rw [List.range_succ, List.map_append, List.sum_append, ih]
    simp only [List.map_cons, List.map_nil, List.sum_cons, List.sum_nil, add_zero]
    by_cases h1 : i < n
    · have h2 : i < n + 1 := by omega
      have h3 : ¬ i = n := by omega
      rw [if_pos h1, if_pos h2, if_neg h3]
      push_cast
      ring
    · by_cases h3 : i = n
      · have h2 : i < n + 1 := by omega
        rw [if_neg h1, if_pos h2, if_pos h3]
        push_cast
        ring
      · have h2 : ¬ i < n + 1 := by omega
        rw [if_neg h1, if_neg h2, if_neg h3]
        push_cast
        ring

theorem sum_indicator_column (n j : Nat) (a b : ℚ) :
    ((List.range n).map (fun i => if i = j then a else b)).sum =
      if j < n then a + ((n : ℚ) - 1) * b else (n : ℚ) * b := by
  rw [← sum_indicator_row n j a b]
  congr 1
  apply List.map_congr_left
  intro i _
  by_cases h : i = j
  · rw [if_pos h, if_pos h.symm]
  · rw [if_neg h, if_neg (fun e => h e.symm)]

namespace MultiModelKalmanEstimator

variable {K : Type}

theorem initializeEstimator_transition (ops : EstimatorOps K) (e : MultiModelKalmanEstimator K)
    (track : TrackedObject) (timestamp processNoise measurementNoise initStateCovariance : ℚ)
    (motionModels : List MotionModel) :
    (initializeEstimator ops e track timestamp processNoise measurementNoise initStateCovariance
        motionModels).mTransitionProbability =
      (List.range (systemModelsOf motionModels).length).map (fun i =>
        (List.range (systemModelsOf motionModels).length).map (fun j =>
          if i = j then (5 / 100 : ℚ) + (1 - ((systemModelsOf motionModels).length : ℚ) * (5 / 100))
          else 5 / 100)) ∧
    (initializeEstimator ops e track timestamp processNoise measurementNoise initStateCovariance
        motionModels).mNumberOfModels = (systemModelsOf motionModels).length ∧
    1 ≤ (systemModelsOf motionModels).length := by
  refine ⟨rfl, rfl, ?_⟩
  unfold systemModelsOf
  split
  · simp
  · rename_i h
    cases motionModels with
    | nil => simp at h
    | cons m rest => simp

end MultiModelKalmanEstimator

/-! ## Model probabilities -/

theorem foldl_add_eq_sum {α : Type} (g : α → ℚ) (l : List α) (a : ℚ) :
    l.foldl (fun s x => s + g x) a = a + (l.map g).sum := by
  induction l generalizing a with
  | nil => simp
  | cons x rest ih =>
    rw [List.foldl_cons, ih, List.map_cons, List.sum_cons]
    ring

theorem sum_nonneg_of_forall (l : List ℚ) (h : ∀ v ∈ l, 0 ≤ v) : 0 ≤ l.sum := by
  induction l with
  | nil => simp
  | cons x rest ih =>
    rw [List.sum_cons]
    exact add_nonneg (h x (List.mem_cons_self _ _))
      (ih (fun v hv => h v (List.mem_cons_of_mem _ hv)))

theorem le_sum_of_mem (l : List ℚ) (h : ∀ v ∈ l, 0 ≤ v) : ∀ v ∈ l, v ≤ l.sum := by
  induction l with
  | nil => intro v hv; cases hv
  | cons x rest ih =>
    intro v hv
    rw [List.sum_cons]
    have hx : 0 ≤ x := h x (List.mem_cons_self _ _)
    have hrest : ∀ w ∈ rest, 0 ≤ w := fun w hw => h w (List.mem_cons_of_mem _ hw)
    rcases List.mem_cons.mp hv with rfl | hm
    · have := sum_nonneg_of_forall rest hrest
      linarith
    · have := ih hrest v hm
      linarith

theorem sum_map_reescale {α : Type} (l : List α) (p : α → ℚ) (hi lo : ℚ) :
    (l.map (fun j => reescale (p j) hi lo)).sum =
      (l.map p).sum * (hi - lo) + (l.length : ℚ) * lo := by
  induction l with
  | nil => simp
  | cons x rest ih =>
    rw [List.map_cons, List.sum_cons, ih, List.map_cons, List.sum_cons, List.length_cons]
    unfold reescale
    push_cast
    ring

/-- The arithmetic of the last loop of `updateModelProbability`: shares of a non-zero total of
non-negative terms, rescaled into `[lo, hi]`. -/
theorem rescaled_shares (M : Nat) (t : Nat → ℚ) (hi lo : ℚ) (ht : ∀ j, 0 ≤ t j)
    (hN : ((List.range M).map t).sum ≠ 0) (hlo : lo ≤ hi) :
    (∀ x ∈ (List.range M).map (fun j => reescale (t j / ((List.range M).map t).sum) hi lo),
      lo ≤ x ∧ x ≤ hi) ∧
    ((List.range M).map (fun j => reescale (t j / ((List.range M).map t).sum) hi lo)).sum =
      (hi - lo) + (M : ℚ) * lo := by
  have hnn : ∀ v ∈ (List.range M).map t, 0 ≤ v := by
    intro v hv
    obtain ⟨j, _, rfl⟩ := List.mem_map.mp hv
    exact ht j
  have hN0 : 0 ≤ ((List.range M).map t).sum := sum_nonneg_of_forall _ hnn
  have hpos : 0 < ((List.range M).map t).sum := lt_of_le_of_ne hN0 (Ne.symm hN)
  constructor
  · intro x hx
    obtain ⟨j, hj, rfl⟩ := List.mem_map.mp hx
    have h1 : t j ≤ ((List.range M).map t).sum :=
      le_sum_of_mem _ hnn _ (List.mem_map.mpr ⟨j, hj, rfl⟩)
    have h2 : 0 ≤ t j / ((List.range M).map t).sum := div_nonneg (ht j) hN0
    have h3 : t j / ((List.range M).map t).sum ≤ 1 := (div_le_one hpos).mpr h1
    unfold reescale
    constructor
    · nlinarith
    · nlinarith
  · rw [sum_map_reescale]
    have h4 : ((List.range M).map (fun j => t j / ((List.range M).map t).sum)).sum = 1 := by
      have := sum_map_div ((List.range M).map t) ((List.range M).map t).sum
      rw [List.map_map] at this
      have e : ((fun p => p / ((List.range M).map t).sum) ∘ t) =
          (fun j => t j / ((List.range M).map t).sum) := rfl
      rw [e] at this
      rw [this, div_self hN]
    rw [h4, List.length_range]
    ring

theorem collect_map_total {α β : Type} (f : α → Option β) (l : List α)
    (h : ∀ a ∈ l, ∃ b, f a = some b) : ∃ r, collect (l.map f) = some r ∧ r.length = l.length := by
  induction l with
  | nil => exact ⟨[], rfl, rfl⟩
  | cons a rest ih =>
    obtain ⟨b, hb⟩ := h a (List.mem_cons_self _ _)
    obtain ⟨r, hr, hl⟩ := ih (fun x hx => h x (List.mem_cons_of_mem _ hx))
    refine ⟨b :: r, ?_, by simp [hl]⟩
    rw [List.map_cons, hb]
    simp only [collect, hr]

theorem collect_length {α : Type} (l : List (Option α)) (r : List α) (h : collect l = some r) :
    r.length = l.length := by
  rw [collect_eq_some l r h, List.length_map]

theorem expNormalize_eq_some (O : NumericOps) (values lambda : List ℚ)
    (hexp : ∀ x, 0 ≤ O.exp x) (h : expNormalize O values = some lambda) :
    lambda.length = values.length ∧ ∀ v ∈ lambda, 0 ≤ v := by
  unfold expNormalize at h
  cases values with
  | nil => cases h
  | cons first rest =>
    simp only [Option.some.injEq] at h
    rw [← h]
    refine ⟨by simp, ?_⟩
    intro v hv
    obtain ⟨w, hw, rfl⟩ := List.mem_map.mp hv
    obtain ⟨u, _, rfl⟩ := List.mem_map.mp hw
    refine div_nonneg (hexp _) ?_
    rw [foldl_add_eq_sum (fun x => x), List.map_id', zero_add]
    apply sum_nonneg_of_forall
    intro y hy
    obtain ⟨u2, _, rfl⟩ := List.mem_map.mp hy
    exact hexp _

theorem expNormalize_total (O : NumericOps) (values : List ℚ) (h : 0 < values.length) :
    ∃ lambda, expNormalize O values = some lambda := by
  cases values with
  | nil => simp at h
  | cons first rest => exact ⟨_, rfl⟩

namespace MultiModelKalmanEstimator

theorem logLikelihood_total (O : NumericOps) (z p : Vec) (S : Mat) (hn : 0 < z.length)
    (hp : p.length = z.length) (hS : hasShape S z.length z.length = true)
    (hI : hasShape (O.inv S) z.length z.length = true) :
    ∃ v, logLikelihood O z p S = some v := by
  unfold logLikelihood
  have e1 : vecSub? z p = some (vecSub z p) := by
    unfold vecSub?
    rw [if_pos hp.symm]
  have hd : (vecSub z p).length = z.length := by simp [vecSub, hp]
  have hrow : hasShape [vecSub z p] 1 z.length = true := by
    rw [hasShape_iff]
    refine ⟨rfl, ?_⟩
    intro row hrow
    rw [List.mem_singleton.mp hrow, hd]
  obtain ⟨e2, s2⟩ := matMul?_of_shapes [vecSub z p] (O.inv S) 1 z.length z.length hrow hI hn
  have s3 : hasShape (matMul [vecSub z p] (O.inv S)) 1 (vecSub z p).length = true := by
    rw [hd]
    exact s2
  obtain ⟨e3, _⟩ := matVec?_of_shape _ _ 1 s3
  have e4 : hasShape S S.length S.length = true := by
    have := ((hasShape_iff _ _ _).mp hS).1
    rw [this]
    exact hS
  simp only [e1, e2, e3, e4, if_true]
  exact ⟨_, rfl⟩

theorem logLikelihoods_total (O : NumericOps) (z : Vec) (preds : List Vec) (covs : List Mat)
    (M : Nat) (hn : 0 < z.length)
    (hP : ∀ j, j < M → ∃ p, preds[j]? = some p ∧ p.length = z.length)
    (hS : ∀ j, j < M → ∃ S, covs[j]? = some S ∧ hasShape S z.length z.length = true ∧
      hasShape (O.inv S) z.length z.length = true) :
    ∃ likelihood, logLikelihoods O z preds covs M = some likelihood ∧ likelihood.length = M := by
  unfold logLikelihoods
  obtain ⟨r, hr, hl⟩ := collect_map_total (fun j =>
    match preds[j]?, covs[j]? with
    | some p, some S => logLikelihood O z p S
    | _, _ => none) (List.range M) (by
      intro j hj
      obtain ⟨p, hp, hpl⟩ := hP j (List.mem_range.mp hj)
      obtain ⟨S, hs, hs1, hs2⟩ := hS j (List.mem_range.mp hj)
      simp only [hp, hs]
      exact logLikelihood_total O z p S hn hpl hs1 hs2)
  exact ⟨r, hr, by rw [hl, List.length_range]⟩

theorem lambdaSum_eq (lambda prior : List ℚ) (M : Nat) :
    lambdaSum lambda prior M =
      ((List.range M).map (fun j => prior.getD j 0 * lambda.getD j 0)).sum := by
  unfold lambdaSum
  rw [foldl_add_eq_sum (fun j => lambda.getD j 0 * prior.getD j 0), zero_add]
  congr 1
  apply List.map_congr_left
  intro j _
  ring

theorem getD_nonneg (l : List ℚ) (h : ∀ v ∈ l, 0 ≤ v) (j : Nat) : 0 ≤ l.getD j 0 := by
  by_cases hj : j < l.length
  · rw [List.getD_eq_getElem _ _ hj]
    exact h _ (List.getElem_mem _)
  · rw [List.getD_eq_getElem?_getD, List.getElem?_eq_none (by omega)]
    rfl

/-- The result of `updateModelProbability` once the likelihoods are there and the normalising
value is not zero. -/
theorem updateModelProbability_bounds (O : NumericOps) (z : Vec) (preds : List Vec)
    (covs : List Mat) (prior likelihood lambda : List ℚ) (hi lo : ℚ)
    (hexp : ∀ x, 0 ≤ O.exp x) (hprior : ∀ p ∈ prior, 0 ≤ p) (hlo : lo ≤ hi)
    (hL : logLikelihoods O z preds covs prior.length = some likelihood)
    (hE : expNormalize O likelihood = some lambda)
    (hN : lambdaSum lambda prior prior.length ≠ 0) :
    ∃ mu, updateModelProbability O z preds covs prior hi lo = some mu ∧
      mu.length = prior.length ∧ (∀ x ∈ mu, lo ≤ x ∧ x ≤ hi) ∧
      mu.sum = (hi - lo) + (prior.length : ℚ) * lo := by
  unfold updateModelProbability
  simp only [hL, hE]
  refine ⟨_, rfl, by simp, ?_⟩
  rw [lambdaSum_eq] at hN ⊢
  have hlam := (expNormalize_eq_some O likelihood lambda hexp hE).2
  exact rescaled_shares prior.length (fun j => prior.getD j 0 * lambda.getD j 0) hi lo
    (fun j => mul_nonneg (getD_nonneg prior hprior j) (getD_nonneg lambda hlam j)) hN hlo

end MultiModelKalmanEstimator

theorem exampleExp_nonneg (x : ℚ) : 0 ≤ exampleNumeric.exp x := by
  show 0 ≤ exampleExp x
  unfold exampleExp
  split
  · nlinarith [mul_self_nonneg x]
  · rename_i h
    have hx : x < 0 := not_le.mp h
    apply div_nonneg (by norm_num)
    nlinarith [mul_self_nonneg x]

namespace MultiModelKalmanEstimator

variable {K : Type}

theorem initializeEstimator_probabilities (ops : EstimatorOps K) (e : MultiModelKalmanEstimator K)
    (track : TrackedObject) (timestamp processNoise measurementNoise initStateCovariance : ℚ)
    (motionModels : List MotionModel) :
    (initializeEstimator ops e track timestamp processNoise measurementNoise initStateCovariance
        motionModels).mModelProbability =
      List.replicate (systemModelsOf motionModels).length
        (1 / ((systemModelsOf motionModels).length : ℚ)) ∧
    (initializeEstimator ops e track timestamp processNoise measurementNoise initStateCovariance
        motionModels).mMaxProbability = 95 / 100 ∧
    (initializeEstimator ops e track timestamp processNoise measurementNoise initStateCovariance
        motionModels).mMinProbability =
      (1 - 95 / 100) / max ((((systemModelsOf motionModels).length - 1 : Nat) : ℚ)) 1 :=
  ⟨rfl, rfl, rfl⟩

end MultiModelKalmanEstimator

namespace TrackManager

variable {K : Type}

theorem predictAt_wf (ops : EstimatorOps K) (s : TrackManager K) (ts : ℚ) (hwf : s.WF) :
    (s.predictAt ops ts).WF := by
  have hk : UMap.keys (s.predictAt ops ts).mKalmanEstimators = UMap.keys s.mKalmanEstimators :=
    keys_mapValues s.mKalmanEstimators (fun e => ops.predictAt e ts)
  refine ⟨?_, hwf.suspendedNodup, hwf.nmfNodup, ?_, ?_, ?_⟩
  · rw [hk]; exact hwf.activeNodup
  · intro id; rw [hk]; exact hwf.nmfKeys id
  · intro id; rw [hk]; exact hwf.tfKeys id
  · intro id; rw [hk]; exact hwf.disjoint id

theorem predictAt_hasId (ops : EstimatorOps K) (s : TrackManager K) (ts : ℚ) (k : Id) :
    (s.predictAt ops ts).hasId k = true ↔ s.hasId k = true := by
  have hk : UMap.keys (s.predictAt ops ts).mKalmanEstimators = UMap.keys s.mKalmanEstimators :=
    keys_mapValues s.mKalmanEstimators (fun e => ops.predictAt e ts)
  rw [hasId_iff, hasId_iff, hk]
  rfl

theorem reactivateTrack_wf (s t : TrackManager K) (id : Id) (hwf : s.WF)
    (h : s.reactivateTrack id = some t) :
    t.WF ∧ t.mConfig = s.mConfig ∧ t.mAutoIdGeneration = s.mAutoIdGeneration ∧
      t.mCurrentId = s.mCurrentId ∧ t.mMeasurementMap = s.mMeasurementMap ∧
      id ∈ UMap.keys s.mSuspendedKalmanEstimators ∧
      (∀ k, k ∈ UMap.keys t.mKalmanEstimators ↔ k = id ∨ k ∈ UMap.keys s.mKalmanEstimators) ∧
      (∀ k, k ∈ UMap.keys t.mSuspendedKalmanEstimators ↔
        k ≠ id ∧ k ∈ UMap.keys s.mSuspendedKalmanEstimators) ∧
      (∀ k, k ∈ UMap.keys t.mNumberOfTrackedFrames ↔
        k = id ∨ k ∈ UMap.keys s.mNumberOfTrackedFrames) := by
  unfold reactivateTrack at h
  cases he : s.mSuspendedKalmanEstimators.find? id with
  | none => simp [he] at h
  | some e =>
    simp only [he, Option.some.injEq] at h
    subst h
    have hid : id ∈ UMap.keys s.mSuspendedKalmanEstimators := mem_keys_of_find? _ _ _ he
    refine ⟨⟨?_, ?_, ?_, ?_, ?_, ?_⟩, rfl, rfl, rfl, rfl, hid, ?_, ?_, ?_⟩
    · exact UMap.nodup_assign _ _ _ hwf.activeNodup
    · exact UMap.nodup_erase _ _ hwf.suspendedNodup
    · exact UMap.nodup_assign _ _ _ hwf.nmfNodup
    · intro k
      simp only [UMap.mem_keys_assign, hwf.nmfKeys k]
    · intro k hk
      simp only [UMap.mem_keys_assign] at hk ⊢
      rcases hk with hk | hk
      · exact Or.inl hk
      · exact Or.inr (hwf.tfKeys k hk)
    · intro k hk
      simp only [UMap.mem_keys_assign, UMap.mem_keys_erase] at hk ⊢
      rintro ⟨hne, hs⟩
      rcases hk with hk | hk
      · exact hne hk
      · exact hwf.disjoint k hk hs
    · intro k; simp only [UMap.mem_keys_assign]
    · intro k; simp only [UMap.mem_keys_erase]
    · intro k; simp only [UMap.mem_keys_assign]

theorem suspendTrack_wf (s t : TrackManager K) (id : Id) (hwf : s.WF)
    (h : s.suspendTrack id = some t) :
    t.WF ∧ t.mConfig = s.mConfig ∧ t.mAutoIdGeneration = s.mAutoIdGeneration ∧
      t.mCurrentId = s.mCurrentId ∧ t.mMeasurementMap = s.mMeasurementMap ∧
      id ∈ UMap.keys s.mKalmanEstimators ∧
      (∀ k, k ∈ UMap.keys t.mKalmanEstimators ↔ k ≠ id ∧ k ∈ UMap.keys s.mKalmanEstimators) ∧
      (∀ k, k ∈ UMap.keys t.mSuspendedKalmanEstimators ↔
        k = id ∨ k ∈ UMap.keys s.mSuspendedKalmanEstimators) ∧
      t.mNumberOfTrackedFrames = s.mNumberOfTrackedFrames := by
  unfold suspendTrack at h
  cases he : s.mKalmanEstimators.find? id with
  | none => simp [he] at h
  | some e =>
    simp only [he, Option.some.injEq] at h
    subst h
    have hid : id ∈ UMap.keys s.mKalmanEstimators := mem_keys_of_find? _ _ _ he
    refine ⟨⟨?_, ?_, ?_, ?_, ?_, ?_⟩, rfl, rfl, rfl, rfl, hid, ?_, ?_, rfl⟩
    · exact UMap.nodup_erase _ _ hwf.activeNodup
    · exact UMap.nodup_assign _ _ _ hwf.suspendedNodup
    · exact UMap.nodup_erase _ _ hwf.nmfNodup
    · intro k
      simp only [UMap.mem_keys_erase, hwf.nmfKeys k]
    · intro k hk
      simp only [UMap.mem_keys_erase] at hk
      exact hwf.tfKeys k hk.2
    · intro k hk
      simp only [UMap.mem_keys_assign, UMap.mem_keys_erase] at hk ⊢
      rintro (hs | hs)
      · exact hk.1 hs
      · exact hwf.disjoint k hk.2 hs
    · intro k; simp only [UMap.mem_keys_erase]
    · intro k; simp only [UMap.mem_keys_assign]

theorem erase_wf (s : TrackManager K) (id : Id) (hwf : s.WF) :
    WF { s with
      mKalmanEstimators := s.mKalmanEstimators.erase id
      mNonMeasurementFrames := s.mNonMeasurementFrames.erase id
      mNumberOfTrackedFrames := s.mNumberOfTrackedFrames.erase id } := by
  refine ⟨?_, hwf.suspendedNodup, ?_, ?_, ?_, ?_⟩
  · exact UMap.nodup_erase _ _ hwf.activeNodup
  · exact UMap.nodup_erase _ _ hwf.nmfNodup
  · intro k
    simp only [UMap.mem_keys_erase, hwf.nmfKeys k]
  · intro k hk
    simp only [UMap.mem_keys_erase] at hk ⊢
    exact ⟨hk.1, hwf.tfKeys k hk.2⟩
  · intro k hk
    simp only [UMap.mem_keys_erase] at hk
    exact hwf.disjoint k hk.2

theorem deleteTrack_eq (s t : TrackManager K) (id : Id) (h : s.deleteTrack id = some t) :
    ∃ s1, (if s.isSuspended id then s.reactivateTrack id else some s) = some s1 ∧
      t = { s1 with
        mKalmanEstimators := s1.mKalmanEstimators.erase id
        mNonMeasurementFrames := s1.mNonMeasurementFrames.erase id
        mNumberOfTrackedFrames := s1.mNumberOfTrackedFrames.erase id } := by
  unfold deleteTrack at h
  by_cases hs : s.isSuspended id = true
  · simp only [hs, if_true, Option.bind_eq_bind] at h ⊢
    cases h1 : s.reactivateTrack id with
    | none => simp [h1] at h
    | some s1 =>
      simp only [h1, Option.some_bind, Option.some.injEq] at h
      exact ⟨s1, rfl, h.symm⟩
  · simp only [hs, Bool.false_eq_true, if_false, Option.bind_eq_bind, Option.some_bind,
      Option.some.injEq] at h ⊢
    exact ⟨s, rfl, h.symm⟩

theorem isReliable_state (s : TrackManager K) (id : Id) :
    (s.isReliable id).2 =
      { s with mNumberOfTrackedFrames := s.mNumberOfTrackedFrames.touch id 0 } := rfl

theorem keys_touch {V : Type} (m : UMap V) (k k' : Id) (d : V) :
    k' ∈ UMap.keys (m.touch k d) ↔ k' = k ∨ k' ∈ UMap.keys m := by
  unfold UMap.touch
  by_cases h : m.contains k = true
  · rw [if_pos h]
    have hk := (UMap.contains_iff m k).mp h
    constructor
    · exact Or.inr
    · rintro (rfl | h1)
      · exact hk
      · exact h1
  · rw [if_neg h]
    simp [UMap.keys, or_comm]

theorem driftingStep_state (acc : List (Id × MultiModelKalmanEstimator K) × TrackManager K)
    (p : Id × MultiModelKalmanEstimator K)
    (h1 : p.1 ∈ UMap.keys acc.2.mNumberOfTrackedFrames)
    (h2 : p.1 ∈ UMap.keys acc.2.mNonMeasurementFrames) :
    (driftingStep acc p).2 = acc.2 := by
  have hp : (acc.2.isReliable p.1).2 = acc.2 := by
    simp only [isReliable]
    rw [UMap.touch_of_mem _ _ _ h1]
  unfold driftingStep
  simp only [hp]
  rw [UMap.touch_of_mem _ _ _ h2]
  split
  · split <;> rfl
  · rfl

theorem drifting_fold_state :
    ∀ (l acc : List (Id × MultiModelKalmanEstimator K)) (t : TrackManager K),
      (∀ p ∈ l, p.1 ∈ UMap.keys t.mNumberOfTrackedFrames ∧
        p.1 ∈ UMap.keys t.mNonMeasurementFrames) →
      (l.foldl driftingStep (acc, t)).2 = t := by
  intro l
  induction l with
  | nil => intro acc t _; rfl
  | cons p rest ih =>
    intro acc t h
    have hp := driftingStep_state (acc, t) p (h p (List.mem_cons_self _ _)).1
      (h p (List.mem_cons_self _ _)).2
    simp only [List.foldl_cons]
    have e : driftingStep (acc, t) p = ((driftingStep (acc, t) p).1, t) := Prod.ext rfl hp
    rw [e]
    exact ih _ t (fun q hq => h q (List.mem_cons_of_mem _ hq))

theorem getDriftingTracks_state (s : TrackManager K) (hwf : s.WF) :
    s.getDriftingTracks.2 = s := by
  unfold getDriftingTracks driftingEntries
  apply drifting_fold_state
  intro p hp
  have hk : p.1 ∈ UMap.keys s.mKalmanEstimators := List.mem_map.mpr ⟨p, hp, rfl⟩
  exact ⟨hwf.tfKeys p.1 hk, (hwf.nmfKeys p.1).mpr hk⟩

theorem correct_suspendedTf (ops : EstimatorOps K) (s t : TrackManager K) (hwf : s.WF)
    (hs : ∀ id, id ∈ UMap.keys s.mSuspendedKalmanEstimators →
      id ∈ UMap.keys s.mNumberOfTrackedFrames)
    (h : s.correct ops = some t) :
    ∀ id, id ∈ UMap.keys t.mSuspendedKalmanEstimators →
      id ∈ UMap.keys t.mNumberOfTrackedFrames := by
  have post := correct_post ops s t hwf h
  intro id hid
  obtain ⟨e1, he1⟩ := find?_some_of_mem_keys _ _ hid
  cases ha : s.mKalmanEstimators.find? id with
  | some e =>
    obtain ⟨e2, _, _, _, htf, hsus⟩ := post.active id e ha
    by_cases hsp : s.suspends id e2 = true
    · have hdel : s.deletes id e2 = false := by
        unfold suspends at hsp
        unfold deletes
        simp only [Bool.and_eq_true, Bool.not_eq_true'] at hsp
        simp [hsp.1.1, hsp.1.2]
      rw [hdel] at htf
      simp only [Bool.false_eq_true, if_false] at htf
      exact mem_keys_of_find? _ _ _ htf
    · rw [if_neg hsp] at hsus
      rw [hsus] at he1
      cases he1
  | none =>
    cases hsu : s.mSuspendedKalmanEstimators.find? id with
    | some e =>
      cases hm : s.mMeasurementMap.find? id with
      | some m =>
        obtain ⟨e2, _, _, _, _, hnone⟩ := post.suspendedPending id e m hsu hm
        rw [hnone] at he1
        cases he1
      | none =>
        obtain ⟨_, _, htf, _⟩ := post.suspendedIdle id e hsu hm
        obtain ⟨n, hn⟩ := find?_some_of_mem_keys _ _ (hs id (mem_keys_of_find? _ _ _ hsu))
        rw [hn] at htf
        exact mem_keys_of_find? _ _ _ htf
    | none =>
      have := (post.absent id ha hsu).2.2.2
      rw [this] at he1
      cases he1

end TrackManager

namespace TrackManager

variable {K : Type}

theorem consistent_of_keys (s t : TrackManager K) (hs : s.Consistent) (hwf : t.WF)
    (hauto : t.mAutoIdGeneration = s.mAutoIdGeneration) (hcur : t.mCurrentId = s.mCurrentId)
    (hsus : ∀ k, k ∈ UMap.keys t.mSuspendedKalmanEstimators →
      k ∈ UMap.keys t.mNumberOfTrackedFrames)
    (hid : ∀ k, t.hasId k = true → s.hasId k = true) : t.Consistent :=
  ⟨hwf, hsus, hauto.trans hs.autoId, fun k hk => hcur ▸ hs.idBound k (hid k hk)⟩

theorem reachable_consistent (ops : EstimatorOps K) (s : TrackManager K)
    (h : Reachable ops s) : s.Consistent := by
  induction h with
  | new config =>
    refine ⟨?_, ?_, rfl, ?_⟩
    · refine ⟨?_, ?_, ?_, ?_, ?_, ?_⟩ <;> simp [UMap.keys]
    · intro id hid
      simp [UMap.keys] at hid
    · intro id hid
      simp [hasId, UMap.count, UMap.contains, UMap.find?] at hid
  | createTrack s object timestamp _ ih =>
    obtain ⟨h1, h2, h3⟩ := createTrack_auto ops s object timestamp ih.autoId
    obtain ⟨_, hsu, _, _, _, htf⟩ := createTrack_maps ops s object timestamp
    have hfresh : (s.createTrack ops object timestamp).1 ∉
        UMap.keys s.mSuspendedKalmanEstimators := by
      intro hmem
      have hb := ih.idBound _ ((hasId_iff s _).mpr (Or.inr hmem))
      rw [h1] at hb
      have hb2 : (s.mCurrentId : Int) + 1 ≤ s.mCurrentId := hb
      linarith
    refine ⟨createTrack_wf ops s object timestamp ih.wf hfresh, ?_, h3, ?_⟩
    · intro id hid
      rw [hsu] at hid
      rw [htf, UMap.mem_keys_assign]
      exact Or.inr (ih.suspendedTf id hid)
    · intro k hk
      rw [h2]
      rcases (createTrack_hasId ops s object timestamp k).mp hk with hk1 | hk1
      · rw [hk1, h1]
      · have h4 : (k : Int) ≤ s.mCurrentId := ih.idBound k hk1
        have h5 : (k : Int) ≤ s.mCurrentId + 1 := by linarith
        exact h5
  | predict s deltaT _ ih =>
    exact consistent_of_keys s _ ih (predict_wf ops s deltaT ih.wf) rfl rfl ih.suspendedTf
      (fun k hk => by rw [predict_hasId] at hk; exact hk)
  | predictAt s timestamp _ ih =>
    exact consistent_of_keys s _ ih (predictAt_wf ops s timestamp ih.wf) rfl rfl ih.suspendedTf
      (fun k hk => (predictAt_hasId ops s timestamp k).mp hk)
  | setMeasurement s id measurement _ ih =>
    exact consistent_of_keys s _ ih
      ⟨ih.wf.activeNodup, ih.wf.suspendedNodup, ih.wf.nmfNodup, ih.wf.nmfKeys, ih.wf.tfKeys,
        ih.wf.disjoint⟩ rfl rfl ih.suspendedTf (fun k hk => hk)
  | correct s t _ hc ih =>
    have post := correct_post ops s t ih.wf hc
    exact consistent_of_keys s t ih post.wf post.autoId post.currentId
      (correct_suspendedTf ops s t ih.wf ih.suspendedTf hc)
      (fun k hk => correct_hasId ops s t ih.wf hc k hk)
  | deleteTrack s t id _ hd ih =>
    obtain ⟨s1, h1, rfl⟩ := deleteTrack_eq s t id hd
    have hs1 : s1.Consistent := by
      by_cases hsus : s.isSuspended id = true
      · rw [if_pos hsus] at h1
        obtain ⟨w, _, ha, hc, _, hmem, hk1, hk2, hk3⟩ := reactivateTrack_wf s s1 id ih.wf h1
        refine consistent_of_keys s s1 ih w ha hc ?_ ?_
        · intro k hk
          rw [hk3]
          exact Or.inr (ih.suspendedTf k ((hk2 k).mp hk).2)
        · intro k hk
          rw [hasId_iff] at hk ⊢
          rcases hk with hk | hk
          · rcases (hk1 k).mp hk with rfl | hk
            · exact Or.inr hmem
            · exact Or.inl hk
          · exact Or.inr ((hk2 k).mp hk).2
      · rw [if_neg hsus] at h1
        cases h1
        exact ih
    have hnot : id ∉ UMap.keys s1.mSuspendedKalmanEstimators := by
      by_cases hsus : s.isSuspended id = true
      · rw [if_pos hsus] at h1
        obtain ⟨_, _, _, _, _, _, _, hk2, _⟩ := reactivateTrack_wf s s1 id ih.wf h1
        intro hm
        exact ((hk2 id).mp hm).1 rfl
      · rw [if_neg hsus] at h1
        cases h1
        intro hm
        obtain ⟨e, he⟩ := find?_some_of_mem_keys _ _ hm
        exact hsus ((isSuspended_iff s id).mpr ⟨e, he⟩)
    refine consistent_of_keys s1 _ hs1 (erase_wf s1 id hs1.wf) rfl rfl ?_ ?_
    · intro k hk
      have hk' : k ∈ UMap.keys s1.mSuspendedKalmanEstimators := hk
      show k ∈ UMap.keys (s1.mNumberOfTrackedFrames.erase id)
      rw [UMap.mem_keys_erase]
      refine ⟨?_, hs1.suspendedTf k hk'⟩
      rintro rfl
      exact hnot hk'
    · intro k hk
      rw [hasId_iff] at hk ⊢
      rcases hk with hk | hk
      · have hk' : k ∈ UMap.keys (s1.mKalmanEstimators.erase id) := hk
        rw [UMap.mem_keys_erase] at hk'
        exact Or.inl hk'.2
      · exact Or.inr hk
  | suspendTrack s t id _ hsp ih =>
    obtain ⟨w, _, ha, hc, _, hmem, hk1, hk2, hk3⟩ := suspendTrack_wf s t id ih.wf hsp
    refine consistent_of_keys s t ih w ha hc ?_ ?_
    · intro k hk
      rw [hk3]
      rcases (hk2 k).mp hk with rfl | hk
      · exact ih.wf.tfKeys _ hmem
      · exact ih.suspendedTf k hk
    · intro k hk
      rw [hasId_iff] at hk ⊢
      rcases hk with hk | hk
      · exact Or.inl ((hk1 k).mp hk).2
      · rcases (hk2 k).mp hk with rfl | hk
        · exact Or.inl hmem
        · exact Or.inr hk
  | reactivateTrack s t id _ hr ih =>
    obtain ⟨w, _, ha, hc, _, hmem, hk1, hk2, hk3⟩ := reactivateTrack_wf s t id ih.wf hr
    refine consistent_of_keys s t ih w ha hc ?_ ?_
    · intro k hk
      rw [hk3]
      exact Or.inr (ih.suspendedTf k ((hk2 k).mp hk).2)
    · intro k hk
      rw [hasId_iff] at hk ⊢
      rcases hk with hk | hk
      · rcases (hk1 k).mp hk with rfl | hk
        · exact Or.inr hmem
        · exact Or.inl hk
      · exact Or.inr ((hk2 k).mp hk).2
  | getReliableTracks s _ ih =>
    rw [(getReliableTracks_state s ih.wf).1]
    exact ih
  | getUnreliableTracks s _ ih =>
    rw [(getReliableTracks_state s ih.wf).2]
    exact ih
  | getDriftingTracks s _ ih =>
    rw [getDriftingTracks_state s ih.wf]
    exact ih
  | isReliable s id _ ih =>
    rw [isReliable_state]
    refine consistent_of_keys s _ ih ?_ rfl rfl ?_ (fun k hk => hk)
    · refine ⟨ih.wf.activeNodup, ih.wf.suspendedNodup, ih.wf.nmfNodup, ih.wf.nmfKeys, ?_,
        ih.wf.disjoint⟩
      intro k hk
      show k ∈ UMap.keys (s.mNumberOfTrackedFrames.touch id 0)
      rw [keys_touch]
      exact Or.inr (ih.wf.tfKeys k hk)
    · intro k hk
      show k ∈ UMap.keys (s.mNumberOfTrackedFrames.touch id 0)
      rw [keys_touch]
      exact Or.inr (ih.suspendedTf k hk)

end TrackManager

namespace MultiModelKalmanEstimator

theorem singleModelPredict_corrected (O : NumericOps) (Sys : MotionModel → UkfSystemModel)
    (e e1 : MultiModelKalmanEstimator UnscentedKalmanFilterMod) (deltaT : ℚ)
    (h : singleModelPredict O Sys e deltaT = some e1) :
    e1.mCurrentState.corrected =
      (if deltaT ≥ 1 / 1000 then false else e.mCurrentState.corrected) := by
  unfold singleModelPredict at h
  by_cases hd : deltaT ≥ 1 / 1000
  · simp only [hd, if_true] at h ⊢
    split at h
    · split at h
      · cases h
      · split at h
        · cases h
        · simp only [Option.some.injEq] at h
          subst h
          rfl
    · cases h
  · simp only [hd, if_false] at h ⊢
    split at h
    · split at h
      · cases h
      · split at h
        · cases h
        · simp only [Option.some.injEq] at h
          subst h
          rfl
    · cases h

theorem predictState_corrected (O : NumericOps) (Sys : MotionModel → UkfSystemModel)
    (e e1 : MultiModelKalmanEstimator UnscentedKalmanFilterMod) (deltaT : ℚ)
    (h : predictState O Sys e deltaT = some e1) :
    e1.mCurrentState.corrected =
      (if deltaT ≥ 1 / 1000 then false else e.mCurrentState.corrected) := by
  unfold predictState at h
  by_cases hn : e.mNumberOfModels = 1
  · rw [if_pos hn] at h
    exact singleModelPredict_corrected O Sys e e1 deltaT h
  · rw [if_neg hn] at h
    by_cases hd : deltaT ≥ 1 / 1000
    · simp only [hd, if_true] at h ⊢
      split at h
      · cases h
      · split at h
        · cases h
        · split at h
          · cases h
          · split at h
            · cases h
            · simp only [Option.some.injEq] at h
              subst h
              rfl
    · simp only [hd, if_false] at h ⊢
      split at h
      · cases h
      · split at h
        · cases h
        · split at h
          · cases h
          · split at h
            · cases h
            · simp only [Option.some.injEq] at h
              subst h
              rfl

theorem predict_corrected (O : NumericOps) (Sys : MotionModel → UkfSystemModel)
    (e e1 : MultiModelKalmanEstimator UnscentedKalmanFilterMod) (deltaT : ℚ)
    (h : predict O Sys e deltaT = some e1) :
    e1.mCurrentState.corrected =
      (if deltaT ≥ 1 / 1000 then false else e.mCurrentState.corrected) := by
  unfold predict at h
  cases hp : predictState O Sys e deltaT with
  | none => simp [hp] at h
  | some e2 =>
    simp only [hp, Option.some.injEq] at h
    subst h
    exact predictState_corrected O Sys e e2 deltaT hp

theorem predictAt_corrected (O : NumericOps) (Sys : MotionModel → UkfSystemModel)
    (e e1 : MultiModelKalmanEstimator UnscentedKalmanFilterMod) (timestamp : ℚ)
    (h : predictAt O Sys e timestamp = some e1) :
    e1.mCurrentState.corrected =
      (if timestamp - e.mLastTimestamp ≥ 1 / 1000 then false else e.mCurrentState.corrected) := by
  unfold predictAt at h
  cases hp : predictState O Sys e (timestamp - e.mLastTimestamp) with
  | none => simp [hp] at h
  | some e2 =>
    simp only [hp, Option.some.injEq] at h
    subst h
    exact predictState_corrected O Sys e e2 _ hp

theorem singleModelCorrect_corrected (O : NumericOps) (T : AngleOps ℚ)
    (e e1 : MultiModelKalmanEstimator UnscentedKalmanFilterMod) (m : TrackedObject)
    (h : singleModelCorrect O T e m = some e1) : e1.mCurrentState.corrected = true := by
  unfold singleModelCorrect at h
  dsimp only at h
  split at h
  · cases h
  · split at h
    · cases h
    · split at h
      · cases h
      · simp only [Option.some.injEq] at h
        subst h
        rfl

theorem correct_corrected (O : NumericOps) (T : AngleOps ℚ)
    (e e1 : MultiModelKalmanEstimator UnscentedKalmanFilterMod) (m : TrackedObject)
    (h : correct O T e m = some e1) : e1.mCurrentState.corrected = true := by
  unfold correct at h
  by_cases hn : e.mNumberOfModels = 1
  · rw [if_pos hn] at h
    exact singleModelCorrect_corrected O T e e1 m h
  · rw [if_neg hn] at h
    dsimp only at h
    split at h
    · cases h
    · split at h
      · cases h
      · split at h
        · cases h
        · split at h
          · cases h
          · simp only [Option.some.injEq] at h
            subst h
            rfl

end MultiModelKalmanEstimator

/-! ## Lists of rows as matrices -/

theorem sum_map_range (f : Nat → ℚ) (n : Nat) :
    ((List.range n).map f).sum = ∑ i in Finset.range n, f i := by
  induction n with
  | zero => simp
  | succ n ih =>
    rw [List.range_succ, List.map_append, List.sum_append, ih, Finset.sum_range_succ]
    simp

theorem sum_map_range_fin (f : Nat → ℚ) (n : Nat) :
    ((List.range n).map f).sum = ∑ i : Fin n, f i := by
  rw [sum_map_range, ← Fin.sum_univ_eq_sum_range]

theorem dot_eq_sum (a b : Vec) (n : Nat) (ha : a.length = n) (hb : b.length = n) :
    dot a b = ∑ i : Fin n, a.getD i 0 * b.getD i 0 := by
  unfold dot
  rw [zipWith_eq_map_range (fun x y => x * y) a b (ha.trans hb.symm), ha, sum_map_range_fin]

theorem getD_row_of_shape (m : Mat) (r c i : Nat) (h : hasShape m r c = true) (hi : i < r) :
    (m.getD i []).length = c := by
  obtain ⟨h1, h2⟩ := (hasShape_iff m r c).mp h
  have hi2 : i < m.length := by omega
  rw [List.getD_eq_getElem _ _ hi2]
  exact h2 _ (List.getElem_mem _)

theorem entry_map {α : Type} (l : List α) (f : α → Vec) (i j : Nat) (hi : i < l.length) :
    entry (l.map f) i j = (f (l.get ⟨i, hi⟩)).getD j 0 := by
  unfold entry
  have h1 : (l.map f).getD i [] = f (l.get ⟨i, hi⟩) := by
    rw [List.getD_eq_getElem (l := l.map f) (d := []) (by simpa using hi)]
    simp
  rw [h1]

theorem entry_eq_getD (m : Mat) (i j : Nat) (hi : i < m.length) :
    entry m i j = (m.get ⟨i, hi⟩).getD j 0 := by
  unfold entry
  have h1 : m.getD i [] = m.get ⟨i, hi⟩ := by
    rw [List.getD_eq_getElem (l := m) (d := []) hi]
    rfl
  rw [h1]

theorem getD_map_range (g : Nat → ℚ) (n j : Nat) (hj : j < n) :
    ((List.range n).map g).getD j 0 = g j := by
  rw [List.getD_eq_getElem (l := (List.range n).map g) (d := 0) (by simpa using hj)]
  simp

theorem getD_of_le {α : Type} (l : List α) (i : Nat) (d : α) (h : l.length ≤ i) :
    l.getD i d = d := by
  have h2 : l[i]? = none := List.getElem?_eq_none h
  rw [List.getD_eq_getElem?_getD, h2]
  rfl

theorem entry_of_le (m : Mat) (i j : Nat) (h : m.length ≤ i) : entry m i j = 0 := by
  unfold entry
  rw [getD_of_le m i [] h]
  rfl

theorem getD_column (m : Mat) (j l : Nat) : (column m j).getD l 0 = entry m l j := by
  unfold column
  by_cases hl : l < m.length
  · rw [List.getD_eq_getElem (l := m.map (fun row => row.getD j 0)) (d := 0)
      (by simpa using hl), List.getElem_map, entry_eq_getD m l j hl]
    rfl
  · rw [getD_of_le _ _ _ (by simp; omega), entry_of_le _ _ _ (by omega)]

theorem entry_matMul (a b : Mat) (r k c i j : Nat) (ha : hasShape a r k = true)
    (hb : hasShape b k c = true) (hk : 0 < k) (hi : i < r) (hj : j < c) :
    entry (matMul a b) i j = ∑ l : Fin k, entry a i l * entry b l j := by
  have la := ((hasShape_iff a r k).mp ha).1
  have lb := ((hasShape_iff b k c).mp hb).1
  have cb := matCols_of_hasShape b k c hb hk
  have hrow := getD_row_of_shape a r k i ha hi
  unfold matMul
  have hi2 : i < a.length := by omega
  have e1 : entry (List.map (fun row => List.map (fun j => dot row (column b j))
      (List.range (matCols b))) a) i j = dot (a.getD i []) (column b j) := by
    rw [entry_map a _ i j hi2, getD_map_range _ _ _ (by rw [cb]; exact hj),
      List.getD_eq_getElem (l := a) (d := []) hi2]
    rfl
  rw [e1, dot_eq_sum _ _ k hrow (by simp [column, lb])]
  apply Finset.sum_congr rfl
  intro l _
  rw [getD_column]
  rfl

theorem toM_matMul (a b : Mat) (r k c : Nat) (ha : hasShape a r k = true)
    (hb : hasShape b k c = true) (hk : 0 < k) :
    toM r c (matMul a b) = toM r k a * toM k c b := by
  ext i j
  rw [Matrix.mul_apply]
  exact entry_matMul a b r k c i j ha hb hk i.2 j.2

theorem entry_matTranspose (m : Mat) (r c i j : Nat) (h : hasShape m r c = true) (hr : 0 < r)
    (hi : i < c) : entry (matTranspose m) i j = entry m j i := by
  have cm := matCols_of_hasShape m r c h hr
  unfold matTranspose
  have hi2 : i < (List.range (matCols m)).length := by simpa [cm] using hi
  rw [entry_map (List.range (matCols m)) (column m) i j hi2]
  simp only [List.get_eq_getElem, List.getElem_range]
  exact getD_column m i j

theorem toM_matTranspose (m : Mat) (r c : Nat) (h : hasShape m r c = true) (hr : 0 < r) :
    toM c r (matTranspose m) = (toM r c m).transpose := by
  ext i j
  exact entry_matTranspose m r c i j h hr i.2

theorem getD_zipWith (f : ℚ → ℚ → ℚ) (a b : Vec) (i : Nat) (h : a.length = b.length)
    (hf : f 0 0 = 0) : (List.zipWith f a b).getD i 0 = f (a.getD i 0) (b.getD i 0) := by
  rw [zipWith_eq_map_range f a b h]
  by_cases hi : i < a.length
  · exact getD_map_range _ _ _ hi
  · rw [getD_of_le _ _ _ (by simp; omega), getD_of_le a _ _ (by omega),
      getD_of_le b _ _ (by omega)]
    exact hf.symm

theorem entry_zipWith (f : Vec → Vec → Vec) (g : ℚ → ℚ → ℚ) (a b : Mat) (r c i j : Nat)
    (ha : hasShape a r c = true) (hb : hasShape b r c = true)
    (hf : ∀ x y : Vec, f x y = List.zipWith g x y) (hg : g 0 0 = 0) :
    entry (List.zipWith f a b) i j = g (entry a i j) (entry b i j) := by
  have la := ((hasShape_iff a r c).mp ha).1
  have lb := ((hasShape_iff b r c).mp hb).1
  by_cases hi : i < r
  · have hia : i < a.length := by omega
    have hib : i < b.length := by omega
    have hiz : i < (List.zipWith f a b).length := by simp [hia, hib]
    rw [entry_eq_getD _ i j hiz, entry_eq_getD a i j hia, entry_eq_getD b i j hib]
    simp only [List.get_eq_getElem, List.getElem_zipWith, hf]
    have h1 := ((hasShape_iff a r c).mp ha).2 _ (List.getElem_mem hia)
    have h2 := ((hasShape_iff b r c).mp hb).2 _ (List.getElem_mem hib)
    exact getD_zipWith g _ _ j (h1.trans h2.symm) hg
  · rw [entry_of_le _ _ _ (by simp; omega), entry_of_le a _ _ (by omega),
      entry_of_le b _ _ (by omega)]
    exact hg.symm

theorem toM_matAdd (a b : Mat) (r c : Nat) (ha : hasShape a r c = true)
    (hb : hasShape b r c = true) : toM r c (matAdd a b) = toM r c a + toM r c b := by
  ext i j
  exact entry_zipWith vecAdd (fun x y => x + y) a b r c i j ha hb (fun _ _ => rfl) (by simp)

theorem toM_matSub (a b : Mat) (r c : Nat) (ha : hasShape a r c = true)
    (hb : hasShape b r c = true) : toM r c (matSub a b) = toM r c a - toM r c b := by
  ext i j
  exact entry_zipWith vecSub (fun x y => x - y) a b r c i j ha hb (fun _ _ => rfl) (by simp)

theorem toM_matScale (a : Mat) (r c : Nat) (k : ℚ) : toM r c (matScale k a) = k • toM r c a := by
  ext i j
  show entry (matScale k a) i j = k * entry a i j
  exact entry_matScale k a i j

theorem getD_matVec (a : Mat) (v : Vec) (r c i : Nat) (ha : hasShape a r c = true)
    (hv : v.length = c) (hi : i < r) :
    (matVec a v).getD i 0 = ∑ l : Fin c, entry a i l * v.getD l 0 := by
  have la := ((hasShape_iff a r c).mp ha).1
  have hrow := getD_row_of_shape a r c i ha hi
  unfold matVec
  have hi2 : i < a.length := by omega
  have e1 : (List.map (fun row => dot row v) a).getD i 0 = dot (a.getD i []) v := by
    rw [List.getD_eq_getElem (l := a.map (fun row => dot row v)) (d := 0) (by simpa using hi2),
      List.getElem_map, List.getD_eq_getElem (l := a) (d := []) hi2]
  rw [e1, dot_eq_sum _ _ c hrow hv]
  rfl

theorem toV_matVec (a : Mat) (v : Vec) (r c : Nat) (ha : hasShape a r c = true)
    (hv : v.length = c) : toV r (matVec a v) = Matrix.mulVec (toM r c a) (toV c v) := by
  ext i
  show (matVec a v).getD i 0 = _
  rw [getD_matVec a v r c i ha hv i.2]
  rfl

theorem entry_repeatColumn (v : Vec) (n i j : Nat) (hj : j < n) :
    entry (repeatColumn v n) i j = v.getD i 0 := by
  unfold repeatColumn
  by_cases hi : i < v.length
  · rw [entry_map v _ i j hi, List.getD_eq_getElem (l := List.replicate n _) (d := 0)
      (by simpa using hj), List.getElem_replicate,
      List.getD_eq_getElem (l := v) (d := 0) hi]
    rfl
  · rw [entry_of_le _ _ _ (by simp; omega), getD_of_le v _ _ (by omega)]

theorem toM_repeatColumn (v : Vec) (r n : Nat) :
    toM r n (repeatColumn v n) = fun i _ => toV r v i := by
  ext i j
  exact entry_repeatColumn v n i j j.2

theorem toM_scaledEye (n : Nat) (c : ℚ) : toM n n (scaledEye n c) = c • (1 : Matrix (Fin n) (Fin n) ℚ) := by
  ext i j
  show entry (scaledEye n c) i j = _
  rw [entry_scaledEye]
  by_cases h : i = j
  · subst h
    simp
  · have h2 : ¬ (i : Nat) = (j : Nat) := fun e => h (Fin.ext e)
    simp [h, h2]

/-! ## The models of the sources are linear -/

theorem CAModel_transition (dt : ℚ) (u x out : Vec) (hu : u.getD 0 0 = dt)
    (hx : x.length = 12) (hout : out.length = 12) :
    CAModel.stateConversionFunction x u (zeros 12) out =
      some (matVec (CAModel.transitionMatrix dt) x) := by
  subst hu
  obtain ⟨a0, a1, a2, a3, a4, a5, a6, a7, a8, a9, a10, a11, rfl⟩ := length_eq_twelve x hx
  obtain ⟨b0, b1, b2, b3, b4, b5, b6, b7, b8, b9, b10, b11, rfl⟩ := length_eq_twelve out hout
  simp [CAModel.stateConversionFunction, vecAddAssign, zeros, List.replicate, matVec, dot,
    CAModel.transitionMatrix]
  refine ⟨?_, ?_, ?_, ?_⟩ <;> ring

theorem CAModel_measurement (x out : Vec) (hx : x.length = 12) (hout : out.length = 7) :
    CAModel.measurementFunction x (zeros 7) out = some (matVec measurementMatrix x) := by
  obtain ⟨a0, a1, a2, a3, a4, a5, a6, a7, a8, a9, a10, a11, rfl⟩ := length_eq_twelve x hx
  obtain ⟨b0, b1, b2, b3, b4, b5, b6, rfl⟩ := length_eq_seven out hout
  simp [CAModel.measurementFunction, vecAddAssign, zeros, List.replicate, matVec, dot,
    measurementMatrix]

theorem CAModel_linear (dt : ℚ) (u : Vec) (hu : u.getD 0 0 = dt) :
    CAModel.Linear u (CAModel.transitionMatrix dt) measurementMatrix 12 7 := by
  refine ⟨by simp [hasShape, CAModel.transitionMatrix], by simp [hasShape, measurementMatrix],
    ?_, ?_⟩
  · intro x out hx hout
    have h := CAModel_transition dt u x out hu hx hout
    simpa only [CAModel] using h
  · intro x out hx hout
    have h := CAModel_measurement x out hx hout
    simpa only [CAModel] using h

theorem hasShape_sigmaPointsOf (mean : Vec) (S : Mat) :
    hasShape (sigmaPointsOf mean S) mean.length (2 * mean.length + 1) = true := by
  rw [hasShape_iff]
  unfold sigmaPointsOf
  refine ⟨by simp, ?_⟩
  intro row hrow
  obtain ⟨i, _, rfl⟩ := List.mem_map.mp hrow
  simp
  omega

theorem getD_append_left (a b : Vec) (i : Nat) (h : i < a.length) :
    (a ++ b).getD i 0 = a.getD i 0 := by
  rw [List.getD_eq_getElem?_getD, List.getElem?_append_left h, ← List.getD_eq_getElem?_getD]

theorem getD_append_right (a b : Vec) (i : Nat) (h : a.length ≤ i) :
    (a ++ b).getD i 0 = b.getD (i - a.length) 0 := by
  rw [List.getD_eq_getElem?_getD, List.getElem?_append_right h, ← List.getD_eq_getElem?_getD]

theorem entry_sigmaPointsOf (mean : Vec) (S : Mat) (i j : Nat) (hi : i < mean.length)
    (hj : j < mean.length) :
    entry (sigmaPointsOf mean S) i 0 = mean.getD i 0 ∧
    entry (sigmaPointsOf mean S) i (1 + j) = mean.getD i 0 + entry S i j ∧
    entry (sigmaPointsOf mean S) i (1 + mean.length + j) = mean.getD i 0 - entry S i j := by
  unfold sigmaPointsOf
  have hi2 : i < (List.range mean.length).length := by simpa using hi
  refine ⟨?_, ?_, ?_⟩
  · rw [entry_map _ _ i 0 hi2]
    simp
  · rw [entry_map _ _ i (1 + j) hi2]
    simp only [List.get_eq_getElem, List.getElem_range]
    rw [Nat.add_comm 1 j, List.getD_cons_succ, getD_append_left _ _ _ (by simpa using hj),
      getD_map_range _ _ _ hj]
  · rw [entry_map _ _ i (1 + mean.length + j) hi2]
    simp only [List.get_eq_getElem, List.getElem_range]
    have e : 1 + mean.length + j = (mean.length + j) + 1 := by omega
    rw [e, List.getD_cons_succ, getD_append_right _ _ _ (by simp), List.length_map,
      List.length_range, Nat.add_sub_cancel_left, getD_map_range _ _ _ hj]

theorem hasShape_retabulate (M : Mat) (f : Nat → Nat → ℚ) (r c : Nat)
    (h : hasShape M r c = true) :
    hasShape ((List.range M.length).map (fun i =>
      (List.range (M.getD i []).length).map (f i))) r c = true := by
  rw [hasShape_iff] at h ⊢
  refine ⟨by rw [List.length_map, List.length_range]; exact h.1, ?_⟩
  intro row hrow
  obtain ⟨i, hi, rfl⟩ := List.mem_map.mp hrow
  rw [List.length_map, List.length_range]
  have hi2 : i < M.length := List.mem_range.mp hi
  rw [List.getD_eq_getElem (l := M) (d := []) hi2]
  exact h.2 _ (List.getElem_mem _)

theorem hasShape_choleskyDecomposition (O : NumericOps) (hO : O.KeepsShape) (A L : Mat)
    (asize r c : Nat) (hL : hasShape L r c = true) :
    hasShape (choleskyDecomposition O A asize L).2 r c = true := by
  have h1 := hO _ r c (hasShape_retabulate L
    (fun i j => if i < asize ∧ j ≤ i then entry A i j else entry L i j) r c hL)
  unfold choleskyDecomposition
  simp only
  split
  · exact hasShape_retabulate _ _ r c h1
  · exact h1

namespace UnscentedKalmanFilterMod

theorem getSigmaPoints_eq (O : NumericOps) (mean : Vec) (cov : Mat) (coef : ℚ)
    (hL : hasShape (choleskyDecomposition O cov cov.length cov).2 mean.length mean.length
      = true) :
    getSigmaPoints O mean cov coef =
      some (sigmaPointsOf mean
        (matScale coef (choleskyDecomposition O cov cov.length cov).2)) := by
  unfold getSigmaPoints
  simp only
  rw [if_pos (hasShape_matScale _ _ _ _ hL)]
  rfl

end UnscentedKalmanFilterMod

theorem sum_sigma_split (g : Nat → ℚ) (n : Nat) :
    ∑ k : Fin (2 * n + 1), g k =
      g 0 + ∑ j : Fin n, g (1 + j) + ∑ j : Fin n, g (1 + n + j) := by
  rw [Fin.sum_univ_eq_sum_range g (2 * n + 1), Fin.sum_univ_eq_sum_range (fun j => g (1 + j)) n,
    Fin.sum_univ_eq_sum_range (fun j => g (1 + n + j)) n]
  have e : 2 * n + 1 = 1 + (n + n) := by omega
  rw [e, Finset.sum_range_add, Finset.sum_range_add]
  simp only [Finset.sum_range_one, add_assoc]

/-- The weights `Wm` of the constructor as a function of the index. -/
theorem getD_mean_weights (n : Nat) (t w : ℚ) (k : Nat) (hk : k < 2 * n + 1) :
    ((vecScale t (List.replicate (2 * n + 1) 1)).set 0 w).getD k 0 = if k = 0 then w else t := by
  obtain ⟨_, h0, h1, _⟩ := ukf_mean_weights n t w
  rw [List.getD_eq_getElem?_getD]
  by_cases hk0 : k = 0
  · subst hk0
    rw [h0]
    rfl
  · rw [h1 k (by omega) (by omega), if_neg hk0]
    rfl

/-- The weighted mean of the sigma points is the mean. -/
theorem sigma_mean (n : Nat) (mean : Vec) (S : Mat) (t w : ℚ) (hm : mean.length = n)
    (hw : 2 * (n : ℚ) * t + w = 1) :
    Matrix.mulVec (toM n (2 * n + 1) (sigmaPointsOf mean S))
      (toV (2 * n + 1) ((vecScale t (List.replicate (2 * n + 1) 1)).set 0 w)) =
      toV n mean := by
  subst hm
  ext i
  show ∑ k : Fin (2 * mean.length + 1), entry (sigmaPointsOf mean S) i k *
      ((vecScale t (List.replicate (2 * mean.length + 1) 1)).set 0 w).getD k 0 = mean.getD i 0
  have e1 : ∀ k : Fin (2 * mean.length + 1), entry (sigmaPointsOf mean S) i k *
      ((vecScale t (List.replicate (2 * mean.length + 1) 1)).set 0 w).getD k 0 =
      entry (sigmaPointsOf mean S) i k * (if (k : Nat) = 0 then w else t) := by
    intro k
    rw [getD_mean_weights _ _ _ _ k.2]
  rw [Finset.sum_congr rfl (fun k _ => e1 k),
    sum_sigma_split (fun k => entry (sigmaPointsOf mean S) i k * (if k = 0 then w else t))]
  have e2 : ∀ j : Fin mean.length,
      entry (sigmaPointsOf mean S) i (1 + j) * (if 1 + (j : Nat) = 0 then w else t) =
        (mean.getD i 0 + entry S i j) * t := by
    intro j
    rw [(entry_sigmaPointsOf mean S i j i.2 j.2).2.1, if_neg (by omega)]
  have e3 : ∀ j : Fin mean.length,
      entry (sigmaPointsOf mean S) i (1 + mean.length + j) *
        (if 1 + mean.length + (j : Nat) = 0 then w else t) =
        (mean.getD i 0 - entry S i j) * t := by
    intro j
    rw [(entry_sigmaPointsOf mean S i j i.2 j.2).2.2, if_neg (by omega)]
  rw [Finset.sum_congr rfl (fun j _ => e2 j), Finset.sum_congr rfl (fun j _ => e3 j)]
  simp only [if_true]
  have hi0 : 0 < mean.length := lt_of_le_of_lt (Nat.zero_le _) i.2
  rw [(entry_sigmaPointsOf mean S i 0 i.2 hi0).1, add_assoc, ← Finset.sum_add_distrib]
  have e4 : ∀ j : Fin mean.length, (mean.getD i 0 + entry S i j) * t +
      (mean.getD i 0 - entry S i j) * t = 2 * mean.getD i 0 * t := fun j => by ring
  rw [Finset.sum_congr rfl (fun j _ => e4 j), Finset.sum_const, Finset.card_univ, Fintype.card_fin,
    nsmul_eq_mul]
  have : mean.getD i 0 * w + (mean.length : ℚ) * (2 * mean.getD i 0 * t) =
      mean.getD i 0 * (2 * (mean.length : ℚ) * t + w) := by ring
  rw [this, hw, mul_one]

/-- The weighted products of the deviations of two sets of sigma points from their means. -/
theorem sigma_covariance (n : Nat) (mean mean1 : Vec) (S S1 : Mat) (t w : ℚ)
    (hm : mean.length = n) (hm1 : mean1.length = n) :
    (toM n (2 * n + 1) (sigmaPointsOf mean S) -
          toM n (2 * n + 1) (repeatColumn mean (2 * n + 1))) *
        toM (2 * n + 1) (2 * n + 1)
          (setEntry (matScale t (scaledEye (2 * n + 1) 1)) 0 0 w) *
        (toM n (2 * n + 1) (sigmaPointsOf mean1 S1) -
          toM n (2 * n + 1) (repeatColumn mean1 (2 * n + 1))).transpose =
      (2 * t) • (toM n n S * (toM n n S1).transpose) := by
  subst hm
  ext a b
  have hd : toM (2 * mean.length + 1) (2 * mean.length + 1)
      (setEntry (matScale t (scaledEye (2 * mean.length + 1) 1)) 0 0 w) =
      Matrix.diagonal (fun k : Fin (2 * mean.length + 1) => if (k : Nat) = 0 then w else t) := by
    ext i j
    show entry _ i j = _
    rw [ukf_covariance_weights, Matrix.diagonal_apply]
    by_cases hij : i = j
    · subst hij
      by_cases h0 : (i : Nat) = 0
      · simp [h0]
      · simp [h0, i.2]
    · have h2 : ¬ (i : Nat) = (j : Nat) := fun e => hij (Fin.ext e)
      have h3 : ¬ ((i : Nat) = 0 ∧ (j : Nat) = 0) := fun e => h2 (e.1.trans e.2.symm)
      simp [hij, h2, h3]
  rw [hd, toM_repeatColumn, toM_repeatColumn, Matrix.mul_apply]
  simp only [Matrix.mul_diagonal]
  simp only [Matrix.transpose_apply, Matrix.sub_apply, Matrix.smul_apply, Matrix.mul_apply,
    smul_eq_mul]
  show ∑ k : Fin (2 * mean.length + 1),
      (entry (sigmaPointsOf mean S) a k - mean.getD a 0) * (if (k : Nat) = 0 then w else t) *
        (entry (sigmaPointsOf mean1 S1) b k - mean1.getD b 0) =
      2 * t * ∑ j : Fin mean.length, entry S a j * entry S1 b j
  rw [sum_sigma_split (fun k => (entry (sigmaPointsOf mean S) a k - mean.getD a 0) *
    (if k = 0 then w else t) * (entry (sigmaPointsOf mean1 S1) b k - mean1.getD b 0))]
  have ha0 : 0 < mean.length := lt_of_le_of_lt (Nat.zero_le _) a.2
  have hb : (b : Nat) < mean1.length := by rw [hm1]; exact b.2
  have e2 : ∀ j : Fin mean.length,
      (entry (sigmaPointsOf mean S) a (1 + j) - mean.getD a 0) *
        (if 1 + (j : Nat) = 0 then w else t) *
        (entry (sigmaPointsOf mean1 S1) b (1 + j) - mean1.getD b 0) =
        t * (entry S a j * entry S1 b j) := by
    intro j
    have hj1 : (j : Nat) < mean1.length := by rw [hm1]; exact j.2
    rw [(entry_sigmaPointsOf mean S a j a.2 j.2).2.1,
      (entry_sigmaPointsOf mean1 S1 b j hb hj1).2.1, if_neg (by omega)]
    ring
  have e3 : ∀ j : Fin mean.length,
      (entry (sigmaPointsOf mean S) a (1 + mean.length + j) - mean.getD a 0) *
        (if 1 + mean.length + (j : Nat) = 0 then w else t) *
        (entry (sigmaPointsOf mean1 S1) b (1 + mean.length + j) - mean1.getD b 0) =
        t * (entry S a j * entry S1 b j) := by
    intro j
    have hj1 : (j : Nat) < mean1.length := by rw [hm1]; exact j.2
    have h3 := (entry_sigmaPointsOf mean1 S1 b j hb hj1).2.2
    rw [hm1] at h3
    rw [(entry_sigmaPointsOf mean S a j a.2 j.2).2.2, h3, if_neg (by omega)]
    ring
  rw [Finset.sum_congr rfl (fun j _ => e2 j), Finset.sum_congr rfl (fun j _ => e3 j),
    (entry_sigmaPointsOf mean S a 0 a.2 ha0).1, ← Finset.mul_sum]
  ring

/-! ## The filter on a linear system -/

theorem roiColumn_of_shape (m : Mat) (r c i : Nat) (h : hasShape m r c = true) (hr : 0 < r)
    (hi : i < c) : roiColumn m i r = some (column m i) ∧ (column m i).length = r := by
  have lm := ((hasShape_iff m r c).mp h).1
  have cm := matCols_of_hasShape m r c h hr
  have hl : (column m i).length = r := by
    unfold column
    rw [List.length_map, lm]
  refine ⟨?_, hl⟩
  unfold roiColumn
  rw [if_pos ⟨by omega, by omega⟩, List.take_of_length_le (by omega)]

theorem entry_setColumn (m : Mat) (r c k : Nat) (col : Vec) (i j : Nat)
    (h : hasShape m r c = true) (hcol : col.length = r) (hk : k < c) (hi : i < r) :
    entry (setColumn m k col) i j = if j = k then col.getD i 0 else entry m i j := by
  have lm := ((hasShape_iff m r c).mp h).1
  have hrow := getD_row_of_shape m r c i h hi
  unfold setColumn
  have hi2 : i < (List.range m.length).length := by
    rw [List.length_range]
    omega
  rw [entry_map (List.range m.length) _ i j hi2]
  simp only [List.get_eq_getElem, List.getElem_range]
  rw [getD_set_self, hrow]
  have e1 : col.getD i (entry m i k) = col.getD i 0 := by
    rw [List.getD_eq_getElem (l := col) (d := entry m i k) (by omega),
      List.getD_eq_getElem (l := col) (d := 0) (by omega)]
  rw [e1]
  by_cases hjk : j = k
  · rw [if_pos ⟨hjk, hk⟩, if_pos hjk]
  · rw [if_neg (fun e => hjk e.1), if_neg hjk]
    rfl

namespace UnscentedKalmanFilterMod

theorem evalFold_linear (fn : Vec → Vec → Option Vec) (A sp : Mat) (DP rows : Nat)
    (hA : hasShape A rows DP = true) (hsp : hasShape sp DP (2 * DP + 1) = true) (hDP : 0 < DP)
    (hrows : 0 < rows)
    (hfn : ∀ x out : Vec, x.length = DP → out.length = rows → fn x out = some (matVec A x))
    (l : List Nat) (hl : ∀ k ∈ l, k < 2 * DP + 1) (vals : Mat)
    (hv : hasShape vals rows (2 * DP + 1) = true) :
    ∃ out, l.foldlM
        (fun vals i =>
          match roiColumn sp i DP with
          | none => none
          | some x =>
            match roiColumn vals i rows with
            | none => none
            | some fx =>
              match fn x fx with
              | none => none
              | some fx => some (setColumn vals i fx))
        vals = some out ∧ hasShape out rows (2 * DP + 1) = true ∧
      ∀ i j, i < rows → entry out i j =
        if j ∈ l then (matVec A (column sp j)).getD i 0 else entry vals i j := by
  induction l generalizing vals with
  | nil =>
    refine ⟨vals, rfl, hv, ?_⟩
    intro i j _
    simp
  | cons k rest ih =>
    have hk : k < 2 * DP + 1 := hl k (List.mem_cons_self _ _)
    obtain ⟨e1, l1⟩ := roiColumn_of_shape sp DP (2 * DP + 1) k hsp hDP hk
    obtain ⟨e2, l2⟩ := roiColumn_of_shape vals rows (2 * DP + 1) k hv hrows hk
    have e3 := hfn (column sp k) (column vals k) l1 l2
    have lA : (matVec A (column sp k)).length = rows := by
      rw [length_matVec]
      exact ((hasShape_iff _ _ _).mp hA).1
    have hv1 := hasShape_setColumn vals rows (2 * DP + 1) k (matVec A (column sp k)) hv
    obtain ⟨out, ho, hs, hent⟩ := ih (fun x hx => hl x (List.mem_cons_of_mem _ hx))
      (setColumn vals k (matVec A (column sp k))) hv1
    refine ⟨out, ?_, hs, ?_⟩
    · rw [List.foldlM_cons]
      simp only [e1, e2, e3]
      exact ho
    · intro i j hi
      rw [hent i j hi, entry_setColumn vals rows (2 * DP + 1) k _ i j hv lA hk hi]
      by_cases hjr : j ∈ rest
      · rw [if_pos hjr, if_pos (List.mem_cons_of_mem _ hjr)]
      · rw [if_neg hjr]
        by_cases hjk : j = k
        · rw [if_pos hjk, if_pos (by rw [hjk]; exact List.mem_cons_self _ _), hjk]
        · rw [if_neg hjk, if_neg (by
            intro hm
            rcases List.mem_cons.mp hm with e | e
            · exact hjk e
            · exact hjr e)]

/-- The loop over the sigma points with a linear function: the result is the product of the
matrix of the function and the matrix of the sigma points. -/
theorem evalAtSigmaPoints_linear (fn : Vec → Vec → Option Vec) (A sp : Mat) (DP rows : Nat)
    (hA : hasShape A rows DP = true) (hsp : hasShape sp DP (2 * DP + 1) = true) (hDP : 0 < DP)
    (hrows : 0 < rows)
    (hfn : ∀ x out : Vec, x.length = DP → out.length = rows → fn x out = some (matVec A x))
    (vals : Mat) (hv : hasShape vals rows (2 * DP + 1) = true) :
    ∃ out, evalAtSigmaPoints fn sp DP rows vals = some out ∧
      hasShape out rows (2 * DP + 1) = true ∧
      toM rows (2 * DP + 1) out = toM rows DP A * toM DP (2 * DP + 1) sp := by
  obtain ⟨out, ho, hs, hent⟩ := evalFold_linear fn A sp DP rows hA hsp hDP hrows hfn
    (List.range (2 * DP + 1)) (fun k hk => List.mem_range.mp hk) vals hv
  refine ⟨out, ho, hs, ?_⟩
  ext i j
  show entry out i j = _
  rw [hent i j i.2, if_pos (List.mem_range.mpr j.2), Matrix.mul_apply,
    getD_matVec A (column sp j) rows DP i hA
      (by unfold column; rw [List.length_map]; exact ((hasShape_iff _ _ _).mp hsp).1) i.2]
  refine Finset.sum_congr rfl (fun l _ => ?_)
  rw [getD_column]
  rfl

/-- The steps of `predict` return when their operands fit. -/
theorem predict_of_steps (O : NumericOps) (Sys : MotionModel → UkfSystemModel)
    (f : UnscentedKalmanFilterMod) (control : Vec) (sp1 fv sp2 hv : Mat) (hf : f.Shaped)
    (h1 : getSigmaPoints O f.state f.errorCov (O.sqrt f.tmpLambda) = some sp1)
    (h2 : evalAtSigmaPoints (fun x fx => (Sys f.model).stateConversionFunction x control f.q fx)
        sp1 f.DP f.DP f.transitionSPFuncVals = some fv)
    (h3 : getSigmaPoints O (matVec fv f.Wm)
        (matAdd (matMul (matMul (matSub fv (repeatColumn (matVec fv f.Wm) (2 * f.DP + 1))) f.Wc)
          (matTranspose (matSub fv (repeatColumn (matVec fv f.Wm) (2 * f.DP + 1)))))
          f.processNoiseCov) (O.sqrt f.tmpLambda) = some sp2)
    (h4 : evalAtSigmaPoints (fun x hx => (Sys f.model).measurementFunction x f.r hx)
        sp2 f.DP f.MP f.measurementSPFuncVals = some hv) :
    predict O Sys f control = some { f with
        sigmaPoints := sp2
        transitionSPFuncVals := fv
        state := matVec fv f.Wm
        transitionSPFuncValsCenter := matSub fv (repeatColumn (matVec fv f.Wm) (2 * f.DP + 1))
        errorCov :=
          matAdd (matMul (matMul (matSub fv (repeatColumn (matVec fv f.Wm) (2 * f.DP + 1))) f.Wc)
            (matTranspose (matSub fv (repeatColumn (matVec fv f.Wm) (2 * f.DP + 1)))))
            f.processNoiseCov
        measurementSPFuncVals := hv
        measurementEstimate := matVec hv f.Wm
        measurementSPFuncValsCenter :=
          matSub hv (repeatColumn (matVec hv f.Wm) (2 * f.DP + 1))
        yyCov :=
          matAdd (matMul (matMul (matSub hv (repeatColumn (matVec hv f.Wm) (2 * f.DP + 1))) f.Wc)
            (matTranspose (matSub hv (repeatColumn (matVec hv f.Wm) (2 * f.DP + 1)))))
            f.measurementNoiseCov } := by
  have sF := evalAtSigmaPoints_shape _ _ _ _ _ _ _ _ hf.shapeF h2
  have sH := evalAtSigmaPoints_shape _ _ _ _ _ _ _ _ hf.shapeH h4
  have hpos : 0 < 2 * f.DP + 1 := by omega
  have hWm : hasShape fv f.DP f.Wm.length = true := by rw [hf.lengthWm]; exact sF
  have hWm2 : hasShape hv f.MP f.Wm.length = true := by rw [hf.lengthWm]; exact sH
  obtain ⟨a1, b1⟩ := matVec?_of_shape fv f.Wm f.DP hWm
  have sR : hasShape (repeatColumn (matVec fv f.Wm) (2 * f.DP + 1)) f.DP (2 * f.DP + 1)
      = true := by
    have := hasShape_repeatColumn (matVec fv f.Wm) (2 * f.DP + 1)
    rwa [b1] at this
  obtain ⟨a2, b2⟩ := matSub?_of_shapes _ _ _ _ sF sR hf.posDP
  obtain ⟨a3, b3⟩ := matMul?_of_shapes _ _ _ _ _ b2 hf.shapeWc hpos
  obtain ⟨a4, b4⟩ := matMul?_of_shapes _ _ _ _ _ b3 (hasShape_transpose_of _ _ _ b2 hf.posDP) hpos
  obtain ⟨a5, _⟩ := matAdd?_of_shapes _ _ _ _ b4 hf.shapeQ hf.posDP
  obtain ⟨c1, d1⟩ := matVec?_of_shape hv f.Wm f.MP hWm2
  have sR2 : hasShape (repeatColumn (matVec hv f.Wm) (2 * f.DP + 1)) f.MP (2 * f.DP + 1)
      = true := by
    have := hasShape_repeatColumn (matVec hv f.Wm) (2 * f.DP + 1)
    rwa [d1] at this
  obtain ⟨c2, d2⟩ := matSub?_of_shapes _ _ _ _ sH sR2 hf.posMP
  obtain ⟨c3, d3⟩ := matMul?_of_shapes _ _ _ _ _ d2 hf.shapeWc hpos
  obtain ⟨c4, d4⟩ := matMul?_of_shapes _ _ _ _ _ d3 (hasShape_transpose_of _ _ _ d2 hf.posMP) hpos
  obtain ⟨c5, _⟩ := matAdd?_of_shapes _ _ _ _ d4 hf.shapeR hf.posMP
  unfold predict
  simp only [h1, h2, a1, a2, a3, a4, a5, h3, h4, c1, c2, c3, c4, c5]

end UnscentedKalmanFilterMod

theorem mul_toM_repeatColumn (A : Mat) (v w : Vec) (r n N : Nat)
    (h : toV r w = Matrix.mulVec (toM r n A) (toV n v)) :
    toM r N (repeatColumn w N) = toM r n A * toM n N (repeatColumn v N) := by
  rw [toM_repeatColumn, toM_repeatColumn, h]
  ext i j
  rw [Matrix.mul_apply]
  rfl

/-- The centred values of a linear function at sigma points, and their weighted mean. -/
theorem linear_center (A fv sp : Mat) (mean Wm : Vec) (r n : Nat)
    (hfv : hasShape fv r (2 * n + 1) = true) (hWm : Wm.length = 2 * n + 1)
    (hmul : toM r (2 * n + 1) fv = toM r n A * toM n (2 * n + 1) sp)
    (hmean : Matrix.mulVec (toM n (2 * n + 1) sp) (toV (2 * n + 1) Wm) = toV n mean) :
    toV r (matVec fv Wm) = Matrix.mulVec (toM r n A) (toV n mean) ∧
    toM r (2 * n + 1) (matSub fv (repeatColumn (matVec fv Wm) (2 * n + 1))) =
      toM r n A * (toM n (2 * n + 1) sp - toM n (2 * n + 1) (repeatColumn mean (2 * n + 1))) := by
  have h1 : toV r (matVec fv Wm) = Matrix.mulVec (toM r n A) (toV n mean) := by
    rw [toV_matVec fv Wm r (2 * n + 1) hfv hWm, hmul, ← Matrix.mulVec_mulVec, hmean]
  refine ⟨h1, ?_⟩
  have lfv := ((hasShape_iff _ _ _).mp hfv).1
  have sR : hasShape (repeatColumn (matVec fv Wm) (2 * n + 1)) r (2 * n + 1) = true := by
    have := hasShape_repeatColumn (matVec fv Wm) (2 * n + 1)
    rwa [length_matVec, lfv] at this
  rw [toM_matSub _ _ _ _ hfv sR, hmul, mul_toM_repeatColumn A mean _ r n (2 * n + 1) h1,
    Matrix.mul_sub]

/-- The weighted product of the centred values of two linear functions. -/
theorem linear_covariance (n r1 r2 : Nat) (A B : Mat) (mean mean1 : Vec) (S S1 : Mat)
    (c t w : ℚ) (L L1 : Mat) (hm : mean.length = n) (hm1 : mean1.length = n)
    (hS : S = matScale c L) (hS1 : S1 = matScale c L1) :
    toM r1 n A * (toM n (2 * n + 1) (sigmaPointsOf mean S) -
          toM n (2 * n + 1) (repeatColumn mean (2 * n + 1))) *
        toM (2 * n + 1) (2 * n + 1) (setEntry (matScale t (scaledEye (2 * n + 1) 1)) 0 0 w) *
        (toM r2 n B * (toM n (2 * n + 1) (sigmaPointsOf mean1 S1) -
          toM n (2 * n + 1) (repeatColumn mean1 (2 * n + 1)))).transpose =
      (2 * t * (c * c)) • (toM r1 n A * (toM n n L * (toM n n L1).transpose) *
        (toM r2 n B).transpose) := by
  rw [Matrix.transpose_mul, Matrix.mul_assoc (toM r1 n A), Matrix.mul_assoc (toM r1 n A),
    ← Matrix.mul_assoc _ _ (toM r2 n B).transpose,
    sigma_covariance n mean mean1 S S1 t w hm hm1, hS, hS1, toM_matScale, toM_matScale,
    Matrix.transpose_smul]
  simp only [Matrix.smul_mul, Matrix.mul_smul, smul_smul, Matrix.mul_assoc]

namespace UnscentedKalmanFilterMod

theorem weights_sum (f : UnscentedKalmanFilterMod) (hc : f.Constructed) :
    2 * (f.DP : ℚ) * (1 / 2 / f.tmpLambda) + f.lambda / f.tmpLambda = 1 := by
  have h0 := hc.tmpLambda_ne
  have h1 := hc.lambda_eq
  field_simp
  rw [h1]
  ring

/-- On a linear system `predict` returns, and the members of the filter afterwards are those
of the linear prediction, with the computed root and the computed factors in the place of the
exact ones. -/
theorem predict_linear (O : NumericOps) (hO : O.KeepsShape) (Sys : MotionModel → UkfSystemModel)
    (f : UnscentedKalmanFilterMod) (control : Vec) (F H : Mat) (hc : f.Constructed)
    (hlin : (Sys f.model).Linear control F H f.DP f.MP) (hx : f.state.length = f.DP)
    (hP : hasShape f.errorCov f.DP f.DP = true) :
    ∃ g, predict O Sys f control = some g ∧ f.PredictedFrom O g F H := by
  have hf := hc.shaped
  obtain ⟨w0, hwc⟩ := hc.wc
  have hpos : 0 < 2 * f.DP + 1 := by omega
  have hw := weights_sum f hc
  -- the first set of sigma points
  have hL := hasShape_choleskyDecomposition O hO f.errorCov f.errorCov f.errorCov.length
    f.DP f.DP hP
  have h1 := getSigmaPoints_eq O f.state f.errorCov (O.sqrt f.tmpLambda) (by rw [hx]; exact hL)
  have s1 : hasShape (sigmaPointsOf f.state (matScale (O.sqrt f.tmpLambda)
      (choleskyDecomposition O f.errorCov f.errorCov.length f.errorCov).2)) f.DP
      (2 * f.DP + 1) = true := by
    have := hasShape_sigmaPointsOf f.state (matScale (O.sqrt f.tmpLambda)
      (choleskyDecomposition O f.errorCov f.errorCov.length f.errorCov).2)
    rwa [hx] at this
  obtain ⟨fv, h2, sfv, mfv⟩ := evalAtSigmaPoints_linear
    (fun x fx => (Sys f.model).stateConversionFunction x control f.q fx) F _ f.DP f.DP
    hlin.shapeF s1 hf.posDP hf.posDP
    (fun x out hx1 ho => by rw [hc.q_eq]; exact hlin.transition x out hx1 ho)
    f.transitionSPFuncVals hf.shapeF
  have hmean1 := sigma_mean f.DP f.state (matScale (O.sqrt f.tmpLambda)
      (choleskyDecomposition O f.errorCov f.errorCov.length f.errorCov).2)
      (1 / 2 / f.tmpLambda) (f.lambda / f.tmpLambda) hx hw
  rw [← hc.wm] at hmean1
  obtain ⟨est1, cen1⟩ := linear_center F fv _ f.state f.Wm f.DP f.DP sfv hf.lengthWm mfv hmean1
  have lst : (matVec fv f.Wm).length = f.DP := by
    rw [length_matVec]
    exact ((hasShape_iff _ _ _).mp sfv).1
  have sR : hasShape (repeatColumn (matVec fv f.Wm) (2 * f.DP + 1)) f.DP (2 * f.DP + 1)
      = true := by
    have := hasShape_repeatColumn (matVec fv f.Wm) (2 * f.DP + 1)
    rwa [lst] at this
  have sFc := hasShape_matSub _ _ _ _ sfv sR
  obtain ⟨_, sT1⟩ := matMul?_of_shapes _ _ _ _ _ sFc hf.shapeWc hpos
  have sFt := hasShape_transpose_of _ _ _ sFc hf.posDP
  obtain ⟨_, sT2⟩ := matMul?_of_shapes _ _ _ _ _ sT1 sFt hpos
  have sP1 := hasShape_matAdd _ _ _ _ sT2 hf.shapeQ
  -- the second set of sigma points
  obtain ⟨P1, hP1⟩ : ∃ P1 : Mat, P1 = matAdd (matMul (matMul (matSub fv
      (repeatColumn (matVec fv f.Wm) (2 * f.DP + 1))) f.Wc)
      (matTranspose (matSub fv (repeatColumn (matVec fv f.Wm) (2 * f.DP + 1)))))
      f.processNoiseCov := ⟨_, rfl⟩
  rw [← hP1] at sP1
  have hL1 := hasShape_choleskyDecomposition O hO P1 P1 P1.length f.DP f.DP sP1
  have h3 := getSigmaPoints_eq O (matVec fv f.Wm) P1 (O.sqrt f.tmpLambda)
    (by rw [lst]; exact hL1)
  have s2 : hasShape (sigmaPointsOf (matVec fv f.Wm) (matScale (O.sqrt f.tmpLambda)
      (choleskyDecomposition O P1 P1.length P1).2)) f.DP (2 * f.DP + 1) = true := by
    have := hasShape_sigmaPointsOf (matVec fv f.Wm) (matScale (O.sqrt f.tmpLambda)
      (choleskyDecomposition O P1 P1.length P1).2)
    rwa [lst] at this
  obtain ⟨hv, h4, shv, mhv⟩ := evalAtSigmaPoints_linear
    (fun x hx => (Sys f.model).measurementFunction x f.r hx) H _ f.DP f.MP
    hlin.shapeH s2 hf.posDP hf.posMP
    (fun x out hx1 ho => by rw [hc.r_eq]; exact hlin.measurement x out hx1 ho)
    f.measurementSPFuncVals hf.shapeH
  have hmean2 := sigma_mean f.DP (matVec fv f.Wm) (matScale (O.sqrt f.tmpLambda)
      (choleskyDecomposition O P1 P1.length P1).2)
      (1 / 2 / f.tmpLambda) (f.lambda / f.tmpLambda) lst hw
  rw [← hc.wm] at hmean2
  obtain ⟨est2, cen2⟩ := linear_center H hv _ (matVec fv f.Wm) f.Wm f.MP f.DP shv hf.lengthWm
    mhv hmean2
  have lme : (matVec hv f.Wm).length = f.MP := by
    rw [length_matVec]
    exact ((hasShape_iff _ _ _).mp shv).1
  have sR2 : hasShape (repeatColumn (matVec hv f.Wm) (2 * f.DP + 1)) f.MP (2 * f.DP + 1)
      = true := by
    have := hasShape_repeatColumn (matVec hv f.Wm) (2 * f.DP + 1)
    rwa [lme] at this
  have sHc := hasShape_matSub _ _ _ _ shv sR2
  obtain ⟨_, sT3⟩ := matMul?_of_shapes _ _ _ _ _ sHc hf.shapeWc hpos
  have sHt := hasShape_transpose_of _ _ _ sHc hf.posMP
  obtain ⟨_, sT4⟩ := matMul?_of_shapes _ _ _ _ _ sT3 sHt hpos
  subst hP1
  have hg := predict_of_steps O Sys f control _ fv _ hv hf h1 h2 h3 h4
  have hk : 2 * (1 / 2 / f.tmpLambda) * (O.sqrt f.tmpLambda * O.sqrt f.tmpLambda) =
      O.sqrt f.tmpLambda * O.sqrt f.tmpLambda / f.tmpLambda := by
    ring
  refine ⟨_, hg, ?_⟩
  have hpred := predict_predicted O Sys f _ control hf hg
  refine ⟨hpred, ⟨hpred.shaped, hc.tmpLambda_ne, hc.lambda_eq, hc.wm, ⟨w0, hwc⟩, hc.q_eq,
    hc.r_eq⟩, rfl, rfl, rfl, rfl, rfl, rfl, est1, ?_, est2, ?_, ?_⟩
  · show toM f.DP f.DP (matAdd _ f.processNoiseCov) = _
    rw [toM_matAdd _ _ _ _ sT2 hf.shapeQ, toM_matMul _ _ _ _ _ sT1 sFt hpos,
      toM_matMul _ _ _ _ _ sFc hf.shapeWc hpos, toM_matTranspose _ _ _ sFc hf.posDP, cen1, hwc,
      linear_covariance f.DP f.DP f.DP F F f.state f.state _ _ (O.sqrt f.tmpLambda)
        (1 / 2 / f.tmpLambda) w0 _ _ hx hx rfl rfl, hk]
  · show toM f.MP f.MP (matAdd _ f.measurementNoiseCov) = _
    rw [toM_matAdd _ _ _ _ sT4 hf.shapeR, toM_matMul _ _ _ _ _ sT3 sHt hpos,
      toM_matMul _ _ _ _ _ sHc hf.shapeWc hpos, toM_matTranspose _ _ _ sHc hf.posMP, cen2, hwc,
      linear_covariance f.DP f.MP f.MP H H (matVec fv f.Wm) (matVec fv f.Wm) _ _
        (O.sqrt f.tmpLambda) (1 / 2 / f.tmpLambda) w0 _ _ lst lst rfl rfl, hk]
  · show toM f.DP (2 * f.DP + 1) (matSub fv _) * toM (2 * f.DP + 1) (2 * f.DP + 1) f.Wc *
      (toM f.MP (2 * f.DP + 1) (matSub hv _)).transpose = _
    rw [cen1, cen2, hwc,
      linear_covariance f.DP f.DP f.MP F H f.state (matVec fv f.Wm) _ _
        (O.sqrt f.tmpLambda) (1 / 2 / f.tmpLambda) w0 _ _ hx lst rfl rfl, hk]

end UnscentedKalmanFilterMod

/-! ## Shapes in the example instance of the numeric functions -/

theorem foldl_invariant {α β : Type} (P : α → Prop) (f : α → β → α) (l : List β) (a : α)
    (h0 : P a) (hstep : ∀ a b, b ∈ l → P a → P (f a b)) : P (l.foldl f a) := by
  induction l generalizing a with
  | nil => exact h0
  | cons b rest ih =>
    rw [List.foldl_cons]
    exact ih (f a b) (hstep a b (List.mem_cons_self _ _) h0)
      (fun a1 b1 hb hp => hstep a1 b1 (List.mem_cons_of_mem _ hb) hp)

theorem hasShape_set (m : Mat) (r c i : Nat) (row : Vec) (h : hasShape m r c = true)
    (hrow : row.length = c) : hasShape (m.set i row) r c = true := by
  rw [hasShape_iff] at h ⊢
  refine ⟨by rw [List.length_set]; exact h.1, ?_⟩
  intro x hx
  rcases List.mem_or_eq_of_mem_set hx with hm | rfl
  · exact h.2 x hm
  · exact hrow

theorem exampleCholesky_shape (A : Mat) (r c : Nat) (h : hasShape A r c = true) :
    hasShape (exampleCholesky A).2 r c = true := by
  unfold exampleCholesky
  have h1 : hasShape ((List.range A.length).foldl
      (fun (st : Bool × Mat) i =>
        if st.1 = false then st
        else
          let L := (List.range i).foldl
            (fun L j =>
              let s := entry L i j - ((List.range j).map (fun k => entry L i k * entry L j k)).sum
              setEntry L i j (s * entry L j j))
            st.2
          let s := entry L i i - ((List.range i).map (fun k => entry L i k * entry L i k)).sum
          if s < 1 / 2 ^ 52 then (false, L) else (true, setEntry L i i (1 / exampleSqrt s)))
      (true, A)).2 r c = true := by
    refine foldl_invariant (fun st : Bool × Mat => hasShape st.2 r c = true) _ _ _ h ?_
    intro st i _ hst
    have h2 : hasShape ((List.range i).foldl
        (fun L j =>
          let s := entry L i j - ((List.range j).map (fun k => entry L i k * entry L j k)).sum
          setEntry L i j (s * entry L j j))
        st.2) r c = true :=
      foldl_invariant (fun L : Mat => hasShape L r c = true) _ _ _ hst
        (fun L j _ hL => hasShape_setEntry _ _ _ _ _ _ hL)
    dsimp only
    split
    · exact hst
    · split
      · exact h2
      · exact hasShape_setEntry _ _ _ _ _ _ h2
  dsimp only
  split
  · exact foldl_invariant (fun L : Mat => hasShape L r c = true) _ _ _ h1
      (fun L j _ hL => hasShape_setEntry _ _ _ _ _ _ hL)
  · exact h1

theorem exampleNumeric_keepsShape : exampleNumeric.KeepsShape :=
  fun A r c h => exampleCholesky_shape A r c h

theorem eliminateColumn_shape (n k : Nat) (st : ℚ × Mat) (c : Nat) (hc : c < n)
    (h : hasShape st.2 n k = true) : hasShape (eliminateColumn n st c).2 n k = true := by
  unfold eliminateColumn
  split
  · exact h
  · rename_i r hr
    have hrn : r < n := List.mem_range.mp (List.mem_of_find?_eq_some hr)
    have lC := getD_row_of_shape st.2 n k c h hc
    have lR := getD_row_of_shape st.2 n k r h hrn
    have hm := hasShape_set _ n k c _ (hasShape_set _ n k r _ h lC) lR
    rw [hasShape_iff]
    refine ⟨by simp, ?_⟩
    intro row hrow
    obtain ⟨i, hi, rfl⟩ := List.mem_map.mp hrow
    have hin : i < n := List.mem_range.mp hi
    have lI := getD_row_of_shape _ n k i hm hin
    split
    · unfold vecScale
      rw [List.length_map]
      exact lR
    · simp only [vecSub, vecScale, List.length_zipWith, List.length_map]
      rw [lI, lR]
      exact Nat.min_self k

theorem exampleInv_shape (A : Mat) (n : Nat) (h : hasShape A n n = true) :
    hasShape (exampleInv A) n n = true := by
  have lA := ((hasShape_iff _ _ _).mp h).1
  subst lA
  have h0 : hasShape ((List.range A.length).map (fun i =>
      A.getD i [] ++ (List.range A.length).map (fun j => if i = j then (1 : ℚ) else 0)))
      A.length (A.length + A.length) = true := by
    rw [hasShape_iff]
    refine ⟨by simp, ?_⟩
    intro row hrow
    obtain ⟨i, hi, rfl⟩ := List.mem_map.mp hrow
    have hin : i < A.length := List.mem_range.mp hi
    rw [List.length_append, getD_row_of_shape A _ _ i h hin, List.length_map, List.length_range]
  have h1 : hasShape (eliminate A).2 A.length (A.length + A.length) = true := by
    unfold eliminate
    dsimp only
    refine foldl_invariant
      (fun st : ℚ × Mat => hasShape st.2 A.length (A.length + A.length) = true) _ _ _ h0 ?_
    intro st c hc hst
    exact eliminateColumn_shape A.length _ st c (List.mem_range.mp hc) hst
  unfold exampleInv
  rw [hasShape_iff] at h1 ⊢
  refine ⟨by rw [List.length_map]; exact h1.1, ?_⟩
  intro row hrow
  obtain ⟨x, hx, rfl⟩ := List.mem_map.mp hrow
  rw [List.length_drop, h1.2 x hx]
  omega

namespace UnscentedKalmanFilterMod

theorem create_constructed (params : UnscentedKalmanFilterParams) (f : UnscentedKalmanFilterMod)
    (h : create params = some f)
    (hne : params.alpha * params.alpha * ((params.DP : ℚ) + params.k) ≠ 0) :
    f.Constructed ∧ f.state = params.stateInit ∧ f.errorCov = params.errorCovInit ∧
      f.DP = params.DP ∧ f.MP = params.MP ∧ f.model = params.model ∧
      f.processNoiseCov = params.processNoiseCov ∧
      f.measurementNoiseCov = params.measurementNoiseCov ∧ f.yyCov = [] := by
  have hs := create_shaped params f h
  unfold create at h
  split at h
  · cases h
  · split at h
    · cases h
    · split at h
      · cases h
      · split at h
        · cases h
        · split at h
          · cases h
          · simp only [Option.some.injEq] at h
            subst h
            refine ⟨⟨hs, ?_, ?_, rfl, ⟨_, rfl⟩, rfl, rfl⟩, rfl, rfl, rfl, rfl, rfl, rfl, rfl, rfl⟩
            · show params.alpha * params.alpha * ((params.DP : ℚ) + params.k) - (params.DP : ℚ)
                + (params.DP : ℚ) ≠ 0
              rw [sub_add_cancel]
              exact hne
            · rfl

/-- After a `predict`, `correct` returns and leaves a state and an error covariance of the
sizes of the filter; the members set by the constructor stay. -/
theorem correct_spec (O : NumericOps) (f : UnscentedKalmanFilterMod) (z : Vec)
    (hf : f.Predicted) (hc : f.Constructed) (hz : z.length = f.MP)
    (hinv : hasShape (O.inv f.yyCov) f.MP f.MP = true) :
    ∃ g, correct O f z = some g ∧ g.Constructed ∧ g.state.length = g.DP ∧
      hasShape g.errorCov g.DP g.DP = true ∧ g.DP = f.DP ∧ g.MP = f.MP ∧ g.model = f.model ∧
      g.xyCov = matMul (matMul f.transitionSPFuncValsCenter f.Wc)
        (matTranspose f.measurementSPFuncValsCenter) ∧
      g.gain = matMul g.xyCov (O.inv f.yyCov) := by
  obtain ⟨g, hg⟩ := correct_total O f z hf hz hinv
  obtain ⟨rfl, _, hl⟩ := correct_eq_some O f g z hg
  have hn : 0 < 2 * f.DP + 1 := by omega
  obtain ⟨_, s1⟩ := matMul?_of_shapes _ _ _ _ _ hf.shapeFc hf.shaped.shapeWc hn
  obtain ⟨_, s2⟩ := matMul?_of_shapes _ _ _ _ _ s1
    (hasShape_transpose_of _ _ _ hf.shapeHc hf.shaped.posMP) hn
  obtain ⟨_, s3⟩ := matMul?_of_shapes _ _ _ _ _ s2 hinv hf.shaped.posMP
  obtain ⟨_, s7⟩ := matMul?_of_shapes _ _ _ _ _ s3
    (hasShape_transpose_of _ _ _ s2 hf.shaped.posDP) hf.shaped.posMP
  refine ⟨_, hg, ⟨⟨hc.shaped.posDP, hc.shaped.posMP, hc.shaped.shapeF, hc.shaped.shapeH,
    hc.shaped.lengthWm, hc.shaped.shapeWc, hc.shaped.shapeQ, hc.shaped.shapeR⟩, hc.tmpLambda_ne, hc.lambda_eq, hc.wm, hc.wc, hc.q_eq, hc.r_eq⟩,
    ?_, hasShape_matSub _ _ _ _ hf.shapeP s7, rfl, rfl, rfl, rfl, rfl⟩
  show (vecAdd f.state _).length = f.DP
  unfold vecAdd
  rw [List.length_zipWith, length_matVec, ← hl, Nat.min_self]
  exact hf.lengthState

end UnscentedKalmanFilterMod

namespace MultiModelKalmanEstimator

/-- With one linear model, `predict(deltaT)` of the estimator returns; the filter is the
linear prediction of the filter before, and the flag `corrected` is cleared for a step of a
millisecond or more and kept for a shorter one. -/
theorem predict_single (O : NumericOps) (hO : O.KeepsShape) (Sys : MotionModel → UkfSystemModel)
    (e : MultiModelKalmanEstimator UnscentedKalmanFilterMod) (filter : UnscentedKalmanFilterMod)
    (deltaT : ℚ) (F H : Mat) (hS : e.Single filter)
    (hlin : (Sys filter.model).Linear (List.replicate e.mCP deltaT) F H filter.DP filter.MP) :
    ∃ e1 g, predict O Sys e deltaT = some e1 ∧
      UnscentedKalmanFilterMod.predict O Sys filter (List.replicate e.mCP deltaT) = some g ∧
      filter.PredictedFrom O g F H ∧ e1.Single g ∧ e1.mCP = e.mCP ∧
      e1.mCurrentState.classification = e.mCurrentState.classification ∧
      e1.mCurrentState.corrected =
        (if deltaT ≥ 1 / 1000 then false else e.mCurrentState.corrected) := by
  obtain ⟨g, hg, hpg⟩ := UnscentedKalmanFilterMod.predict_linear O hO Sys filter
    (List.replicate e.mCP deltaT) F H hS.constructed hlin hS.lengthState hS.shapeP
  have hmeas : (Sys filter.model).measurementFunction g.getState (zeros e.mMP) (zeros e.mMP) =
      some (matVec H g.getState) := by
    rw [hS.sameMP]
    refine hlin.measurement _ _ ?_ (by simp [zeros])
    have := hpg.predicted.lengthState
    rw [hpg.sameDP] at this
    exact this
  have hsm : ∃ e1, singleModelPredict O Sys e deltaT = some e1 ∧
      e1.mKalmanFilters = e.mKalmanFilters.set 0 g ∧ e1.mSystemModels = e.mSystemModels ∧
      e1.mMP = e.mMP ∧ e1.mCP = e.mCP ∧ e1.mNumberOfModels = e.mNumberOfModels ∧
      e1.mCurrentState.classification = e.mCurrentState.classification := by
    unfold singleModelPredict
    simp only [hS.filters, hS.models, List.getElem?_cons_zero, hg, hmeas]
    refine ⟨_, rfl, rfl, rfl, rfl, rfl, rfl, ?_⟩
    dsimp only
    split <;> rfl
  obtain ⟨e1, he1, hfil, hmod, hmp, hcp, hnum, hclass⟩ := hsm
  have hps : predictState O Sys e deltaT = some e1 := by
    unfold predictState
    rw [if_pos hS.one]
    exact he1
  have hflag := predictState_corrected O Sys e e1 deltaT hps
  refine ⟨{ e1 with mLastTimestamp := e1.mLastTimestamp + deltaT }, g, ?_, hg, hpg, ?_, hcp,
    hclass, hflag⟩
  · unfold predict
    rw [hps]
  · refine ⟨?_, ?_, ?_, hpg.constructed, hpg.predicted.lengthState, hpg.predicted.shapeP, ?_⟩
    · show e1.mNumberOfModels = 1
      rw [hnum, hS.one]
    · show e1.mKalmanFilters = [g]
      rw [hfil, hS.filters]
      rfl
    · show e1.mSystemModels = [g.model]
      rw [hmod, hS.models, hpg.sameModel]
    · show e1.mMP = g.MP
      rw [hmp, hS.sameMP, hpg.sameMP]

/-- With one model, after a `predict` of the filter, `correct` of the estimator returns for a
measurement with as many classes as the track; the flag `corrected` is set. -/
theorem correct_single (O : NumericOps) (hI : O.InvKeepsShape) (T : AngleOps ℚ)
    (e : MultiModelKalmanEstimator UnscentedKalmanFilterMod) (filter : UnscentedKalmanFilterMod)
    (measurement : TrackedObject) (hS : e.Single filter) (hp : filter.Predicted)
    (hMP : filter.MP = 7)
    (hcl : e.mCurrentState.classification.length = measurement.classification.length) :
    ∃ e1 g, correct O T e measurement = some e1 ∧
      UnscentedKalmanFilterMod.correct O filter
        (substituteYaw T e.mCurrentState measurement).measurementVector = some g ∧
      e1.Single g ∧ e1.mCP = e.mCP ∧ g.DP = filter.DP ∧ g.MP = filter.MP ∧
      g.model = filter.model ∧ e1.mCurrentState.corrected = true := by
  obtain ⟨g, hg, hcg, hlg, hsg, hDP, hMPg, hmodel, _, _⟩ :=
    UnscentedKalmanFilterMod.correct_spec O filter
      (substituteYaw T e.mCurrentState measurement).measurementVector hp hS.constructed
      (by rw [hMP]; rfl) (hI _ _ hp.shapeYy)
  have hcomb : classification.combine e.mCurrentState.classification measurement.classification
      ≠ none := by
    unfold classification.combine
    rw [if_neg (by simpa using hcl)]
    simp
  obtain ⟨combined, hcombined⟩ := Option.ne_none_iff_exists'.mp hcomb
  have hsc : ∃ e1, singleModelCorrect O T e measurement = some e1 ∧
      e1.mKalmanFilters = e.mKalmanFilters.set 0 g ∧ e1.mSystemModels = e.mSystemModels ∧
      e1.mMP = e.mMP ∧ e1.mCP = e.mCP ∧ e1.mNumberOfModels = e.mNumberOfModels ∧
      e1.mCurrentState.corrected = true := by
    unfold singleModelCorrect
    simp only [hS.filters, List.getElem?_cons_zero, hg]
    have : classification.combine
        (({ e.mCurrentState with errorCovariance := g.getErrorCov }).setStateVector
          g.getState).classification measurement.classification = some combined := hcombined
    simp only [this]
    exact ⟨_, rfl, rfl, rfl, rfl, rfl, rfl, rfl⟩
  obtain ⟨e1, he1, hfil, hmod, hmp, hcp, hnum, hflag⟩ := hsc
  refine ⟨e1, g, ?_, hg, ?_, hcp, hDP, hMPg, hmodel, hflag⟩
  · unfold correct
    rw [if_pos hS.one]
    exact he1
  · refine ⟨?_, ?_, ?_, hcg, hlg, hsg, ?_⟩
    · rw [hnum, hS.one]
    · rw [hfil, hS.filters]
      rfl
    · rw [hmod, hS.models, hmodel]
    · rw [hmp, hS.sameMP, hMPg]

end MultiModelKalmanEstimator

/-! ## The example estimator -/

theorem exampleFilter_created :
    UnscentedKalmanFilterMod.create trackerParams = some exampleFilter := by decide!

theorem exampleEstimator_single : exampleEstimator.Single exampleFilter := by
  obtain ⟨hc, _⟩ := UnscentedKalmanFilterMod.create_constructed trackerParams exampleFilter
    exampleFilter_created (by decide!)
  exact ⟨by decide!, by decide!, by decide!, hc, by decide!, by decide!, by decide!⟩

/-- The example estimator through `predict(1/10)`, `correct(exampleObject)` and `predict(0)`:
every call returns; the first clears the flag `corrected`, the second sets it and the third
leaves it set. -/
theorem example_run :
    ∃ e1 e2 e3,
      MultiModelKalmanEstimator.predict exampleNumeric (fun _ => CAModel) exampleEstimator
        (1 / 10) = some e1 ∧
      MultiModelKalmanEstimator.correct exampleNumeric exampleAngles e1 exampleObject =
        some e2 ∧
      MultiModelKalmanEstimator.predict exampleNumeric (fun _ => CAModel) e2 0 = some e3 ∧
      e1.mCurrentState.corrected = false ∧ e2.mCurrentState.corrected = true ∧
      e3.mCurrentState.corrected = true := by
  have hI : exampleNumeric.InvKeepsShape := fun A n h => exampleInv_shape A n h
  obtain ⟨e1, g1, h1, _, hp1, hS1, hcp1, hcl1, hf1⟩ :=
    MultiModelKalmanEstimator.predict_single exampleNumeric exampleNumeric_keepsShape
      (fun _ => CAModel) exampleEstimator exampleFilter (1 / 10)
      (CAModel.transitionMatrix (1 / 10)) measurementMatrix exampleEstimator_single
      (CAModel_linear (1 / 10) _ (by decide!))
  obtain ⟨e2, g2, h2, _, hS2, hcp2, hDP2, hMP2, _, hf2⟩ :=
    MultiModelKalmanEstimator.correct_single exampleNumeric hI exampleAngles e1 g1 exampleObject
      hS1 hp1.predicted hp1.sameMP (by rw [hcl1]; rfl)
  have hlin3 : ((fun _ : MotionModel => CAModel) g2.model).Linear (List.replicate e2.mCP 0)
      (CAModel.transitionMatrix 0) measurementMatrix g2.DP g2.MP := by
    rw [hDP2, hMP2, hp1.sameDP, hp1.sameMP, hcp2, hcp1]
    exact CAModel_linear 0 _ (by decide!)
  obtain ⟨e3, g3, h3, _, _, _, _, _, hf3⟩ :=
    MultiModelKalmanEstimator.predict_single exampleNumeric exampleNumeric_keepsShape
      (fun _ => CAModel) e2 g2 0 (CAModel.transitionMatrix 0) measurementMatrix hS2 hlin3
  refine ⟨e1, e2, e3, h1, h2, h3, ?_, hf2, ?_⟩
  · rw [hf1]
    decide!
  · rw [hf3, hf2]
    decide!

/-! ## Symmetric positive-semidefinite matrices -/

theorem scaledEye_psd (n : Nat) (c : ℚ) (hc : 0 ≤ c) :
    (toM n n (scaledEye n c)).transpose = toM n n (scaledEye n c) ∧
    ∀ v : Fin n → ℚ, 0 ≤ Matrix.dotProduct v (Matrix.mulVec (toM n n (scaledEye n c)) v) := by
  rw [toM_scaledEye]
  constructor
  · rw [Matrix.transpose_smul, Matrix.transpose_one]
  · intro v
    rw [Matrix.smul_mulVec_assoc, Matrix.one_mulVec, Matrix.dotProduct_smul]
    exact mul_nonneg hc (Finset.sum_nonneg (fun i _ => mul_self_nonneg _))

theorem eq_of_toM_eq (a b : Mat) (r c : Nat) (ha : hasShape a r c = true)
    (hb : hasShape b r c = true) (h : toM r c a = toM r c b) : a = b := by
  obtain ⟨la, ra⟩ := (hasShape_iff a r c).mp ha
  obtain ⟨lb, rb⟩ := (hasShape_iff b r c).mp hb
  apply List.ext_getElem (by rw [la, lb])
  intro i h1 h2
  apply List.ext_getElem (by rw [ra _ (List.getElem_mem _), rb _ (List.getElem_mem _)])
  intro j h3 h4
  have hi : i < r := by omega
  have hj : j < c := by
    rw [ra _ (List.getElem_mem _)] at h3
    exact h3
  have := congrFun (congrFun h ⟨i, hi⟩) ⟨j, hj⟩
  have e1 : entry a i j = entry b i j := this
  rw [entry_eq_getD a i j h1, entry_eq_getD b i j h2] at e1
  simp only [List.get_eq_getElem] at e1
  rw [List.getD_eq_getElem (l := a[i]) (d := 0) h3,
    List.getD_eq_getElem (l := b[i]) (d := 0) h4] at e1
  exact e1

/-! ## The members after `predict` and `correct` on a linear system, as lists -/

theorem toM_congruence (A B L L1 : Mat) (r1 r2 n : Nat) (k : ℚ)
    (hA : hasShape A r1 n = true) (hB : hasShape B r2 n = true) (hL : hasShape L n n = true)
    (hL1 : hasShape L1 n n = true) (hn : 0 < n) (hr2 : 0 < r2) :
    hasShape (matScale k (matMul (matMul A (matMul L (matTranspose L1))) (matTranspose B)))
      r1 r2 = true ∧
    toM r1 r2 (matScale k (matMul (matMul A (matMul L (matTranspose L1))) (matTranspose B))) =
      k • (toM r1 n A * (toM n n L * (toM n n L1).transpose) * (toM r2 n B).transpose) := by
  have sL1t := hasShape_transpose_of _ _ _ hL1 hn
  have sBt := hasShape_transpose_of _ _ _ hB hr2
  obtain ⟨_, s1⟩ := matMul?_of_shapes _ _ _ _ _ hL sL1t hn
  obtain ⟨_, s2⟩ := matMul?_of_shapes _ _ _ _ _ hA s1 hn
  obtain ⟨_, s3⟩ := matMul?_of_shapes _ _ _ _ _ s2 sBt hn
  refine ⟨hasShape_matScale _ _ _ _ s3, ?_⟩
  rw [toM_matScale, toM_matMul _ _ _ _ _ s2 sBt hn, toM_matMul _ _ _ _ _ hA s1 hn,
    toM_matMul _ _ _ _ _ hL sL1t hn, toM_matTranspose _ _ _ hL1 hn,
    toM_matTranspose _ _ _ hB hr2]

namespace UnscentedKalmanFilterMod

/-- The error covariance after `predict` on a linear system. -/
theorem PredictedFrom.errorCov_eq {O : NumericOps} {f g : UnscentedKalmanFilterMod} {F H : Mat}
    (h : f.PredictedFrom O g F H) (hO : O.KeepsShape) (hF : hasShape F f.DP f.DP = true)
    (hP : hasShape f.errorCov f.DP f.DP = true) :
    g.errorCov = matAdd
      (matScale (O.sqrt f.tmpLambda * O.sqrt f.tmpLambda / f.tmpLambda)
        (matMul (matMul F
          (matMul (choleskyDecomposition O f.errorCov f.errorCov.length f.errorCov).2
            (matTranspose (choleskyDecomposition O f.errorCov f.errorCov.length f.errorCov).2)))
          (matTranspose F)))
      f.processNoiseCov := by
  have hpos : 0 < f.DP := by
    have := h.predicted.shaped.posDP
    rwa [h.sameDP] at this
  have hL := hasShape_choleskyDecomposition O hO f.errorCov f.errorCov f.errorCov.length
    f.DP f.DP hP
  obtain ⟨s1, e1⟩ := toM_congruence F F _ _ f.DP f.DP f.DP
    (O.sqrt f.tmpLambda * O.sqrt f.tmpLambda / f.tmpLambda) hF hF hL hL hpos hpos
  have hQ : hasShape f.processNoiseCov f.DP f.DP = true := by
    have := h.predicted.shaped.shapeQ
    rwa [h.sameQ, h.sameDP] at this
  have sg : hasShape g.errorCov f.DP f.DP = true := by
    have := h.predicted.shapeP
    rwa [h.sameDP] at this
  refine eq_of_toM_eq _ _ f.DP f.DP sg (hasShape_matAdd _ _ _ _ s1 hQ) ?_
  rw [toM_matAdd _ _ _ _ s1 hQ, e1, h.errorCov]

/-- On a linear system `correct` after `predict` returns; the cross covariance `Sxy` it leaves
pairs the factor `L` of the error covariance before the `predict` with the factor `L1` of the
one after it. -/
theorem predict_correct_linear (O : NumericOps) (hO : O.KeepsShape) (hI : O.InvKeepsShape)
    (Sys : MotionModel → UkfSystemModel) (f : UnscentedKalmanFilterMod) (control z : Vec)
    (F H : Mat) (hc : f.Constructed) (hlin : (Sys f.model).Linear control F H f.DP f.MP)
    (hx : f.state.length = f.DP) (hP : hasShape f.errorCov f.DP f.DP = true)
    (hz : z.length = f.MP) :
    ∃ g h, predict O Sys f control = some g ∧ f.PredictedFrom O g F H ∧
      correct O g z = some h ∧
      h.xyCov = matScale (O.sqrt f.tmpLambda * O.sqrt f.tmpLambda / f.tmpLambda)
        (matMul (matMul F
          (matMul (choleskyDecomposition O f.errorCov f.errorCov.length f.errorCov).2
            (matTranspose (choleskyDecomposition O g.errorCov g.errorCov.length g.errorCov).2)))
          (matTranspose H)) ∧
      h.gain = matMul h.xyCov (O.inv g.yyCov) := by
  obtain ⟨g, hg, hpg⟩ := predict_linear O hO Sys f control F H hc hlin hx hP
  have hgp := hpg.predicted
  obtain ⟨h, hh, _, _, _, _, _, _, hxy, hgain⟩ := correct_spec O g z hgp hpg.constructed
    (by rw [hpg.sameMP]; exact hz) (hI _ _ hgp.shapeYy)
  refine ⟨g, h, hg, hpg, hh, ?_, hgain⟩
  have hposD := hc.shaped.posDP
  have hposM := hc.shaped.posMP
  have hn : 0 < 2 * f.DP + 1 := by omega
  have sFc : hasShape g.transitionSPFuncValsCenter f.DP (2 * f.DP + 1) = true := by
    have := hgp.shapeFc
    rwa [hpg.sameDP] at this
  have sHc : hasShape g.measurementSPFuncValsCenter f.MP (2 * f.DP + 1) = true := by
    have := hgp.shapeHc
    rwa [hpg.sameDP, hpg.sameMP] at this
  have sWc : hasShape g.Wc (2 * f.DP + 1) (2 * f.DP + 1) = true := by
    have := hgp.shaped.shapeWc
    rwa [hpg.sameDP] at this
  have sg : hasShape g.errorCov f.DP f.DP = true := by
    have := hgp.shapeP
    rwa [hpg.sameDP] at this
  have hL := hasShape_choleskyDecomposition O hO f.errorCov f.errorCov f.errorCov.length
    f.DP f.DP hP
  have hL1 := hasShape_choleskyDecomposition O hO g.errorCov g.errorCov g.errorCov.length
    f.DP f.DP sg
  obtain ⟨s1, e1⟩ := toM_congruence F H _ _ f.DP f.MP f.DP
    (O.sqrt f.tmpLambda * O.sqrt f.tmpLambda / f.tmpLambda) hlin.shapeF hlin.shapeH hL hL1
    hposD hposM
  obtain ⟨_, t1⟩ := matMul?_of_shapes _ _ _ _ _ sFc sWc hn
  have sHt := hasShape_transpose_of _ _ _ sHc hposM
  obtain ⟨_, t2⟩ := matMul?_of_shapes _ _ _ _ _ t1 sHt hn
  rw [hxy]
  refine eq_of_toM_eq _ _ f.DP f.MP t2 s1 ?_
  rw [e1, toM_matMul _ _ _ _ _ t1 sHt hn, toM_matMul _ _ _ _ _ sFc sWc hn,
    toM_matTranspose _ _ _ sHc hposM, hpg.cross]

end UnscentedKalmanFilterMod

/-! ## `combineStatesAndCovariances` -/

theorem getD_map_zero (f : ℚ → ℚ) (hf : f 0 = 0) (l : Vec) (j : Nat) :
    (l.map f).getD j 0 = f (l.getD j 0) := by
  by_cases hj : j < l.length
  · rw [List.getD_eq_getElem (l := l.map f) (d := 0) (by simpa using hj),
      List.getD_eq_getElem (l := l) (d := 0) hj, List.getElem_map]
  · rw [getD_of_le _ _ _ (by simp; omega), getD_of_le l _ _ (by omega), hf]

theorem getD_vecScale (c : ℚ) (v : Vec) (j : Nat) :
    (vecScale c v).getD j 0 = c * v.getD j 0 :=
  getD_map_zero (fun x => c * x) (mul_zero c) v j

theorem entry_outer (a b : Vec) (i j : Nat) :
    entry (outer a b) i j = a.getD i 0 * b.getD j 0 := by
  unfold outer
  by_cases hi : i < a.length
  · rw [entry_map a _ i j hi, getD_map_zero (fun y => a.get ⟨i, hi⟩ * y) (mul_zero _) b j,
      List.getD_eq_getElem (l := a) (d := 0) hi]
    rfl
  · rw [entry_of_le _ _ _ (by simp; omega), getD_of_le a _ _ (by omega), zero_mul]

theorem hasShape_outer (a b : Vec) : hasShape (outer a b) a.length b.length = true := by
  rw [hasShape_iff]
  unfold outer
  refine ⟨by simp, ?_⟩
  intro row hrow
  obtain ⟨x, _, rfl⟩ := List.mem_map.mp hrow
  simp

theorem getD_zeros (n j : Nat) : (zeros n).getD j 0 = 0 := by
  unfold zeros
  by_cases hj : j < n
  · rw [List.getD_eq_getElem (l := List.replicate n (0 : ℚ)) (d := 0) (by simpa using hj),
      List.getElem_replicate]
  · exact getD_of_le _ _ _ (by simp; omega)

theorem entry_zerosMat (r c i j : Nat) : entry (zerosMat r c) i j = 0 := by
  unfold entry zerosMat
  by_cases hi : i < r
  · have h1 : (List.replicate r (List.replicate c (0 : ℚ))).getD i [] = List.replicate c 0 := by
      rw [List.getD_eq_getElem (l := List.replicate r (List.replicate c (0 : ℚ))) (d := [])
        (by simpa using hi), List.getElem_replicate]
    rw [h1]
    exact getD_zeros c j
  · have h1 : (List.replicate r (List.replicate c (0 : ℚ))).getD i [] = [] :=
      getD_of_le _ _ _ (by simp; omega)
    rw [h1]
    rfl

theorem entry_matAdd (a b : Mat) (r c i j : Nat) (ha : hasShape a r c = true)
    (hb : hasShape b r c = true) : entry (matAdd a b) i j = entry a i j + entry b i j :=
  entry_zipWith vecAdd (fun x y => x + y) a b r c i j ha hb (fun _ _ => rfl) (by simp)

namespace MultiModelKalmanEstimator

theorem combinedState_fold (states : List Vec) (μ : Vec) (n : Nat)
    (hlen : ∀ x ∈ states, x.length = n) (l : List Nat) (hl : ∀ i ∈ l, i < states.length)
    (acc : Vec) (hacc : acc.length = n) :
    ∃ out, l.foldlM
        (fun combinedState i =>
          match states[i]? with
          | none => none
          | some state => vecAdd? combinedState (vecScale (μ.getD i 0) state))
        acc = some out ∧ out.length = n ∧
      ∀ j, out.getD j 0 =
        acc.getD j 0 + (l.map (fun i => μ.getD i 0 * (states.getD i []).getD j 0)).sum := by
  induction l generalizing acc with
  | nil => exact ⟨acc, rfl, hacc, fun j => by simp⟩
  | cons i rest ih =>
    have hi : i < states.length := hl i (List.mem_cons_self _ _)
    have e1 : states[i]? = some states[i] := List.getElem?_eq_getElem hi
    have e0 : states.getD i [] = states[i] := List.getD_eq_getElem _ _ hi
    have l1 : (vecScale (μ.getD i 0) states[i]).length = n := by
      unfold vecScale
      rw [List.length_map]
      exact hlen _ (List.getElem_mem _)
    have e2 : vecAdd? acc (vecScale (μ.getD i 0) states[i]) =
        some (vecAdd acc (vecScale (μ.getD i 0) states[i])) := by
      unfold vecAdd?
      rw [if_pos (by rw [hacc, l1])]
    have l2 : (vecAdd acc (vecScale (μ.getD i 0) states[i])).length = n := by
      unfold vecAdd
      rw [List.length_zipWith, hacc, l1, Nat.min_self]
    obtain ⟨out, ho, hlo, hent⟩ := ih (fun x hx => hl x (List.mem_cons_of_mem _ hx)) _ l2
    refine ⟨out, ?_, hlo, ?_⟩
    · rw [List.foldlM_cons]
      simp only [e1, e2]
      exact ho
    · intro j
      rw [hent j, List.map_cons, List.sum_cons, e0]
      unfold vecAdd
      rw [getD_zipWith _ _ _ _ (by rw [hacc, l1]) (by simp), getD_vecScale]
      ring

theorem combinedCovariance_fold (states : List Vec) (covariances : List Mat) (μ xbar : Vec)
    (n : Nat) (hn : 0 < n) (hlen : ∀ x ∈ states, x.length = n)
    (hshape : ∀ P ∈ covariances, hasShape P n n = true) (hx : xbar.length = n) (l : List Nat)
    (hl : ∀ i ∈ l, i < states.length ∧ i < covariances.length) (acc : Mat)
    (hacc : hasShape acc n n = true) :
    ∃ out, l.foldlM
        (fun combinedCovariance i =>
          match states[i]?, covariances[i]? with
          | some state, some cov =>
            match vecSub? state xbar with
            | none => none
            | some difference =>
              match matAdd? cov (outer difference difference) with
              | none => none
              | some t => matAdd? combinedCovariance (matScale (μ.getD i 0) t)
          | _, _ => none)
        acc = some out ∧ hasShape out n n = true ∧
      ∀ a b, entry out a b = entry acc a b +
        (l.map (fun i => μ.getD i 0 * (entry (covariances.getD i []) a b +
          ((states.getD i []).getD a 0 - xbar.getD a 0) *
            ((states.getD i []).getD b 0 - xbar.getD b 0)))).sum := by
  induction l generalizing acc with
  | nil => exact ⟨acc, rfl, hacc, fun a b => by simp⟩
  | cons i rest ih =>
    obtain ⟨hi, hic⟩ := hl i (List.mem_cons_self _ _)
    have e1 : states[i]? = some states[i] := List.getElem?_eq_getElem hi
    have e2 : covariances[i]? = some covariances[i] := List.getElem?_eq_getElem hic
    have e0 : states.getD i [] = states[i] := List.getD_eq_getElem _ _ hi
    have e0c : covariances.getD i [] = covariances[i] := List.getD_eq_getElem _ _ hic
    have ls : states[i].length = n := hlen _ (List.getElem_mem _)
    have sc : hasShape covariances[i] n n = true := hshape _ (List.getElem_mem _)
    have e3 : vecSub? states[i] xbar = some (vecSub states[i] xbar) := by
      unfold vecSub?
      rw [if_pos (by rw [ls, hx])]
    have ld : (vecSub states[i] xbar).length = n := by
      unfold vecSub
      rw [List.length_zipWith, ls, hx, Nat.min_self]
    have so : hasShape (outer (vecSub states[i] xbar) (vecSub states[i] xbar)) n n = true := by
      have := hasShape_outer (vecSub states[i] xbar) (vecSub states[i] xbar)
      rwa [ld] at this
    obtain ⟨e4, s4⟩ := matAdd?_of_shapes _ _ _ _ sc so hn
    have s5 := hasShape_matScale _ _ _ (μ.getD i 0) s4
    obtain ⟨e5, s6⟩ := matAdd?_of_shapes _ _ _ _ hacc s5 hn
    obtain ⟨out, ho, hso, hent⟩ := ih (fun x hx => hl x (List.mem_cons_of_mem _ hx)) _ s6
    refine ⟨out, ?_, hso, ?_⟩
    · rw [List.foldlM_cons]
      simp only [e1, e2, e3, e4, e5]
      exact ho
    · intro a b
      rw [hent a b, List.map_cons, List.sum_cons, e0, e0c]
      have h1 : entry (matAdd acc (matScale (μ.getD i 0) (matAdd covariances[i]
          (outer (vecSub states[i] xbar) (vecSub states[i] xbar))))) a b =
          entry acc a b + μ.getD i 0 * (entry covariances[i] a b +
            (states[i].getD a 0 - xbar.getD a 0) * (states[i].getD b 0 - xbar.getD b 0)) := by
        rw [entry_matAdd _ _ n n a b hacc s5, entry_matScale, entry_matAdd _ _ n n a b sc so,
          entry_outer]
        unfold vecSub
        rw [getD_zipWith _ _ _ _ (by rw [ls, hx]) (by simp),
          getD_zipWith _ _ _ _ (by rw [ls, hx]) (by simp)]
      rw [h1]
      ring

/-- A sum of symmetric positive-semidefinite matrices with non-negative weights is symmetric
positive-semidefinite. -/
theorem psd_sum {n M : Nat} (w : Fin M → ℚ) (A : Fin M → Matrix (Fin n) (Fin n) ℚ)
    (hw : ∀ i, 0 ≤ w i) (hs : ∀ i, (A i).transpose = A i)
    (hp : ∀ i (v : Fin n → ℚ), 0 ≤ Matrix.dotProduct v (Matrix.mulVec (A i) v)) :
    (∑ i, w i • A i).transpose = ∑ i, w i • A i ∧
    ∀ v : Fin n → ℚ, 0 ≤ Matrix.dotProduct v (Matrix.mulVec (∑ i, w i • A i) v) := by
  constructor
  · rw [Matrix.transpose_sum]
    refine Finset.sum_congr rfl (fun i _ => ?_)
    rw [Matrix.transpose_smul, hs i]
  · intro v
    have h1 : Matrix.mulVec (∑ i, w i • A i) v = ∑ i, w i • Matrix.mulVec (A i) v := by
      ext a
      simp only [Matrix.mulVec, Matrix.dotProduct, Matrix.sum_apply, Matrix.smul_apply,
        Finset.sum_apply, Pi.smul_apply, smul_eq_mul, Finset.sum_mul, Finset.mul_sum, mul_assoc]
      exact Finset.sum_comm
    have h2 : Matrix.dotProduct v (∑ i, w i • Matrix.mulVec (A i) v) =
        ∑ i, w i * Matrix.dotProduct v (Matrix.mulVec (A i) v) := by
      simp only [Matrix.dotProduct, Finset.sum_apply, Pi.smul_apply, smul_eq_mul, Finset.mul_sum]
      rw [Finset.sum_comm]
      refine Finset.sum_congr rfl (fun i _ => Finset.sum_congr rfl (fun a _ => by ring))
    rw [h1, h2]
    exact Finset.sum_nonneg (fun i _ => mul_nonneg (hw i) (hp i v))

theorem vecMulVec_psd {n : Nat} (d : Fin n → ℚ) :
    (Matrix.vecMulVec d d).transpose = Matrix.vecMulVec d d ∧
    ∀ v : Fin n → ℚ, 0 ≤ Matrix.dotProduct v (Matrix.mulVec (Matrix.vecMulVec d d) v) := by
  constructor
  · ext a b
    simp only [Matrix.transpose_apply, Matrix.vecMulVec_apply]
    exact mul_comm _ _
  · intro v
    have h1 : Matrix.dotProduct v (Matrix.mulVec (Matrix.vecMulVec d d) v) =
        Matrix.dotProduct v d * Matrix.dotProduct v d := by
      simp only [Matrix.mulVec, Matrix.dotProduct, Matrix.vecMulVec_apply, Finset.mul_sum,
        Finset.sum_mul]
      rw [Finset.sum_comm]
      refine Finset.sum_congr rfl (fun a _ => Finset.sum_congr rfl (fun b _ => ?_))
      ring
    rw [h1]
    exact mul_self_nonneg _

end MultiModelKalmanEstimator

/-! ## The yaw substitution -/

/-- The real functions satisfy the facts collected in `AngleOps.Wraps`. -/
theorem real_angles_wrap :
    AngleOps.Wraps (AngleOps.mk Real.cos Real.sin (fun y x => Complex.arg ⟨x, y⟩) Real.pi) := by
  have hz : ∀ t : ℝ, (⟨Real.cos t, Real.sin t⟩ : ℂ) =
      Complex.cos t + Complex.sin t * Complex.I := by
    intro t
    apply Complex.ext <;> simp [Complex.cos_ofReal_re, Complex.sin_ofReal_re,
      Complex.cos_ofReal_im, Complex.sin_ofReal_im]
  refine ⟨Real.pi_pos, ?_, ?_, ?_, ?_⟩
  · intro a b
    show Real.cos a * Real.cos b + Real.sin a * Real.sin b = Real.cos (b - a)
    rw [Real.cos_sub]
    ring
  · intro a b
    show Real.cos a * Real.sin b - Real.sin a * Real.cos b = Real.sin (b - a)
    rw [Real.sin_sub]
    ring
  · intro t
    show -Real.pi < Complex.arg ⟨Real.cos t, Real.sin t⟩ ∧
      Complex.arg ⟨Real.cos t, Real.sin t⟩ ≤ Real.pi
    exact Complex.arg_mem_Ioc _
  · intro t
    show ∃ k : ℤ, Complex.arg ⟨Real.cos t, Real.sin t⟩ = t - 2 * Real.pi * (k : ℝ)
    refine ⟨-⌊(Real.pi - t) / (2 * Real.pi)⌋, ?_⟩
    have h := Complex.arg_cos_add_sin_mul_I_sub t
    rw [hz t]
    push_cast
    linarith

theorem angleDifference_wraps {F : Type} [LinearOrderedField F] (T : AngleOps F) (hT : T.Wraps)
    (a b : F) :
    (-T.pi < angleDifference T a b ∧ angleDifference T a b ≤ T.pi) ∧
    ∃ k : ℤ, angleDifference T a b = (b - a) - 2 * T.pi * (k : F) := by
  have h : angleDifference T a b = T.atan2 (T.sin (b - a)) (T.cos (b - a)) := by
    unfold angleDifference
    simp only
    rw [hT.cos_sub, hT.sin_sub]
  rw [h]
  exact ⟨hT.atan2_range _, hT.atan2_turns _⟩

/-- The two candidates of `deltaTheta` lie half a turn apart. -/
theorem deltaTheta_candidates {F : Type} [LinearOrderedField F] (T : AngleOps F) (hT : T.Wraps)
    (m p : F) :
    angleDifference T m p - angleDifference T (m + T.pi) p = T.pi ∨
    angleDifference T m p - angleDifference T (m + T.pi) p = -T.pi := by
  obtain ⟨⟨a1, a2⟩, k1, hk1⟩ := angleDifference_wraps T hT m p
  obtain ⟨⟨b1, b2⟩, k2, hk2⟩ := angleDifference_wraps T hT (m + T.pi) p
  have hpi := hT.pi_pos
  have hd : angleDifference T m p - angleDifference T (m + T.pi) p =
      T.pi * (1 + 2 * ((k2 - k1 : ℤ) : F)) := by
    rw [hk1, hk2]
    push_cast
    ring
  have hlt : T.pi * (1 + 2 * ((k2 - k1 : ℤ) : F)) < T.pi * 2 := by
    rw [← hd]
    linarith
  have hgt : T.pi * (-2) < T.pi * (1 + 2 * ((k2 - k1 : ℤ) : F)) := by
    rw [← hd]
    linarith
  have h1 : (1 + 2 * ((k2 - k1 : ℤ) : F)) < 2 := lt_of_mul_lt_mul_left hlt hpi.le
  have h2 : (-2 : F) < 1 + 2 * ((k2 - k1 : ℤ) : F) := lt_of_mul_lt_mul_left hgt hpi.le
  have h3 : (1 + 2 * (k2 - k1) : ℤ) < 2 := by exact_mod_cast h1
  have h4 : (-2 : ℤ) < 1 + 2 * (k2 - k1) := by exact_mod_cast h2
  have h5 : k2 - k1 = 0 ∨ k2 - k1 = -1 := by omega
  rcases h5 with h5 | h5
  · left
    rw [hd, h5]
    push_cast
    ring
  · right
    rw [hd, h5]
    push_cast
    ring

/-- An exact root `c` of `t` and an exact factor `L` of `P` make the scaled factor of
`getSigmaPoints` exact. -/
theorem sigmaFactor_of_exact (O : NumericOps) (P : Mat) (n : Nat) (c t : ℚ) (hc : c * c = t)
    (h : toM n n (choleskyDecomposition O P P.length P).2 *
      (toM n n (choleskyDecomposition O P P.length P).2).transpose = toM n n P) :
    toM n n (UnscentedKalmanFilterMod.sigmaFactor O P c) *
      (toM n n (UnscentedKalmanFilterMod.sigmaFactor O P c)).transpose = t • toM n n P := by
  unfold UnscentedKalmanFilterMod.sigmaFactor
  rw [toM_matScale, ← h, ← hc]
  simp only [Matrix.transpose_smul, Matrix.smul_mul, Matrix.mul_smul, smul_smul]

namespace UnscentedKalmanFilterMod

end UnscentedKalmanFilterMod

/-- Model states that all have the buffer `buffer` behind their `predictedMeasurementMean`, as
the copies that `initialize` makes of one detection do, all read a measurement written into
it. -/
theorem MultiModelKalmanEstimator.writeMeasurementMean_shared (buffer : Nat) (mean : Vec)
    (states : List TrackedObject) :
    MultiModelKalmanEstimator.writeMeasurementMean buffer mean states
        (List.replicate states.length buffer) =
      states.map (fun state => { state with predictedMeasurementMean := mean }) := by
  induction states with
  | nil => rfl
  | cons state rest ih =>
    simp only [List.length_cons, List.replicate_succ, List.map_cons,
      MultiModelKalmanEstimator.writeMeasurementMean, if_true, ih]

/-! # The claims -/

open TrackManager

/-- C1. `isReliable(id)` holds exactly when `mNumberOfTrackedFrames[id]` (zero for an id without
entry) is at least `mMaxNumberOfUnreliableFrames`.  Consequently, when a track is created by
`createTrack` in a state that satisfies the invariant, under an id that is not suspended, and
then receives a measurement in each of the following cycles `fs`, it does not contribute to
`getReliableTracks` as long as fewer than `mMaxNumberOfUnreliableFrames` corrections were made,
and its state is in `getReliableTracks` after exactly `mMaxNumberOfUnreliableFrames`
corrections. -/
theorem C1_reliable_iff_tracked_frames {K : Type} (ops : EstimatorOps K) (s s' : TrackManager K)
    (o : TrackedObject) (t : ℚ) (fs : List Frame)
    (hwf : s.WF)
    (hfresh : (s.createTrack ops o t).1 ∉ UMap.keys s.mSuspendedKalmanEstimators)
    (hmax : s.mConfig.mMaxNumberOfUnreliableFrames < UINT32_MOD)
    (hmeas : ∀ f ∈ fs, (s.createTrack ops o t).1 ∈ UMap.keys f.measurements)
    (hrun : run ops fs (s.createTrack ops o t).2 = some s') :
    (∀ (u : TrackManager K) (id : Id),
      (u.isReliable id).1 = true ↔
        u.mNumberOfTrackedFrames.getD id 0 ≥ u.mConfig.mMaxNumberOfUnreliableFrames) ∧
    (fs.length < s.mConfig.mMaxNumberOfUnreliableFrames →
      ¬ s'.inReliableTracks (s.createTrack ops o t).1) ∧
    (fs.length = s.mConfig.mMaxNumberOfUnreliableFrames →
      s'.inReliableTracks (s.createTrack ops o t).1 ∧
      ∃ e, s'.mKalmanEstimators.find? (s.createTrack ops o t).1 = some e ∧
        e.currentState ∈ s'.getReliableTracks.1) := by
  obtain ⟨hc, _, _, ⟨e0, ha, _⟩, _, ht⟩ := createTrack_maps ops s o t
  have wf1 := createTrack_wf ops s o t hwf hfresh
  generalize hid : (s.createTrack ops o t).1 = id at *
  generalize hs1 : (s.createTrack ops o t).2 = s1 at *
  have ha1 : s1.mKalmanEstimators.find? id = some e0 := by
    rw [ha, UMap.find?_assign]
    simp
  have ht1 : s1.mNumberOfTrackedFrames.getD id 0 = 0 := by
    rw [ht]
    simp [UMap.getD, UMap.find?_assign]
  have key : s'.WF ∧ s'.mConfig = s.mConfig ∧ (∃ e', s'.mKalmanEstimators.find? id = some e') ∧
      s'.mNumberOfTrackedFrames.getD id 0 = fs.length % UINT32_MOD := by
    rcases run_measured ops id fs s1 s' e0 wf1 ha1 hmeas hrun with ⟨w, c, he, htf⟩ | ⟨hnil, hs⟩
    · refine ⟨w, c.trans hc, he, ?_⟩
      rw [htf, ht1, Nat.zero_add]
    · subst hs
      subst hnil
      exact ⟨wf1, hc, ⟨e0, ha1⟩, by rw [ht1]; rfl⟩
  obtain ⟨w, c, ⟨e', he'⟩, htf⟩ := key
  refine ⟨?_, ?_, ?_⟩
  · intro u id'
    simp [isReliable]
  · intro hlt
    rw [inReliableTracks_iff s' w.activeNodup]
    rintro ⟨_, hr⟩
    rw [htf, c, Nat.mod_eq_of_lt (lt_trans hlt hmax)] at hr
    omega
  · intro heq
    have hr : s'.mNumberOfTrackedFrames.getD id 0 ≥ s'.mConfig.mMaxNumberOfUnreliableFrames := by
      rw [htf, c, heq, Nat.mod_eq_of_lt hmax]
    refine ⟨?_, e', he', mem_getReliableTracks s' w.activeNodup id e' he' hr⟩
    rw [inReliableTracks_iff s' w.activeNodup]
    exact ⟨⟨e', he'⟩, hr⟩

theorem emptyManager_wf : emptyManager.WF := by
  refine ⟨?_, ?_, ?_, ?_, ?_, ?_⟩ <;> simp [emptyManager, UMap.keys]

/-- Witness of C1: track 1, created in the empty manager with the default threshold of two
frames, is reliable after two corrections. -/
theorem C1_reliable_iff_tracked_frames_witness :
    twiceCorrectedState.inReliableTracks 1 ∧
      ∃ e, twiceCorrectedState.mKalmanEstimators.find? 1 = some e ∧
        e.currentState ∈ twiceCorrectedState.getReliableTracks.1 :=
  (C1_reliable_iff_tracked_frames exampleOps emptyManager twiceCorrectedState exampleObject 0
    [measuredFrame, measuredFrame] emptyManager_wf (by decide) (by decide) (by decide)
    (by decide!)).2.2 (by decide)

/-- C2. In a state that satisfies the invariant, `correct()` removes an active track (`hasId`
becomes false and both counters are erased) if and only if, after the counter update of this
call, its non-measurement counter exceeds `mNonMeasurementFramesDynamic` and the track is
unreliable, or reliable and dynamic (`vx*vx + vy*vy > 1`).  Hence a reliable dynamic track with
non-measurement counter 0 that receives no measurement in the cycles `fs`, and is dynamic after
every `predict`, is in `getReliableTracks` after each of the first
`mNonMeasurementFramesDynamic` cycles and is gone after the next one; the counter is a
`uint32_t`, so this needs `mNonMeasurementFramesDynamic + 1` to be representable. -/
theorem C2_correct_removes_track_iff {K : Type} (ops : EstimatorOps K) (s s' : TrackManager K)
    (id : Id) (e : MultiModelKalmanEstimator K)
    (hwf : s.WF) (ha : s.mKalmanEstimators.find? id = some e) :
    (correct ops s = some s' →
      ((s'.hasId id = false ∧ s'.mNonMeasurementFrames.find? id = none ∧
          s'.mNumberOfTrackedFrames.find? id = none) ↔
        (s.nmfUpdated id > s.mConfig.mNonMeasurementFramesDynamic ∧
          (¬ s.tfUpdated id ≥ s.mConfig.mMaxNumberOfUnreliableFrames ∨
            (s.tfUpdated id ≥ s.mConfig.mMaxNumberOfUnreliableFrames ∧
              e.currentState.vx * e.currentState.vx + e.currentState.vy * e.currentState.vy
                > 1))))) ∧
    (∀ fs : List Frame,
      s.mNumberOfTrackedFrames.getD id 0 ≥ s.mConfig.mMaxNumberOfUnreliableFrames →
      s.mNonMeasurementFrames.getD id 0 = 0 →
      s.mConfig.mNonMeasurementFramesDynamic + 1 < UINT32_MOD →
      (∀ f ∈ fs, id ∉ UMap.keys f.measurements) →
      (∀ k, 1 ≤ k → k ≤ fs.length →
        (predictThrough ops (fs.take k) e).currentState.isDynamic = true) →
      run ops fs s = some s' →
      (fs.length ≤ s.mConfig.mNonMeasurementFramesDynamic → s'.inReliableTracks id) ∧
      (fs.length = s.mConfig.mNonMeasurementFramesDynamic + 1 → s'.hasId id = false)) := by
  constructor
  · intro h
    have post := correct_post ops s s' hwf h
    obtain ⟨e1, hce, oa, onm, otf, osu⟩ := post.active id e ha
    obtain ⟨hd, hsu⟩ := deletes_congr ops s id e e1 hce
    rw [hd, hsu] at oa onm
    rw [hd] at otf
    rw [hsu] at osu
    have hexcl : s.deletes id e = true → s.suspends id e = false := by
      intro hdel
      simp only [deletes, Bool.and_eq_true, Bool.or_eq_true, Bool.not_eq_true'] at hdel
      rcases hdel.2 with h1 | h1
      · simp [suspends, h1]
      · simp [suspends, h1]
    have hcond : s.deletes id e = true ↔
        (s.nmfUpdated id > s.mConfig.mNonMeasurementFramesDynamic ∧
          (¬ s.tfUpdated id ≥ s.mConfig.mMaxNumberOfUnreliableFrames ∨
            (s.tfUpdated id ≥ s.mConfig.mMaxNumberOfUnreliableFrames ∧
              e.currentState.vx * e.currentState.vx + e.currentState.vy * e.currentState.vy
                > 1))) := by
      simp only [deletes, reliableUpdated, TrackedObject.isDynamic, Bool.and_eq_true,
        decide_eq_true_eq, Bool.or_eq_true, Bool.not_eq_true', decide_eq_false_iff_not]
      constructor
      · rintro ⟨h1, h2 | h2⟩
        · exact ⟨h1, Or.inl h2⟩
        · by_cases hr : s.tfUpdated id ≥ s.mConfig.mMaxNumberOfUnreliableFrames
          · exact ⟨h1, Or.inr ⟨hr, h2⟩⟩
          · exact ⟨h1, Or.inl hr⟩
      · rintro ⟨h1, h2 | ⟨_, h2⟩⟩
        · exact ⟨h1, Or.inl h2⟩
        · exact ⟨h1, Or.inr h2⟩
    rw [← hcond, hasId_eq_false_iff]
    constructor
    · rintro ⟨⟨h1, h2⟩, _, _⟩
      cases hdel : s.deletes id e with
      | true => rfl
      | false =>
        cases hs : s.suspends id e with
        | true => simp [hs] at osu; rw [osu] at h2; cases h2
        | false => simp [hdel, hs] at oa; rw [oa] at h1; cases h1
    · intro hdel
      have hs := hexcl hdel
      simp only [hdel, hs, Bool.true_or, if_true] at oa onm otf
      simp only [hs] at osu
      exact ⟨⟨oa, by simpa using osu⟩, onm, otf⟩
  · intro fs hrel hn0 hD hmiss hdyn hrun
    constructor
    · intro hlen
      obtain ⟨w, c, ha', ht', _⟩ := run_missed_dynamic ops id fs s s' e hwf ha hmiss hrel hdyn
        (by omega) (by omega) hrun
      rw [inReliableTracks_iff s' w.activeNodup]
      exact ⟨⟨_, ha'⟩, by rw [ht', c]; exact hrel⟩
    · intro hlen
      have hne : fs ≠ [] := by
        intro h0
        rw [h0] at hlen
        simp at hlen
      obtain ⟨init, last, hfs⟩ : ∃ init last, fs = init ++ [last] :=
        ⟨fs.dropLast, fs.getLast hne, (List.dropLast_append_getLast hne).symm⟩
      subst hfs
      have hil : init.length = s.mConfig.mNonMeasurementFramesDynamic := by
        simp only [List.length_append, List.length_singleton] at hlen
        omega
      rw [run_append] at hrun
      cases hmid : run ops init s with
      | none => simp [hmid] at hrun
      | some sm =>
        simp only [hmid, Option.some_bind, run_singleton] at hrun
        have hdyn' : ∀ k, 1 ≤ k → k ≤ init.length →
            (predictThrough ops (init.take k) e).currentState.isDynamic = true := by
          intro k hk1 hk2
          have := hdyn k hk1 (by simp; omega)
          rwa [List.take_append_of_le_length hk2] at this
        obtain ⟨wm, cm, am, tm, nm⟩ := run_missed_dynamic ops id init s sm e hwf ha
          (fun f hf => hmiss f (List.mem_append_left _ hf)) hrel hdyn' (by omega) (by omega) hmid
        obtain ⟨_, _, e1, n1, t1, _, hmissed, hdel, _, _⟩ :=
          applyFrame_active ops sm s' last id _ wm am hrun
        obtain ⟨he1, hn1, ht1⟩ := hmissed (hmiss last (by simp))
        have hlast : (predictThrough ops (init ++ [last]) e).currentState.isDynamic = true := by
          have := hdyn (init ++ [last]).length (by simp) (le_refl _)
          rwa [List.take_length] at this
        have hd1 : e1.currentState.isDynamic = true := by
          rw [he1]
          simpa [predictThrough] using hlast
        have hn1' : n1 = s.mConfig.mNonMeasurementFramesDynamic + 1 := by
          rw [hn1, nm, hn0, hil, Nat.zero_add]
          exact Nat.mod_eq_of_lt hD
        obtain ⟨o1, o2, _, _⟩ := hdel ⟨by rw [hn1', cm]; omega, Or.inr hd1⟩
        rw [hasId_eq_false_iff]
        exact ⟨o1, o2⟩

/-- Witness of C2 (configuration of the test: five frames to reliability, seven tolerated
misses): the reliable moving track 1 is gone after eight cycles without a measurement. -/
theorem C2_correct_removes_track_iff_witness : afterEightMisses.hasId 1 = false :=
  ((C2_correct_removes_track_iff exampleOps reliableMovingState afterEightMisses 1 movingEstimator
    (wf_of_check _ (by decide!)) (by decide!)).2 (List.replicate 8 missedFrame)
    (by decide!) (by decide!) (by decide!) (by decide)
    (fun k _ _ => by rw [predictThrough_exampleOps]; decide!) (by decide!)).2 (by decide!)

/-- C3. In a state that satisfies the invariant, `correct()` moves an active track to the
suspended set exactly when, after the counter update of this call, the track is reliable, not
dynamic (`vx*vx + vy*vy <= 1`) and its non-measurement counter exceeds
`mNonMeasurementFramesStatic`.  The suspended track keeps its estimator and its tracked-frames
counter, contributes neither to `getReliableTracks` nor to `getUnreliableTracks`, and its state
is in `getSuspendedTracks` and in `getTracks`. -/
theorem C3_correct_suspends_track_iff {K : Type} (ops : EstimatorOps K) (s s' : TrackManager K)
    (id : Id) (e : MultiModelKalmanEstimator K)
    (hwf : s.WF) (ha : s.mKalmanEstimators.find? id = some e) (h : correct ops s = some s') :
    (s'.isSuspended id = true ↔
      (s.tfUpdated id ≥ s.mConfig.mMaxNumberOfUnreliableFrames ∧
        ¬ (e.currentState.vx * e.currentState.vx + e.currentState.vy * e.currentState.vy > 1) ∧
        s.nmfUpdated id > s.mConfig.mNonMeasurementFramesStatic)) ∧
    (s'.isSuspended id = true →
      s'.mSuspendedKalmanEstimators.find? id = some e ∧
      s'.mNumberOfTrackedFrames.find? id = some (s.mNumberOfTrackedFrames.getD id 0) ∧
      ¬ s'.inReliableTracks id ∧ ¬ s'.inUnreliableTracks id ∧
      e.currentState ∈ s'.getSuspendedTracks ∧ e.currentState ∈ s'.getTracks) := by
  have post := correct_post ops s s' hwf h
  obtain ⟨e1, hce, oa, _, otf, osu⟩ := post.active id e ha
  obtain ⟨hd, hsu⟩ := deletes_congr ops s id e e1 hce
  rw [hd, hsu] at oa
  rw [hd] at otf
  rw [hsu] at osu
  have hiff : s'.isSuspended id = true ↔ s.suspends id e = true := by
    rw [isSuspended_iff, osu]
    cases s.suspends id e <;> simp
  refine ⟨by rw [hiff, suspends_iff], ?_⟩
  intro hsus
  have hs := hiff.mp hsus
  have hnp := not_pending_of_suspends s id e hs
  have he1 : e1 = e := by
    obtain ⟨_, hv⟩ := hce
    have hm : s.mMeasurementMap.find? id = none := by
      cases hx : s.mMeasurementMap.find? id with
      | none => rfl
      | some v => simp [pendingNow, hx] at hnp
    simpa [hm] using hv
  have hdel : s.deletes id e = false := by
    cases hx : s.deletes id e with
    | false => rfl
    | true =>
      simp only [deletes, Bool.and_eq_true, Bool.or_eq_true, Bool.not_eq_true'] at hx
      simp only [suspends, Bool.and_eq_true, Bool.not_eq_true'] at hs
      rcases hx.2 with h1 | h1
      · rw [hs.1.1] at h1
        cases h1
      · rw [hs.1.2] at h1
        cases h1
  simp only [hs, Bool.or_true, if_true] at oa
  simp only [hs, if_true, he1] at osu
  simp only [hdel, Bool.false_eq_true, if_false, tfUpdated, hnp] at otf
  have hmem : (id, e) ∈ s'.mSuspendedKalmanEstimators :=
    (mem_iff_find?_of_nodup _ post.wf.suspendedNodup id e).mpr osu
  refine ⟨osu, otf, ?_, ?_, ?_, ?_⟩
  · rw [inReliableTracks_iff s' post.wf.activeNodup]
    rintro ⟨⟨x, hx⟩, _⟩
    rw [oa] at hx
    cases hx
  · rw [inUnreliableTracks_iff s' post.wf.activeNodup]
    rintro ⟨⟨x, hx⟩, _⟩
    rw [oa] at hx
    cases hx
  · exact List.mem_map.mpr ⟨(id, e), hmem, rfl⟩
  · unfold getTracks
    exact List.mem_append_right _ (List.mem_map.mpr ⟨(id, e), hmem, rfl⟩)

/-- C4. In a state that satisfies the invariant, `correct()` moves a suspended track with a
pending measurement back to the active set, corrects it once, and leaves it with
non-measurement counter 0 and tracked-frames counter
`mMaxNumberOfUnreliableFrames - mReactivationFrames` (a `uint32_t` difference); the reactivating
correction is not counted.  When `1 <= mReactivationFrames <= mMaxNumberOfUnreliableFrames`
the track is unreliable after the call and, measured in every further cycle, reliable after
exactly `mReactivationFrames` further corrections. -/
theorem C4_correct_reactivates_suspended {K : Type} (ops : EstimatorOps K)
    (s s' : TrackManager K) (id : Id) (e : MultiModelKalmanEstimator K) (m : TrackedObject)
    (hwf : s.WF) (hs : s.mSuspendedKalmanEstimators.find? id = some e)
    (hm : s.mMeasurementMap.find? id = some m) (h : correct ops s = some s') :
    (∃ e1, ops.correct e m = some e1 ∧ s'.mKalmanEstimators.find? id = some e1) ∧
    s'.isSuspended id = false ∧
    s'.mNonMeasurementFrames.find? id = some 0 ∧
    s'.mNumberOfTrackedFrames.find? id = some
      ((s.mConfig.mMaxNumberOfUnreliableFrames + UINT32_MOD
        - s.mConfig.mReactivationFrames % UINT32_MOD) % UINT32_MOD) ∧
    (s.mConfig.mReactivationFrames ≤ s.mConfig.mMaxNumberOfUnreliableFrames →
      s.mConfig.mMaxNumberOfUnreliableFrames < UINT32_MOD →
      s'.mNumberOfTrackedFrames.find? id = some
        (s.mConfig.mMaxNumberOfUnreliableFrames - s.mConfig.mReactivationFrames)) ∧
    (1 ≤ s.mConfig.mReactivationFrames →
      s.mConfig.mReactivationFrames ≤ s.mConfig.mMaxNumberOfUnreliableFrames →
      s.mConfig.mMaxNumberOfUnreliableFrames < UINT32_MOD →
      s'.inUnreliableTracks id ∧
      ∀ (fs : List Frame) (s'' : TrackManager K),
        (∀ f ∈ fs, id ∈ UMap.keys f.measurements) → run ops fs s' = some s'' →
        (fs.length < s.mConfig.mReactivationFrames → ¬ s''.inReliableTracks id) ∧
        (fs.length = s.mConfig.mReactivationFrames → s''.inReliableTracks id)) := by
  have post := correct_post ops s s' hwf h
  obtain ⟨e1, hc, oa, onm, otf, osu⟩ := post.suspendedPending id e m hs hm
  have hnot : s'.isSuspended id = false := by
    cases hx : s'.isSuspended id with
    | false => rfl
    | true =>
      obtain ⟨x, hx'⟩ := (isSuspended_iff s' id).mp hx
      rw [osu] at hx'
      cases hx'
  refine ⟨⟨e1, hc, oa⟩, hnot, onm, otf, ?_, ?_⟩
  · intro h1 h2
    rw [otf, reactivationCount_eq _ h1 h2]
  · intro h0 h1 h2
    have htf : s'.mNumberOfTrackedFrames.getD id 0 =
        s.mConfig.mMaxNumberOfUnreliableFrames - s.mConfig.mReactivationFrames := by
      rw [getD_of_find? _ _ _ _ otf, reactivationCount_eq _ h1 h2]
    constructor
    · rw [inUnreliableTracks_iff s' post.wf.activeNodup]
      refine ⟨⟨e1, oa⟩, ?_⟩
      rw [htf, post.config]
      omega
    · intro fs s'' hmeas hrun
      have key : s''.WF ∧ s''.mConfig = s'.mConfig ∧
          (∃ e', s''.mKalmanEstimators.find? id = some e') ∧
          s''.mNumberOfTrackedFrames.getD id 0 =
            (s.mConfig.mMaxNumberOfUnreliableFrames - s.mConfig.mReactivationFrames
              + fs.length) % UINT32_MOD := by
        rcases run_measured ops id fs s' s'' e1 post.wf oa hmeas hrun with
          ⟨w, c, he, ht⟩ | ⟨hnil, hss⟩
        · exact ⟨w, c, he, by rw [ht, htf]⟩
        · subst hss
          subst hnil
          refine ⟨post.wf, rfl, ⟨e1, oa⟩, ?_⟩
          rw [htf]
          simp only [List.length_nil, Nat.add_zero]
          symm
          apply Nat.mod_eq_of_lt
          omega
      obtain ⟨w, c, he, ht⟩ := key
      constructor
      · intro hlt
        rw [inReliableTracks_iff s'' w.activeNodup]
        rintro ⟨_, hr⟩
        rw [ht, c, post.config, Nat.mod_eq_of_lt (by omega)] at hr
        omega
      · intro heq
        rw [inReliableTracks_iff s'' w.activeNodup]
        refine ⟨he, ?_⟩
        rw [ht, c, post.config, heq, Nat.mod_eq_of_lt (by omega)]
        omega

/-- C6. In a state that satisfies the invariant, the first loop of `correct()` updates the
counters of every active id: with a pending measurement `mNonMeasurementFrames[id]` becomes 0
and `mNumberOfTrackedFrames[id]` is incremented; without one `mNonMeasurementFrames[id]` is
incremented and `mNumberOfTrackedFrames[id]` is unchanged.  The increments are those of a
`uint32_t`: the new value is the old one plus 1 modulo `2^32`, hence exactly the old one plus 1
unless the counter is at its maximum. -/
theorem C6_first_phase_counter_update {K : Type} (ops : EstimatorOps K) (s s1 : TrackManager K)
    (id : Id) (e : MultiModelKalmanEstimator K)
    (hwf : s.WF) (ha : s.mKalmanEstimators.find? id = some e)
    (h : correctPhase1 ops s = some s1) :
    (s.mMeasurementMap.count id > 0 →
      s1.mNonMeasurementFrames.find? id = some 0 ∧
      s1.mNumberOfTrackedFrames.find? id =
        some ((s.mNumberOfTrackedFrames.getD id 0 + 1) % UINT32_MOD) ∧
      (s.mNumberOfTrackedFrames.getD id 0 + 1 < UINT32_MOD →
        s1.mNumberOfTrackedFrames.getD id 0 = s.mNumberOfTrackedFrames.getD id 0 + 1)) ∧
    (s.mMeasurementMap.count id = 0 →
      s1.mNonMeasurementFrames.find? id =
        some ((s.mNonMeasurementFrames.getD id 0 + 1) % UINT32_MOD) ∧
      (s.mNonMeasurementFrames.getD id 0 + 1 < UINT32_MOD →
        s1.mNonMeasurementFrames.getD id 0 = s.mNonMeasurementFrames.getD id 0 + 1) ∧
      s1.mNumberOfTrackedFrames.find? id = s.mNumberOfTrackedFrames.find? id) := by
  obtain ⟨_, _, _, _, _, _, act1, _, _⟩ := correctPhase1_spec ops s s1 hwf h
  obtain ⟨e1, _, _, hn, ht⟩ := act1 id e ha
  have hcount : s.mMeasurementMap.count id > 0 ↔ s.pendingNow id = true := by
    unfold UMap.count UMap.contains pendingNow
    cases s.mMeasurementMap.find? id <;> simp
  constructor
  · intro hc
    have hp := hcount.mp hc
    simp only [nmfUpdated, tfUpdated, hp, if_true] at hn ht
    refine ⟨hn, ht, ?_⟩
    intro hlt
    rw [getD_of_find? _ _ _ _ ht, Nat.mod_eq_of_lt hlt]
  · intro hc
    have hp : s.pendingNow id = false := by
      cases hx : s.pendingNow id with
      | false => rfl
      | true =>
        have := hcount.mpr hx
        omega
    simp only [nmfUpdated, tfUpdated, hp, Bool.false_eq_true, if_false] at hn ht
    refine ⟨hn, ?_, ?_⟩
    · intro hlt
      rw [getD_of_find? _ _ _ _ hn, Nat.mod_eq_of_lt hlt]
    · rw [ht]
      obtain ⟨v, hv⟩ := find?_some_of_mem_keys _ _
        (hwf.tfKeys id (mem_keys_of_find? _ _ _ ha))
      rw [hv, getD_of_find? _ _ _ _ hv]

/-- Witness of C3: the static reliable track 1 is suspended by the second cycle without a
measurement (one miss is tolerated) and keeps its estimator and its two tracked frames. -/
theorem C3_correct_suspends_track_iff_witness :
    suspendedState.mSuspendedKalmanEstimators.find? 1 = some staticEstimator ∧
    suspendedState.mNumberOfTrackedFrames.find? 1 =
      some (aboutToSuspend.mNumberOfTrackedFrames.getD 1 0) ∧
    ¬ suspendedState.inReliableTracks 1 ∧ ¬ suspendedState.inUnreliableTracks 1 ∧
    staticEstimator.currentState ∈ suspendedState.getSuspendedTracks ∧
    staticEstimator.currentState ∈ suspendedState.getTracks :=
  (C3_correct_suspends_track_iff exampleOps aboutToSuspend suspendedState 1 staticEstimator
    (wf_of_check _ (by decide!)) (by decide!) (by decide!)).2 (by decide!)

/-- Witness of C4: the suspended track 1 is reactivated with one tracked frame (two frames to
reliability, one reactivation frame), is unreliable, and is reliable after one more
correction. -/
theorem C4_correct_reactivates_suspended_witness :
    reactivatedState.inUnreliableTracks 1 ∧ reconfirmedState.inReliableTracks 1 :=
  have h := (C4_correct_reactivates_suspended exampleOps aboutToReactivate reactivatedState 1
    staticEstimator exampleObject (wf_of_check _ (by decide!)) (by decide!) (by decide!)
    (by decide!)).2.2.2.2.2 (by decide!) (by decide!) (by decide!)
  ⟨h.1, ((h.2 [measuredFrame] reconfirmedState (by decide) (by decide!)).2 (by decide!))⟩

/-- Witness of C6: in the first loop of `correct()` the freshly created track 1, which has a
pending measurement, gets non-measurement counter 0 and tracked-frames counter 1. -/
theorem C6_first_phase_counter_update_witness :
    afterFirstLoop.mNonMeasurementFrames.find? 1 = some 0 ∧
    afterFirstLoop.mNumberOfTrackedFrames.find? 1 =
      some ((aboutToCorrect.mNumberOfTrackedFrames.getD 1 0 + 1) % UINT32_MOD) ∧
    (aboutToCorrect.mNumberOfTrackedFrames.getD 1 0 + 1 < UINT32_MOD →
      afterFirstLoop.mNumberOfTrackedFrames.getD 1 0 =
        aboutToCorrect.mNumberOfTrackedFrames.getD 1 0 + 1) :=
  (C6_first_phase_counter_update exampleOps aboutToCorrect afterFirstLoop 1
    (aboutToCorrect.mKalmanEstimators.getD 1 MultiModelKalmanEstimator.default)
    (wf_of_check _ (by decide!)) (by decide!) (by decide!)).1 (by decide!)

/-- C5, counterexample.  With the default threshold of two frames, track 1 is created, then
measured, missed and measured again: it never received two corrections in a row, and it is
reliable. -/
theorem C5_counterexample :
    emptyManager.mConfig.mMaxNumberOfUnreliableFrames = 2 ∧
    run exampleOps [measuredFrame, missedFrame, measuredFrame]
      (emptyManager.createTrack exampleOps exampleObject 0).2 = some measuredMissedMeasured ∧
    longestMeasuredRun 1 [measuredFrame, missedFrame, measuredFrame] 0 0 = 1 ∧
    measuredMissedMeasured.inReliableTracks 1 := by
  refine ⟨by decide, by decide!, by decide, ?_⟩
  unfold TrackManager.inReliableTracks
  decide!

/-- C5, amended.  A track is promoted to reliable by `mMaxNumberOfUnreliableFrames` corrections
in total, consecutive or not: for a track created by `createTrack`, as long as no gap between
measurements is long enough for a deletion or a suspension, the tracked-frames counter is the
number of cycles with a measurement (a cycle without one leaves it unchanged), and the track is
in `getReliableTracks` exactly when that number has reached the threshold. -/
theorem C5_reliable_by_total_corrections {K : Type} (ops : EstimatorOps K)
    (s s' : TrackManager K) (o : TrackedObject) (t : ℚ) (fs : List Frame)
    (hwf : s.WF)
    (hfresh : (s.createTrack ops o t).1 ∉ UMap.keys s.mSuspendedKalmanEstimators)
    (hD : s.mConfig.mNonMeasurementFramesDynamic < UINT32_MOD)
    (hlen : fs.length < UINT32_MOD)
    (hgap : gapsWithin
      (min s.mConfig.mNonMeasurementFramesDynamic s.mConfig.mNonMeasurementFramesStatic)
      (s.createTrack ops o t).1 0 fs = true)
    (hrun : run ops fs (s.createTrack ops o t).2 = some s') :
    s'.mNumberOfTrackedFrames.getD (s.createTrack ops o t).1 0 =
      fs.countP (Frame.measures (s.createTrack ops o t).1) ∧
    (s'.inReliableTracks (s.createTrack ops o t).1 ↔
      fs.countP (Frame.measures (s.createTrack ops o t).1) ≥
        s.mConfig.mMaxNumberOfUnreliableFrames) := by
  obtain ⟨hc, _, _, ⟨e0, ha, _⟩, hn, ht⟩ := createTrack_maps ops s o t
  have wf1 := createTrack_wf ops s o t hwf hfresh
  generalize hid : (s.createTrack ops o t).1 = id at *
  generalize hs1 : (s.createTrack ops o t).2 = s1 at *
  have ha1 : s1.mKalmanEstimators.find? id = some e0 := by
    rw [ha, UMap.find?_assign]
    simp
  have ht1 : s1.mNumberOfTrackedFrames.getD id 0 = 0 := by
    rw [ht]
    simp [UMap.getD, UMap.find?_assign]
  have hn1 : s1.mNonMeasurementFrames.getD id 0 = 0 := by
    rw [hn]
    simp [UMap.getD, UMap.find?_assign]
  obtain ⟨w, c, ⟨e', he'⟩, htf⟩ := run_mixed ops id fs s1 s' e0 wf1 ha1
    (by rw [hn1, hc]; exact hgap) (by rw [hc]; exact hD)
    (by rw [ht1]; unfold UINT32_MOD; omega) hrun
  have hcount : fs.countP (Frame.measures id) < UINT32_MOD :=
    lt_of_le_of_lt (List.countP_le_length _) hlen
  rw [ht1, Nat.zero_add, Nat.mod_eq_of_lt hcount] at htf
  refine ⟨htf, ?_⟩
  rw [inReliableTracks_iff s' w.activeNodup, htf, c, hc]
  constructor
  · rintro ⟨_, hr⟩
    exact hr
  · intro hr
    exact ⟨⟨e', he'⟩, hr⟩

/-- Witness of C5 as amended: measured, missed, measured gives two tracked frames and a reliable
track under the threshold of two frames. -/
theorem C5_reliable_by_total_corrections_witness :
    measuredMissedMeasured.mNumberOfTrackedFrames.getD 1 0 = 2 ∧
    measuredMissedMeasured.inReliableTracks 1 :=
  have h := C5_reliable_by_total_corrections exampleOps emptyManager measuredMissedMeasured
    exampleObject 0 [measuredFrame, missedFrame, measuredFrame] emptyManager_wf (by decide)
    (by decide) (by decide) (by decide) (by decide!)
  ⟨h.1, h.2.mpr (by decide)⟩

/-- C10. For every state and object `o`, after `id = createTrack(o, t)` the call `getTrack(id)`
returns `o` with its id replaced by `id`: the twelve kinematic and size fields, the
classification and the attributes are those of `o`; and both counters of `id` are 0. -/
theorem C10_createTrack_getTrack {K : Type} (ops : EstimatorOps K) (s : TrackManager K)
    (o : TrackedObject) (t : ℚ) :
    (s.createTrack ops o t).2.getTrack (s.createTrack ops o t).1 =
      some { o with id := (s.createTrack ops o t).1 } ∧
    (∃ o', (s.createTrack ops o t).2.getTrack (s.createTrack ops o t).1 = some o' ∧
      o'.id = (s.createTrack ops o t).1 ∧
      o'.x = o.x ∧ o'.y = o.y ∧ o'.vx = o.vx ∧ o'.vy = o.vy ∧ o'.ax = o.ax ∧ o'.ay = o.ay ∧
      o'.z = o.z ∧ o'.length = o.length ∧ o'.width = o.width ∧ o'.height = o.height ∧
      o'.yaw = o.yaw ∧ o'.w = o.w ∧
      o'.classification = o.classification ∧ o'.attributes = o.attributes) ∧
    (s.createTrack ops o t).2.mNonMeasurementFrames.find? (s.createTrack ops o t).1 = some 0 ∧
    (s.createTrack ops o t).2.mNumberOfTrackedFrames.find? (s.createTrack ops o t).1 = some 0 := by
  obtain ⟨_, _, _, ⟨e, ha, hcur⟩, hn, ht⟩ := createTrack_maps ops s o t
  have hget : (s.createTrack ops o t).2.getTrack (s.createTrack ops o t).1 =
      some { o with id := (s.createTrack ops o t).1 } := by
    unfold getTrack getKalmanEstimator
    have hf : (s.createTrack ops o t).2.mKalmanEstimators.find? (s.createTrack ops o t).1
        = some e := by
      rw [ha, UMap.find?_assign]
      simp
    have hc : (s.createTrack ops o t).2.mKalmanEstimators.count (s.createTrack ops o t).1 > 0 := by
      simp [UMap.count, UMap.contains, hf]
    simp only [hc, if_true, Option.map_some', UMap.getD, hf, Option.getD_some, hcur]
  refine ⟨hget, ⟨_, hget, rfl, rfl, rfl, rfl, rfl, rfl, rfl, rfl, rfl, rfl, rfl, rfl, rfl,
    rfl, rfl⟩, ?_, ?_⟩
  · rw [hn, UMap.find?_assign]
    simp
  · rw [ht, UMap.find?_assign]
    simp

/-- C7 (against the gated matcher modelled from the spec).  For non-empty lists of tracks and
measurements, every distance type and every threshold, the result of `match` satisfies: every
assignment `(row, col)` has `distance(measurements[col], tracks[row]) <= threshold`; no row and
no column occurs in two assignments; and every track index (measurement index) occurs exactly
once among the assigned rows (columns) and `unassignedTracks` (`unassignedMeasurements`). -/
theorem C7_match_contract (R : RealOps) (tracks measurements : List TrackedObject)
    (prev res : MatchResult) (distanceType : DistanceType) (threshold : ℚ)
    (ht : tracks ≠ []) (hm : measurements ≠ [])
    (h : matchObjects R tracks measurements prev distanceType threshold = some res) :
    (∀ p ∈ res.assignments, ∃ track measurement d,
      tracks[p.1]? = some track ∧ measurements[p.2]? = some measurement ∧
      distanceFunction R distanceType measurement track = some d ∧ d ≤ threshold) ∧
    (res.assignments.map Prod.fst).Nodup ∧ (res.assignments.map Prod.snd).Nodup ∧
    (res.assignments.map Prod.fst ++ res.unassignedTracks).Perm (List.range tracks.length) ∧
    (res.assignments.map Prod.snd ++ res.unassignedMeasurements).Perm
      (List.range measurements.length) := by
  unfold matchObjects at h
  have hne : (measurements.isEmpty || tracks.isEmpty) = false := by
    cases tracks with
    | nil => exact absurd rfl ht
    | cons _ _ =>
      cases measurements with
      | nil => exact absurd rfl hm
      | cons _ _ => rfl
  simp only [hne, Bool.false_eq_true, if_false] at h
  cases hc : collect (tracks.map (fun track =>
      collect (measurements.map (fun measurement =>
        distanceFunction R distanceType measurement track)))) with
  | none => simp [hc] at h
  | some costMatrix =>
    simp only [hc, Option.some.injEq] at h
    subst h
    obtain ⟨g1, g2, g3, g4, g5⟩ := gatedHungarianMatch_spec costMatrix tracks.length
      measurements.length threshold kDefaultClassBoundValue
    refine ⟨?_, g2, g3, g4, g5⟩
    intro p hp
    obtain ⟨hle, hi, hj⟩ := g1 p hp
    obtain ⟨track, measurement, e1, e2, e3⟩ :=
      costMatrix_entry (distanceFunction R distanceType) tracks measurements costMatrix hc
        p.1 p.2 hi hj
    exact ⟨track, measurement, _, e1, e2, e3, hle⟩

/-- Witness of C7: two tracks and two measurements, Euclidean distance, threshold 5: the
measurement three metres from the first track is assigned to it, the far one is not
assigned. -/
theorem C7_match_contract_witness :
    (matchObjects exampleReal [exampleObject, exampleObjectFar]
        [exampleObjectEast, { y := 80 }] {} DistanceType.Euclidean 5 =
      some { assignments := [(0, 0)], unassignedTracks := [1], unassignedMeasurements := [1] }) ∧
    (([(0, 0)] : List (Nat × Nat)).map Prod.fst ++ [1]).Perm (List.range 2) :=
  ⟨by decide!,
    (C7_match_contract exampleReal [exampleObject, exampleObjectFar]
      [exampleObjectEast, { y := 80 }] {}
      { assignments := [(0, 0)], unassignedTracks := [1], unassignedMeasurements := [1] }
      DistanceType.Euclidean 5 (by decide) (by decide) (by decide!)).2.2.2.1⟩

/-- C8. When `tracks` or `measurements` is empty, `match` returns no assignment,
`unassignedTracks = [0, ..., |tracks| - 1]` and
`unassignedMeasurements = [0, ..., |measurements| - 1]`, in increasing order, whatever the
output vectors held before the call. -/
theorem C8_match_empty (R : RealOps) (tracks measurements : List TrackedObject)
    (prev : MatchResult) (distanceType : DistanceType) (threshold : ℚ)
    (h : tracks = [] ∨ measurements = []) :
    matchObjects R tracks measurements prev distanceType threshold =
      some { assignments := [], unassignedTracks := List.range tracks.length,
             unassignedMeasurements := List.range measurements.length } ∧
    (∀ i, i < tracks.length → (List.range tracks.length)[i]? = some i) ∧
    (∀ j, j < measurements.length → (List.range measurements.length)[j]? = some j) := by
  refine ⟨?_, ?_, ?_⟩
  · unfold matchObjects
    have he : (measurements.isEmpty || tracks.isEmpty) = true := by
      rcases h with h | h
      · simp [h]
      · simp [h]
    simp only [he, if_true]
  · intro i hi
    simp [List.getElem?_range, hi]
  · intro j hj
    simp [List.getElem?_range, hj]

/-- Witness of C8: no track, two measurements, and output vectors that were not empty. -/
theorem C8_match_empty_witness :
    matchObjects exampleReal [] [exampleObject, exampleObjectEast]
        { assignments := [(7, 7)], unassignedTracks := [3], unassignedMeasurements := [4, 5] }
        DistanceType.Mahalanobis 5 =
      some { assignments := [], unassignedTracks := List.range 0,
             unassignedMeasurements := List.range 2 } :=
  (C8_match_empty exampleReal [] [exampleObject, exampleObjectEast]
    { assignments := [(7, 7)], unassignedTracks := [3], unassignedMeasurements := [4, 5] }
    DistanceType.Mahalanobis 5 (Or.inl rfl)).1

/-- C9. A call of `MultipleObjectTracker::track` with a non-empty detection list, on a manager
that satisfies the invariant, returns exactly when the matching passes and `correct()` return,
and then its manager is the one after `correct()` with one `createTrack` for each element of
`births`, the detections that the suspended pass left unassigned.  The detections assigned by
the reliable, the unreliable and the suspended pass, together with `births`, are a
rearrangement of the high-score detections: an assigned detection creates no track, and every
birth has a best class probability of at least `scoreThreshold`, so a low-score detection
creates none.  With auto-id generation and ids not above the id counter, `getTracks` grows by
one track for each birth.  In particular, on a tracker without tracks the call returns and
leaves `getTracks` with as many tracks as there are high-score detections. -/
theorem C9_track_creates_unassigned_high_score {K : Type} (ops : EstimatorOps K) (R : RealOps)
    (t : MultipleObjectTracker K) (objects : List TrackedObject) (timestamp : ℚ)
    (distanceType : DistanceType) (distanceThreshold scoreThreshold : ℚ)
    (hne : objects ≠ []) (hwf : t.mTrackManager.WF) :
    (∀ t1, MultipleObjectTracker.track ops R t objects timestamp distanceType distanceThreshold
        scoreThreshold = some t1 →
      ∃ p m, MultipleObjectTracker.associate ops R t objects timestamp distanceType
          distanceThreshold scoreThreshold = some p ∧
        p.manager.correct ops = some m ∧
        t1.mTrackManager =
          (MultipleObjectTracker.births p).foldl
            (fun m o => (m.createTrack ops o timestamp).2) m ∧
        (MultipleObjectTracker.assignedHighScore p ++ MultipleObjectTracker.births p).Perm
          (objects.filter (fun o => decide (maxCoeff o.classification ≥ scoreThreshold))) ∧
        (∀ b ∈ MultipleObjectTracker.births p, maxCoeff b.classification ≥ scoreThreshold) ∧
        (t.mTrackManager.mAutoIdGeneration = true →
          (∀ k ∈ UMap.keys t.mTrackManager.mKalmanEstimators, k ≤ t.mTrackManager.mCurrentId) →
          (∀ k ∈ UMap.keys t.mTrackManager.mSuspendedKalmanEstimators,
            k ≤ t.mTrackManager.mCurrentId) →
          t1.getTracks.length = m.getTracks.length + (MultipleObjectTracker.births p).length)) ∧
    (t.mTrackManager.mKalmanEstimators = [] → t.mTrackManager.mSuspendedKalmanEstimators = [] →
      t.mTrackManager.mAutoIdGeneration = true →
      ∃ t1, MultipleObjectTracker.track ops R t objects timestamp distanceType distanceThreshold
          scoreThreshold = some t1 ∧
        t1.getTracks.length =
          (objects.filter (fun o => decide (maxCoeff o.classification ≥ scoreThreshold))).length) := by
  constructor
  · intro t1 ht
    obtain ⟨p, m, ha, hc, rfl⟩ := (MultipleObjectTracker.track_eq_some_iff ops R t objects
      timestamp distanceType distanceThreshold scoreThreshold hne t1).mp ht
    obtain ⟨hhigh, _, hperm⟩ := MultipleObjectTracker.associate_perm ops R t objects timestamp
      distanceType distanceThreshold scoreThreshold p ha
    have hperm1 : (MultipleObjectTracker.assignedHighScore p ++
        MultipleObjectTracker.births p).Perm (objects.filter (divider scoreThreshold)) := by
      rw [← hhigh]
      exact hperm
    refine ⟨p, m, ha, hc, rfl, hperm1, ?_, ?_⟩
    · intro b hb
      have hmem : b ∈ objects.filter (divider scoreThreshold) :=
        hperm1.subset (List.mem_append_right _ hb)
      exact of_decide_eq_true (List.mem_filter.mp hmem).2
    · intro hauto hact hsus
      obtain ⟨hcur, hflag, hkeys⟩ := MultipleObjectTracker.associate_correct_ids ops R t objects
        timestamp distanceType distanceThreshold scoreThreshold p m hwf ha hc
      have hle : ∀ k ∈ UMap.keys m.mKalmanEstimators, k ≤ m.mCurrentId := by
        intro k hk
        rw [hcur]
        rcases hkeys k hk with h | h
        · exact hact k h
        · exact hsus k h
      exact createTrack_fold_length ops timestamp (MultipleObjectTracker.births p) m
        (hflag.trans hauto) hle
  · intro hact hsus hauto
    have ha := MultipleObjectTracker.associate_empty ops R t objects timestamp distanceType
      distanceThreshold scoreThreshold hact hsus
    have hnmf : t.mTrackManager.mNonMeasurementFrames = [] := by
      cases hn : t.mTrackManager.mNonMeasurementFrames with
      | nil => rfl
      | cons q rest =>
        have h1 : q.1 ∈ UMap.keys t.mTrackManager.mNonMeasurementFrames := by
          rw [hn]
          exact List.mem_cons_self _ _
        have h2 := (hwf.nmfKeys q.1).mp h1
        rw [hact] at h2
        exact absurd h2 (List.not_mem_nil _)
    have hc : TrackManager.correct ops
        ({ t.mTrackManager with mMeasurementMap := [] } : TrackManager K) =
        some { t.mTrackManager with mMeasurementMap := [] } :=
      correct_no_tracks ops _ hact hsus hnmf
    refine ⟨_, (MultipleObjectTracker.track_eq_some_iff ops R t objects timestamp distanceType
      distanceThreshold scoreThreshold hne _).mpr ⟨_, _, ha, hc, rfl⟩, ?_⟩
    have hlen := createTrack_fold_length ops timestamp (objects.filter (divider scoreThreshold))
      ({ t.mTrackManager with mMeasurementMap := [] } : TrackManager K) hauto
      (by intro k hk; rw [hact] at hk; exact absurd hk (List.not_mem_nil _))
    simp only [MultipleObjectTracker.getTracks, MultipleObjectTracker.births,
      MultipleObjectTracker.filterByIndex_range]
    rw [hlen]
    simp only [TrackManager.getTracks, hact, hsus, List.map_nil, List.append_nil,
      List.length_nil, Nat.zero_add]
    rfl

/-- Witness of C9: on a fresh tracker the first call creates one track for each of the two
high-score detections; in the second call the unreliable pass assigns the first detection to
track 1, and `createTrack` is called for the third detection only. -/
theorem C9_track_creates_unassigned_high_score_witness :
    (∃ t1, MultipleObjectTracker.track exampleOps exampleReal freshTracker firstDetections 1
        DistanceType.Euclidean 5 (1 / 2) = some t1 ∧
      t1.getTracks.length =
        (firstDetections.filter (fun o => decide (maxCoeff o.classification ≥ 1 / 2))).length) ∧
    ∃ p m, MultipleObjectTracker.associate exampleOps exampleReal trackerAfterFirstCall
        secondDetections 2 DistanceType.Euclidean 5 (1 / 2) = some p ∧
      p.manager.correct exampleOps = some m ∧
      trackerAfterSecondCall.mTrackManager =
        (MultipleObjectTracker.births p).foldl
          (fun m o => (m.createTrack exampleOps o 2).2) m ∧
      (MultipleObjectTracker.assignedHighScore p ++ MultipleObjectTracker.births p).Perm
        (secondDetections.filter (fun o => decide (maxCoeff o.classification ≥ 1 / 2))) ∧
      trackerAfterSecondCall.getTracks.length =
        m.getTracks.length + (MultipleObjectTracker.births p).length := by
  have hwf : trackerAfterFirstCall.mTrackManager.WF := wf_of_check _ (by decide!)
  have hwf0 : freshTracker.mTrackManager.WF := wf_of_check _ (by decide!)
  obtain ⟨p, m, h1, h2, h3, h4, _, h6⟩ :=
    (C9_track_creates_unassigned_high_score exampleOps exampleReal trackerAfterFirstCall
      secondDetections 2 DistanceType.Euclidean 5 (1 / 2) (List.cons_ne_nil _ _) hwf).1
      trackerAfterSecondCall (by decide!)
  exact ⟨(C9_track_creates_unassigned_high_score exampleOps exampleReal freshTracker
      firstDetections 1 DistanceType.Euclidean 5 (1 / 2) (List.cons_ne_nil _ _) hwf0).2
      rfl rfl rfl,
    p, m, h1, h2, h3, h4, h6 (by decide!) (by decide!) (by decide!)⟩

/-- C11. With automatic id generation, `createTrack` returns `mCurrentId + 1` and stores it
as the new `mCurrentId`, whatever id the object carries (overflow of the `int32_t` counter is
outside the embedding).  Successive calls therefore return `mCurrentId + 1`, `mCurrentId + 2`,
... (that is 1, 2, 3, ... from a new manager), each id greater than all ids returned before.
In a state in which no active or suspended id is above `mCurrentId`, none of the new ids is
the id of an active or suspended track, and a call keeps all ids at or below `mCurrentId`.
Without automatic id generation `createTrack` returns the id of the object and leaves
`mCurrentId` as it is.  The other calls of a tracking cycle, `predict`, `setMeasurement` and
`correct`, leave `mCurrentId` as it is and bring no new id into the manager. -/
theorem C11_createTrack_ids {K : Type} (ops : EstimatorOps K) (s : TrackManager K)
    (o : TrackedObject) (timestamp : ℚ) :
    (s.mAutoIdGeneration = true →
      (s.createTrack ops o timestamp).1 = s.mCurrentId + 1 ∧
      (s.createTrack ops o timestamp).2.mCurrentId = s.mCurrentId + 1 ∧
      (∀ os : List TrackedObject,
        (s.createTracks ops os timestamp).1 =
          (List.range os.length).map (fun (i : Nat) => s.mCurrentId + 1 + (i : Int)) ∧
        (s.createTracks ops os timestamp).1.Pairwise (fun a b => a < b)) ∧
      ((∀ k, s.hasId k = true → k ≤ s.mCurrentId) →
        (∀ os : List TrackedObject, ∀ id ∈ (s.createTracks ops os timestamp).1,
          s.hasId id = false) ∧
        ∀ k, (s.createTrack ops o timestamp).2.hasId k = true →
          k ≤ (s.createTrack ops o timestamp).2.mCurrentId)) ∧
    (s.mAutoIdGeneration = false →
      (s.createTrack ops o timestamp).1 = o.id ∧
      (s.createTrack ops o timestamp).2.mCurrentId = s.mCurrentId) ∧
    ((∀ deltaT : ℚ, (s.predict ops deltaT).mCurrentId = s.mCurrentId ∧
        ∀ k, (s.predict ops deltaT).hasId k = s.hasId k) ∧
      (∀ (id : Id) (m : TrackedObject), (s.setMeasurement id m).mCurrentId = s.mCurrentId ∧
        ∀ k, (s.setMeasurement id m).hasId k = s.hasId k) ∧
      (s.WF → ∀ s1, s.correct ops = some s1 →
        s1.mCurrentId = s.mCurrentId ∧ ∀ k, s1.hasId k = true → s.hasId k = true)) := by
  refine ⟨?_, ?_, ⟨fun deltaT => ⟨rfl, predict_hasId ops s deltaT⟩,
    fun id m => ⟨rfl, fun _ => rfl⟩,
    fun hwf s1 h1 => ⟨(correct_post ops s s1 hwf h1).currentId, correct_hasId ops s s1 hwf h1⟩⟩⟩
  · intro hauto
    obtain ⟨h1, h2, _⟩ := createTrack_auto ops s o timestamp hauto
    refine ⟨h1, h2, ?_, ?_⟩
    · intro os
      have hids := createTracks_ids ops s os timestamp hauto
      refine ⟨hids, ?_⟩
      rw [hids, List.pairwise_map]
      refine List.Pairwise.imp ?_ (List.pairwise_lt_range os.length)
      intro a b hab
      have : (a : Int) < (b : Int) := by exact_mod_cast hab
      linarith
    · intro hle
      constructor
      · intro os id hid
        rw [createTracks_ids ops s os timestamp hauto] at hid
        obtain ⟨i, _, hi⟩ := List.mem_map.mp hid
        by_contra hcon
        have hk : s.hasId id = true := by simpa using hcon
        have h3 : (id : Int) ≤ s.mCurrentId := hle id hk
        have h4 : (0 : Int) ≤ (i : Int) := Int.ofNat_nonneg i
        have h5 : (s.mCurrentId : Int) + 1 + (i : Int) = id := hi
        linarith
      · intro k hk
        rw [h2]
        rcases (createTrack_hasId ops s o timestamp k).mp hk with h | h
        · rw [h, h1]
        · have h3 : (k : Int) ≤ s.mCurrentId := hle k h
          have h4 : (k : Int) ≤ s.mCurrentId + 1 := by linarith
          exact h4
  · intro hman
    constructor <;> simp [createTrack, hman]

/-- Witness of C11: three calls on a new manager return 1, 2 and 3, although the second object
carries the id 7; a manager without automatic id generation returns 7 for that object. -/
theorem C11_createTrack_ids_witness :
    (emptyManager.createTracks exampleOps
        [exampleObject, exampleObjectWithId, exampleObjectEast] 0).1 = [1, 2, 3] ∧
      (manualIdManager.createTrack exampleOps exampleObjectWithId 0).1 = 7 := by
  have h := C11_createTrack_ids exampleOps emptyManager exampleObjectWithId 0
  have g := C11_createTrack_ids exampleOps manualIdManager exampleObjectWithId 0
  exact ⟨((h.1 rfl).2.2.1 [exampleObject, exampleObjectWithId, exampleObjectEast]).1.trans
    (by decide), (g.2.1 rfl).1⟩

/-- C13. In every state, `getTracks` returns the current states of all active estimators
followed by those of all suspended estimators, so its length is the number of active plus the
number of suspended tracks; `getReliableTracks` returns the active tracks for which
`isReliable` holds and `getUnreliableTracks` those for which it does not, so the two lists
together are a rearrangement of the active tracks; `getSuspendedTracks` returns the suspended
tracks; and `getDriftingTracks` returns the active tracks that are reliable and whose
non-measurement counter (0 without entry) exceeds the integer quotient
`mNonMeasurementFramesDynamic / 2`. -/
theorem C13_accessors {K : Type} (s : TrackManager K) :
    (s.getTracks =
        s.mKalmanEstimators.map (fun p => p.2.currentState) ++
          s.mSuspendedKalmanEstimators.map (fun p => p.2.currentState) ∧
      s.getTracks.length = s.mKalmanEstimators.length + s.mSuspendedKalmanEstimators.length) ∧
    (s.getReliableTracks.1 =
        (s.mKalmanEstimators.filter (fun p => (s.isReliable p.1).1)).map
          (fun p => p.2.currentState) ∧
      s.getUnreliableTracks.1 =
        (s.mKalmanEstimators.filter (fun p => !(s.isReliable p.1).1)).map
          (fun p => p.2.currentState) ∧
      (s.getReliableTracks.1 ++ s.getUnreliableTracks.1).Perm
        (s.mKalmanEstimators.map (fun p => p.2.currentState))) ∧
    s.getSuspendedTracks = s.mSuspendedKalmanEstimators.map (fun p => p.2.currentState) ∧
    s.getDriftingTracks.1 =
      (s.mKalmanEstimators.filter (fun p => (s.isReliable p.1).1 &&
        decide (s.mNonMeasurementFrames.getD p.1 0 >
          s.mConfig.mNonMeasurementFramesDynamic / 2))).map (fun p => p.2.currentState) := by
  have hr : s.getReliableTracks.1 =
      (s.mKalmanEstimators.filter (fun p => (s.isReliable p.1).1)).map
        (fun p => p.2.currentState) := by
    unfold getReliableTracks
    rw [reliableEntries_eq]
    rfl
  have hu : s.getUnreliableTracks.1 =
      (s.mKalmanEstimators.filter (fun p => !(s.isReliable p.1).1)).map
        (fun p => p.2.currentState) := by
    unfold getUnreliableTracks
    rw [unreliableEntries_eq]
    rfl
  refine ⟨⟨rfl, by simp [getTracks]⟩, ⟨hr, hu, ?_⟩, rfl, ?_⟩
  · rw [hr, hu, ← List.map_append]
    exact List.Perm.map _ (List.filter_append_perm _ _)
  · unfold getDriftingTracks
    rw [driftingEntries_eq]
    rfl

/-- C14. For classification vectors `a` and `b` of equal length, `combine(a, b)` returns the
vector whose component `i` is `a_i * b_i / (sum(p) + uA * uB + 1e-6)`, where `p` is the
element-wise product, `uA = clamp(1 - sum(a), 0, 1)` and `uB = clamp(1 - sum(b), 0, 1)`. -/
theorem C14_combine_formula (a b : Classification) (h : a.length = b.length) :
    classification.combine a b = some (specCombine a b) := by
  rw [combine_eq_some a b h]
  unfold specCombine
  rw [productSum_eq a b h, ← clamp_eq_specClamp _ 0 1 zero_le_one,
    ← clamp_eq_specClamp _ 0 1 zero_le_one]
  rw [zipWith_eq_map_range (fun x y => x * y) a b h, List.map_map]
  rfl

/-- Witness of C14: `combine([1/2, 1/4], [1/2, 1/2])`, with `uA = 1/4` and `uB = 0`. -/
theorem C14_combine_formula_witness :
    classification.combine [1 / 2, 1 / 4] [1 / 2, 1 / 2] =
      some [250000 / 375001, 125000 / 375001] :=
  (C14_combine_formula [1 / 2, 1 / 4] [1 / 2, 1 / 2] rfl).trans (by decide!)

/-- C15. Each of `classification::combine`, `classification::distance` and
`classification::similarity` throws if and only if the two vectors have different lengths;
the arguments are used as they are, and the vector returned by `combine` has their common
length. -/
theorem C15_dimension_mismatch (R : RealOps) (a b : Classification) :
    (classification.combine a b = none ↔ a.length ≠ b.length) ∧
    (classification.distance R a b = none ↔ a.length ≠ b.length) ∧
    (classification.similarity R a b = none ↔ a.length ≠ b.length) ∧
    (∀ r, classification.combine a b = some r → r.length = a.length ∧ r.length = b.length) := by
  have hd : classification.distance R a b = none ↔ a.length ≠ b.length := by
    unfold classification.distance
    by_cases h : a.length = b.length <;> simp [h]
  refine ⟨?_, hd, ?_, ?_⟩
  · unfold classification.combine
    by_cases h : a.length = b.length <;> simp [h]
  · rw [← hd]
    unfold classification.similarity
    cases classification.distance R a b <;> simp
  · intro r hr
    by_cases h : a.length = b.length
    · rw [combine_eq_some a b h] at hr
      cases hr
      simp [h]
    · simp [classification.combine, h] at hr

/-- Witness of C15: `combine` and `similarity` throw on vectors of the lengths 1 and 2. -/
theorem C15_dimension_mismatch_witness :
    classification.combine [1] [1 / 2, 1 / 2] = none ∧
      classification.similarity exampleReal [1] [1 / 2, 1 / 2] = none :=
  ⟨(C15_dimension_mismatch exampleReal [1] [1 / 2, 1 / 2]).1.mpr (by decide),
    (C15_dimension_mismatch exampleReal [1] [1 / 2, 1 / 2]).2.2.1.mpr (by decide)⟩

/-- C16. For proper distributions `a` and `b` of equal length, `classification::distance`
returns `sqrt(0.5 * sum_i (a_i - b_i)^2)`, and the radicand lies in `[0, 1]`.  With a square
root that maps `[0, 1]` into itself the distance lies in `[0, 1]`, and `similarity` returns
`1 - distance`, which lies in `[0, 1]` as well. -/
theorem C16_distance_unit_interval (R : RealOps) (a b : Classification)
    (hlen : a.length = b.length) (ha : IsDistribution a) (hb : IsDistribution b) :
    ∃ d, classification.distance R a b = some d ∧
      d = R.sqrt (1 / 2 * ((List.range a.length).map
        (fun i => (a.getD i 0 - b.getD i 0) * (a.getD i 0 - b.getD i 0))).sum) ∧
      0 ≤ 1 / 2 * ((List.range a.length).map
        (fun i => (a.getD i 0 - b.getD i 0) * (a.getD i 0 - b.getD i 0))).sum ∧
      1 / 2 * ((List.range a.length).map
        (fun i => (a.getD i 0 - b.getD i 0) * (a.getD i 0 - b.getD i 0))).sum ≤ 1 ∧
      classification.similarity R a b = some (1 - d) ∧
      (R.SqrtUnit → 0 ≤ d ∧ d ≤ 1 ∧ 0 ≤ 1 - d ∧ 1 - d ≤ 1) := by
  have hrad := radicand_unit a b ha hb
  have hsum : (List.zipWith (fun x y => x - y) a b).map (fun r => r * r) =
      (List.range a.length).map
        (fun i => (a.getD i 0 - b.getD i 0) * (a.getD i 0 - b.getD i 0)) := by
    rw [zipWith_eq_map_range (fun x y => x - y) a b hlen, List.map_map]
    rfl
  rw [hsum] at hrad
  have hd : classification.distance R a b = some (R.sqrt (1 / 2 * ((List.range a.length).map
      (fun i => (a.getD i 0 - b.getD i 0) * (a.getD i 0 - b.getD i 0))).sum)) := by
    unfold classification.distance
    rw [if_neg (not_not.mpr hlen)]
    show some (R.sqrt (1 / 2 *
      ((List.zipWith (fun x y => x - y) a b).map (fun r => r * r)).sum)) = _
    rw [hsum]
  refine ⟨_, hd, rfl, hrad.1, hrad.2, ?_, ?_⟩
  · unfold classification.similarity
    rw [hd]
  · intro hR
    obtain ⟨h0, h1⟩ := hR _ hrad.1 hrad.2
    exact ⟨h0, h1, by linarith, by linarith⟩

/-- Witness of C16: the distributions `[1, 0]` and `[0, 1]` are at distance 1. -/
theorem C16_distance_unit_interval_witness :
    ∃ d, classification.distance exampleReal [1, 0] [0, 1] = some d ∧ 0 ≤ d ∧ d ≤ 1 := by
  obtain ⟨d, h1, _, _, _, _, h2⟩ := C16_distance_unit_interval exampleReal [1, 0] [0, 1] rfl
    ⟨by decide, by decide!⟩ ⟨by decide, by decide!⟩
  exact ⟨d, h1, (h2 exampleReal_sqrtUnit).1, (h2 exampleReal_sqrtUnit).2.1⟩

/-- C17. For a class table of `n ≥ 1` classes and a vector `x` of length `n`,
`combine(prior(), x)` returns the vector with the components `x_i / (sum(x) + n * 1e-6)`.  When
no entry of `x` is negative and `sum(x) > 0`, every component differs from `x_i / sum(x)` by at
most the fraction `n * 1e-6 / sum(x)` of `x_i / sum(x)`. -/
theorem C17_combine_prior_normalises (d : ClassificationData) (x : Classification)
    (hn : 1 ≤ d.classes.length) (hx : x.length = d.classes.length) :
    classification.combine d.prior x =
      some (x.map (fun xi => xi / (x.sum + (d.classes.length : ℚ) * (1 / 1000000)))) ∧
    ((∀ v ∈ x, 0 ≤ v) → 0 < x.sum → ∀ xi ∈ x,
      |xi / (x.sum + (d.classes.length : ℚ) * (1 / 1000000)) - xi / x.sum| ≤
        (d.classes.length : ℚ) * (1 / 1000000) / x.sum * (xi / x.sum)) := by
  constructor
  · exact combine_replicate d.classes.length x hn hx
  · intro hpos hsum xi hxi
    apply relative_error_bound xi x.sum _ (hpos xi hxi) hsum
    positivity

/-- Witness of C17: with the three classes of the tests, `combine(prior(), [1, 3, 4])` has the
components `x_i / 8.000003`. -/
theorem C17_combine_prior_normalises_witness :
    classification.combine testClasses.prior [1, 3, 4] =
      some [1000000 / 8000003, 3000000 / 8000003, 4000000 / 8000003] :=
  (C17_combine_prior_normalises testClasses [1, 3, 4] (by decide) rfl).1.trans (by decide!)

/-- C18, counterexample. The proper distributions `[1, 0]` and `[0, 1]` have disjoint
supports, and `combine` returns the zero vector for them: the sum of its entries is 0, which
is not within `1e-6` of 1. -/
theorem C18_counterexample :
    IsDistribution [1, 0] ∧ IsDistribution [0, 1] ∧ DisjointSupport [1, 0] [0, 1] ∧
      classification.combine [1, 0] [0, 1] = some [0, 0] ∧
      ¬ |([0, 0] : List ℚ).sum - 1| ≤ 1 / 1000000 := by
  refine ⟨⟨by decide, by decide!⟩, ⟨by decide, by decide!⟩,
    by unfold DisjointSupport; decide!, by decide!, ?_⟩
  norm_num

/-- C18, amended. For proper distributions `a` and `b` of equal length, the entries of
`combine(a, b)` sum to `s / (s + 1e-6)` with `s = sum_i a_i * b_i ≥ 0`.  This sum lies in
`[0, 1)`, and it is within `1e-6` of 1 if and only if `s ≥ 1 - 1e-6`.  When the non-zero
supports are disjoint, `s = 0` and `combine(a, b)` is the zero vector, whose entries sum
to 0. -/
theorem C18_combine_sum_of_distributions (a b : Classification) (hlen : a.length = b.length)
    (ha : IsDistribution a) (hb : IsDistribution b) :
    ∃ r, classification.combine a b = some r ∧
      r.sum = productSum a b / (productSum a b + 1 / 1000000) ∧
      0 ≤ productSum a b ∧ 0 ≤ r.sum ∧ r.sum < 1 ∧
      (|r.sum - 1| ≤ 1 / 1000000 ↔ 1 - 1 / 1000000 ≤ productSum a b) ∧
      (DisjointSupport a b → productSum a b = 0 ∧ (∀ v ∈ r, v = 0) ∧ r.sum = 0) := by
  obtain ⟨r, hr, hform, hsum⟩ := combine_sum a b hlen ha.2 hb.2
  have hs : 0 ≤ productSum a b := by
    rw [productSum_eq a b hlen]
    exact List.sum_nonneg (zipWith_mul_nonneg a b ha.1 hb.1)
  have hden : 0 < productSum a b + 1 / 1000000 := by linarith
  have hlt : productSum a b / (productSum a b + 1 / 1000000) < 1 := by
    rw [div_lt_one hden]
    linarith
  have hdiff : productSum a b / (productSum a b + 1 / 1000000) - 1 =
      -((1 / 1000000) / (productSum a b + 1 / 1000000)) := by
    field_simp
  refine ⟨r, hr, hsum, hs, ?_, ?_, ?_, ?_⟩
  · rw [hsum]
    exact div_nonneg hs (le_of_lt hden)
  · rw [hsum]
    exact hlt
  · rw [hsum, hdiff, abs_neg, abs_of_nonneg (div_nonneg (by norm_num) (le_of_lt hden)),
      div_le_iff₀ hden]
    constructor
    · intro h
      nlinarith
    · intro h
      nlinarith
  · intro hdis
    have hz := zipWith_mul_disjoint a b hdis
    have hs0 : productSum a b = 0 := by
      rw [productSum_eq a b hlen]
      exact sum_eq_zero_of_forall _ hz
    have hr0 : ∀ v ∈ r, v = 0 := by
      intro v hv
      rw [hform] at hv
      obtain ⟨p, hp, rfl⟩ := List.mem_map.mp hv
      rw [hz p hp, zero_div]
    exact ⟨hs0, hr0, sum_eq_zero_of_forall r hr0⟩

/-- Witness of C18 (amended): for `a = b = [1/2, 1/2]` the entries of `combine(a, b)` sum to
`0.5 / 0.500001`. -/
theorem C18_combine_sum_of_distributions_witness :
    ∃ r, classification.combine [1 / 2, 1 / 2] [1 / 2, 1 / 2] = some r ∧
      r.sum = productSum [1 / 2, 1 / 2] [1 / 2, 1 / 2] /
        (productSum [1 / 2, 1 / 2] [1 / 2, 1 / 2] + 1 / 1000000) ∧ r.sum < 1 := by
  obtain ⟨r, h1, h2, _, _, h3, _⟩ := C18_combine_sum_of_distributions [1 / 2, 1 / 2]
    [1 / 2, 1 / 2] rfl ⟨by decide!, by decide!⟩ ⟨by decide!, by decide!⟩
  exact ⟨r, h1, h2, h3⟩

/-- C19. For a class table with `n ≥ 2` classes, a class name of the table and a probability
`p` with `0 ≤ p ≤ 1`, `classification(className, p)` returns a vector of length `n` whose entry
at the index `j` of the class name (its first occurrence, and its only one in a table without
repeated names) is `p` and whose other entries are `(1 - p) / (n - 1)`; no entry is negative
and the entries sum to 1. -/
theorem C19_classification_vector (d : ClassificationData) (className : String) (p : ℚ)
    (hn : 2 ≤ d.classes.length) (hmem : className ∈ d.classes) (hp0 : 0 ≤ p) (hp1 : p ≤ 1) :
    ∃ j v, d.classIndex className = some j ∧
      d.classes[j]? = some className ∧
      (d.classes.Nodup → ∀ i, d.classes[i]? = some className → i = j) ∧
      d.classification className p = some v ∧
      v.length = d.classes.length ∧
      v[j]? = some p ∧
      (∀ i, i < d.classes.length → i ≠ j →
        v[i]? = some ((1 - p) / ((d.classes.length : ℚ) - 1))) ∧
      (∀ x ∈ v, 0 ≤ x) ∧ v.sum = 1 := by
  obtain ⟨_, h2, h3, h4⟩ := ClassificationData.findPosition_spec className d.classes
  have hj := h2.mpr hmem
  have hidx := ClassificationData.classIndex_of_mem d className hmem
  have hn1 : (0 : ℚ) < (d.classes.length : ℚ) - 1 := by
    have : (2 : ℚ) ≤ (d.classes.length : ℚ) := by exact_mod_cast hn
    linarith
  have hc0 : 0 ≤ (1 - p) / ((d.classes.length : ℚ) - 1) :=
    div_nonneg (by linarith) (le_of_lt hn1)
  have hv : d.classification className p =
      some ((List.replicate d.classes.length ((1 - p) / ((d.classes.length : ℚ) - 1))).set
        (ClassificationData.findPosition d.classes className) p) := by
    unfold ClassificationData.classification
    rw [hidx]
    simp only
    rw [ClassificationData.spread_value d.classes.length p hn hp0 hp1]
  refine ⟨_, _, hidx, h3 hmem, ?_, hv, ?_, ?_, ?_, ?_, ?_⟩
  · intro hnd i hi
    obtain ⟨hlt, hget⟩ := List.getElem?_eq_some.mp hi
    obtain ⟨_, hget1⟩ := List.getElem?_eq_some.mp (h3 hmem)
    exact (hnd.getElem_inj_iff).mp (hget.trans hget1.symm)
  · simp
  · rw [List.getElem?_set_self (by simpa using hj)]
  · intro i hi hne
    rw [List.getElem?_set_ne (fun e => hne e.symm), List.getElem?_replicate, if_pos hi]
  · intro x hx
    rcases List.mem_or_eq_of_mem_set hx with h | h
    · rw [List.eq_of_mem_replicate h]
      exact hc0
    · rw [h]
      exact hp0
  · rw [ClassificationData.sum_set_replicate _ _ _ _ hj]
    field_simp

/-- Witness of C19: `classification("Bike", 1/2)` in the class table of the tests. -/
theorem C19_classification_vector_witness :
    ∃ j v, testClasses.classIndex "Bike" = some j ∧
      testClasses.classification "Bike" (1 / 2) = some v ∧
      v[j]? = some (1 / 2) ∧ v.sum = 1 := by
  obtain ⟨j, v, h1, _, _, h2, _, h3, _, _, h4⟩ :=
    C19_classification_vector testClasses "Bike" (1 / 2) (by decide) (by decide)
      (by norm_num) (by norm_num)
  exact ⟨j, v, h1, h2, h3, h4⟩

/-- C20. The constructor `ClassificationData(classes_)` throws exactly for the empty vector.
`classIndex(name)` throws if and only if `name` is not in the class table, and so does
`classification(name, p)`; otherwise `classIndex` returns the position of the first occurrence
of `name`. -/
theorem C20_class_table_errors (d : ClassificationData) (name : String) (p : ℚ) :
    ClassificationData.ofClasses [] = none ∧
    (∀ cs, ClassificationData.ofClasses cs = none ↔ cs = []) ∧
    (∀ cs, cs ≠ [] → ClassificationData.ofClasses cs = some { classes := cs }) ∧
    (d.classIndex name = none ↔ name ∉ d.classes) ∧
    (d.classification name p = none ↔ name ∉ d.classes) ∧
    (∀ j, d.classIndex name = some j →
      d.classes[j]? = some name ∧ ∀ i, i < j → d.classes[i]? ≠ some name) := by
  refine ⟨rfl, ?_, ?_, ClassificationData.classIndex_eq_none_iff d name,
    ClassificationData.classification_eq_none_iff d name p, ?_⟩
  · intro cs
    cases cs <;> simp [ClassificationData.ofClasses]
  · intro cs hcs
    cases cs with
    | nil => exact absurd rfl hcs
    | cons c rest => rfl
  · intro j hj
    obtain ⟨hj1, hm⟩ := ClassificationData.classIndex_eq_some d name j hj
    obtain ⟨_, _, h3, h4⟩ := ClassificationData.findPosition_spec name d.classes
    rw [hj1]
    exact ⟨h3 hm, h4⟩

/-- Witness of C20: in the table `["Car", "Bike", "Car"]` the index of `"Car"` is 0, and
`"Bus"` is rejected by `classIndex` and by `classification`. -/
theorem C20_class_table_errors_witness :
    ((ClassificationData.mk ["Car", "Bike", "Car"]).classIndex "Car" = some 0 ∧
      (ClassificationData.mk ["Car", "Bike", "Car"]).classes[0]? = some "Car") ∧
    testClasses.classIndex "Bus" = none ∧ testClasses.classification "Bus" 1 = none := by
  have h := C20_class_table_errors (ClassificationData.mk ["Car", "Bike", "Car"]) "Car" 1
  have g := C20_class_table_errors testClasses "Bus" 1
  exact ⟨⟨by decide, (h.2.2.2.2.2 0 (by decide)).1⟩, g.2.2.2.1.mpr (by decide),
    g.2.2.2.2.1.mpr (by decide)⟩

/-- C21. With exact trigonometry (the identities of `AngleOps.Exact`, which the real
functions satisfy), `deltaTheta(a, b) = deltaTheta(a + 2π, b)` and `deltaTheta(a, a + π) = 0`
for all angles `a` and `b`. -/
theorem C21_deltaTheta_periodic {F : Type} [LinearOrderedField F] (T : AngleOps F)
    (hT : T.Exact) (a b : F) :
    deltaTheta T a b = deltaTheta T (a + 2 * T.pi) b ∧ deltaTheta T a (a + T.pi) = 0 := by
  constructor
  · unfold deltaTheta
    have h1 := angleDifference_add_two_pi T hT a b
    have h2 : angleDifference T (a + 2 * T.pi + T.pi) b = angleDifference T (a + T.pi) b := by
      rw [add_right_comm]
      exact angleDifference_add_two_pi T hT (a + T.pi) b
    simp only [h1, h2]
  · unfold deltaTheta
    simp only
    rw [angleDifference_self T hT (a + T.pi), abs_zero, if_neg (not_lt.mpr (abs_nonneg _))]

/-- Witness of C21: the real functions, at `a = 1` and `b = 2`. -/
theorem C21_deltaTheta_periodic_witness :
    deltaTheta (AngleOps.mk Real.cos Real.sin (fun y x => Complex.arg ⟨x, y⟩) Real.pi) 1 2 =
        deltaTheta (AngleOps.mk Real.cos Real.sin (fun y x => Complex.arg ⟨x, y⟩) Real.pi)
          (1 + 2 * Real.pi) 2 ∧
      deltaTheta (AngleOps.mk Real.cos Real.sin (fun y x => Complex.arg ⟨x, y⟩) Real.pi) 1
        (1 + Real.pi) = 0 :=
  C21_deltaTheta_periodic _ real_angles_exact 1 2

/-- C22. For a state `x` of twelve entries, a control vector whose first entry is the time
step `dt`, a noise vector `v` of twelve entries and an output column of twelve entries, the
state transition of the CA model returns
`[x + vx dt + 0.5 ax dt², y + vy dt + 0.5 ay dt², vx + ax dt, vy + ay dt, ax, ay, z, length,
width, height, yaw, 0] + v`. -/
theorem C22_CA_state_transition (x u v out : Vec) (hx : x.length = 12) (hv : v.length = 12)
    (hout : out.length = 12) :
    CAModel.stateConversionFunction x u v out =
      some (List.zipWith (fun a b => a + b)
        [x.getD 0 0 + x.getD 2 0 * u.getD 0 0 + 1 / 2 * x.getD 4 0 * u.getD 0 0 * u.getD 0 0,
          x.getD 1 0 + x.getD 3 0 * u.getD 0 0 + 1 / 2 * x.getD 5 0 * u.getD 0 0 * u.getD 0 0,
          x.getD 2 0 + x.getD 4 0 * u.getD 0 0,
          x.getD 3 0 + x.getD 5 0 * u.getD 0 0,
          x.getD 4 0, x.getD 5 0, x.getD 6 0, x.getD 7 0, x.getD 8 0, x.getD 9 0, x.getD 10 0,
          0] v) := by
  obtain ⟨o0, o1, o2, o3, o4, o5, o6, o7, o8, o9, o10, o11, rfl⟩ := length_eq_twelve out hout
  obtain ⟨x0, x1, x2, x3, x4, x5, x6, x7, x8, x9, x10, x11, rfl⟩ := length_eq_twelve x hx
  simp [CAModel.stateConversionFunction, vecAddAssign, hv]

/-- Witness of C22: the state `[1, 2, 3, 4, 2, -2, 5, 6, 7, 8, 9, 10]` after `dt = 2` with the
noise `0.1` in every entry. -/
theorem C22_CA_state_transition_witness :
    CAModel.stateConversionFunction [1, 2, 3, 4, 2, -2, 5, 6, 7, 8, 9, 10] [2]
        (List.replicate 12 (1 / 10)) (List.replicate 12 0) =
      some [111 / 10, 61 / 10, 71 / 10, 1 / 10, 21 / 10, -19 / 10, 51 / 10, 61 / 10, 71 / 10,
        81 / 10, 91 / 10, 1 / 10] :=
  (C22_CA_state_transition [1, 2, 3, 4, 2, -2, 5, 6, 7, 8, 9, 10] [2]
    (List.replicate 12 (1 / 10)) (List.replicate 12 0) rfl rfl rfl).trans (by decide!)

/-- C23. For the CA and the CP model, a state `x` of twelve entries, a noise vector `n` of
seven entries and an output column of seven entries, the measurement function returns
`[x[0], x[1], x[6], x[7], x[8], x[9], x[10]] + n`; and for every tracked object `o` the
measurement of `o.stateVector()` without noise is `o.measurementVector()`. -/
theorem C23_measurement_projection (x n out : Vec) (hx : x.length = 12) (hn : n.length = 7)
    (hout : out.length = 7) :
    CAModel.measurementFunction x n out =
      some (List.zipWith (fun a b => a + b)
        [x.getD 0 0, x.getD 1 0, x.getD 6 0, x.getD 7 0, x.getD 8 0, x.getD 9 0, x.getD 10 0] n) ∧
    CPModel.measurementFunction x n out =
      some (List.zipWith (fun a b => a + b)
        [x.getD 0 0, x.getD 1 0, x.getD 6 0, x.getD 7 0, x.getD 8 0, x.getD 9 0, x.getD 10 0] n) ∧
    (∀ o : TrackedObject,
      CAModel.measurementFunction o.stateVector (zeros 7) out = some o.measurementVector ∧
      CPModel.measurementFunction o.stateVector (zeros 7) out = some o.measurementVector) := by
  obtain ⟨o0, o1, o2, o3, o4, o5, o6, rfl⟩ := length_eq_seven out hout
  obtain ⟨x0, x1, x2, x3, x4, x5, x6, x7, x8, x9, x10, x11, rfl⟩ := length_eq_twelve x hx
  refine ⟨?_, ?_, ?_⟩
  · simp [CAModel.measurementFunction, vecAddAssign, hn]
  · simp [CPModel.measurementFunction, vecAddAssign, hn]
  · intro o
    constructor
    · simp [CAModel.measurementFunction, vecAddAssign, zeros, TrackedObject.stateVector,
        TrackedObject.measurementVector, List.replicate]
    · simp [CPModel.measurementFunction, vecAddAssign, zeros, TrackedObject.stateVector,
        TrackedObject.measurementVector, List.replicate]

/-- Witness of C23: the measurement of the state `[1, ..., 12]` with the noise `0.5` in every
entry. -/
theorem C23_measurement_projection_witness :
    CPModel.measurementFunction [1, 2, 3, 4, 5, 6, 7, 8, 9, 10, 11, 12]
        (List.replicate 7 (1 / 2)) (zeros 7) =
      some [3 / 2, 5 / 2, 15 / 2, 17 / 2, 19 / 2, 21 / 2, 23 / 2] :=
  (C23_measurement_projection [1, 2, 3, 4, 5, 6, 7, 8, 9, 10, 11, 12]
    (List.replicate 7 (1 / 2)) (zeros 7) rfl rfl rfl).2.1.trans (by decide!)

/-- C24. A filter constructed from parameters that pass the assertions of the constructor
has `lambda = alpha² (DP + k) - DP`.  When `lambda + DP ≠ 0`, its `2 DP + 1` mean weights are
`Wm[0] = lambda / (lambda + DP)` and `Wm[i] = 1 / (2 (lambda + DP))` for `1 ≤ i ≤ 2 DP`, and
they sum to 1; `Wc` is diagonal with `Wc[0][0] = lambda / (lambda + DP) + 1 - alpha² + beta`
and `Wc[i][i] = 1 / (2 (lambda + DP))` for `1 ≤ i ≤ 2 DP`.  For `DP = 12`, `alpha = 1`,
`beta = 2` and `k = 3 - 12` this gives `lambda + DP = 3`, `Wm[0] = -3`, `Wc[0][0] = -1` and
`1/6` for all other weights. -/
theorem C24_ukf_weights (params : UnscentedKalmanFilterParams)
    (hDP : 0 < params.DP) (hMP : 0 < params.MP)
    (hs : params.stateInit.length = params.DP)
    (hE : hasShape params.errorCovInit params.DP params.DP = true)
    (hQ : hasShape params.processNoiseCov params.DP params.DP = true)
    (hR : hasShape params.measurementNoiseCov params.MP params.MP = true) :
    ∃ f, UnscentedKalmanFilterMod.create params = some f ∧
      f.lambda = params.alpha * params.alpha * ((params.DP : ℚ) + params.k) - (params.DP : ℚ) ∧
      (f.lambda + (params.DP : ℚ) ≠ 0 →
        f.Wm.length = 2 * params.DP + 1 ∧
        f.Wm[0]? = some (f.lambda / (f.lambda + (params.DP : ℚ))) ∧
        entry f.Wc 0 0 =
          f.lambda / (f.lambda + (params.DP : ℚ)) + 1 - params.alpha * params.alpha +
            params.beta ∧
        (∀ i, 1 ≤ i → i ≤ 2 * params.DP →
          f.Wm[i]? = some (1 / (2 * (f.lambda + (params.DP : ℚ)))) ∧
          entry f.Wc i i = 1 / (2 * (f.lambda + (params.DP : ℚ)))) ∧
        (∀ i j, i ≠ j → entry f.Wc i j = 0) ∧
        f.Wm.sum = 1) ∧
      (params.DP = 12 → params.alpha = 1 → params.beta = 2 → params.k = 3 - 12 →
        f.lambda + (params.DP : ℚ) = 3 ∧ f.Wm = -3 :: List.replicate 24 (1 / 6) ∧
        entry f.Wc 0 0 = -1 ∧ ∀ i, 1 ≤ i → i ≤ 24 → entry f.Wc i i = 1 / 6) := by
  obtain ⟨f, hf⟩ := UnscentedKalmanFilterMod.create_total params hDP hMP hs hE hQ hR
  obtain ⟨_, _, _, _, _, hl, htl, hWm, hWc⟩ := UnscentedKalmanFilterMod.create_fields params f hf
  obtain ⟨m1, m2, m3, m4⟩ := ukf_mean_weights params.DP (1 / 2 / f.tmpLambda)
    (f.lambda / f.tmpLambda)
  have hhalf : (1 : ℚ) / 2 / f.tmpLambda = 1 / (2 * (f.lambda + (params.DP : ℚ))) := by
    rw [htl, div_div]
  refine ⟨f, hf, hl, ?_, ?_⟩
  · intro hne
    have hne1 : f.tmpLambda ≠ 0 := by rw [htl]; exact hne
    refine ⟨by rw [hWm]; exact m1, by rw [hWm, m2, htl], ?_, ?_, ?_, ?_⟩
    · rw [hWc, ukf_covariance_weights, htl]
      simp
    · intro i h1 h2
      constructor
      · rw [hWm, m3 i h1 h2, hhalf]
      · rw [hWc, ukf_covariance_weights, hhalf]
        have h3 : ¬ (i = 0 ∧ i = 0) := by omega
        have h4 : i < 2 * params.DP + 1 ∧ i < 2 * params.DP + 1 ∧ i = i := ⟨by omega, by omega, rfl⟩
        rw [if_neg h3, if_pos h4]
    · intro i j hij
      rw [hWc, ukf_covariance_weights]
      have h3 : ¬ (i = 0 ∧ j = 0) := by omega
      have h4 : ¬ (i < 2 * params.DP + 1 ∧ j < 2 * params.DP + 1 ∧ i = j) := fun hc => hij hc.2.2
      rw [if_neg h3, if_neg h4]
    · rw [hWm, m4]
      field_simp
      rw [htl]
      ring
  · intro h12 ha hb hk
    have hlam : f.lambda = -9 := by
      rw [hl, h12, ha, hk]
      norm_num
    have htl3 : f.tmpLambda = 3 := by
      rw [htl, hlam, h12]
      norm_num
    refine ⟨by rw [← htl, htl3], ?_, ?_, ?_⟩
    · rw [hWm, htl3, hlam, h12]
      simp only [vecScale, List.map_replicate]
      norm_num [List.replicate]
    · rw [hWc, ukf_covariance_weights, htl3, hlam, ha, hb]
      norm_num
    · intro i h1 h2
      rw [hWc, ukf_covariance_weights, htl3, h12]
      have h3 : ¬ (i = 0 ∧ i = 0) := by omega
      have h4 : i < 2 * 12 + 1 ∧ i < 2 * 12 + 1 ∧ i = i := ⟨by omega, by omega, rfl⟩
      rw [if_neg h3, if_pos h4]
      norm_num

/-- Witness of C24: the filter of the CA model in a default-constructed estimator. -/
theorem C24_ukf_weights_witness :
    ∃ f, UnscentedKalmanFilterMod.create trackerParams = some f ∧
      f.Wm = -3 :: List.replicate 24 (1 / 6) ∧ entry f.Wc 0 0 = -1 ∧ f.Wm.sum = 1 := by
  obtain ⟨f, h1, h2, h3, h4⟩ := C24_ukf_weights trackerParams (by decide) (by decide) rfl
    (by decide) (by decide) (by decide)
  have h5 := h4 rfl rfl rfl rfl
  have hne : f.lambda + ((trackerParams.DP : ℕ) : ℚ) ≠ 0 := by
    rw [h5.1]
    norm_num
  exact ⟨f, h1, h5.2.1, h5.2.2.1, (h3 hne).2.2.2.2.2⟩

/-- C25, the code at the failing input.  In `setStateAndCovariance(s, P)` the parameters hide
the members of the same names, so for every filter the call leaves `getState()` and
`getErrorCov()` as they were, and the next `predict` is that of the filter before the call.  On
the filter that `initialize` builds for the CA model, the call with `s` the vector of ones and
`P = 2 I` leaves the state at zero and the covariance at `I`, not at `s` and `P`. -/
theorem C25_setStateAndCovariance_keeps_members :
    (∀ (f : UnscentedKalmanFilterMod) (s : Vec) (P : Mat),
      (f.setStateAndCovariance s P).getState = f.getState ∧
      (f.setStateAndCovariance s P).getErrorCov = f.getErrorCov ∧
      ∀ (O : NumericOps) (Sys : MotionModel → UkfSystemModel) (control : Vec),
        UnscentedKalmanFilterMod.predict O Sys (f.setStateAndCovariance s P) control =
          UnscentedKalmanFilterMod.predict O Sys f control) ∧
    ∃ f, UnscentedKalmanFilterMod.create trackerParams = some f ∧
      (f.setStateAndCovariance (List.replicate 12 1) (scaledEye 12 2)).getState =
        List.replicate 12 0 ∧
      (f.setStateAndCovariance (List.replicate 12 1) (scaledEye 12 2)).getState ≠
        List.replicate 12 1 ∧
      (f.setStateAndCovariance (List.replicate 12 1) (scaledEye 12 2)).getErrorCov =
        scaledEye 12 1 ∧
      (f.setStateAndCovariance (List.replicate 12 1) (scaledEye 12 2)).getErrorCov ≠
        scaledEye 12 2 := by
  refine ⟨fun f s P => ⟨rfl, rfl, fun _ _ _ => rfl⟩, ?_⟩
  obtain ⟨f, hf⟩ := UnscentedKalmanFilterMod.create_total trackerParams (by decide) (by decide)
    (by decide!) (by decide!) (by decide!) (by decide!)
  obtain ⟨_, _, _, hs, he, _⟩ := UnscentedKalmanFilterMod.create_fields trackerParams f hf
  refine ⟨f, hf, ?_, ?_, ?_, ?_⟩
  · show f.state = _
    rw [hs]
    decide!
  · show f.state ≠ _
    rw [hs]
    decide!
  · show f.errorCov = _
    rw [he]
    rfl
  · show f.errorCov ≠ _
    rw [he]
    decide!

/-- C26.  For a filter with the shapes of the constructor, after a `predict` that returned,
`correct(z)` with a measurement of `MP` rows returns whenever the inverse of `Syy` has the
shape of `Syy`; it leaves `Sxy = Fc Wc Hcᵀ` in `xyCov`, `K = Sxy Syy⁻¹` in `gain`,
`state + K (z - z*)` in the state and `errorCov - K Sxyᵀ` in the error covariance, where `z*`
is the measurement estimate of the `predict`.  With `z = z*` the state is the predicted state,
unchanged. -/
theorem C26_ukf_correct (O : NumericOps) (Sys : MotionModel → UkfSystemModel)
    (f0 f : UnscentedKalmanFilterMod) (control z : Vec)
    (h0 : f0.Shaped)
    (hp : UnscentedKalmanFilterMod.predict O Sys f0 control = some f)
    (hz : z.length = f.MP)
    (hinv : hasShape (O.inv f.getMeasurementCov) f.MP f.MP = true) :
    ∃ g, UnscentedKalmanFilterMod.correct O f z = some g ∧
      g.xyCov = matMul (matMul f.transitionSPFuncValsCenter f.Wc)
        (matTranspose f.measurementSPFuncValsCenter) ∧
      g.gain = matMul g.xyCov (O.inv f.getMeasurementCov) ∧
      g.getState = vecAdd f.getState (matVec g.gain (vecSub z f.measurementEstimate)) ∧
      g.getErrorCov = matSub f.getErrorCov (matMul g.gain (matTranspose g.xyCov)) ∧
      (z = f.measurementEstimate → g.getState = f.getState) := by
  have hf := UnscentedKalmanFilterMod.predict_predicted O Sys f0 f control h0 hp
  obtain ⟨g, hg⟩ := UnscentedKalmanFilterMod.correct_total O f z hf hz hinv
  obtain ⟨rfl, _, hl⟩ := UnscentedKalmanFilterMod.correct_eq_some O f g z hg
  refine ⟨_, hg, rfl, rfl, rfl, rfl, ?_⟩
  intro hzz
  show vecAdd f.state (matVec _ (vecSub z f.measurementEstimate)) = f.state
  rw [hzz, vecSub_self, matVec_zeros, ← hl, vecAdd_zeros]

/-- Witness of C26: the filter of the CA model in a default-constructed estimator after a
`predict` over a tenth of a second, corrected with its own measurement estimate. -/
theorem C26_ukf_correct_witness :
    ∃ f0 f, UnscentedKalmanFilterMod.create trackerParams = some f0 ∧
      UnscentedKalmanFilterMod.predict exampleNumeric (fun _ => CAModel) f0 [1 / 10] = some f ∧
      ∃ g, UnscentedKalmanFilterMod.correct exampleNumeric f f.measurementEstimate = some g ∧
        g.xyCov = matMul (matMul f.transitionSPFuncValsCenter f.Wc)
          (matTranspose f.measurementSPFuncValsCenter) ∧
        g.gain = matMul g.xyCov (exampleNumeric.inv f.getMeasurementCov) ∧
        g.getState =
          vecAdd f.getState (matVec g.gain (vecSub f.measurementEstimate f.measurementEstimate)) ∧
        g.getErrorCov = matSub f.getErrorCov (matMul g.gain (matTranspose g.xyCov)) ∧
        (f.measurementEstimate = f.measurementEstimate → g.getState = f.getState) := by
  obtain ⟨f0, h0⟩ := UnscentedKalmanFilterMod.create_total trackerParams (by decide) (by decide)
    (by decide!) (by decide!) (by decide!) (by decide!)
  obtain ⟨hc, hst, hec, hDP, hMP, hmodel, _⟩ :=
    UnscentedKalmanFilterMod.create_constructed trackerParams f0 h0 (by decide!)
  have hlin : ((fun _ : MotionModel => CAModel) f0.model).Linear [1 / 10]
      (CAModel.transitionMatrix (1 / 10)) measurementMatrix f0.DP f0.MP := by
    rw [hDP, hMP]
    exact CAModel_linear (1 / 10) [1 / 10] rfl
  obtain ⟨f, hp, hpf⟩ := UnscentedKalmanFilterMod.predict_linear exampleNumeric
    exampleNumeric_keepsShape (fun _ => CAModel) f0 [1 / 10] _ _ hc hlin
    (by rw [hst, hDP]; rfl) (by rw [hec, hDP]; exact hasShape_scaledEye 12 1)
  exact ⟨f0, f, h0, hp,
    C26_ukf_correct exampleNumeric (fun _ => CAModel) f0 f [1 / 10] f.measurementEstimate
      hc.shaped hp hpf.predicted.lengthEstimate
      (exampleInv_shape f.yyCov f.MP hpf.predicted.shapeYy)⟩

/-- C27, amended.  The code has no restore, no jitter and no error for a failed Cholesky
factorisation: `getSigmaPoints` does not read the flag.  When the factorisation of the error
covariance reports failure, `choleskyDecomposition` leaves in `L` what the failed routine left
there, `getSigmaPoints` returns the points `mean`, `mean + coef L` and `mean - coef L` built from
it, and a `predict` that returns has evaluated the state transition at these points. -/
theorem C27_failed_factorisation_is_used (O : NumericOps) (Sys : MotionModel → UkfSystemModel)
    (f : UnscentedKalmanFilterMod) (control : Vec)
    (hfail : (O.cholesky f.errorCov).1 = false)
    (hL : hasShape (O.cholesky f.errorCov).2 f.state.length f.state.length = true) :
    choleskyDecomposition O f.errorCov f.errorCov.length f.errorCov =
      (false, (O.cholesky f.errorCov).2) ∧
    UnscentedKalmanFilterMod.getSigmaPoints O f.state f.errorCov (O.sqrt f.tmpLambda) =
      some ((List.range f.state.length).map (fun i =>
        f.state.getD i 0 ::
          ((List.range f.state.length).map (fun j =>
              f.state.getD i 0 + entry (matScale (O.sqrt f.tmpLambda) (O.cholesky f.errorCov).2) i j)
            ++ (List.range f.state.length).map (fun j =>
              f.state.getD i 0 -
                entry (matScale (O.sqrt f.tmpLambda) (O.cholesky f.errorCov).2) i j)))) ∧
    ∀ g, UnscentedKalmanFilterMod.predict O Sys f control = some g →
      UnscentedKalmanFilterMod.evalAtSigmaPoints
        (fun x fx => (Sys f.model).stateConversionFunction x control f.q fx)
        ((List.range f.state.length).map (fun i =>
          f.state.getD i 0 ::
            ((List.range f.state.length).map (fun j =>
                f.state.getD i 0 +
                  entry (matScale (O.sqrt f.tmpLambda) (O.cholesky f.errorCov).2) i j)
              ++ (List.range f.state.length).map (fun j =>
                f.state.getD i 0 -
                  entry (matScale (O.sqrt f.tmpLambda) (O.cholesky f.errorCov).2) i j))))
        f.DP f.DP f.transitionSPFuncVals = some g.transitionSPFuncVals := by
  have h1 := choleskyDecomposition_failed O f.errorCov hfail
  have h2 : UnscentedKalmanFilterMod.getSigmaPoints O f.state f.errorCov (O.sqrt f.tmpLambda) =
      some ((List.range f.state.length).map (fun i =>
        f.state.getD i 0 ::
          ((List.range f.state.length).map (fun j =>
              f.state.getD i 0 + entry (matScale (O.sqrt f.tmpLambda) (O.cholesky f.errorCov).2) i j)
            ++ (List.range f.state.length).map (fun j =>
              f.state.getD i 0 -
                entry (matScale (O.sqrt f.tmpLambda) (O.cholesky f.errorCov).2) i j)))) := by
    unfold UnscentedKalmanFilterMod.getSigmaPoints
    simp only [h1]
    rw [if_pos (hasShape_matScale _ _ _ _ hL)]
  refine ⟨h1, h2, ?_⟩
  intro g hg
  obtain ⟨sp1, fv, sp2, hv, hsp1, hfv, _, _, rfl⟩ :=
    UnscentedKalmanFilterMod.predict_eq_some O Sys f g control hg
  rw [h2] at hsp1
  cases hsp1
  exact hfv

/-- Witness of C27: the filter constructed with the initial error covariance `-I`. -/
theorem C27_failed_factorisation_is_used_witness :
    ∃ f, UnscentedKalmanFilterMod.create indefiniteParams = some f ∧
      (exampleNumeric.cholesky f.errorCov).1 = false ∧
      choleskyDecomposition exampleNumeric f.errorCov f.errorCov.length f.errorCov =
        (false, (exampleNumeric.cholesky f.errorCov).2) := by
  obtain ⟨f, hf⟩ := UnscentedKalmanFilterMod.create_total indefiniteParams (by decide) (by decide)
    (by decide!) (by decide!) (by decide!) (by decide!)
  obtain ⟨_, _, _, hs, he, _⟩ := UnscentedKalmanFilterMod.create_fields indefiniteParams f hf
  have e1 : f.errorCov = scaledEye 12 (-1) := he
  have e2 : f.state.length = 12 := by rw [hs]; rfl
  have hfail : (exampleNumeric.cholesky f.errorCov).1 = false := by rw [e1]; decide!
  refine ⟨f, hf, hfail,
    (C27_failed_factorisation_is_used exampleNumeric (fun _ => CAModel) f [1 / 10]
      hfail (by rw [e1, e2]; decide!)).1⟩

/-- C27, counterexample.  With the initial error covariance `-I` the factorisation fails, and
`predict` with a step of a tenth of a second returns all the same: no error reaches the caller,
and the error covariance it leaves couples the position `x` with the velocity `vx`, which the
previous covariance plus a multiple of the unit matrix does not. -/
theorem C27_counterexample :
    ∃ f g, UnscentedKalmanFilterMod.create indefiniteParams = some f ∧
      (choleskyDecomposition exampleNumeric f.errorCov f.errorCov.length f.errorCov).1 = false ∧
      UnscentedKalmanFilterMod.predict exampleNumeric (fun _ => CAModel) f [1 / 10] = some g ∧
      entry f.errorCov 0 2 = 0 ∧ entry g.errorCov 0 2 ≠ 0 ∧
      ∀ ε : ℚ, g.errorCov ≠ matAdd f.errorCov (scaledEye 12 ε) := by
  obtain ⟨f, hf⟩ := UnscentedKalmanFilterMod.create_total indefiniteParams (by decide) (by decide)
    (by decide!) (by decide!) (by decide!) (by decide!)
  obtain ⟨_, _, _, _, he, hlam, htl, _⟩ :=
    UnscentedKalmanFilterMod.create_fields indefiniteParams f hf
  obtain ⟨hc, hst, hec, hDP, hMP, hmodel, hQ, _⟩ :=
    UnscentedKalmanFilterMod.create_constructed indefiniteParams f hf (by decide!)
  have e1 : f.errorCov = scaledEye 12 (-1) := he
  have hlin : ((fun _ : MotionModel => CAModel) f.model).Linear [1 / 10]
      (CAModel.transitionMatrix (1 / 10)) measurementMatrix f.DP f.MP := by
    rw [hDP, hMP]
    exact CAModel_linear (1 / 10) [1 / 10] rfl
  obtain ⟨g, hp, hpg⟩ := UnscentedKalmanFilterMod.predict_linear exampleNumeric
    exampleNumeric_keepsShape (fun _ => CAModel) f [1 / 10] _ _ hc hlin
    (by rw [hst, hDP]; rfl) (by rw [hec, hDP]; exact hasShape_scaledEye 12 (-1))
  have hL : (choleskyDecomposition exampleNumeric f.errorCov f.errorCov.length f.errorCov).2 =
      scaledEye 12 (-1) := by
    rw [e1]
    decide!
  have htl3 : f.tmpLambda = 3 := by
    rw [htl, hlam]
    decide!
  have hF : hasShape (CAModel.transitionMatrix (1 / 10)) 12 12 = true := by decide!
  have hDP12 : f.DP = 12 := by rw [hDP]; rfl
  have hE := hpg.errorCov
  rw [hL, hDP12, htl3, hQ, toM_scaledEye] at hE
  have hE2 : toM 12 12 g.errorCov =
      (exampleNumeric.sqrt 3 * exampleNumeric.sqrt 3 / 3) •
        toM 12 12 (matMul (CAModel.transitionMatrix (1 / 10))
          (matTranspose (CAModel.transitionMatrix (1 / 10)))) +
        toM 12 12 indefiniteParams.processNoiseCov := by
    rw [toM_matMul _ _ 12 12 12 hF (hasShape_transpose_of _ _ _ hF (by decide)) (by decide),
      toM_matTranspose _ _ _ hF (by decide)]
    rw [hE]
    simp
  have hg : entry g.errorCov 0 2 ≠ 0 := by
    have h02 := congrFun (congrFun hE2 ⟨0, by decide⟩) ⟨2, by decide⟩
    have h02b : entry g.errorCov 0 2 =
        (exampleNumeric.sqrt 3 * exampleNumeric.sqrt 3 / 3) *
          entry (matMul (CAModel.transitionMatrix (1 / 10))
            (matTranspose (CAModel.transitionMatrix (1 / 10)))) 0 2 +
          entry indefiniteParams.processNoiseCov 0 2 := h02
    rw [h02b]
    decide!
  have h0 : entry f.errorCov 0 2 = 0 := by rw [e1]; decide!
  refine ⟨f, g, hf, ?_, hp, h0, hg, ?_⟩
  · rw [e1]
    decide!
  · intro ε hε
    apply hg
    rw [hε, e1]
    unfold entry matAdd vecAdd scaledEye
    simp

/-- C28.  The transition-probability matrix that `initialize` builds for `M` models (`M` is at
least one for every list of motion models) has `M` rows of `M` entries; every row sums to one,
the matrix is its own transpose, and every column sums to one. -/
theorem C28_transition_row_stochastic {K : Type} (ops : EstimatorOps K)
    (e : MultiModelKalmanEstimator K) (track : TrackedObject)
    (timestamp processNoise measurementNoise initStateCovariance : ℚ)
    (motionModels : List MotionModel) :
    1 ≤ (MultiModelKalmanEstimator.initializeEstimator ops e track timestamp processNoise
      measurementNoise initStateCovariance motionModels).mNumberOfModels ∧
    hasShape
      (MultiModelKalmanEstimator.initializeEstimator ops e track timestamp processNoise
        measurementNoise initStateCovariance motionModels).mTransitionProbability
      (MultiModelKalmanEstimator.initializeEstimator ops e track timestamp processNoise
        measurementNoise initStateCovariance motionModels).mNumberOfModels
      (MultiModelKalmanEstimator.initializeEstimator ops e track timestamp processNoise
        measurementNoise initStateCovariance motionModels).mNumberOfModels = true ∧
    (∀ row ∈ (MultiModelKalmanEstimator.initializeEstimator ops e track timestamp processNoise
        measurementNoise initStateCovariance motionModels).mTransitionProbability,
      row.sum = 1) ∧
    (∀ i j, entry (MultiModelKalmanEstimator.initializeEstimator ops e track timestamp
        processNoise measurementNoise initStateCovariance motionModels).mTransitionProbability i j =
      entry (MultiModelKalmanEstimator.initializeEstimator ops e track timestamp
        processNoise measurementNoise initStateCovariance motionModels).mTransitionProbability j i) ∧
    (∀ j, j < (MultiModelKalmanEstimator.initializeEstimator ops e track timestamp processNoise
        measurementNoise initStateCovariance motionModels).mNumberOfModels →
      (column (MultiModelKalmanEstimator.initializeEstimator ops e track timestamp processNoise
        measurementNoise initStateCovariance motionModels).mTransitionProbability j).sum = 1) := by
  obtain ⟨hT, hN, hM⟩ := MultiModelKalmanEstimator.initializeEstimator_transition ops e track
    timestamp processNoise measurementNoise initStateCovariance motionModels
  rw [hT, hN]
  generalize (MultiModelKalmanEstimator.systemModelsOf motionModels).length = n at hM ⊢
  have hentry : ∀ i j, entry ((List.range n).map (fun i => (List.range n).map (fun j =>
      if i = j then (5 / 100 : ℚ) + (1 - (n : ℚ) * (5 / 100)) else 5 / 100))) i j =
      if i < n ∧ j < n then
        (if i = j then (5 / 100 : ℚ) + (1 - (n : ℚ) * (5 / 100)) else 5 / 100)
      else 0 := by
    intro i j
    exact entry_tabulate n
      (fun i j => if i = j then (5 / 100 : ℚ) + (1 - (n : ℚ) * (5 / 100)) else 5 / 100) i j
  refine ⟨hM, ?_, ?_, ?_, ?_⟩
  · rw [hasShape_iff]
    refine ⟨by simp, ?_⟩
    intro row hrow
    obtain ⟨i, _, rfl⟩ := List.mem_map.mp hrow
    simp
  · intro row hrow
    obtain ⟨i, hi, rfl⟩ := List.mem_map.mp hrow
    rw [sum_indicator_row, if_pos (List.mem_range.mp hi)]
    ring
  · intro i j
    rw [hentry i j, hentry j i]
    by_cases h2 : i < n ∧ j < n
    · have h3 : j < n ∧ i < n := ⟨h2.2, h2.1⟩
      rw [if_pos h2, if_pos h3]
      by_cases h : i = j
      · rw [h]
      · have h4 : ¬ j = i := fun e => h e.symm
        rw [if_neg h, if_neg h4]
    · have h3 : ¬ (j < n ∧ i < n) := fun e => h2 ⟨e.2, e.1⟩
      rw [if_neg h2, if_neg h3]
  · intro j hj
    have hcol : column ((List.range n).map (fun i => (List.range n).map (fun j =>
        if i = j then (5 / 100 : ℚ) + (1 - (n : ℚ) * (5 / 100)) else 5 / 100))) j =
        (List.range n).map (fun i =>
          if i = j then (5 / 100 : ℚ) + (1 - (n : ℚ) * (5 / 100)) else 5 / 100) := by
      unfold column
      rw [List.map_map]
      apply List.map_congr_left
      intro i _
      simp only [Function.comp_apply, List.getD_eq_getElem?_getD, List.getElem?_map]
      rw [List.getElem?_range hj]
      rfl
    rw [hcol, sum_indicator_column, if_pos hj]
    ring

/-- C29, amended.  In the transition-probability matrix that `initialize` builds for `M`
models every off-diagonal entry is `0.05` and every diagonal entry is `1 - (M - 1) * 0.05`:
the matrix is filled with `0.05` and `1 - M * 0.05` is added on the diagonal. -/
theorem C29_transition_entries {K : Type} (ops : EstimatorOps K)
    (e : MultiModelKalmanEstimator K) (track : TrackedObject)
    (timestamp processNoise measurementNoise initStateCovariance : ℚ)
    (motionModels : List MotionModel) (i j : Nat)
    (hi : i < (MultiModelKalmanEstimator.initializeEstimator ops e track timestamp processNoise
      measurementNoise initStateCovariance motionModels).mNumberOfModels)
    (hj : j < (MultiModelKalmanEstimator.initializeEstimator ops e track timestamp processNoise
      measurementNoise initStateCovariance motionModels).mNumberOfModels) :
    entry (MultiModelKalmanEstimator.initializeEstimator ops e track timestamp processNoise
      measurementNoise initStateCovariance motionModels).mTransitionProbability i j =
      if i = j then
        1 - (((MultiModelKalmanEstimator.initializeEstimator ops e track timestamp processNoise
          measurementNoise initStateCovariance motionModels).mNumberOfModels : ℚ) - 1) * (5 / 100)
      else 5 / 100 := by
  obtain ⟨hT, hN, _⟩ := MultiModelKalmanEstimator.initializeEstimator_transition ops e track
    timestamp processNoise measurementNoise initStateCovariance motionModels
  rw [hN] at hi hj
  rw [hT, hN]
  generalize (MultiModelKalmanEstimator.systemModelsOf motionModels).length = n at hi hj ⊢
  rw [entry_tabulate n
    (fun i j => if i = j then (5 / 100 : ℚ) + (1 - (n : ℚ) * (5 / 100)) else 5 / 100) i j,
    if_pos ⟨hi, hj⟩]
  by_cases h : i = j
  · rw [if_pos h, if_pos h]
    ring
  · rw [if_neg h, if_neg h]

/-- Witness of C29: the entry `(0, 1)` for the three models of an empty model list. -/
theorem C29_transition_entries_witness :
    (0 < (MultiModelKalmanEstimator.initializeEstimator exampleOps
      MultiModelKalmanEstimator.default exampleObject 0 (1 / 1000) (1 / 100) 1
      []).mNumberOfModels ∧
     1 < (MultiModelKalmanEstimator.initializeEstimator exampleOps
      MultiModelKalmanEstimator.default exampleObject 0 (1 / 1000) (1 / 100) 1
      []).mNumberOfModels) ∧
    entry (MultiModelKalmanEstimator.initializeEstimator exampleOps
      MultiModelKalmanEstimator.default exampleObject 0 (1 / 1000) (1 / 100) 1
      []).mTransitionProbability 0 1 =
      if 0 = 1 then
        1 - (((MultiModelKalmanEstimator.initializeEstimator exampleOps
          MultiModelKalmanEstimator.default exampleObject 0 (1 / 1000) (1 / 100) 1
          []).mNumberOfModels : ℚ) - 1) * (5 / 100)
      else 5 / 100 :=
  ⟨⟨by decide, by decide⟩,
    C29_transition_entries exampleOps MultiModelKalmanEstimator.default exampleObject 0 (1 / 1000)
      (1 / 100) 1 [] 0 1 (by decide) (by decide)⟩

/-- C29, counterexample.  For the three models of an empty model list the diagonal entry is
`9/10`, which is `1 - 2 * 0.05`; the claimed value `1 - 3 * 0.05` is `17/20`. -/
theorem C29_counterexample :
    (MultiModelKalmanEstimator.initializeEstimator exampleOps MultiModelKalmanEstimator.default
      exampleObject 0 (1 / 1000) (1 / 100) 1 []).mNumberOfModels = 3 ∧
    entry (MultiModelKalmanEstimator.initializeEstimator exampleOps
      MultiModelKalmanEstimator.default exampleObject 0 (1 / 1000) (1 / 100) 1
      []).mTransitionProbability 0 0 = 9 / 10 ∧
    entry (MultiModelKalmanEstimator.initializeEstimator exampleOps
      MultiModelKalmanEstimator.default exampleObject 0 (1 / 1000) (1 / 100) 1
      []).mTransitionProbability 0 0 ≠ 1 - 3 * (5 / 100) := by
  refine ⟨by decide, by decide!, by decide!⟩

/-- C30.  Let `e1` be an estimator after `initialize` with `M >= 2` models.  Its model
probabilities are `M` entries `1/M`, its `maxProb` is `0.95` and its `minProb` is
`(1 - maxProb)/(M - 1)`, which is positive.  For `updateModelProbability` with these bounds, a
measurement with at least one row, predicted measurements of its size, measurement covariances
and their inverses square of that size, and `M` non-negative prior probabilities, with an
exponential that is never negative: the likelihoods and their normalisation `lambda` are
computed, and when the normaliser `sum_i mu_i lambda_i` is not zero the call returns `M` new
probabilities, each in `[minProb, maxProb]`, that sum to one. -/
theorem C30_model_probabilities {K : Type} (ops : EstimatorOps K)
    (e e1 : MultiModelKalmanEstimator K) (track : TrackedObject)
    (timestamp processNoise measurementNoise initStateCovariance : ℚ)
    (motionModels : List MotionModel) (O : NumericOps) (z : Vec) (preds : List Vec)
    (covs : List Mat) (prior : Vec)
    (he : e1 = MultiModelKalmanEstimator.initializeEstimator ops e track timestamp processNoise
      measurementNoise initStateCovariance motionModels)
    (hM : 2 ≤ e1.mNumberOfModels)
    (hexp : ∀ x, 0 ≤ O.exp x)
    (hlen : prior.length = e1.mNumberOfModels)
    (hprior : ∀ p ∈ prior, 0 ≤ p)
    (hn : 0 < z.length)
    (hP : ∀ j, j < e1.mNumberOfModels → ∃ p, preds[j]? = some p ∧ p.length = z.length)
    (hS : ∀ j, j < e1.mNumberOfModels → ∃ S, covs[j]? = some S ∧
      hasShape S z.length z.length = true ∧ hasShape (O.inv S) z.length z.length = true) :
    (e1.mModelProbability.length = e1.mNumberOfModels ∧
      ∀ p ∈ e1.mModelProbability, p = 1 / (e1.mNumberOfModels : ℚ)) ∧
    e1.mMaxProbability = 95 / 100 ∧
    e1.mMinProbability = (1 - e1.mMaxProbability) / ((e1.mNumberOfModels : ℚ) - 1) ∧
    0 < e1.mMinProbability ∧
    ∃ likelihood lambda,
      MultiModelKalmanEstimator.logLikelihoods O z preds covs prior.length = some likelihood ∧
      expNormalize O likelihood = some lambda ∧
      (MultiModelKalmanEstimator.lambdaSum lambda prior prior.length ≠ 0 →
        ∃ mu, MultiModelKalmanEstimator.updateModelProbability O z preds covs prior
            e1.mMaxProbability e1.mMinProbability = some mu ∧
          mu.length = e1.mNumberOfModels ∧
          (∀ x ∈ mu, e1.mMinProbability ≤ x ∧ x ≤ e1.mMaxProbability) ∧
          mu.sum = 1) := by
  obtain ⟨_, hN, _⟩ := MultiModelKalmanEstimator.initializeEstimator_transition ops e track
    timestamp processNoise measurementNoise initStateCovariance motionModels
  obtain ⟨hp, hmax, hmin⟩ := MultiModelKalmanEstimator.initializeEstimator_probabilities ops e
    track timestamp processNoise measurementNoise initStateCovariance motionModels
  rw [← he] at hN hp hmax hmin
  rw [← hN] at hp hmin
  generalize e1.mNumberOfModels = M at hM hlen hP hS hp hmin ⊢
  have hM1 : (((M - 1 : Nat) : ℚ)) = (M : ℚ) - 1 := by
    rw [Nat.cast_sub (by omega)]
    simp
  have hM2 : (2 : ℚ) ≤ (M : ℚ) := by exact_mod_cast hM
  have hmin2 : e1.mMinProbability = (1 - 95 / 100) / ((M : ℚ) - 1) := by
    rw [hmin, hM1, max_eq_left (by linarith)]
  have hpos : 0 < e1.mMinProbability := by
    rw [hmin2]
    apply div_pos (by norm_num)
    linarith
  have hle : e1.mMinProbability ≤ e1.mMaxProbability := by
    rw [hmin2, hmax, div_le_iff₀ (by linarith)]
    nlinarith
  refine ⟨⟨by rw [hp, List.length_replicate], ?_⟩, hmax, by rw [hmin2, hmax], hpos, ?_⟩
  · intro p hpm
    rw [hp] at hpm
    exact List.eq_of_mem_replicate hpm
  · rw [hlen]
    obtain ⟨likelihood, hL, hLl⟩ :=
      MultiModelKalmanEstimator.logLikelihoods_total O z preds covs M hn hP hS
    obtain ⟨lambda, hE⟩ := expNormalize_total O likelihood (by omega)
    refine ⟨likelihood, lambda, hL, hE, ?_⟩
    intro hNz
    rw [← hlen] at hL hNz
    obtain ⟨mu, h1, h2, h3, h4⟩ :=
      MultiModelKalmanEstimator.updateModelProbability_bounds O z preds covs prior likelihood
        lambda e1.mMaxProbability e1.mMinProbability hexp hprior hle hL hE hNz
    refine ⟨mu, h1, by rw [h2, hlen], h3, ?_⟩
    rw [h4, hlen, hmin2, hmax]
    have hne : (M : ℚ) - 1 ≠ 0 := by
      intro h0
      linarith
    field_simp
    ring

/-- Witness of C30: three models with the uniform prior, a measurement at the origin and the
predicted measurements at the origin, at `x = 1` and at `y = 1`. -/
theorem C30_model_probabilities_witness :
    (∀ x, 0 ≤ exampleNumeric.exp x) ∧
    ∃ mu, MultiModelKalmanEstimator.updateModelProbability exampleNumeric
        exampleObject.measurementVector
        [exampleObject.measurementVector, [1, 0, 0, 0, 0, 0, 0], [0, 1, 0, 0, 0, 0, 0]]
        [scaledEye 7 1, scaledEye 7 1, scaledEye 7 2]
        [1 / 3, 1 / 3, 1 / 3] (95 / 100) (1 / 40) = some mu ∧
      mu.length = 3 ∧ (∀ x ∈ mu, 1 / 40 ≤ x ∧ x ≤ 95 / 100) ∧ mu.sum = 1 := by
  refine ⟨exampleExp_nonneg, ?_⟩
  have hev : (match MultiModelKalmanEstimator.logLikelihoods exampleNumeric
      exampleObject.measurementVector
      [exampleObject.measurementVector, [1, 0, 0, 0, 0, 0, 0], [0, 1, 0, 0, 0, 0, 0]]
      [scaledEye 7 1, scaledEye 7 1, scaledEye 7 2] 3 with
    | some likelihood =>
      match expNormalize exampleNumeric likelihood with
      | some lambda =>
        decide (MultiModelKalmanEstimator.lambdaSum lambda [1 / 3, 1 / 3, 1 / 3] 3 ≠ 0)
      | none => false
    | none => false) = true := by decide!
  obtain ⟨_, hmax, hmin, _, likelihood, lambda, hL, hE, himp⟩ :=
    C30_model_probabilities exampleOps MultiModelKalmanEstimator.default
      (MultiModelKalmanEstimator.initializeEstimator exampleOps MultiModelKalmanEstimator.default
        exampleObject 0 (1 / 1000) (1 / 100) 1 [])
      exampleObject 0 (1 / 1000) (1 / 100) 1 [] exampleNumeric
      exampleObject.measurementVector
      [exampleObject.measurementVector, [1, 0, 0, 0, 0, 0, 0], [0, 1, 0, 0, 0, 0, 0]]
      [scaledEye 7 1, scaledEye 7 1, scaledEye 7 2]
      [1 / 3, 1 / 3, 1 / 3] rfl (by decide) exampleExp_nonneg (by decide)
      (by intro p hp; simp only [List.mem_cons, List.mem_singleton, List.not_mem_nil, or_false] at hp
          rcases hp with rfl | rfl | rfl <;> norm_num)
      (by decide)
      (by
        intro j hj
        have hj3 : j < 3 := hj
        interval_cases j
        · exact ⟨_, rfl, by decide⟩
        · exact ⟨_, rfl, by decide⟩
        · exact ⟨_, rfl, by decide⟩)
      (by
        intro j hj
        have hj3 : j < 3 := hj
        interval_cases j
        · exact ⟨_, rfl, by decide!, by decide!⟩
        · exact ⟨_, rfl, by decide!, by decide!⟩
        · exact ⟨_, rfl, by decide!, by decide!⟩)
  have hL3 : MultiModelKalmanEstimator.logLikelihoods exampleNumeric
      exampleObject.measurementVector
      [exampleObject.measurementVector, [1, 0, 0, 0, 0, 0, 0], [0, 1, 0, 0, 0, 0, 0]]
      [scaledEye 7 1, scaledEye 7 1, scaledEye 7 2] 3 = some likelihood := hL
  rw [hL3] at hev
  simp only [hE] at hev
  have hNz := of_decide_eq_true hev
  obtain ⟨mu, h1, h2, h3, h4⟩ := himp hNz
  have hmax2 : (MultiModelKalmanEstimator.initializeEstimator exampleOps
      MultiModelKalmanEstimator.default exampleObject 0 (1 / 1000) (1 / 100) 1 []).mMaxProbability
      = 95 / 100 := hmax
  have hmin2 : (MultiModelKalmanEstimator.initializeEstimator exampleOps
      MultiModelKalmanEstimator.default exampleObject 0 (1 / 1000) (1 / 100) 1 []).mMinProbability
      = 1 / 40 := by decide!
  rw [hmax2, hmin2] at h1 h3
  exact ⟨mu, h1, h2, h3, h4⟩

/-- C31.  For a track whose predicted measurement mean has seven rows and whose
`predictedMeasurementCovInv` is 7 x 7, the Mahalanobis distance of a measurement is
`0.5 * sqrt(dᵀ C d)` with `C = predictedMeasurementCovInv` and `d` the difference
`measurementVector() - predictedMeasurementMean` with entry 6 (the yaw) set to 0.  For every
measurement and every track, the distance does not change when the yaw of the measurement is
replaced by another value. -/
theorem C31_mahalanobis_distance (R : RealOps) (m t : TrackedObject)
    (hmean : t.predictedMeasurementMean.length = 7)
    (hcov : hasShape t.predictedMeasurementCovInv 7 7 = true) :
    calculateMahalanobisDistance R m t =
      some (1 / 2 * R.sqrt
        (dot ((vecSub m.measurementVector t.predictedMeasurementMean).set 6 0)
          (matVec t.predictedMeasurementCovInv
            ((vecSub m.measurementVector t.predictedMeasurementMean).set 6 0)))) ∧
    ((vecSub m.measurementVector t.predictedMeasurementMean).set 6 0).getD 6 0 = 0 ∧
    (∀ i, i < 6 →
      ((vecSub m.measurementVector t.predictedMeasurementMean).set 6 0).getD i 0 =
        m.measurementVector.getD i 0 - t.predictedMeasurementMean.getD i 0) ∧
    ∀ (m1 t1 : TrackedObject) (yaw : ℚ),
      calculateMahalanobisDistance R { m1 with yaw := yaw } t1 =
        calculateMahalanobisDistance R m1 t1 := by
  obtain ⟨c1, c2⟩ := (hasShape_iff _ _ _).mp hcov
  obtain ⟨a0, a1, a2, a3, a4, a5, a6, hm⟩ := length_eq_seven _ hmean
  refine ⟨?_, ?_, ?_, ?_⟩
  · unfold calculateMahalanobisDistance
    have hz : m.measurementVector.length = 7 := rfl
    have hl : ((List.zipWith (fun a b => a - b) m.measurementVector
        t.predictedMeasurementMean).set 6 0).length = 7 := by
      simp [hz, hmean]
    simp only [hmean, hz, ne_eq, not_true_eq_false, if_false, hl, c1]
    have hrow : ¬ ∃ row ∈ t.predictedMeasurementCovInv, ¬ row.length = 7 := by
      rintro ⟨row, hr, hne⟩
      exact hne (c2 row hr)
    simp only [hrow, or_self, if_false]
    rfl
  · rw [hm]
    simp [vecSub, TrackedObject.measurementVector]
  · intro i hi
    rw [hm]
    interval_cases i <;> simp [vecSub, TrackedObject.measurementVector]
  · intro m1 t1 yaw
    unfold calculateMahalanobisDistance
    have hz : ∀ o : TrackedObject, o.measurementVector.length = 7 := fun _ => rfl
    by_cases h7 : t1.predictedMeasurementMean.length = 7
    · obtain ⟨b0, b1, b2, b3, b4, b5, b6, hb⟩ := length_eq_seven _ h7
      have e : (List.zipWith (fun a b => a - b)
          ({ m1 with yaw := yaw } : TrackedObject).measurementVector
          t1.predictedMeasurementMean).set 6 0 =
          (List.zipWith (fun a b => a - b) m1.measurementVector
            t1.predictedMeasurementMean).set 6 0 := by
        rw [hb]
        simp [TrackedObject.measurementVector]
      simp only [e, hz]
    · simp only [hz, ne_eq, h7, not_false_eq_true, if_true]

/-- Witness of C31: a measurement at `(3, 4)` with yaw 1 and a track at the origin whose
inverse measurement covariance is the identity; the distance is `0.5 * sqrt(25)`. -/
theorem C31_mahalanobis_distance_witness :
    calculateMahalanobisDistance exampleReal { x := 3, y := 4, yaw := 1 }
        { predictedMeasurementCovInv := scaledEye 7 1 } = some (5 / 2) :=
  (C31_mahalanobis_distance exampleReal { x := 3, y := 4, yaw := 1 }
    { predictedMeasurementCovInv := scaledEye 7 1 } (by decide) (by decide!)).1.trans (by decide!)

/-- C35.  After `splitByThreshold(objects, low, s)` every element left in `objects` has its
largest class probability at or above `s`, every element of `low` has it below `s`, the new
`objects` followed by the new `low` is a permutation of the old `objects`, and the old contents
of `low` play no part.  The largest class probability `maxCoeff` of a non-empty vector is one
of its entries and no entry is above it. -/
theorem C35_splitByThreshold (objects low : List TrackedObject) (s : ℚ) :
    (∀ o ∈ (splitByThreshold objects low s).1, maxCoeff o.classification ≥ s) ∧
    (∀ o ∈ (splitByThreshold objects low s).2, maxCoeff o.classification < s) ∧
    ((splitByThreshold objects low s).1 ++ (splitByThreshold objects low s).2).Perm objects ∧
    (∀ o, ((splitByThreshold objects low s).1 ++ (splitByThreshold objects low s).2).count o =
      objects.count o) ∧
    splitByThreshold objects low s = splitByThreshold objects [] s ∧
    (∀ c : Classification, (∀ p ∈ c, p ≤ maxCoeff c) ∧ (c ≠ [] → maxCoeff c ∈ c)) := by
  have hperm : ((splitByThreshold objects low s).1 ++ (splitByThreshold objects low s).2).Perm
      objects := by
    unfold splitByThreshold
    exact List.filter_append_perm _ _
  refine ⟨?_, ?_, hperm, fun o => hperm.count_eq o, rfl, ?_⟩
  · intro o ho
    unfold splitByThreshold at ho
    have := (List.mem_filter.mp ho).2
    unfold divider at this
    exact of_decide_eq_true this
  · intro o ho
    unfold splitByThreshold at ho
    have := (List.mem_filter.mp ho).2
    unfold divider at this
    simp only [Bool.not_eq_true', decide_eq_false_iff_not, ge_iff_le, not_le] at this
    exact this
  · intro c
    have key : ∀ (l : List ℚ) (a : ℚ), a ≤ l.foldl max a ∧ (∀ p ∈ l, p ≤ l.foldl max a) ∧
        (l.foldl max a = a ∨ l.foldl max a ∈ l) := by
      intro l
      induction l with
      | nil => intro a; simp
      | cons x rest ih =>
        intro a
        obtain ⟨h1, h2, h3⟩ := ih (max a x)
        simp only [List.foldl_cons]
        refine ⟨le_trans (le_max_left a x) h1, ?_, ?_⟩
        · intro p hp
          rcases List.mem_cons.mp hp with rfl | hp
          · exact le_trans (le_max_right a p) h1
          · exact h2 p hp
        · rcases h3 with h3 | h3
          · rcases max_choice a x with hc | hc
            · left; rw [h3, hc]
            · right; rw [h3, hc]; exact List.mem_cons_self _ _
          · right; exact List.mem_cons_of_mem _ h3
    unfold maxCoeff
    cases c with
    | nil => simp
    | cons x rest =>
      obtain ⟨h1, h2, h3⟩ := key (x :: rest) x
      refine ⟨h2, fun _ => ?_⟩
      rcases h3 with h3 | h3
      · simp only [List.headD_cons]
        rw [h3]
        exact List.mem_cons_self _ _
      · exact h3

/-- C36.  In every state that the calls `createTrack`, `predict`, `setMeasurement`, `correct`,
`deleteTrack`, `suspendTrack`, `reactivateTrack` and the accessors reach from a new manager
with automatic id generation (a call that throws reaches no state), the ids with a
non-measurement counter are the active ids, no id is both active and suspended, and every
active or suspended id has a tracked-frames counter. -/
theorem C36_reachable_invariants {K : Type} (ops : EstimatorOps K) (s : TrackManager K)
    (h : TrackManager.Reachable ops s) :
    (∀ id, id ∈ s.mNonMeasurementFrames.keys ↔ id ∈ s.mKalmanEstimators.keys) ∧
    (∀ id, ¬ (id ∈ s.mKalmanEstimators.keys ∧ id ∈ s.mSuspendedKalmanEstimators.keys)) ∧
    (∀ id, id ∈ s.mKalmanEstimators.keys ∨ id ∈ s.mSuspendedKalmanEstimators.keys →
      id ∈ s.mNumberOfTrackedFrames.keys) := by
  have hc := TrackManager.reachable_consistent ops s h
  refine ⟨hc.wf.nmfKeys, fun id hid => hc.wf.disjoint id hid.1 hid.2, ?_⟩
  rintro id (hid | hid)
  · exact hc.wf.tfKeys id hid
  · exact hc.suspendedTf id hid

/-- Witness of C36: the state after `createTrack`, `suspendTrack(1)` and a second
`createTrack` on a new manager; track 1 is suspended and track 2 is active. -/
theorem C36_reachable_invariants_witness :
    TrackManager.Reachable exampleOps
        (((createdState.suspendTrack 1).getD emptyManager).createTrack exampleOps
          exampleObjectEast 0).2 ∧
      (∀ id, id ∈ (((createdState.suspendTrack 1).getD emptyManager).createTrack exampleOps
          exampleObjectEast 0).2.mNonMeasurementFrames.keys ↔ id ∈ [2]) ∧
      (((createdState.suspendTrack 1).getD emptyManager).createTrack exampleOps
          exampleObjectEast 0).2.mSuspendedKalmanEstimators.keys = [1] ∧
      (((createdState.suspendTrack 1).getD emptyManager).createTrack exampleOps
          exampleObjectEast 0).2.mNumberOfTrackedFrames.keys = [1, 2] := by
  have hr : TrackManager.Reachable exampleOps
      (((createdState.suspendTrack 1).getD emptyManager).createTrack exampleOps
        exampleObjectEast 0).2 :=
    TrackManager.Reachable.createTrack _ _ _
      (TrackManager.Reachable.suspendTrack createdState _ 1
        (TrackManager.Reachable.createTrack _ _ _ (TrackManager.Reachable.new {}))
        (by decide!))
  have h := C36_reachable_invariants exampleOps _ hr
  refine ⟨hr, ?_, by decide!, by decide!⟩
  intro id
  rw [h.1 id]
  have e : (((createdState.suspendTrack 1).getD emptyManager).createTrack exampleOps
      exampleObjectEast 0).2.mKalmanEstimators.keys = [2] := by decide!
  rw [e]

/-- C34, amended.  A `predict(deltaT)` that returns sets the flag `corrected` of the current
state to false when `deltaT` is a millisecond or more and leaves it as it was for a shorter
step (the same for `predict(timestamp)` with the step `timestamp - mLastTimestamp`); a
`correct` that returns sets it to true. -/
theorem C34_corrected_flag (O : NumericOps) (T : AngleOps ℚ) (Sys : MotionModel → UkfSystemModel)
    (e e1 e2 : MultiModelKalmanEstimator UnscentedKalmanFilterMod) (deltaT : ℚ)
    (measurement : TrackedObject)
    (hp : MultiModelKalmanEstimator.predict O Sys e deltaT = some e1)
    (hc : MultiModelKalmanEstimator.correct O T e1 measurement = some e2) :
    e1.mCurrentState.corrected =
      (if deltaT ≥ 1 / 1000 then false else e.mCurrentState.corrected) ∧
    e2.mCurrentState.corrected = true ∧
    ∀ e3, MultiModelKalmanEstimator.predictAt O Sys e (e.mLastTimestamp + deltaT) = some e3 →
      e3.mCurrentState.corrected =
        (if deltaT ≥ 1 / 1000 then false else e.mCurrentState.corrected) := by
  refine ⟨MultiModelKalmanEstimator.predict_corrected O Sys e e1 deltaT hp,
    MultiModelKalmanEstimator.correct_corrected O T e1 e2 measurement hc, ?_⟩
  intro e3 h3
  have := MultiModelKalmanEstimator.predictAt_corrected O Sys e e3 _ h3
  rwa [add_sub_cancel_left] at this

/-- Witness of C34: the example estimator through a `predict` over a tenth of a second and a
`correct` with the detection it was created from. -/
theorem C34_corrected_flag_witness :
    ∃ e1 e2,
      MultiModelKalmanEstimator.predict exampleNumeric (fun _ => CAModel) exampleEstimator
        (1 / 10) = some e1 ∧
      MultiModelKalmanEstimator.correct exampleNumeric exampleAngles e1 exampleObject =
        some e2 ∧
      e1.mCurrentState.corrected = false ∧ e2.mCurrentState.corrected = true := by
  obtain ⟨e1, e2, _, h1, h2, _, hf1, _, _⟩ := example_run
  exact ⟨e1, e2, h1, h2, hf1,
    (C34_corrected_flag exampleNumeric exampleAngles (fun _ => CAModel) exampleEstimator e1 e2
      (1 / 10) exampleObject h1 h2).2.1⟩

/-- C34, counterexample.  After `predict(1/10)` and `correct`, a further `predict(0)` returns
and leaves the flag `corrected` true, although no `correct` has followed this most recent
`predict`. -/
theorem C34_counterexample :
    ∃ e1 e2 e3,
      MultiModelKalmanEstimator.predict exampleNumeric (fun _ => CAModel) exampleEstimator
        (1 / 10) = some e1 ∧
      MultiModelKalmanEstimator.correct exampleNumeric exampleAngles e1 exampleObject =
        some e2 ∧
      MultiModelKalmanEstimator.predict exampleNumeric (fun _ => CAModel) e2 0 = some e3 ∧
      e3.mCurrentState.corrected = true := by
  obtain ⟨e1, e2, e3, h1, h2, h3, _, _, hf3⟩ := example_run
  exact ⟨e1, e2, e3, h1, h2, h3, hf3⟩

/-- C40, the code at the failing input.  The bodies of the two accessors are exchanged: for
every estimator and every filter index, `getKalmanFilterMeasurementCovariance(j)` returns the
value of `getErrorCov()` of filter `j` and `getKalmanFilterErrorCovariance(j)` returns the value
of its `getMeasurementCov()`.  After a `predict` of a filter with `DP ≠ MP` the two values are
matrices of different shapes, so neither accessor returns what its name says.  On the estimator
that `initialize` builds for the CA model, `getKalmanFilterMeasurementCovariance(0)` returns the
error covariance `I₁₂` and `getKalmanFilterErrorCovariance(0)` the still empty `Syy`. -/
theorem C40_covariance_accessors_exchanged :
    (∀ (e : MultiModelKalmanEstimator UnscentedKalmanFilterMod) (j : Nat)
        (f : UnscentedKalmanFilterMod), e.mKalmanFilters[j]? = some f →
      MultiModelKalmanEstimator.getKalmanFilterMeasurementCovariance e j = some f.getErrorCov ∧
      MultiModelKalmanEstimator.getKalmanFilterErrorCovariance e j = some f.getMeasurementCov ∧
      (f.Predicted → f.DP ≠ f.MP → f.getErrorCov ≠ f.getMeasurementCov)) ∧
    exampleEstimator.mKalmanFilters[0]? = some exampleFilter ∧
    exampleFilter.getMeasurementCov = [] ∧
    exampleFilter.getErrorCov = scaledEye 12 1 ∧
    MultiModelKalmanEstimator.getKalmanFilterMeasurementCovariance exampleEstimator 0 =
      some (scaledEye 12 1) ∧
    MultiModelKalmanEstimator.getKalmanFilterErrorCovariance exampleEstimator 0 = some [] := by
  have hex : exampleEstimator.mKalmanFilters[0]? = some exampleFilter := by decide!
  refine ⟨?_, hex, rfl, rfl, ?_, ?_⟩
  · intro e j f h
    refine ⟨?_, ?_, ?_⟩
    · unfold MultiModelKalmanEstimator.getKalmanFilterMeasurementCovariance
      rw [h]
    · unfold MultiModelKalmanEstimator.getKalmanFilterErrorCovariance
      rw [h]
    · intro hp hne heq
      have h1 : hasShape f.getMeasurementCov f.DP f.DP = true := by
        rw [← heq]
        exact hp.shapeP
      exact hne (hasShape_unique _ _ _ _ _ hp.shapeYy h1 hp.shaped.posMP).1
  · unfold MultiModelKalmanEstimator.getKalmanFilterMeasurementCovariance
    rw [hex]
    rfl
  · unfold MultiModelKalmanEstimator.getKalmanFilterErrorCovariance
    rw [hex]
    rfl

/-- C39, the code at the failing input.  On the CA model, for every instance of the numeric
functions that keeps shapes, `correct` after `predict` returns, and with `c` the computed root
of `lambda + DP`, `L` the factor that `choleskyDecomposition` leaves for the error covariance
`P` before the `predict` and `L1` the one it leaves for the error covariance `P1` after it:
`P1 = (c² / (lambda + DP)) F L Lᵀ Fᵀ + Q`, but `Sxy = (c² / (lambda + DP)) F L L1ᵀ Hᵀ`, and the
gain is this `Sxy` times the inverse of `Syy`.  The product `Fc Wc Hcᵀ` takes the deviations
`Fc` from the sigma points of `P` and the deviations `Hc` from the sigma points drawn anew from
`P1`, so `Sxy` is not `P1 Hᵀ`.  On the filter that `initialize` builds for the CA model
(`P = I`), after `predict` over a tenth of a second the entry of `Sxy` between the velocity
`vx` and the measured `x` is 0, where `P1 Hᵀ` has `12561763/125000000`, about `0.1005`. -/
theorem C39_cross_covariance_pairs_two_factors :
    (∀ (O : NumericOps) (Sys : MotionModel → UkfSystemModel) (f : UnscentedKalmanFilterMod)
        (control z : Vec), O.KeepsShape → O.InvKeepsShape → f.Constructed → f.DP = 12 →
        f.MP = 7 → Sys f.model = CAModel → f.getState.length = 12 →
        hasShape f.getErrorCov 12 12 = true → z.length = 7 →
      ∃ g h, UnscentedKalmanFilterMod.predict O Sys f control = some g ∧
        UnscentedKalmanFilterMod.correct O g z = some h ∧
        g.getErrorCov = matAdd
          (matScale (O.sqrt f.tmpLambda * O.sqrt f.tmpLambda / f.tmpLambda)
            (matMul (matMul (CAModel.transitionMatrix (control.getD 0 0))
              (matMul (choleskyDecomposition O f.getErrorCov f.getErrorCov.length f.getErrorCov).2
                (matTranspose
                  (choleskyDecomposition O f.getErrorCov f.getErrorCov.length f.getErrorCov).2)))
              (matTranspose (CAModel.transitionMatrix (control.getD 0 0)))))
          f.getProcessNoiseCov ∧
        h.xyCov = matScale (O.sqrt f.tmpLambda * O.sqrt f.tmpLambda / f.tmpLambda)
          (matMul (matMul (CAModel.transitionMatrix (control.getD 0 0))
            (matMul (choleskyDecomposition O f.getErrorCov f.getErrorCov.length f.getErrorCov).2
              (matTranspose
                (choleskyDecomposition O g.getErrorCov g.getErrorCov.length g.getErrorCov).2)))
            (matTranspose measurementMatrix)) ∧
        h.gain = matMul h.xyCov (O.inv g.getMeasurementCov)) ∧
    ∃ g h, UnscentedKalmanFilterMod.predict exampleNumeric (fun _ => CAModel) exampleFilter
        [1 / 10] = some g ∧
      UnscentedKalmanFilterMod.correct exampleNumeric g exampleObject.measurementVector =
        some h ∧
      entry h.xyCov 2 0 = 0 ∧
      entry (matMul g.getErrorCov (matTranspose measurementMatrix)) 2 0 =
        12561763 / 125000000 := by
  have hgen : ∀ (O : NumericOps) (Sys : MotionModel → UkfSystemModel)
      (f : UnscentedKalmanFilterMod) (control z : Vec), O.KeepsShape → O.InvKeepsShape →
      f.Constructed → f.DP = 12 → f.MP = 7 → Sys f.model = CAModel → f.getState.length = 12 →
      hasShape f.getErrorCov 12 12 = true → z.length = 7 →
      ∃ g h, UnscentedKalmanFilterMod.predict O Sys f control = some g ∧
        UnscentedKalmanFilterMod.correct O g z = some h ∧
        g.getErrorCov = matAdd
          (matScale (O.sqrt f.tmpLambda * O.sqrt f.tmpLambda / f.tmpLambda)
            (matMul (matMul (CAModel.transitionMatrix (control.getD 0 0))
              (matMul (choleskyDecomposition O f.getErrorCov f.getErrorCov.length f.getErrorCov).2
                (matTranspose
                  (choleskyDecomposition O f.getErrorCov f.getErrorCov.length f.getErrorCov).2)))
              (matTranspose (CAModel.transitionMatrix (control.getD 0 0)))))
          f.getProcessNoiseCov ∧
        h.xyCov = matScale (O.sqrt f.tmpLambda * O.sqrt f.tmpLambda / f.tmpLambda)
          (matMul (matMul (CAModel.transitionMatrix (control.getD 0 0))
            (matMul (choleskyDecomposition O f.getErrorCov f.getErrorCov.length f.getErrorCov).2
              (matTranspose
                (choleskyDecomposition O g.getErrorCov g.getErrorCov.length g.getErrorCov).2)))
            (matTranspose measurementMatrix)) ∧
        h.gain = matMul h.xyCov (O.inv g.getMeasurementCov) := by
    intro O Sys f control z hO hI hc hDP hMP hsys hx hP hz
    have hlin : (Sys f.model).Linear control (CAModel.transitionMatrix (control.getD 0 0))
        measurementMatrix f.DP f.MP := by
      rw [hDP, hMP, hsys]
      exact CAModel_linear _ control rfl
    obtain ⟨g, h, hg, hpg, hh, hxy, hgain⟩ :=
      UnscentedKalmanFilterMod.predict_correct_linear O hO hI Sys f control z _ _ hc hlin
        (by rw [hDP]; exact hx) (by rw [hDP]; exact hP) (by rw [hMP]; exact hz)
    exact ⟨g, h, hg, hh, hpg.errorCov_eq hO hlin.shapeF (by rw [hDP]; exact hP), hxy, hgain⟩
  refine ⟨hgen, ?_⟩
  obtain ⟨g, h, hg, hh, hec, hxy, _⟩ := hgen exampleNumeric (fun _ => CAModel) exampleFilter
    [1 / 10] exampleObject.measurementVector exampleNumeric_keepsShape
    (fun A n h => exampleInv_shape A n h)
    (UnscentedKalmanFilterMod.create_constructed trackerParams exampleFilter
      exampleFilter_created (by decide!)).1 rfl rfl rfl (by decide!) (by decide!) rfl
  have hL : (choleskyDecomposition exampleNumeric exampleFilter.getErrorCov
      exampleFilter.getErrorCov.length exampleFilter.getErrorCov).2 = scaledEye 12 1 := by
    decide!
  rw [hL] at hec hxy
  refine ⟨g, h, hg, hh, ?_, ?_⟩
  · rw [hxy, hec]
    decide!
  · rw [hec]
    decide!

/-- C33.  For `M ≥ 1` model probabilities `μ_i ≥ 0`, states `x_i` of one size `n ≥ 1` and
symmetric positive-semidefinite `n × n` covariances `P_i` (at least `M` of each),
`combineStatesAndCovariances` returns; the combined state is `xbar = Σ μ_i x_i`, the combined
covariance is `Σ μ_i (P_i + (x_i - xbar)(x_i - xbar)ᵀ)`, and it is symmetric and
positive-semidefinite. -/
theorem C33_combined_state_and_covariance (states : List Vec) (covariances : List Mat)
    (modelProbability : Vec) (n M : Nat) (hn : 0 < n) (hM : 0 < M)
    (hpl : modelProbability.length = M) (hsl : M ≤ states.length)
    (hcl : M ≤ covariances.length) (hlen : ∀ x ∈ states, x.length = n)
    (hshape : ∀ P ∈ covariances, hasShape P n n = true)
    (hsym : ∀ P ∈ covariances, (toM n n P).transpose = toM n n P)
    (hpsd : ∀ P ∈ covariances, ∀ v : Fin n → ℚ,
      0 ≤ Matrix.dotProduct v (Matrix.mulVec (toM n n P) v))
    (hp : ∀ p ∈ modelProbability, 0 ≤ p) :
    ∃ xbar C, MultiModelKalmanEstimator.combineStatesAndCovariances states covariances
        modelProbability = some (xbar, C) ∧
      xbar.length = n ∧ hasShape C n n = true ∧
      toV n xbar = ∑ i : Fin M, modelProbability.getD i 0 • toV n (states.getD i []) ∧
      toM n n C = ∑ i : Fin M, modelProbability.getD i 0 •
        (toM n n (covariances.getD i []) +
          Matrix.vecMulVec (toV n (states.getD i []) - toV n xbar)
            (toV n (states.getD i []) - toV n xbar)) ∧
      (toM n n C).transpose = toM n n C ∧
      ∀ v : Fin n → ℚ, 0 ≤ Matrix.dotProduct v (Matrix.mulVec (toM n n C) v) := by
  cases states with
  | nil => simp at hsl; omega
  | cons first rest =>
    have hfirst : first.length = n := hlen first (List.mem_cons_self _ _)
    obtain ⟨xbar, hx, lx, ex⟩ := MultiModelKalmanEstimator.combinedState_fold (first :: rest)
      modelProbability n hlen (List.range modelProbability.length)
      (fun i hi => by have := List.mem_range.mp hi; omega) (zeros n) (by simp [zeros])
    obtain ⟨C, hC, sC, eC⟩ := MultiModelKalmanEstimator.combinedCovariance_fold (first :: rest)
      covariances modelProbability xbar n hn hlen hshape lx (List.range modelProbability.length)
      (fun i hi => by have := List.mem_range.mp hi; omega) (zerosMat n n) (hasShape_zerosMat n n)
    have hv : toV n xbar =
        ∑ i : Fin M, modelProbability.getD i 0 • toV n ((first :: rest).getD i []) := by
      ext j
      show xbar.getD j 0 = _
      rw [ex j, getD_zeros, zero_add, hpl, sum_map_range_fin, Finset.sum_apply]
      rfl
    have hm : toM n n C = ∑ i : Fin M, modelProbability.getD i 0 •
        (toM n n (covariances.getD i []) +
          Matrix.vecMulVec (toV n ((first :: rest).getD i []) - toV n xbar)
            (toV n ((first :: rest).getD i []) - toV n xbar)) := by
      ext a b
      show entry C a b = _
      rw [eC a b, entry_zerosMat, zero_add, hpl, sum_map_range_fin, Matrix.sum_apply]
      rfl
    have hps := MultiModelKalmanEstimator.psd_sum
      (fun i : Fin M => modelProbability.getD i 0)
      (fun i : Fin M => toM n n (covariances.getD i []) +
          Matrix.vecMulVec (toV n ((first :: rest).getD i []) - toV n xbar)
            (toV n ((first :: rest).getD i []) - toV n xbar))
      (fun i => by
        have hi : (i : Nat) < modelProbability.length := by rw [hpl]; exact i.2
        show 0 ≤ modelProbability.getD i 0
        rw [List.getD_eq_getElem _ _ hi]
        exact hp _ (List.getElem_mem _))
      (fun i => by
        have hi : (i : Nat) < covariances.length := lt_of_lt_of_le i.2 hcl
        dsimp only
        rw [Matrix.transpose_add, (MultiModelKalmanEstimator.vecMulVec_psd _).1,
          List.getD_eq_getElem _ _ hi, hsym _ (List.getElem_mem _)])
      (fun i v => by
        have hi : (i : Nat) < covariances.length := lt_of_lt_of_le i.2 hcl
        dsimp only
        rw [Matrix.add_mulVec, Matrix.dotProduct_add, List.getD_eq_getElem _ _ hi]
        exact add_nonneg (hpsd _ (List.getElem_mem _) v)
          ((MultiModelKalmanEstimator.vecMulVec_psd _).2 v))
    refine ⟨xbar, C, ?_, lx, sC, hv, hm, ?_, ?_⟩
    · unfold MultiModelKalmanEstimator.combineStatesAndCovariances
      have h1 : MultiModelKalmanEstimator.combinedStateOf (first :: rest) modelProbability
          first.length = some xbar := by
        unfold MultiModelKalmanEstimator.combinedStateOf
        rw [hfirst]
        exact hx
      have h2 : MultiModelKalmanEstimator.combinedCovarianceOf (first :: rest) covariances
          modelProbability xbar first.length = some C := by
        unfold MultiModelKalmanEstimator.combinedCovarianceOf
        rw [hfirst]
        exact hC
      simp only [h1, h2]
    · rw [hm]
      exact hps.1
    · rw [hm]
      exact hps.2

/-- Witness of C33: two models of probability one half with the unit vectors of the plane as
states and the unit matrix as covariances. -/
theorem C33_combined_state_and_covariance_witness :
    ∃ xbar C, MultiModelKalmanEstimator.combineStatesAndCovariances [[1, 0], [0, 1]]
        [scaledEye 2 1, scaledEye 2 1] [1 / 2, 1 / 2] = some (xbar, C) ∧
      xbar = [1 / 2, 1 / 2] ∧ C = [[5 / 4, -1 / 4], [-1 / 4, 5 / 4]] ∧
      (toM 2 2 C).transpose = toM 2 2 C ∧
      ∀ v : Fin 2 → ℚ, 0 ≤ Matrix.dotProduct v (Matrix.mulVec (toM 2 2 C) v) := by
  obtain ⟨xbar, C, h, _, _, _, _, hs, hpd⟩ := C33_combined_state_and_covariance
    [[1, 0], [0, 1]] [scaledEye 2 1, scaledEye 2 1] [1 / 2, 1 / 2] 2 2 (by decide) (by decide)
    rfl (by decide) (by decide)
    (fun x hx => by
      rcases List.mem_cons.mp hx with rfl | hx
      · rfl
      · rw [List.mem_singleton.mp hx]
        rfl)
    (fun P hP => by
      rcases List.mem_cons.mp hP with rfl | hP
      · exact hasShape_scaledEye 2 1
      · rw [List.mem_singleton.mp hP]
        exact hasShape_scaledEye 2 1)
    (fun P hP => by
      rcases List.mem_cons.mp hP with rfl | hP
      · exact (scaledEye_psd 2 1 (by norm_num)).1
      · rw [List.mem_singleton.mp hP]
        exact (scaledEye_psd 2 1 (by norm_num)).1)
    (fun P hP => by
      rcases List.mem_cons.mp hP with rfl | hP
      · exact (scaledEye_psd 2 1 (by norm_num)).2
      · rw [List.mem_singleton.mp hP]
        exact (scaledEye_psd 2 1 (by norm_num)).2)
    (fun p hp => by
      rcases List.mem_cons.mp hp with rfl | hp
      · norm_num
      · rw [List.mem_singleton.mp hp]
        norm_num)
  have hev : MultiModelKalmanEstimator.combineStatesAndCovariances [[1, 0], [0, 1]]
      [scaledEye 2 1, scaledEye 2 1] [1 / 2, 1 / 2] =
      some ([1 / 2, 1 / 2], [[5 / 4, -1 / 4], [-1 / 4, 5 / 4]]) := by decide!
  rw [hev] at h
  simp only [Option.some.injEq, Prod.mk.injEq] at h
  exact ⟨xbar, C, by rw [hev, ← h.1, ← h.2], h.1.symm, h.2.symm, hs, hpd⟩

/-- C32.  With exact trigonometry (the facts of `AngleOps.Wraps`, which the real functions
satisfy), for all yaw values `m` and `p`: the two candidates of `deltaTheta(m, p)` are the
differences `p - m` and `p - m - π` reduced to `(-π, π]` by whole turns, `deltaTheta` returns
one of them, the one of the smaller magnitude, so its value lies in `(-π, π]`; and the yaw
`y' = p - deltaTheta(m, p)` that `correct` substitutes differs from `m` by an integer multiple
of `π` and has `|y' - p| ≤ π/2`.  The yaw that `correct` passes to the filters is this `y'` with
`m` the measured yaw and `p` the member `previousYaw` of the current state. -/
theorem C32_yaw_substitution {F : Type} [LinearOrderedField F] (T : AngleOps F) (hT : T.Wraps)
    (m p : F) :
    (∃ k : ℤ, (p - deltaTheta T m p) - m = (k : F) * T.pi) ∧
    |(p - deltaTheta T m p) - p| ≤ T.pi / 2 ∧
    (-T.pi < deltaTheta T m p ∧ deltaTheta T m p ≤ T.pi) ∧
    (deltaTheta T m p = angleDifference T m p ∨
      deltaTheta T m p = angleDifference T (m + T.pi) p) ∧
    |deltaTheta T m p| = min |angleDifference T m p| |angleDifference T (m + T.pi) p| ∧
    ((-T.pi < angleDifference T m p ∧ angleDifference T m p ≤ T.pi) ∧
      ∃ k : ℤ, angleDifference T m p = (p - m) - 2 * T.pi * (k : F)) ∧
    ((-T.pi < angleDifference T (m + T.pi) p ∧ angleDifference T (m + T.pi) p ≤ T.pi) ∧
      ∃ k : ℤ, angleDifference T (m + T.pi) p = (p - m - T.pi) - 2 * T.pi * (k : F)) ∧
    ∀ (S : AngleOps ℚ) (current measurement : TrackedObject),
      (MultiModelKalmanEstimator.substituteYaw S current measurement).yaw =
        current.previousYaw - deltaTheta S measurement.yaw current.previousYaw := by
  have hA := angleDifference_wraps T hT m p
  have hB := angleDifference_wraps T hT (m + T.pi) p
  have hB2 : (-T.pi < angleDifference T (m + T.pi) p ∧ angleDifference T (m + T.pi) p ≤ T.pi) ∧
      ∃ k : ℤ, angleDifference T (m + T.pi) p = (p - m - T.pi) - 2 * T.pi * (k : F) := by
    obtain ⟨hr, k, hk⟩ := hB
    exact ⟨hr, k, by rw [hk]; ring⟩
  obtain ⟨⟨a1, a2⟩, k1, hk1⟩ := hA
  obtain ⟨⟨b1, b2⟩, k2, hk2⟩ := hB2
  have hpi := hT.pi_pos
  have hcand := deltaTheta_candidates T hT m p
  have hsum : |angleDifference T m p| + |angleDifference T (m + T.pi) p| = T.pi := by
    rcases hcand with h | h
    · have ha : 0 ≤ angleDifference T m p := by linarith
      have hb : angleDifference T (m + T.pi) p ≤ 0 := by linarith
      rw [abs_of_nonneg ha, abs_of_nonpos hb]
      linarith
    · have ha : angleDifference T m p ≤ 0 := by linarith
      have hb : 0 ≤ angleDifference T (m + T.pi) p := by linarith
      rw [abs_of_nonpos ha, abs_of_nonneg hb]
      linarith
  by_cases hlt : |angleDifference T m p| < |angleDifference T (m + T.pi) p|
  · have hd : deltaTheta T m p = angleDifference T m p := by
      unfold deltaTheta
      simp only
      rw [if_pos hlt]
    rw [hd]
    refine ⟨⟨2 * k1, ?_⟩, ?_, ⟨a1, a2⟩, Or.inl rfl, (min_eq_left hlt.le).symm,
      ⟨⟨a1, a2⟩, k1, hk1⟩, ⟨⟨b1, b2⟩, k2, hk2⟩, fun _ _ _ => rfl⟩
    · rw [hk1]
      push_cast
      ring
    · rw [sub_sub_cancel_left, abs_neg]
      linarith
  · have hd : deltaTheta T m p = angleDifference T (m + T.pi) p := by
      unfold deltaTheta
      simp only
      rw [if_neg hlt]
    rw [hd]
    refine ⟨⟨2 * k2 + 1, ?_⟩, ?_, ⟨b1, b2⟩, Or.inr rfl, (min_eq_right (not_lt.mp hlt)).symm,
      ⟨⟨a1, a2⟩, k1, hk1⟩, ⟨⟨b1, b2⟩, k2, hk2⟩, fun _ _ _ => rfl⟩
    · rw [hk2]
      push_cast
      ring
    · rw [sub_sub_cancel_left, abs_neg]
      linarith [not_lt.mp hlt]

/-- Witness of C32: the real functions, at `m = 1` and `p = 2`. -/
theorem C32_yaw_substitution_witness :
    (∃ k : ℤ, (2 - deltaTheta (AngleOps.mk Real.cos Real.sin (fun y x => Complex.arg ⟨x, y⟩)
        Real.pi) 1 2) - 1 = (k : ℝ) * Real.pi) ∧
    |(2 - deltaTheta (AngleOps.mk Real.cos Real.sin (fun y x => Complex.arg ⟨x, y⟩) Real.pi)
        1 2) - 2| ≤ Real.pi / 2 :=
  ⟨(C32_yaw_substitution _ real_angles_wrap 1 2).1,
    (C32_yaw_substitution _ real_angles_wrap 1 2).2.1⟩

end rv
